import Mathlib

/-!
# utility-node-semver: versions, constraints and the evaluator

A shallow embedding of the Go packages `versions`, `constraints`, `utils` and
`evaluator`.  Go strings are modelled by Lean strings (sequences of runes; the
inputs are taken to be valid UTF-8, for which Go's bytewise string order and the
order by code points agree), Go's `int` by `Int`, slices by lists, and a Go
`(value, error)` result by `Except`.
-/

set_option maxRecDepth 100000
set_option maxHeartbeats 1000000

namespace NodeSemver

/-! ## The parts of Go's `strings` and `strconv` that the packages call -/

namespace strings

/-- Cut a rune list at every occurrence of `sep`; never returns the empty list. -/
def splitRunes (sep : Char) : List Char → List (List Char)
  | [] => [[]]
  | c :: cs =>
    if c = sep then [] :: splitRunes sep cs
    else
      match splitRunes sep cs with
      | [] => [[c]]
      | p :: ps => (c :: p) :: ps

/-- Go `strings.Split(s, sep)` for a separator of one rune. -/
def Split (s : String) (sep : Char) : List String :=
  (splitRunes sep s.data).map String.mk

/-- Cut a rune list at the first occurrence of `sep`, when there is one. -/
def cutRunes (sep : Char) : List Char → Option (List Char × List Char)
  | [] => none
  | c :: cs =>
    if c = sep then some ([], cs)
    else
      match cutRunes sep cs with
      | none => none
      | some (a, b) => some (c :: a, b)

/-- Go `strings.SplitN(s, sep, 2)` for a separator of one rune. -/
def SplitN2 (s : String) (sep : Char) : List String :=
  match cutRunes sep s.data with
  | none => [s]
  | some (a, b) => [String.mk a, String.mk b]

/-- Go `strings.Contains(s, sep)` for a separator of one rune. -/
def Contains (s : String) (sep : Char) : Bool :=
  s.data.contains sep

/-- Go `strings.Count(s, sep)` for a separator of one rune. -/
def Count (s : String) (sep : Char) : Nat :=
  s.data.count sep

/-- Is `p` a prefix of `l`? -/
def hasPrefixRunes : List Char → List Char → Bool
  | [], _ => true
  | _ :: _, [] => false
  | p :: ps, c :: cs => if p = c then hasPrefixRunes ps cs else false

/-- Does `p` occur in `l` as a contiguous run? -/
def hasInfixRunes (p : List Char) : List Char → Bool
  | [] => p.isEmpty
  | c :: cs => hasPrefixRunes p (c :: cs) || hasInfixRunes p cs

/-- Go `strings.HasPrefix`. -/
def HasPrefix (s pre : String) : Bool :=
  hasPrefixRunes pre.data s.data

/-- Go `strings.TrimPrefix`. -/
def TrimPrefix (s pre : String) : String :=
  if HasPrefix s pre then String.mk (s.data.drop pre.data.length) else s

/-- Go `strings.HasSuffix`. -/
def HasSuffix (s suf : String) : Bool :=
  hasPrefixRunes suf.data.reverse s.data.reverse

/-- Go `strings.TrimSuffix`. -/
def TrimSuffix (s suf : String) : String :=
  if HasSuffix s suf then String.mk (s.data.take (s.data.length - suf.data.length)) else s

/-- Lexicographic three-way comparison of two rune lists. -/
def compareRunes : List Char → List Char → Int
  | [], [] => 0
  | [], _ :: _ => -1
  | _ :: _, [] => 1
  | a :: as, b :: bs =>
    if a < b then -1 else if b < a then 1 else compareRunes as bs

/-- Go `strings.Compare`: `0` for equal strings, `-1` when `a` sorts first, else `1`. -/
def Compare (a b : String) : Int :=
  compareRunes a.data b.data

end strings

namespace strconv

/-- Value of a non-empty run of ASCII digits, `none` on any other rune. -/
def digitsValue : List Char → Nat → Option Nat
  | [], acc => some acc
  | c :: cs, acc =>
    if '0' ≤ c ∧ c ≤ '9' then digitsValue cs (acc * 10 + (c.toNat - 48)) else none

/-- Go `strconv.Atoi` on a 64-bit platform: an optional sign, then at least one
decimal digit, and the value must fit `int64`; `none` stands for a non-nil error. -/
def Atoi (s : String) : Option Int :=
  match s.data with
  | [] => none
  | c :: cs =>
    if c = '-' then
      if cs = [] then none
      else
        match digitsValue cs 0 with
        | none => none
        | some n => if n ≤ 2 ^ 63 then some (-(n : Int)) else none
    else if c = '+' then
      if cs = [] then none
      else
        match digitsValue cs 0 with
        | none => none
        | some n => if n < 2 ^ 63 then some (n : Int) else none
    else
      match digitsValue (c :: cs) 0 with
      | none => none
      | some n => if n < 2 ^ 63 then some (n : Int) else none

end strconv

/-! ## Package `versions` -/

/-- The struct `versions.Semver`. -/
structure Semver where
  Major : Int
  Minor : Int
  Patch : Int
  PreReleaseTag : String
  MetaData : String
  IsDev : Bool
  DevBranch : String
  Stability : String
  deriving DecidableEq, Repr

/-- The Go zero value `Semver{}`. -/
def Semver.zero : Semver :=
  { Major := 0, Minor := 0, Patch := 0, PreReleaseTag := "", MetaData := "",
    IsDev := false, DevBranch := "", Stability := "" }

/-- Function `comparePreReleaseIdentifier`. -/
def comparePreReleaseIdentifier (preRelease1Identifier preRelease2Identifier : String) : Int :=
  if preRelease1Identifier = preRelease2Identifier then 0
  else if preRelease1Identifier = "" ∧ preRelease2Identifier ≠ "" then -1
  else if preRelease1Identifier ≠ "" ∧ preRelease2Identifier = "" then 1
  else
    match strconv.Atoi preRelease1Identifier, strconv.Atoi preRelease2Identifier with
    | some isIntPre1Id, some isIntPre2Id =>
      if isIntPre1Id > isIntPre2Id then 1
      else if isIntPre1Id < isIntPre2Id then -1
      else 0
    | some _, none => -1
    | none, some _ => 1
    | none, none => strings.Compare preRelease1Identifier preRelease2Identifier

/-- The `for i := 0; i < iterationCount; i++` loop of `comparePreRelease`; the
first argument counts the iterations that remain, the second is `i`. -/
def comparePreReleaseFrom (parts1 parts2 : List String) : Nat → Nat → Int
  | 0, _ => 0
  | remaining + 1, i =>
    let iden1 := if i < parts1.length then parts1.getD i "" else ""
    let iden2 := if i < parts2.length then parts2.getD i "" else ""
    let comp := comparePreReleaseIdentifier iden1 iden2
    if comp ≠ 0 then comp else comparePreReleaseFrom parts1 parts2 remaining (i + 1)

/-- Function `comparePreRelease`. -/
def comparePreRelease (preRelease1 preRelease2 : String) : Int :=
  let parts1 := strings.Split preRelease1 '.'
  let parts2 := strings.Split preRelease2 '.'
  let lenParts1 := parts1.length
  let lenParts2 := parts2.length
  let iterationCount := if lenParts2 > lenParts1 then lenParts2 else lenParts1
  comparePreReleaseFrom parts1 parts2 iterationCount 0

namespace Semver

/-- Method `GE`. -/
def GE (v1 v2 : Semver) (ignorePreRelease : Bool) : Bool :=
  if v1.IsDev ∧ v2.IsDev then
    if v1.DevBranch ≠ v2.DevBranch then
      decide (strings.Compare v1.DevBranch v2.DevBranch ≥ 0)
    else true
  else if v1.IsDev ∧ ¬ v2.IsDev then true
  else if ¬ v1.IsDev ∧ v2.IsDev then false
  else if v1.Major ≠ v2.Major then decide (v1.Major > v2.Major)
  else if v1.Minor ≠ v2.Minor then decide (v1.Minor > v2.Minor)
  else if v1.Patch ≠ v2.Patch then decide (v1.Patch > v2.Patch)
  else if ignorePreRelease then true
  else if v1.PreReleaseTag = "" ∧ v2.PreReleaseTag ≠ "" then true
  else if v1.PreReleaseTag ≠ "" ∧ v2.PreReleaseTag = "" then false
  else decide (comparePreRelease v1.PreReleaseTag v2.PreReleaseTag ≥ 0)

/-- Method `GT`. -/
def GT (v1 v2 : Semver) (ignorePreRelease : Bool) : Bool :=
  if v1.Major ≠ v2.Major then decide (v1.Major > v2.Major)
  else if v1.Minor ≠ v2.Minor then decide (v1.Minor > v2.Minor)
  else if v1.Patch ≠ v2.Patch then decide (v1.Patch > v2.Patch)
  else if ignorePreRelease then false
  else if v1.PreReleaseTag = "" ∧ v2.PreReleaseTag ≠ "" then true
  else if v1.PreReleaseTag ≠ "" ∧ v2.PreReleaseTag = "" then false
  else decide (comparePreRelease v1.PreReleaseTag v2.PreReleaseTag = 1)

/-- Method `LE`. -/
def LE (v1 v2 : Semver) (ignorePreRelease : Bool) : Bool :=
  if v1.Major ≠ v2.Major then decide (v1.Major < v2.Major)
  else if v1.Minor ≠ v2.Minor then decide (v1.Minor < v2.Minor)
  else if v1.Patch ≠ v2.Patch then decide (v1.Patch < v2.Patch)
  else if ignorePreRelease then true
  else if v1.PreReleaseTag = "" ∧ v2.PreReleaseTag ≠ "" then false
  else if v1.PreReleaseTag ≠ "" ∧ v2.PreReleaseTag = "" then true
  else decide (comparePreRelease v1.PreReleaseTag v2.PreReleaseTag ≤ 0)

/-- Method `LT`. -/
def LT (v1 v2 : Semver) (ignorePreRelease : Bool) : Bool :=
  if v1.Major ≠ v2.Major then decide (v1.Major < v2.Major)
  else if v1.Minor ≠ v2.Minor then decide (v1.Minor < v2.Minor)
  else if v1.Patch ≠ v2.Patch then decide (v1.Patch < v2.Patch)
  else if ignorePreRelease then false
  else if v1.PreReleaseTag = "" ∧ v2.PreReleaseTag ≠ "" then false
  else if v1.PreReleaseTag ≠ "" ∧ v2.PreReleaseTag = "" then true
  else decide (comparePreRelease v1.PreReleaseTag v2.PreReleaseTag = -1)

/-- Method `EQ`. -/
def EQ (v1 v2 : Semver) (ignorePreRelease : Bool) : Bool :=
  if v1.Major ≠ v2.Major ∨ v1.Minor ≠ v2.Minor ∨ v1.Patch ≠ v2.Patch then false
  else if ignorePreRelease then true
  else if (v1.PreReleaseTag = "" ∧ v2.PreReleaseTag ≠ "") ∨
      (v1.PreReleaseTag ≠ "" ∧ v2.PreReleaseTag = "") then false
  else decide (comparePreRelease v1.PreReleaseTag v2.PreReleaseTag = 0)

/-- Method `NEQ`. -/
def NEQ (v1 v2 : Semver) (includePreReleases : Bool) : Bool :=
  !(v1.EQ v2 includePreReleases)

/-- Method `Compare`. -/
def Compare (v1 v2 : Semver) (ignorePreRelease : Bool) : Int :=
  if v1.EQ v2 ignorePreRelease then 0
  else if v1.GT v2 ignorePreRelease then 1
  else -1

end Semver

/-- The errors the packages return.  The three `versions` error values, the
`constraints` error values, the two `fmt.Errorf` families of `Parser.go` (their
message text is not modelled), the two `errors.New` values of the desugarer, and
`indexOutOfRange` for a run-time panic on a slice index. -/
inductive Error where
  | ErrInvalidVersionParts
  | ErrInvalidPreRelease
  | ErrInvalidMetaData
  | ErrInvalidConstraint
  | ErrEmptyConstraint
  | ErrIllegalCharacterInConstraint
  | ErrInvalidVersion
  | invalidVersionConstraint
  | illegalTokenInConstraint
  | unknownSubConstraintType
  | invalidRange
  | indexOutOfRange
  deriving DecidableEq, Repr

/-- Function `GetMetaDataPart`. -/
def GetMetaDataPart (versionLiteral : String) : String :=
  if !strings.Contains versionLiteral '+' then ""
  else
    match (if versionLiteral ≠ "" then
        (match strings.SplitN2 versionLiteral '+' with
          | _ :: second :: _ => some second
          | _ => none)
      else some versionLiteral) with
    | none => ""
    | some versionLiteral =>
      if versionLiteral ≠ "" then
        match strings.SplitN2 versionLiteral '-' with
        | first :: _ => first
        | [] => ""
      else versionLiteral

/-- Function `GetPreReleasePart`. -/
def GetPreReleasePart (versionLiteral : String) : String :=
  if !strings.Contains versionLiteral '-' then ""
  else
    match strings.SplitN2 versionLiteral '-' with
    | _ :: second :: _ =>
      match strings.SplitN2 second '+' with
      | first :: _ => first
      | [] => ""
    | _ => ""

/-- Function `GetVersionPart`. -/
def GetVersionPart (versionLiteral : String) : String :=
  if !strings.Contains versionLiteral '-' && !strings.Contains versionLiteral '+' then
    versionLiteral
  else
    let versionLiteral :=
      match strings.SplitN2 versionLiteral '-' with
      | first :: _ => first
      | [] => versionLiteral
    match strings.SplitN2 versionLiteral '+' with
    | first :: _ => first
    | [] => versionLiteral

/-- Function `ParseSemverWithEcosystem`. -/
def ParseSemverWithEcosystem (versionLiteral : String) (ecosystem : String) :
    Except Error Semver :=
  if versionLiteral = "" then .error .ErrInvalidVersionParts
  else
    let semver := Semver.zero
    if ecosystem = "composer" ∧ strings.HasPrefix versionLiteral "dev-" then
      .ok { semver with
        IsDev := true, DevBranch := strings.TrimPrefix versionLiteral "dev-",
        Major := 999, Minor := 999, Patch := 999 }
    else
      let (semver, versionLiteral) :=
        if ecosystem = "composer" ∧ strings.HasSuffix versionLiteral "-dev" then
          ({ semver with IsDev := true }, strings.TrimSuffix versionLiteral "-dev")
        else (semver, versionLiteral)
      let (semver, versionLiteral) :=
        if ecosystem = "composer" ∧ strings.Contains versionLiteral '@' then
          match strings.Split versionLiteral '@' with
          | [first, second] => ({ semver with Stability := second }, first)
          | _ => (semver, versionLiteral)
        else (semver, versionLiteral)
      let versionLiteral := strings.TrimPrefix versionLiteral "v"
      let versionParts := strings.Split (GetVersionPart versionLiteral) '.'
      let versionParts :=
        if ecosystem = "composer" then
          versionParts.map (fun part => if part = "x" ∨ part = "X" then "999" else part)
        else versionParts
      match versionParts with
      | [part0, part1] =>
        match strconv.Atoi part0 with
        | none => .error .ErrInvalidVersionParts
        | some major =>
          match strconv.Atoi part1 with
          | none => .error .ErrInvalidVersionParts
          | some minor =>
            .ok { semver with
              Major := major, Minor := minor, Patch := 0,
              MetaData := GetMetaDataPart versionLiteral,
              PreReleaseTag := GetPreReleasePart versionLiteral }
      | [part0, part1, part2] =>
        match strconv.Atoi part0 with
        | none => .error .ErrInvalidVersionParts
        | some major =>
          match strconv.Atoi part1 with
          | none => .error .ErrInvalidVersionParts
          | some minor =>
            match strconv.Atoi part2 with
            | none => .error .ErrInvalidVersionParts
            | some patch =>
              .ok { semver with
                Major := major, Minor := minor, Patch := patch,
                MetaData := GetMetaDataPart versionLiteral,
                PreReleaseTag := GetPreReleasePart versionLiteral }
      | _ => .error .ErrInvalidVersionParts

/-- Function `ParseSemver`. -/
def ParseSemver (versionLiteral : String) : Except Error Semver :=
  ParseSemverWithEcosystem versionLiteral "nodejs"

/-- Function `IsWildCardVersion`. -/
def IsWildCardVersion (versionLiteral : String) : Bool :=
  let versionLiteral := GetVersionPart versionLiteral
  decide (strings.Count versionLiteral 'x' > 0) || decide (strings.Count versionLiteral 'X' > 0) ||
    decide (strings.Count versionLiteral '*' > 0) || decide (versionLiteral = "ANY") ||
    decide (versionLiteral = "*")

/-- Function `IsStaticVersion`. -/
def IsStaticVersion (versionLiteral : String) : Bool :=
  let versionLiteral := GetVersionPart versionLiteral
  decide (strings.Count versionLiteral '.' = 2) && !IsWildCardVersion versionLiteral

/-- Function `IsPartialVersion`. -/
def IsPartialVersion (versionLiteral : String) : Bool :=
  let versionLiteral := GetVersionPart versionLiteral
  decide (strings.Count versionLiteral '.' < 2) && !IsWildCardVersion versionLiteral

/-! ## Package `utils` -/

/-- Function `utils.ContainsOnly`. -/
def ContainsOnly {α : Type} [DecidableEq α] : List α → α → Bool
  | [], _ => true
  | elem :: elems, elemToFind =>
    if elem ≠ elemToFind then false else ContainsOnly elems elemToFind

/-- Function `utils.GetAllIndicies`; the second argument is the index of the head. -/
def GetAllIndiciesFrom {α : Type} [DecidableEq α] : List α → Nat → α → List Nat
  | [], _, _ => []
  | elem :: elems, idx, elemToFind =>
    if elem = elemToFind then idx :: GetAllIndiciesFrom elems (idx + 1) elemToFind
    else GetAllIndiciesFrom elems (idx + 1) elemToFind

/-- Function `utils.GetAllIndicies`. -/
def GetAllIndicies {α : Type} [DecidableEq α] (elems : List α) (elemToFind : α) : List Nat :=
  GetAllIndiciesFrom elems 0 elemToFind

/-! ## Package `constraints`: the data model -/

/-- The string type `constraints.Token` with its named constants; `UNSET` is the
zero value `""`, which a `Range` built without an upper bound keeps in `EndOp`. -/
inductive Token where
  | UNSET
  | ILLEGAL
  | EOF
  | SOF
  | WS
  | EQ
  | LT
  | LE
  | GT
  | GE
  | NOT
  | TILDE
  | CARET
  | OPEN_PARENTHESIS
  | CLOSE_PARENTHESIS
  | AND
  | OR
  | HYPHEN
  | STAR
  | ANY
  | WILDCARD_X
  | CONSTRAINT
  | UNKNOW_IDENTIFIER
  | VERSION_EXPRESSION
  deriving DecidableEq, Repr

/-- The string type `constraints.JoinOp` with its two constants; `UNSET` is the
zero value `""`. -/
inductive JoinOp where
  | UNSET
  | CONJUNCTON
  | DISJUNCTION
  deriving DecidableEq, Repr

/-- The struct `constraints.Range`. -/
structure Range where
  StartOp : Token
  StartVersion : Semver
  EndOp : Token
  EndVersion : Semver
  deriving DecidableEq, Repr

/-- The Go zero value `Range{}`. -/
def Range.zero : Range :=
  { StartOp := .UNSET, StartVersion := Semver.zero, EndOp := .UNSET, EndVersion := Semver.zero }

/-- The struct `constraints.Constraint`. -/
structure Constraint where
  Original : String
  Ranges : List Range
  Join : List JoinOp
  deriving DecidableEq, Repr

/-- The Go zero value `Constraint{}`. -/
def Constraint.zero : Constraint :=
  { Original := "", Ranges := [], Join := [] }

/-! ## Package `evaluator` -/

/-- The body of the loop of `Satisfies` up to the `joinIndex++`: the boolean
that the pass for `cRange` appends to `conjunctedConditions`. -/
def rangeSatisfied (v : Semver) (cRange : Range) (includePreReleases : Bool) : Bool :=
  let endversionEmpty := decide (cRange.EndVersion = Semver.zero)
  let startversionEmpty := decide (cRange.StartVersion = Semver.zero)
  if !endversionEmpty && !startversionEmpty then
    let startSatisified :=
      if cRange.StartOp = Token.GT then v.GT cRange.StartVersion false
      else if cRange.StartOp = Token.GE then v.GE cRange.StartVersion false
      else false
    if !startSatisified then false
    else
      let endSatisified :=
        if cRange.EndOp = Token.LT then v.LT cRange.EndVersion false
        else if cRange.EndOp = Token.LE then v.LE cRange.EndVersion false
        else false
      if !includePreReleases &&
          (decide (v.PreReleaseTag ≠ "") || decide (cRange.StartVersion.PreReleaseTag ≠ "") ||
            decide (cRange.EndVersion.PreReleaseTag ≠ "")) then
        if cRange.StartVersion.PreReleaseTag = "" ∧ cRange.EndVersion.PreReleaseTag = "" then
          false
        else
          let cmpStart := v.EQ cRange.StartVersion true
          let cmpEnd := v.EQ cRange.EndVersion true
          if !cmpStart && !cmpEnd then false
          else startSatisified && endSatisified
      else startSatisified && endSatisified
  else
    let res :=
      if cRange.StartOp = Token.GT then v.GT cRange.StartVersion false
      else if cRange.StartOp = Token.GE then v.GE cRange.StartVersion false
      else if cRange.StartOp = Token.EQ then v.EQ cRange.StartVersion false
      else if cRange.StartOp = Token.LT then v.LT cRange.StartVersion false
      else if cRange.StartOp = Token.LE then v.LE cRange.StartVersion false
      else false
    if !includePreReleases &&
        (decide (v.PreReleaseTag ≠ "") || decide (cRange.StartVersion.PreReleaseTag ≠ "")) then
      if cRange.StartVersion.PreReleaseTag = "" then false
      else
        let cmpStart := v.EQ cRange.StartVersion true
        if !cmpStart then false else res
    else res

/-- The `for idx, cRange := range c.Ranges` loop of `Satisfies` with its final
`return`: the ranges still to visit, the index `idx` of the first of them (which
`joinIndex` equals after its increment), and `conjunctedConditions`. -/
def SatisfiesFrom (v : Semver) (Join : List JoinOp) (includePreReleases : Bool) :
    List Range → Nat → List Bool → Bool
  | [], _, conjunctedConditions => ContainsOnly conjunctedConditions true
  | cRange :: rest, idx, conjunctedConditions =>
    let conjunctedConditions :=
      conjunctedConditions ++ [rangeSatisfied v cRange includePreReleases]
    let joinIndex := idx
    if (idx : Int) ≤ (Join.length : Int) - 1 ∧
        Join.get? joinIndex = some JoinOp.DISJUNCTION then
      if ContainsOnly conjunctedConditions true then true
      else SatisfiesFrom v Join includePreReleases rest (idx + 1) []
    else SatisfiesFrom v Join includePreReleases rest (idx + 1) conjunctedConditions

/-- Function `Satisfies`. -/
def Satisfies (v : Semver) (c : Constraint) (includePreReleases : Bool) : Bool :=
  SatisfiesFrom v c.Join includePreReleases c.Ranges 0 []

/-- Function `MaxSatisfying`. -/
def MaxSatisfying (versions : List Semver) (c : Constraint) (includePreReleases : Bool) :
    Semver :=
  match versions with
  | [] => Semver.zero
  | first :: _ =>
    versions.foldl
      (fun max version =>
        if Satisfies version c includePreReleases then
          if version.GT max false then version else max
        else max)
      first

/-- The parsing loop of `MaxSatisfyingStrings`: the strings still to parse and
`parsedVersions`; it stops at the first string that `ParseSemver` rejects. -/
def parseVersionsFrom : List String → List Semver → Except Error (List Semver)
  | [], parsedVersions => .ok parsedVersions
  | versionString :: rest, parsedVersions =>
    match ParseSemver versionString with
    | .error err => .error err
    | .ok parsedVersion => parseVersionsFrom rest (parsedVersions ++ [parsedVersion])

/-- Function `MaxSatisfyingStrings`; the Go pair `(Semver, error)` with `none`
for a nil error. -/
def MaxSatisfyingStrings (versions : List String) (c : Constraint)
    (includePreReleases : Bool) : Semver × Option Error :=
  match parseVersionsFrom versions [] with
  | .error err => (Semver.zero, some err)
  | .ok parsedVersions => (MaxSatisfying parsedVersions c includePreReleases, none)

deriving instance DecidableEq for Except

/-! ## Package `constraints`: `Token.go` and `Lexer.go` -/

/-- Function `IsOperatorToken`. -/
def IsOperatorToken (token : Token) : Bool :=
  token = .EQ || token = .LT || token = .LE || token = .GT || token = .GE || token = .TILDE ||
    token = .CARET || token = .OPEN_PARENTHESIS || token = .CLOSE_PARENTHESIS ||
    token = .AND || token = .OR || token = .HYPHEN

/-- Function `IsRangeToken`. -/
def IsRangeToken (token : Token) : Bool :=
  token = .LT || token = .LE || token = .GT || token = .GE || token = .TILDE ||
    token = .CARET || token = .HYPHEN

/-- Function `IsEqualityToken`. -/
def IsEqualityToken (token : Token) : Bool :=
  token = .EQ

/-- Function `IsJoinToken`. -/
def IsJoinToken (token : Token) : Bool :=
  token = .OR || token = .AND

/-- A Go index expression `xs[i]` with its run-time bounds check. -/
def index {α : Type} (xs : List α) (i : Int) : Except Error α :=
  if i < 0 then .error .indexOutOfRange
  else
    match xs.get? i.toNat with
    | some x => .ok x
    | none => .error .indexOutOfRange

/-- The variable `operatorsStarts`. -/
def operatorsStarts : List Char := ['=', '<', '>', '!', '&', '|', '-', '^', '~', '(', ')']

/-- The variable `versionUnsafe`. -/
def versionUnsafe : List Char := ['=', '<', '>', '!', '&', '|', '^', '~', '(', ')']

/-- The variable `eof`, the rune `0` that `read` returns at the end of the input. -/
def eof : Char := Char.ofNat 0

/-- Function `isVersionUnsafe`. -/
def isVersionUnsafe (ch : Char) : Bool := versionUnsafe.contains ch

/-- Function `isOperatorStart`. -/
def isOperatorStart (ch : Char) : Bool := operatorsStarts.contains ch

/-- Function `isWhitespace`. -/
def isWhitespace (ch : Char) : Bool := ch = ' ' || ch = '\t' || ch = '\n'

/-- Function `isLetter`. -/
def isLetter (ch : Char) : Bool :=
  (decide ('a' ≤ ch) && decide (ch ≤ 'z')) || (decide ('A' ≤ ch) && decide (ch ≤ 'Z')) ||
    ch = '-'

/-- Function `isDigit`. -/
def isDigit (ch : Char) : Bool := decide ('0' ≤ ch) && decide (ch ≤ '9')

/-- The loop of `scanWhitespace` on the unread input: the buffer and the input
that is left.  A rune `0` in the input reads as `eof` and is consumed. -/
def scanWhitespaceLoop : List Char → List Char × List Char
  | [] => ([], [])
  | ch :: rest =>
    if ch = eof then ([], rest)
    else if !isWhitespace ch then ([], ch :: rest)
    else
      let (buf, left) := scanWhitespaceLoop rest
      (ch :: buf, left)

/-- Method `scanWhitespace`. -/
def scanWhitespace (input : List Char) : (Token × String) × List Char :=
  let (buf, left) := scanWhitespaceLoop input
  ((Token.WS, String.mk buf), left)

/-- The loop of `scanVersionExpression`. -/
def scanVersionExpressionLoop : List Char → List Char × List Char
  | [] => ([], [])
  | ch :: rest =>
    if ch = eof then ([], rest)
    else if isWhitespace ch || isVersionUnsafe ch then ([], ch :: rest)
    else
      let (buf, left) := scanVersionExpressionLoop rest
      (ch :: buf, left)

/-- Method `scanVersionExpression`. -/
def scanVersionExpression (input : List Char) : (Token × String) × List Char :=
  let (buf, left) := scanVersionExpressionLoop input
  ((Token.VERSION_EXPRESSION, String.mk buf), left)

/-- The loop of `scanOperator`. -/
def scanOperatorLoop : List Char → List Char × List Char
  | [] => ([], [])
  | ch :: rest =>
    if ch = eof then ([], rest)
    else if !isOperatorStart ch then ([], ch :: rest)
    else if ch = '(' ∨ ch = ')' then ([ch], rest)
    else
      let (buf, left) := scanOperatorLoop rest
      (ch :: buf, left)

/-- Method `scanOperator`; the operator runes have no upper case, so the
`strings.ToUpper` of the `switch` leaves the buffer as it is. -/
def scanOperator (input : List Char) : (Token × String) × List Char :=
  let (buf, left) := scanOperatorLoop input
  let lit := String.mk buf
  let token :=
    if lit = "&&" then Token.AND
    else if lit = "||" then Token.OR
    else if lit = "=" then Token.EQ
    else if lit = "<=" then Token.LE
    else if lit = ">=" then Token.GE
    else if lit = "<" then Token.LT
    else if lit = ">" then Token.GT
    else if lit = "!" then Token.ILLEGAL
    else if lit = "~" then Token.TILDE
    else if lit = "^" then Token.CARET
    else if lit = "(" then Token.OPEN_PARENTHESIS
    else if lit = ")" then Token.CLOSE_PARENTHESIS
    else if lit = "-" then Token.HYPHEN
    else Token.ILLEGAL
  ((token, lit), left)

/-- Method `ScanOne` on the input that is left: the token, its literal, and the
input after it. -/
def ScanOne (input : List Char) : (Token × String) × List Char :=
  match input with
  | [] => ((Token.EOF, ""), [])
  | ch :: rest =>
    if isWhitespace ch then scanWhitespace (ch :: rest)
    else if isDigit ch then scanVersionExpression (ch :: rest)
    else if isOperatorStart ch then scanOperator (ch :: rest)
    else if isLetter ch || ch = '*' then scanVersionExpression (ch :: rest)
    else if ch = eof then ((Token.EOF, ""), rest)
    else ((Token.ILLEGAL, String.singleton ch), rest)

/-- The `for` loop of `ScanWhole`.  The first argument bounds the number of
rounds; every round but the last consumes input, so one more than the length of
the input is enough. -/
def ScanWholeLoop : Nat → List Char → List Token → List String → List Token × List String
  | 0, _, tokens, literals => (tokens, literals)
  | fuel + 1, input, tokens, literals =>
    let ((token, literal), left) := ScanOne input
    let (tokens, literals) :=
      if token ≠ Token.WS then (tokens ++ [token], literals ++ [literal])
      else (tokens, literals)
    if token = Token.EOF then (tokens, literals)
    else ScanWholeLoop fuel left tokens literals

/-- The loop of `augmentMissingEqualityOp`: the tokens still to visit, the index
of the first of them, and the two lists built so far. -/
def augmentMissingEqualityOpFrom (tokens : List Token) (literals : List String) :
    List Token → Nat → List Token → List String → Except Error (List Token × List String)
  | [], _, tokensToReturn, literalsToReturn => .ok (tokensToReturn, literalsToReturn)
  | token :: rest, idx, tokensToReturn, literalsToReturn => do
    let literal ← index literals idx
    let previousToken ← if idx ≥ 1 then index tokens ((idx : Int) - 1) else pure Token.SOF
    let nextToken ←
      if (idx : Int) + 1 ≤ (tokens.length : Int) - 1 then index tokens ((idx : Int) + 1)
      else pure Token.EOF
    if token = Token.VERSION_EXPRESSION ∧ IsStaticVersion literal ∧
        (!IsRangeToken previousToken && !IsEqualityToken previousToken) ∧
        previousToken ≠ Token.HYPHEN ∧ nextToken ≠ Token.HYPHEN then
      augmentMissingEqualityOpFrom tokens literals rest (idx + 1)
        (tokensToReturn ++ [Token.EQ] ++ [token]) (literalsToReturn ++ ["="] ++ [literal])
    else
      augmentMissingEqualityOpFrom tokens literals rest (idx + 1)
        (tokensToReturn ++ [token]) (literalsToReturn ++ [literal])

/-- Function `augmentMissingEqualityOp`. -/
def augmentMissingEqualityOp (tokens : List Token) (literals : List String) :
    Except Error (List Token × List String) :=
  if tokens.contains Token.ILLEGAL then .ok (tokens, literals)
  else augmentMissingEqualityOpFrom tokens literals tokens 0 [] []

/-- The loop of `removeSuperfluousAndOp`: the tokens still to visit, the index of
the first of them, and the two lists built so far. -/
def removeSuperfluousAndOpFrom (tokens : List Token) (literals : List String) :
    List Token → Nat → List Token → List String → Except Error (List Token × List String)
  | [], _, tokensToReturn, literalsToReturn => .ok (tokensToReturn, literalsToReturn)
  | token :: rest, idx, tokensToReturn, literalsToReturn => do
    let literal ← index literals idx
    let skip ←
      if token = Token.AND ∧ idx ≥ 2 then do
        let prevPrevToken ← index tokens ((idx : Int) - 2)
        let prevToken ← index tokens ((idx : Int) - 1)
        let prevPrevPrevToken ←
          if idx ≥ 3 then index tokens ((idx : Int) - 3) else pure Token.EOF
        if IsRangeToken prevPrevToken ∧ prevToken = Token.VERSION_EXPRESSION ∧
            (tokens.length : Int) - (idx : Int) ≥ 2 ∧
            (prevPrevPrevToken = Token.EOF ∨ IsJoinToken prevPrevPrevToken) then do
          let nextToken ← index tokens ((idx : Int) + 1)
          let nextNextToken ← index tokens ((idx : Int) + 2)
          pure (IsRangeToken nextToken && decide (nextNextToken = Token.VERSION_EXPRESSION))
        else pure false
      else pure false
    if skip then
      removeSuperfluousAndOpFrom tokens literals rest (idx + 1) tokensToReturn literalsToReturn
    else
      removeSuperfluousAndOpFrom tokens literals rest (idx + 1)
        (tokensToReturn ++ [token]) (literalsToReturn ++ [literal])

/-- Function `removeSuperfluousAndOp`. -/
def removeSuperfluousAndOp (tokens : List Token) (literals : List String) :
    Except Error (List Token × List String) :=
  if tokens.contains Token.ILLEGAL then .ok (tokens, literals)
  else removeSuperfluousAndOpFrom tokens literals tokens 0 [] []

/-- Method `ScanWhole` on the runes of the input. -/
def ScanWhole (input : List Char) : Except Error (List Token × List String) := do
  let (tokens, literals) := ScanWholeLoop (input.length + 1) input [Token.SOF] [""]
  let (tokens, literals) :=
    if tokens.length > 1 ∧ tokens.get? 1 = some Token.WS then
      (Token.SOF :: tokens.drop 2, "" :: literals.drop 2)
    else (tokens, literals)
  let (tokens, literals) :=
    if tokens.length > 1 ∧ tokens.get? (tokens.length - 2) = some Token.WS then
      (tokens.take (tokens.length - 2) ++ [Token.EOF],
        literals.take (literals.length - 2) ++ [""])
    else (tokens, literals)
  let (tokens, literals) ← augmentMissingEqualityOp tokens literals
  removeSuperfluousAndOp tokens literals

/-- Function `LexConstraint`. -/
def LexConstraint (constraint : String) : Except Error (List Token × List String) :=
  ScanWhole constraint.data

/-! ## Package `constraints`: `Parser.go` -/

namespace strings

/-- Go `strings.ToLower`, on the ASCII letters.  Outside ASCII no rune has a
lower case that is `x`, `*` or a digit, and the parser only compares the result
with such strings or hands it to `strconv.Atoi`. -/
def ToLower (s : String) : String :=
  String.mk (s.data.map Char.toLower)

/-- Go `strings.ReplaceAll(s, old, new)` for `old` and `new` of one rune. -/
def ReplaceAll (s : String) (old new : Char) : String :=
  String.mk (s.data.map (fun c => if c = old then new else c))

end strings

namespace slices

/-- Go `slices.Index`: the first index of `v` in `s`, or `-1`. -/
def Index {α : Type} [DecidableEq α] (s : List α) (v : α) : Int :=
  if s.contains v then (s.indexOf v : Int) else -1

end slices

/-- The verb `%d` of `fmt.Sprintf` on an `int`. -/
def formatInt (n : Int) : String := toString n

/-- The statement `n++` on a Go `int` of 64 bits. -/
def increment (n : Int) : Int :=
  if n + 1 > 2 ^ 63 - 1 then n + 1 - 2 ^ 64 else n + 1

/-- Function `getVersionStringFromParts`. -/
def getVersionStringFromParts (majorString minorString patchString metaDataPart
    preReleasePart : String) : String :=
  if metaDataPart ≠ "" ∧ preReleasePart ≠ "" then
    majorString ++ "." ++ minorString ++ "." ++ patchString ++ "+" ++ metaDataPart ++ "-" ++
      preReleasePart
  else if metaDataPart ≠ "" then
    majorString ++ "." ++ minorString ++ "." ++ patchString ++ "+" ++ metaDataPart
  else if preReleasePart ≠ "" then
    majorString ++ "." ++ minorString ++ "." ++ patchString ++ "-" ++ preReleasePart
  else majorString ++ "." ++ minorString ++ "." ++ patchString

/-- Function `getVersionStringFromMetaPreReleaseParts`. -/
def getVersionStringFromMetaPreReleaseParts (version metaDataPart preReleasePart : String) :
    String :=
  if metaDataPart ≠ "" ∧ preReleasePart ≠ "" then
    version ++ "+" ++ metaDataPart ++ "-" ++ preReleasePart
  else if metaDataPart ≠ "" then version ++ "+" ++ metaDataPart
  else if preReleasePart ≠ "" then version ++ "-" ++ preReleasePart
  else version

/-- One pass of the loop of `validateConstraintComposition` for the token at
`idx`, with the three variables the loop carries; a pass that returns no error
yields their new values. -/
def validateStep (tokens : List Token) (literals : List String) (idx : Nat) (token : Token)
    (joinOperatorsProcessed tokensProcessed : List Token) (previousToken : Token) :
    Except Error (List Token × List Token × Token) := do
  if IsJoinToken token ∧ previousToken = Token.SOF then
    throw Error.invalidVersionConstraint
  if token = Token.EOF ∧ IsJoinToken previousToken then
    throw Error.invalidVersionConstraint
  if (IsRangeToken token || IsEqualityToken token) ∧
      (IsRangeToken previousToken || IsEqualityToken previousToken) then
    throw Error.invalidVersionConstraint
  if IsJoinToken token ∧ IsJoinToken previousToken then
    throw Error.invalidVersionConstraint
  let twoStatic ←
    if token = Token.VERSION_EXPRESSION then do
      let literal ← index literals idx
      if IsStaticVersion literal ∧ previousToken = Token.VERSION_EXPRESSION then do
        let literalBefore ← index literals ((idx : Int) - 1)
        pure (IsStaticVersion literalBefore)
      else pure false
    else pure false
  if twoStatic then
    throw Error.invalidVersionConstraint
  if token = Token.VERSION_EXPRESSION ∧ !IsOperatorToken previousToken then do
    let previousToken ← if idx ≥ 1 then index tokens ((idx : Int) - 1) else pure Token.SOF
    let nextToken ←
      if (idx : Int) + 1 ≤ (tokens.length : Int) - 1 then index tokens ((idx : Int) + 1)
      else pure Token.EOF
    if previousToken ≠ Token.HYPHEN ∧ nextToken ≠ Token.HYPHEN then do
      let literal ← index literals idx
      if IsStaticVersion literal then
        throw Error.invalidVersionConstraint
  if tokensProcessed.length ≥ 3 ∧ token = Token.VERSION_EXPRESSION then do
    let twoBack ← index tokensProcessed ((idx : Int) - 2)
    if twoBack = Token.VERSION_EXPRESSION then do
      if !IsRangeToken previousToken && !IsJoinToken previousToken then do
        let threeBack ← index tokensProcessed ((idx : Int) - 3)
        if !IsRangeToken threeBack && !IsJoinToken threeBack then
          throw Error.invalidVersionConstraint
  if token = Token.VERSION_EXPRESSION ∧
      (previousToken = Token.EQ ∨ previousToken = Token.NOT) then do
    if tokensProcessed.length = 0 then
      throw Error.indexOutOfRange
    let processedButLast := tokensProcessed.take (tokensProcessed.length - 1)
    let idxEq := slices.Index processedButLast Token.EQ
    let idxEq := if idxEq = -1 then slices.Index processedButLast Token.NOT else idxEq
    if idxEq ≠ -1 then do
      let versionLiteral ← index literals idx
      let versionLiteralBefore ← index literals (idxEq + 1)
      if IsStaticVersion versionLiteral ∧ IsStaticVersion versionLiteralBefore then do
        if joinOperatorsProcessed.length > 0 then do
          let lastJoin ← index joinOperatorsProcessed ((joinOperatorsProcessed.length : Int) - 1)
          if lastJoin = Token.AND then
            throw Error.invalidVersionConstraint
  if token = Token.HYPHEN then do
    if previousToken ≠ Token.VERSION_EXPRESSION then
      throw Error.invalidVersionConstraint
    let literalBefore ← index literals ((idx : Int) - 1)
    if !IsPartialVersion literalBefore && !IsStaticVersion literalBefore then
      throw Error.invalidVersionConstraint
    if idx > 3 then do
      let twoBack ← index tokens ((idx : Int) - 2)
      if IsRangeToken twoBack || IsEqualityToken twoBack then
        throw Error.invalidVersionConstraint
    let nextToken ←
      if (idx : Int) + 1 ≤ (tokens.length : Int) - 1 then index tokens ((idx : Int) + 1)
      else pure Token.EOF
    if nextToken ≠ Token.VERSION_EXPRESSION then
      throw Error.invalidVersionConstraint
    let literalAfter ← index literals ((idx : Int) + 1)
    if !IsPartialVersion literalAfter && !IsStaticVersion literalAfter then
      throw Error.invalidVersionConstraint
  let joinOperatorsProcessed :=
    if IsJoinToken token then joinOperatorsProcessed ++ [token] else joinOperatorsProcessed
  pure (joinOperatorsProcessed, tokensProcessed ++ [token], token)

/-- The loop of `validateConstraintComposition`: the tokens still to visit, the
index of the first of them, and the three variables the loop carries. -/
def validateFrom (tokens : List Token) (literals : List String) :
    List Token → Nat → List Token → List Token → Token → Except Error Unit
  | [], _, _, _, _ => .ok ()
  | token :: rest, idx, joinOperatorsProcessed, tokensProcessed, previousToken =>
    match validateStep tokens literals idx token joinOperatorsProcessed tokensProcessed
        previousToken with
    | .error err => .error err
    | .ok (joinOperatorsProcessed, tokensProcessed, previousToken) =>
      validateFrom tokens literals rest (idx + 1) joinOperatorsProcessed tokensProcessed
        previousToken

/-- Function `validateConstraintComposition`; `.ok ()` is the nil error. -/
def validateConstraintComposition (tokens : List Token) (literals : List String) :
    Except Error Unit :=
  validateFrom tokens literals tokens 0 [] [] Token.SOF

/-- Function `isHyphenatedRange`. -/
def isHyphenatedRange (tokenList : List Token) : Bool :=
  tokenList.length = 3 && tokenList.get? 0 = some Token.VERSION_EXPRESSION &&
    tokenList.get? 1 = some Token.HYPHEN && tokenList.get? 2 = some Token.VERSION_EXPRESSION

/-- Function `isXRange`; the literal is read only when the first two tests fail. -/
def isXRange (tokenList : List Token) (literalList : List String) : Except Error Bool :=
  if tokenList.length = 0 ∨
      (tokenList.length = 1 ∧ tokenList.get? 0 = some Token.VERSION_EXPRESSION) then
    pure true
  else do
    let literal ← index literalList 0
    pure (decide (literal = "*") || decide (literal = "ANY") ||
      strings.hasInfixRunes ".x".data literal.data ||
      strings.hasInfixRunes ".X".data literal.data ||
      strings.hasInfixRunes ".*".data literal.data)

/-- Function `isCaretRange`. -/
def isCaretRange (tokenList : List Token) : Bool :=
  tokenList.length = 2 && tokenList.get? 0 = some Token.CARET &&
    tokenList.get? 1 = some Token.VERSION_EXPRESSION

/-- Function `isTildeRange`. -/
def isTildeRange (tokenList : List Token) : Bool :=
  tokenList.length = 2 && tokenList.get? 0 = some Token.TILDE &&
    tokenList.get? 1 = some Token.VERSION_EXPRESSION

/-- Function `isRange`. -/
def isRange (tokenList : List Token) : Bool :=
  match tokenList with
  | [t0, t1] => IsRangeToken t0 && t1 = Token.VERSION_EXPRESSION
  | [t0, t1, t2, t3] =>
    IsRangeToken t0 && t1 = Token.VERSION_EXPRESSION && IsRangeToken t2 &&
      t3 = Token.VERSION_EXPRESSION
  | _ => false

/-- Function `isStaticRange`. -/
def isStaticRange (tokenList : List Token) (literalList : List String) : Except Error Bool :=
  match tokenList with
  | [t0, t1] =>
    if IsEqualityToken t0 ∧ t1 = Token.VERSION_EXPRESSION then do
      let literal ← index literalList 1
      pure (IsStaticVersion literal)
    else pure false
  | _ => pure false

/-- Function `isPartialRange`. -/
def isPartialRange (tokenList : List Token) (literalList : List String) : Except Error Bool :=
  match tokenList with
  | [t0] =>
    if t0 = Token.VERSION_EXPRESSION then do
      let literal ← index literalList 0
      pure (IsPartialVersion literal)
    else pure false
  | _ => pure false

/-- The strings `majorString`, `minorString`, `patchString` that the desugaring
functions read off the split version part, starting from `dflt`. -/
def splitParts (split : List String) (dflt : String) :
    Except Error (String × String × String) := do
  let patchString ←
    if split.length = 3 then (do let p ← index split 2; pure (strings.ToLower p))
    else pure dflt
  let minorString ←
    if split.length ≥ 2 then (do let p ← index split 1; pure (strings.ToLower p))
    else pure dflt
  let majorString ←
    if split.length ≥ 1 then (do let p ← index split 0; pure (strings.ToLower p))
    else pure dflt
  pure (majorString, minorString, patchString)

/-- The two blocks of `parseHyphen` that coerce a partial end version to the
next unit above its last component. -/
def coercePartialEnd (partialEndVersion : String) : Except Error String := do
  let coercedPartialEndRange := partialEndVersion
  let coercedPartialEndRange ←
    if strings.Count partialEndVersion '.' = 0 then
      match strconv.Atoi partialEndVersion with
      | none => throw Error.ErrInvalidVersion
      | some parsed => pure (formatInt (increment parsed) ++ ".0.0")
    else pure coercedPartialEndRange
  let coercedPartialEndRange ←
    if strings.Count partialEndVersion '.' = 1 then do
      let minorPart ← index (strings.Split partialEndVersion '.') 1
      match strconv.Atoi minorPart with
      | none => throw Error.ErrInvalidVersion
      | some parsed => do
        let major ← index (strings.Split partialEndVersion '.') 0
        pure (major ++ "." ++ formatInt (increment parsed) ++ ".0")
    else pure coercedPartialEndRange
  pure coercedPartialEndRange

/-- The zero filling of a partial start version in `parseHyphen`. -/
def zeroFillStart (partialStartVersion : String) : String :=
  let partialStartVersion :=
    if strings.Count partialStartVersion '.' = 0 then partialStartVersion ++ ".0.0"
    else partialStartVersion
  if strings.Count partialStartVersion '.' = 1 then partialStartVersion ++ ".0"
  else partialStartVersion

/-- The common end of the desugaring functions: parse both version strings
into the range. -/
def finishRange (parsedRange : Range) (startVersionString endVersionString : String) :
    Except Error Range := do
  let startVersion ← ParseSemver startVersionString
  let endVersion ← ParseSemver endVersionString
  pure { parsedRange with StartVersion := startVersion, EndVersion := endVersion }

/-- Function `parseHyphen`. -/
def parseHyphen (literalList : List String) : Except Error Range := do
  let parsedRange : Range := { Range.zero with StartOp := Token.GE, EndOp := Token.LE }
  let literal0 ← index literalList 0
  let literal2 ← index literalList 2
  let startVersion := GetVersionPart literal0
  let endVersion := GetVersionPart literal2
  let startMetaDataPart := GetMetaDataPart literal0
  let startPreReleasePart := GetPreReleasePart literal0
  let endMetaDataPart := GetMetaDataPart literal2
  let endPreReleasePart := GetPreReleasePart literal2
  let (startVersionString, endVersionString) :=
    if IsStaticVersion startVersion ∧ IsStaticVersion endVersion then
      (getVersionStringFromMetaPreReleaseParts startVersion startMetaDataPart
          startPreReleasePart,
        getVersionStringFromMetaPreReleaseParts endVersion endMetaDataPart endPreReleasePart)
    else ("", "")
  let (startVersionString, endVersionString) :=
    if IsPartialVersion startVersion ∧ IsStaticVersion endVersion then
      (getVersionStringFromMetaPreReleaseParts (zeroFillStart startVersion) startMetaDataPart
          startPreReleasePart,
        getVersionStringFromMetaPreReleaseParts endVersion endMetaDataPart endPreReleasePart)
    else (startVersionString, endVersionString)
  let (parsedRange, startVersionString, endVersionString) ←
    if IsStaticVersion startVersion ∧ IsPartialVersion endVersion then do
      let coercedPartialEndRange ← coercePartialEnd endVersion
      pure ({ parsedRange with EndOp := Token.LT },
        getVersionStringFromMetaPreReleaseParts startVersion startMetaDataPart
          startPreReleasePart,
        getVersionStringFromMetaPreReleaseParts coercedPartialEndRange endMetaDataPart
          endPreReleasePart)
    else pure (parsedRange, startVersionString, endVersionString)
  let (parsedRange, startVersionString, endVersionString) ←
    if IsPartialVersion startVersion ∧ IsPartialVersion endVersion then do
      let coercedPartialEndRange ← coercePartialEnd endVersion
      pure ({ parsedRange with EndOp := Token.LT },
        getVersionStringFromMetaPreReleaseParts (zeroFillStart startVersion) startMetaDataPart
          startPreReleasePart,
        getVersionStringFromMetaPreReleaseParts coercedPartialEndRange endMetaDataPart
          endPreReleasePart)
    else pure (parsedRange, startVersionString, endVersionString)
  finishRange parsedRange startVersionString endVersionString

/-- The test `^*, ^Any` / `~*, ~Any` of the caret and tilde desugaring. -/
def isAnyVersion (split : List String) (versionString : String) : Bool :=
  ContainsOnly split "*" || ContainsOnly split "x" || ContainsOnly split "X" ||
    decide (versionString = "ANY")

/-- Function `parseTildeRange`. -/
def parseTildeRange (literalList : List String) : Except Error Range := do
  let parsedRange : Range := { Range.zero with StartOp := Token.GE }
  let literal1 ← index literalList 1
  let versionString := GetVersionPart literal1
  let metaDataPart := GetMetaDataPart literal1
  let preReleasePart := GetPreReleasePart literal1
  let split := strings.Split versionString '.'
  let (majorString, minorString, patchString) ← splitParts split ""
  if isAnyVersion split versionString then do
    let semver ← ParseSemver "0.0.0"
    pure { parsedRange with StartVersion := semver }
  else do
    let parsedRange := { parsedRange with EndOp := Token.LT }
    let versionString :=
      if patchString = "x" ∨ patchString = "*" then majorString ++ "." ++ minorString
      else versionString
    let (minorString, versionString) :=
      if minorString = "x" ∨ minorString = "*" then ("", majorString)
      else (minorString, versionString)
    let (startVersionString, endVersionString) ←
      if strings.Count versionString '.' = 2 then
        match strconv.Atoi minorString with
        | none => throw Error.ErrInvalidVersion
        | some parsed =>
          pure (getVersionStringFromMetaPreReleaseParts versionString metaDataPart
              preReleasePart,
            majorString ++ "." ++ formatInt (increment parsed) ++ ".0")
      else pure ("", "")
    let (startVersionString, endVersionString) ←
      if strings.Count versionString '.' = 1 then
        match strconv.Atoi minorString with
        | none => throw Error.ErrInvalidVersion
        | some parsed =>
          pure (getVersionStringFromMetaPreReleaseParts (versionString ++ ".0") metaDataPart
              preReleasePart,
            majorString ++ "." ++ formatInt (increment parsed) ++ ".0")
      else pure (startVersionString, endVersionString)
    let (startVersionString, endVersionString) ←
      if strings.Count versionString '.' = 0 then
        match strconv.Atoi versionString with
        | none => throw Error.ErrInvalidVersion
        | some parsed =>
          pure (getVersionStringFromMetaPreReleaseParts (versionString ++ ".0.0") metaDataPart
              preReleasePart,
            formatInt (increment parsed) ++ ".0.0")
      else pure (startVersionString, endVersionString)
    finishRange parsedRange startVersionString endVersionString

/-- The end version string of `parseCaretRange` after the start is fixed: the
next value of the left-most of major and minor that is not `"0"`, else of
`lastString`. -/
def caretEnd (majorString minorString lastString : String) (bumpPatch : Bool) :
    Except Error String :=
  if majorString ≠ "0" then
    match strconv.Atoi majorString with
    | none => throw Error.ErrInvalidVersion
    | some parsed =>
      pure (getVersionStringFromParts (formatInt (increment parsed)) "0" "0" "" "")
  else if minorString ≠ "0" then
    match strconv.Atoi minorString with
    | none => throw Error.ErrInvalidVersion
    | some parsed =>
      pure (getVersionStringFromParts majorString (formatInt (increment parsed)) "0" "" "")
  else
    match strconv.Atoi lastString with
    | none => throw Error.ErrInvalidVersion
    | some parsed =>
      if bumpPatch then
        pure (getVersionStringFromParts majorString minorString (formatInt (increment parsed))
          "" "")
      else
        pure (getVersionStringFromParts majorString (formatInt (increment parsed)) "0" "" "")

/-- Function `parseCaretRange`. -/
def parseCaretRange (literalList : List String) : Except Error Range := do
  let parsedRange : Range := { Range.zero with StartOp := Token.GE }
  let literal1 ← index literalList 1
  let versionString := GetVersionPart literal1
  let metaDataPart := GetMetaDataPart literal1
  let preReleasePart := GetPreReleasePart literal1
  let split := strings.Split versionString '.'
  let (majorString, minorString, patchString) ← splitParts split ""
  if isAnyVersion split versionString then do
    let semver ← ParseSemver "0.0.0"
    pure { parsedRange with StartOp := Token.GE, StartVersion := semver }
  else do
    let patchString := if patchString = "*" ∨ patchString = "" then "x" else patchString
    let minorString := if minorString = "*" ∨ minorString = "" then "x" else minorString
    let majorString := if majorString = "*" ∨ majorString = "" then "x" else majorString
    let parsedRange := { parsedRange with EndOp := Token.LT }
    let (startVersionString, endVersionString) ←
      if minorString = "x" ∧ patchString = "x" then
        match strconv.Atoi majorString with
        | none => throw Error.ErrInvalidVersion
        | some parsed =>
          pure (getVersionStringFromParts majorString "0" "0" metaDataPart preReleasePart,
            getVersionStringFromParts (formatInt (increment parsed)) "0" "0" "" "")
      else if patchString = "x" then do
        let endVersionString ← caretEnd majorString minorString minorString false
        pure (majorString ++ "." ++ minorString ++ ".0", endVersionString)
      else do
        let endVersionString ← caretEnd majorString minorString patchString true
        pure (getVersionStringFromParts majorString minorString patchString metaDataPart
            preReleasePart,
          endVersionString)
    finishRange parsedRange startVersionString endVersionString

/-- Function `parsePartsOrZero`. -/
def parsePartsOrZero (versionString : String) : Except Error String := do
  let originalVersion := versionString
  let versionString := GetVersionPart originalVersion
  let metaDataPart := GetMetaDataPart originalVersion
  let preReleasePart := GetPreReleasePart originalVersion
  let split := strings.Split versionString '.'
  let (majorString, minorString, patchString) ← splitParts split "0"
  pure (getVersionStringFromParts majorString minorString patchString metaDataPart
    preReleasePart)

/-- Function `parseStaticRange`. -/
def parseStaticRange (tokenList : List Token) (literalList : List String) :
    Except Error Range := do
  let startOp ← index tokenList 0
  let parsedRange : Range := { Range.zero with StartOp := startOp }
  let literal1 ← index literalList 1
  let startVersionString ← parsePartsOrZero literal1
  let semver ← ParseSemver startVersionString
  pure { parsedRange with StartVersion := semver }

/-- The three `strings.ReplaceAll` calls of `parseRange`. -/
def zeroWildcards (versionString : String) : String :=
  strings.ReplaceAll (strings.ReplaceAll (strings.ReplaceAll versionString 'x' '0') 'X' '0')
    '*' '0'

/-- Function `parseRange`. -/
def parseRange (tokenList : List Token) (literalList : List String) : Except Error Range := do
  let parsedRange : Range := Range.zero
  if literalList.length = 2 then do
    let startOp ← index tokenList 0
    let literal1 ← index literalList 1
    let startVersionString ← parsePartsOrZero literal1
    let semver ← ParseSemver (zeroWildcards startVersionString)
    pure { parsedRange with StartOp := startOp, StartVersion := semver }
  else if literalList.length = 4 then do
    let startOp ← index tokenList 0
    let literal1 ← index literalList 1
    let startVersionString ← parsePartsOrZero literal1
    let startVersion ← ParseSemver (zeroWildcards startVersionString)
    let endOp ← index tokenList 2
    let literal3 ← index literalList 3
    let endVersionString ← parsePartsOrZero literal3
    let endVersion ← ParseSemver (zeroWildcards endVersionString)
    pure { parsedRange with
      StartOp := startOp, StartVersion := startVersion, EndOp := endOp,
      EndVersion := endVersion }
  else throw Error.invalidRange

/-- Function `parseXRange`. -/
def parseXRange (literalList : List String) : Except Error Range := do
  let parsedRange : Range := { Range.zero with StartOp := Token.GE }
  let versionString ←
    if literalList.length > 0 then (do let l ← index literalList 0; pure (GetVersionPart l))
    else pure ""
  let split := strings.Split versionString '.'
  let (majorString, minorString, patchString) ← splitParts split ""
  if versionString = "" ∨ versionString = "*" ∨ versionString = "ANY" ∨
      ContainsOnly split "*" ∨ ContainsOnly split "x" ∨ ContainsOnly split "X" then do
    let semver ← ParseSemver "0.0.0"
    pure { parsedRange with StartVersion := semver }
  else do
    let (startVersionString, endVersionString) ←
      if minorString = "" ∨ minorString = "x" ∨ minorString = "*" then
        match strconv.Atoi majorString with
        | none => throw Error.ErrInvalidVersion
        | some parsed =>
          pure (majorString ++ ".0.0", formatInt (increment parsed) ++ ".0.0")
      else if patchString = "" ∨ patchString = "x" ∨ patchString = "*" then
        match strconv.Atoi minorString with
        | none => throw Error.ErrInvalidVersion
        | some parsed =>
          pure (majorString ++ "." ++ minorString ++ ".0",
            majorString ++ "." ++ formatInt (increment parsed) ++ ".0")
      else pure ("", "")
    let semver ← ParseSemver startVersionString
    let parsedRange := { parsedRange with StartVersion := semver }
    if endVersionString ≠ "" then do
      let semver ← ParseSemver endVersionString
      pure { parsedRange with EndOp := Token.LT, EndVersion := semver }
    else pure parsedRange

/-- Function `parseSubConstraint`. -/
def parseSubConstraint (tokens : List Token) (literals : List String) : Except Error Range := do
  if isHyphenatedRange tokens then parseHyphen literals
  else if isCaretRange tokens then parseCaretRange literals
  else if isTildeRange tokens then parseTildeRange literals
  else if isRange tokens then parseRange tokens literals
  else if (← isStaticRange tokens literals) then parseStaticRange tokens literals
  else if (← isPartialRange tokens literals) then parseXRange literals
  else if (← isXRange tokens literals) then parseXRange literals
  else throw Error.unknownSubConstraintType

/-- The desugaring loop of `ParseConstraint`: the tokens still to visit, the
index of the first of them, the constraint built so far and the token and
literal lists of the current sub-constraint. -/
def parseConstraintFrom (literals : List String) :
    List Token → Nat → Constraint → List Token → List String → Except Error Constraint
  | [], _, constraint, _, _ => .ok constraint
  | token :: rest, idx, constraint, currentTokenList, currentLiteralList => do
    let literal ← index literals idx
    if token = Token.OR ∨ token = Token.AND then do
      let subConstraint ← parseSubConstraint currentTokenList currentLiteralList
      let constraint :=
        if token = Token.AND then { constraint with Join := constraint.Join ++ [JoinOp.CONJUNCTON] }
        else constraint
      let constraint :=
        if token = Token.OR then { constraint with Join := constraint.Join ++ [JoinOp.DISJUNCTION] }
        else constraint
      parseConstraintFrom literals rest (idx + 1)
        { constraint with Ranges := constraint.Ranges ++ [subConstraint] } [] []
    else if token = Token.EOF then do
      let subConstraint ← parseSubConstraint currentTokenList currentLiteralList
      parseConstraintFrom literals rest (idx + 1)
        { constraint with Ranges := constraint.Ranges ++ [subConstraint] } [] []
    else if token ≠ Token.SOF then
      parseConstraintFrom literals rest (idx + 1) constraint (currentTokenList ++ [token])
        (currentLiteralList ++ [literal])
    else
      parseConstraintFrom literals rest (idx + 1) constraint currentTokenList
        currentLiteralList

/-- Function `ParseConstraint`; an error result stands for the Go pair
`(Constraint{}, err)`.  The text of the error messages is not modelled. -/
def ParseConstraint (constraintString : String) : Except Error Constraint := do
  let (tokens, literals) ← LexConstraint constraintString
  if tokens.contains Token.ILLEGAL ∨ tokens.contains Token.OPEN_PARENTHESIS ∨
      tokens.contains Token.CLOSE_PARENTHESIS then
    throw Error.illegalTokenInConstraint
  validateConstraintComposition tokens literals
  parseConstraintFrom literals tokens 0
    { Original := constraintString, Ranges := [], Join := [] } [] []

/-! ## Notions used to state and prove the properties -/

/-- A three-way comparison with values in `{-1, 0, 1}` that is antisymmetric and
whose "equal" and "less" answers compose. -/
structure Coherent {α : Type} (c : α → α → Int) : Prop where
  vals : ∀ a b, c a b = -1 ∨ c a b = 0 ∨ c a b = 1
  anti : ∀ a b, c b a = -c a b
  eqv : ∀ a b d, c a b = 0 → c a d = c b d
  lt_trans : ∀ a b d, c a b = -1 → c b d = -1 → c a d = -1

/-- The identifier at position `i` of a pre-release tag, `""` beyond its end. -/
def padded (parts : List String) (i : Nat) : String := parts.getD i ""

/-- Three-way comparison of two integers. -/
def intCompare (x y : Int) : Int := if x < y then -1 else if x = y then 0 else 1

/-- Lexicographic combination of two three-way comparisons. -/
def lexCompare {α : Type} (c1 c2 : α → α → Int) (a b : α) : Int :=
  if c1 a b ≠ 0 then c1 a b else c2 a b

/-- The comparison of two versions on their pre-release tags, given equal
`[major, minor, patch]`: the body of `GT`, `LT` and `EQ` after the three numbers. -/
def tagCompare (a b : Semver) : Int :=
  if a.PreReleaseTag = "" ∧ b.PreReleaseTag ≠ "" then 1
  else if a.PreReleaseTag ≠ "" ∧ b.PreReleaseTag = "" then -1
  else comparePreRelease a.PreReleaseTag b.PreReleaseTag

/-- The precedence comparison that `GT`, `LT` and `EQ` implement with
`ignorePreRelease = false`. -/
def precedence : Semver → Semver → Int :=
  lexCompare (fun a b => intCompare a.Major b.Major)
    (lexCompare (fun a b => intCompare a.Minor b.Minor)
      (lexCompare (fun a b => intCompare a.Patch b.Patch) tagCompare))

/-- The join that the loop of `ParseConstraint` records for a join token. -/
def joinOf (token : Token) : JoinOp :=
  if token = Token.AND then JoinOp.CONJUNCTON else JoinOp.DISJUNCTION

/-- Every successful result of a computation satisfies `P`. -/
@[irreducible]
def OkSat {ε α : Type} (P : α → Prop) (x : Except ε α) : Prop := ∀ a, x = .ok a → P a

/-- The struct literal `Semver{Major: .., Minor: .., Patch: .., PreReleaseTag: ..}`. -/
def Semver.ofParts (major minor patch : Int) (tag : String) : Semver :=
  { Semver.zero with Major := major, Minor := minor, Patch := patch, PreReleaseTag := tag }

/-- The constraint that `ParseConstraint` returns for `>=1.0.0 <2.0.0 || ~3.1`. -/
def exampleTwoRanges : Constraint :=
  { Original := ">=1.0.0 <2.0.0 || ~3.1",
      Ranges := [
        { Range.zero with
          StartOp := Token.GE, StartVersion := Semver.ofParts 1 0 0 "",
          EndOp := Token.LT, EndVersion := Semver.ofParts 2 0 0 "" },
        { Range.zero with
          StartOp := Token.GE, StartVersion := Semver.ofParts 3 1 0 "",
          EndOp := Token.LT, EndVersion := Semver.ofParts 3 2 0 "" }],
      Join := [JoinOp.DISJUNCTION] }

/-- The decimal notation of a natural number, as the verb `%d` writes it. -/
def numeral (n : Nat) : String := formatInt (n : Int)

/-- The runes `L` are a decimal notation of `n` (leading zeros allowed), and `n`
fits the Go type `int` of 64 bits. -/
def IsNumeral (L : List Char) (n : Nat) : Prop :=
  L ≠ [] ∧ (∀ c ∈ L, '0' ≤ c ∧ c ≤ '9') ∧ strconv.digitsValue L 0 = some n ∧ n < 2 ^ 63

/-- Method `String` of `Semver`.  It is declared last, so that no other
declaration in the `Semver` namespace reads the name as the string type. -/
def Semver.String (v : Semver) : String :=
  let versionString := formatInt v.Major ++ "." ++ formatInt v.Minor ++ "." ++ formatInt v.Patch
  let versionString :=
    if v.MetaData ≠ "" then versionString ++ "+" ++ v.MetaData else versionString
  let versionString :=
    if v.PreReleaseTag ≠ "" then versionString ++ "-" ++ v.PreReleaseTag else versionString
  versionString

end NodeSemver

namespace NodeSemver

/-! ## The evaluator with its index expression checked -/

/-- The loop of `Satisfies` with the variable `joinIndex` of the source and with
the run-time bounds check of `c.Join[joinIndex]` made explicit: `index` fails
where Go panics.  The operand `c.Join[joinIndex]` is read only when
`idx <= len(c.Join)-1` holds, as `&&` evaluates its right operand only then. -/
def SatisfiesFromChecked (v : Semver) (Join : List JoinOp) (includePreReleases : Bool) :
    List Range → Nat → Int → List Bool → Except Error Bool
  | [], _, _, conjunctedConditions => .ok (ContainsOnly conjunctedConditions true)
  | cRange :: rest, idx, joinIndex, conjunctedConditions => do
    let conjunctedConditions :=
      conjunctedConditions ++ [rangeSatisfied v cRange includePreReleases]
    let joinIndex := joinIndex + 1
    let isDisjunction ←
      if (idx : Int) ≤ (Join.length : Int) - 1 then do
        let join ← index Join joinIndex
        pure (decide (join = JoinOp.DISJUNCTION))
      else pure false
    if isDisjunction then
      if ContainsOnly conjunctedConditions true then pure true
      else SatisfiesFromChecked v Join includePreReleases rest (idx + 1) joinIndex []
    else
      SatisfiesFromChecked v Join includePreReleases rest (idx + 1) joinIndex
        conjunctedConditions

/-- Function `Satisfies` with the bounds check explicit; `joinIndex` starts at `-1`. -/
def SatisfiesChecked (v : Semver) (c : Constraint) (includePreReleases : Bool) :
    Except Error Bool :=
  SatisfiesFromChecked v c.Join includePreReleases c.Ranges 0 (-1) []

end NodeSemver

namespace NodeSemver

/-! ## The precedence order of versions -/

/-- Equal on the right: comparing with `b` or with an equal `d` gives the same. -/
theorem Coherent.eqv_right {α : Type} {c : α → α → Int} (h : Coherent c) (a b d : α)
    (hbd : c b d = 0) : c a d = c a b := by
  have h1 := h.anti b d
  have h2 : c d b = 0 := by omega
  have h3 := h.eqv d b a h2
  have h4 := h.anti a d
  have h5 := h.anti a b
  omega

/-- The relation `c a b ≤ 0` of a coherent comparison is transitive. -/
theorem Coherent.le_trans {α : Type} {c : α → α → Int} (h : Coherent c) (a b d : α)
    (hab : c a b ≤ 0) (hbd : c b d ≤ 0) : c a d ≤ 0 := by
  rcases h.vals a b with h1 | h1 | h1
  · rcases h.vals b d with h2 | h2 | h2
    · have := h.lt_trans a b d h1 h2; omega
    · have := h.eqv_right a b d h2; omega
    · omega
  · have := h.eqv a b d h1; omega
  · omega

/-- The relation `c a b = 1` of a coherent comparison is transitive. -/
theorem Coherent.gt_trans {α : Type} {c : α → α → Int} (h : Coherent c) (a b d : α)
    (hab : c a b = 1) (hbd : c b d = 1) : c a d = 1 := by
  have h1 := h.anti a b
  have h2 := h.anti b d
  have h3 := h.anti a d
  have h4 := h.lt_trans d b a (by omega) (by omega)
  omega

theorem compareRunes_vals (a b : List Char) :
    strings.compareRunes a b = -1 ∨ strings.compareRunes a b = 0 ∨
      strings.compareRunes a b = 1 := by
  induction a generalizing b with
  | nil => cases b <;> simp [strings.compareRunes]
  | cons x xs ih =>
    cases b with
    | nil => simp [strings.compareRunes]
    | cons y ys =>
      simp only [strings.compareRunes]
      split_ifs
      · simp
      · simp
      · exact ih ys

theorem char_lt_iff (a b : Char) : a < b ↔ a.toNat < b.toNat := by
  exact Iff.rfl

theorem char_eq_of_toNat (a b : Char) (h : a.toNat = b.toNat) : a = b := by
  apply Char.ext
  apply UInt32.ext
  exact h
  
theorem compareRunes_anti (a b : List Char) :
    strings.compareRunes b a = -strings.compareRunes a b := by
  induction a generalizing b with
  | nil => cases b <;> simp [strings.compareRunes]
  | cons x xs ih =>
    cases b with
    | nil => simp [strings.compareRunes]
    | cons y ys =>
      simp only [strings.compareRunes, char_lt_iff]
      split_ifs <;> first | omega | simp | exact ih ys

theorem compareRunes_eq_zero (a b : List Char) (h : strings.compareRunes a b = 0) : a = b := by
  induction a generalizing b with
  | nil => cases b <;> simp_all [strings.compareRunes]
  | cons x xs ih =>
    cases b with
    | nil => simp [strings.compareRunes] at h
    | cons y ys =>
      simp only [strings.compareRunes, char_lt_iff] at h
      split_ifs at h with h1 h2
      · omega
      · have e1 := ih ys h
        have e2 := char_eq_of_toNat x y (by omega)
        rw [e1, e2]

theorem compareRunes_lt_trans (a b d : List Char) (h1 : strings.compareRunes a b = -1)
    (h2 : strings.compareRunes b d = -1) : strings.compareRunes a d = -1 := by
  induction a generalizing b d with
  | nil =>
    cases d with
    | nil => cases b <;> simp_all [strings.compareRunes]
    | cons z zs => simp [strings.compareRunes]
  | cons x xs ih =>
    cases b with
    | nil => simp [strings.compareRunes] at h1
    | cons y ys =>
      cases d with
      | nil => simp [strings.compareRunes] at h2
      | cons z zs =>
        simp only [strings.compareRunes, char_lt_iff] at h1 h2 ⊢
        split_ifs at h1 h2 ⊢ <;> first | omega | rfl | exact ih ys zs h1 h2

/-- The rune-wise comparison behind `strings.Compare` is coherent. -/
theorem compareRunes_coherent : Coherent strings.compareRunes where
  vals := compareRunes_vals
  anti := compareRunes_anti
  eqv := by
    intro a b d h
    rw [compareRunes_eq_zero a b h]
  lt_trans := compareRunes_lt_trans

theorem string_eq_of_data (a b : String) (h : a.data = b.data) : a = b := by
  cases a; cases b; simp_all

/-- The comparison of two identifiers is coherent: the empty identifier is lowest,
then the numeric ones by value, then the others by string order. -/
theorem comparePreReleaseIdentifier_coherent : Coherent comparePreReleaseIdentifier where
  vals := by
    intro a b
    unfold comparePreReleaseIdentifier
    split_ifs
    · simp
    · simp
    · simp
    · split
      · split_ifs <;> simp
      · simp
      · simp
      · exact compareRunes_vals _ _
  anti := by
    intro a b
    unfold comparePreReleaseIdentifier
    by_cases hab : a = b
    · subst hab; simp
    · have hba : ¬ b = a := fun h => hab h.symm
      simp only [hab, hba, if_false]
      by_cases ha : a = "" <;> by_cases hb : b = ""
      · exact absurd (ha.trans hb.symm) hab
      · simp [ha, hb]
      · simp [ha, hb]
      · simp only [ha, hb, false_and, and_false, if_false]
        cases h1 : strconv.Atoi a <;> cases h2 : strconv.Atoi b
        · exact compareRunes_anti _ _
        · simp
        · simp
        · simp only
          split_ifs <;> omega
  eqv := by
    intro a b d h
    unfold comparePreReleaseIdentifier at h ⊢
    by_cases hab : a = b
    · subst hab; rfl
    · simp only [hab, if_false] at h
      by_cases ha : a = "" <;> by_cases hb : b = ""
      · exact absurd (ha.trans hb.symm) hab
      · simp [ha, hb] at h
      · simp [ha, hb] at h
      · simp only [ha, hb, false_and, and_false, if_false] at h ⊢
        cases h1 : strconv.Atoi a <;> cases h2 : strconv.Atoi b <;> simp only [h1, h2] at h ⊢
        · exact absurd (string_eq_of_data _ _ (compareRunes_eq_zero _ _ h)) hab
        · simp at h
        · simp at h
        · rename_i n m
          have hnm : n = m := by
            split_ifs at h <;> omega
          subst hnm
          by_cases had : a = d
          · subst had
            have hbd : ¬ b = a := fun h => hab h.symm
            simp [hbd, ha, h1, h2]
          · by_cases hbd : b = d
            · subst hbd
              simp [hab, hb, h1, h2]
            · simp only [had, hbd, if_false]
              by_cases hd : d = ""
              · subst hd; simp [ha, hb]
              · simp only [hd, and_false, if_false]
                cases h3 : strconv.Atoi d <;> simp
  lt_trans := by
    intro a b d h1 h2
    unfold comparePreReleaseIdentifier at h1 h2 ⊢
    by_cases hab : a = b
    · subst hab; simp at h1
    by_cases hbd : b = d
    · subst hbd; simp at h2
    simp only [hab, hbd, if_false] at h1 h2
    by_cases hb : b = ""
    · subst hb
      by_cases ha : a = "" 
      · exact absurd ha hab
      · simp [ha] at h1
    by_cases hd : d = ""
    · subst hd
      simp [hb] at h2
    have had : ¬ a = d := by
      intro had
      subst had
      by_cases ha : a = ""
      · exact absurd ha hd
      · simp only [ha, hb, false_and, and_false, if_false] at h1 h2
        cases e1 : strconv.Atoi a <;> cases e2 : strconv.Atoi b <;> simp only [e1, e2] at h1 h2
        · have := compareRunes_anti a.data b.data
          unfold strings.Compare at h1 h2
          omega
        · simp at h1
        · simp at h2
        · split_ifs at h1 h2
    simp only [had, if_false]
    by_cases ha : a = ""
    · simp [ha, hd]
    · simp only [ha, hb, hd, false_and, and_false, if_false] at h1 h2 ⊢
      cases e1 : strconv.Atoi a <;> cases e2 : strconv.Atoi b <;> cases e3 : strconv.Atoi d <;>
        simp only [e1, e2, e3] at h1 h2 ⊢
      · exact compareRunes_lt_trans _ _ _ h1 h2
      all_goals first
        | (simp at h1; done)
        | (simp at h2; done)
        | rfl
        | (split_ifs at h1 h2 ⊢ <;> omega)

theorem padded_of_le (parts : List String) (i : Nat) (h : parts.length ≤ i) :
    padded parts i = "" := by
  unfold padded
  rw [List.getD_eq_getElem?_getD, List.getElem?_eq_none h]
  rfl

/-- One round of the loop, on the padded identifiers. -/
theorem comparePreReleaseFrom_step (p1 p2 : List String) (n i : Nat) :
    comparePreReleaseFrom p1 p2 (n + 1) i =
      if comparePreReleaseIdentifier (padded p1 i) (padded p2 i) ≠ 0 then
        comparePreReleaseIdentifier (padded p1 i) (padded p2 i)
      else comparePreReleaseFrom p1 p2 n (i + 1) := by
  have e1 : (if i < p1.length then p1.getD i "" else "") = padded p1 i := by
    split_ifs with h
    · rfl
    · exact (padded_of_le p1 i (by omega)).symm
  have e2 : (if i < p2.length then p2.getD i "" else "") = padded p2 i := by
    split_ifs with h
    · rfl
    · exact (padded_of_le p2 i (by omega)).symm
  simp only [comparePreReleaseFrom, e1, e2]

theorem comparePreReleaseFrom_vals (p1 p2 : List String) (n i : Nat) :
    comparePreReleaseFrom p1 p2 n i = -1 ∨ comparePreReleaseFrom p1 p2 n i = 0 ∨
      comparePreReleaseFrom p1 p2 n i = 1 := by
  induction n generalizing i with
  | zero => simp [comparePreReleaseFrom]
  | succ n ih =>
    rw [comparePreReleaseFrom_step]
    split_ifs
    · exact comparePreReleaseIdentifier_coherent.vals _ _
    · exact ih _

theorem comparePreReleaseFrom_anti (p1 p2 : List String) (n i : Nat) :
    comparePreReleaseFrom p2 p1 n i = -comparePreReleaseFrom p1 p2 n i := by
  induction n generalizing i with
  | zero => simp [comparePreReleaseFrom]
  | succ n ih =>
    rw [comparePreReleaseFrom_step, comparePreReleaseFrom_step]
    have h := comparePreReleaseIdentifier_coherent.anti (padded p1 i) (padded p2 i)
    split_ifs <;> first | omega | exact h | exact ih _

theorem comparePreReleaseFrom_eqv (p1 p2 p3 : List String) (n i : Nat)
    (h : comparePreReleaseFrom p1 p2 n i = 0) :
    comparePreReleaseFrom p1 p3 n i = comparePreReleaseFrom p2 p3 n i := by
  induction n generalizing i with
  | zero => simp [comparePreReleaseFrom]
  | succ n ih =>
    rw [comparePreReleaseFrom_step] at h
    rw [comparePreReleaseFrom_step, comparePreReleaseFrom_step]
    split_ifs at h with h0
    · exact absurd h h0
    · have h0' : comparePreReleaseIdentifier (padded p1 i) (padded p2 i) = 0 := by
        by_contra hc; exact h0 hc
      rw [comparePreReleaseIdentifier_coherent.eqv _ _ (padded p3 i) h0', ih _ h]

theorem comparePreReleaseFrom_lt_trans (p1 p2 p3 : List String) (n i : Nat)
    (h1 : comparePreReleaseFrom p1 p2 n i = -1) (h2 : comparePreReleaseFrom p2 p3 n i = -1) :
    comparePreReleaseFrom p1 p3 n i = -1 := by
  induction n generalizing i with
  | zero => simp [comparePreReleaseFrom] at h1
  | succ n ih =>
    rw [comparePreReleaseFrom_step] at h1 h2 ⊢
    have C := comparePreReleaseIdentifier_coherent
    by_cases e12 : comparePreReleaseIdentifier (padded p1 i) (padded p2 i) = 0
    · rw [C.eqv _ _ (padded p3 i) e12]
      simp only [e12, ne_eq, not_true_eq_false, if_false] at h1
      by_cases e23 : comparePreReleaseIdentifier (padded p2 i) (padded p3 i) = 0
      · simp only [e23, ne_eq, not_true_eq_false, if_false] at h2 ⊢
        exact ih _ h1 h2
      · simp only [ne_eq, e23, not_false_eq_true, if_true] at h2 ⊢
        exact h2
    · simp only [ne_eq, e12, not_false_eq_true, if_true] at h1
      by_cases e23 : comparePreReleaseIdentifier (padded p2 i) (padded p3 i) = 0
      · rw [C.eqv_right _ _ _ e23]
        simp only [ne_eq, e12, not_false_eq_true, if_true]
        exact h1
      · simp only [ne_eq, e23, not_false_eq_true, if_true] at h2
        have := C.lt_trans _ _ _ h1 h2
        simp [this]

/-- Rounds beyond the end of both tags compare `""` with `""` and change nothing. -/
theorem comparePreReleaseFrom_extend (p1 p2 : List String) (n m i : Nat)
    (h1 : p1.length ≤ i + n) (h2 : p2.length ≤ i + n) :
    comparePreReleaseFrom p1 p2 (n + m) i = comparePreReleaseFrom p1 p2 n i := by
  induction n generalizing i with
  | zero =>
    simp only [Nat.zero_add, comparePreReleaseFrom]
    induction m generalizing i with
    | zero => rfl
    | succ m ihm =>
      rw [comparePreReleaseFrom_step, padded_of_le p1 i (by omega), padded_of_le p2 i (by omega)]
      simp only [comparePreReleaseIdentifier, if_true, ne_eq, not_true_eq_false, if_false]
      exact ihm (i + 1) (by omega) (by omega)
  | succ n ih =>
    have e : n + 1 + m = (n + m) + 1 := by omega
    rw [e, comparePreReleaseFrom_step, comparePreReleaseFrom_step, ih (i + 1) (by omega) (by omega)]

/-- The function `comparePreRelease` is the loop run for any number of rounds that
covers both tags. -/
theorem comparePreRelease_eq_from (a b : String) (N : Nat)
    (h1 : (strings.Split a '.').length ≤ N) (h2 : (strings.Split b '.').length ≤ N) :
    comparePreRelease a b =
      comparePreReleaseFrom (strings.Split a '.') (strings.Split b '.') N 0 := by
  unfold comparePreRelease
  simp only
  set p1 := strings.Split a '.'
  set p2 := strings.Split b '.'
  set n := if p2.length > p1.length then p2.length else p1.length with hn
  have hn1 : p1.length ≤ n := by rw [hn]; split_ifs <;> omega
  have hn2 : p2.length ≤ n := by rw [hn]; split_ifs <;> omega
  have hnN : n ≤ N := by rw [hn]; split_ifs <;> omega
  obtain ⟨m, rfl⟩ : ∃ m, N = n + m := ⟨N - n, by omega⟩
  rw [comparePreReleaseFrom_extend p1 p2 n m 0 (by omega) (by omega)]

/-- The comparison of two pre-release tags is coherent. -/
theorem comparePreRelease_coherent : Coherent comparePreRelease where
  vals := by
    intro a b
    rw [comparePreRelease_eq_from a b _ (le_max_left _ _) (le_max_right _ _)]
    exact comparePreReleaseFrom_vals _ _ _ _
  anti := by
    intro a b
    rw [comparePreRelease_eq_from a b _ (le_max_left _ _) (le_max_right _ _),
      comparePreRelease_eq_from b a _ (le_max_right _ _) (le_max_left _ _)]
    exact comparePreReleaseFrom_anti _ _ _ _
  eqv := by
    intro a b d h
    let N := max (strings.Split a '.').length
      (max (strings.Split b '.').length (strings.Split d '.').length)
    have ha : (strings.Split a '.').length ≤ N := le_max_left _ _
    have hb : (strings.Split b '.').length ≤ N :=
      le_trans (le_max_left _ _) (le_max_right _ _)
    have hd : (strings.Split d '.').length ≤ N :=
      le_trans (le_max_right _ _) (le_max_right _ _)
    rw [comparePreRelease_eq_from a b N ha hb] at h
    rw [comparePreRelease_eq_from a d N ha hd, comparePreRelease_eq_from b d N hb hd]
    exact comparePreReleaseFrom_eqv _ _ _ _ _ h
  lt_trans := by
    intro a b d h1 h2
    let N := max (strings.Split a '.').length
      (max (strings.Split b '.').length (strings.Split d '.').length)
    have ha : (strings.Split a '.').length ≤ N := le_max_left _ _
    have hb : (strings.Split b '.').length ≤ N :=
      le_trans (le_max_left _ _) (le_max_right _ _)
    have hd : (strings.Split d '.').length ≤ N :=
      le_trans (le_max_right _ _) (le_max_right _ _)
    rw [comparePreRelease_eq_from a b N ha hb] at h1
    rw [comparePreRelease_eq_from b d N hb hd] at h2
    rw [comparePreRelease_eq_from a d N ha hd]
    exact comparePreReleaseFrom_lt_trans _ _ _ _ _ h1 h2

/-- Comparing by an integer key is coherent. -/
theorem intCompare_coherent {α : Type} (f : α → Int) :
    Coherent (fun a b => intCompare (f a) (f b)) where
  vals := by intro a b; simp only [intCompare]; split_ifs <;> simp
  anti := by intro a b; simp only [intCompare]; split_ifs <;> omega
  eqv := by
    intro a b d h
    simp only [intCompare] at h ⊢
    split_ifs at h ⊢ <;> omega
  lt_trans := by
    intro a b d h1 h2
    simp only [intCompare] at h1 h2 ⊢
    split_ifs at h1 h2 ⊢ <;> omega

/-- The lexicographic combination of two coherent comparisons is coherent. -/
theorem Coherent.lex {α : Type} {c1 c2 : α → α → Int} (h1 : Coherent c1) (h2 : Coherent c2) :
    Coherent (lexCompare c1 c2) where
  vals := by
    intro a b
    unfold lexCompare
    split_ifs
    · exact h1.vals a b
    · exact h2.vals a b
  anti := by
    intro a b
    unfold lexCompare
    have e := h1.anti a b
    split_ifs <;> first | omega | exact e | exact h2.anti a b
  eqv := by
    intro a b d h
    unfold lexCompare at h ⊢
    split_ifs at h with h0
    · exact absurd h h0
    · have h0' : c1 a b = 0 := by by_contra hc; exact h0 hc
      rw [h1.eqv a b d h0', h2.eqv a b d h]
  lt_trans := by
    intro a b d e1 e2
    unfold lexCompare at e1 e2 ⊢
    by_cases e12 : c1 a b = 0
    · rw [h1.eqv a b d e12]
      simp only [e12, ne_eq, not_true_eq_false, if_false] at e1
      by_cases e23 : c1 b d = 0
      · simp only [e23, ne_eq, not_true_eq_false, if_false] at e2 ⊢
        exact h2.lt_trans _ _ _ e1 e2
      · simp only [ne_eq, e23, not_false_eq_true, if_true] at e2 ⊢
        exact e2
    · simp only [ne_eq, e12, not_false_eq_true, if_true] at e1
      by_cases e23 : c1 b d = 0
      · rw [h1.eqv_right _ _ _ e23]
        simp only [ne_eq, e12, not_false_eq_true, if_true]
        exact e1
      · simp only [ne_eq, e23, not_false_eq_true, if_true] at e2
        have := h1.lt_trans _ _ _ e1 e2
        simp [this]

/-- The comparison on pre-release tags, with the empty tag highest, is coherent. -/
theorem tagCompare_coherent : Coherent tagCompare where
  vals := by
    intro a b
    unfold tagCompare
    split_ifs
    · simp
    · simp
    · exact comparePreRelease_coherent.vals _ _
  anti := by
    intro a b
    unfold tagCompare
    have e := comparePreRelease_coherent.anti a.PreReleaseTag b.PreReleaseTag
    split_ifs <;> first | omega | exact e | simp_all
  eqv := by
    intro a b d h
    unfold tagCompare at h ⊢
    have e := comparePreRelease_coherent.eqv a.PreReleaseTag b.PreReleaseTag d.PreReleaseTag
    split_ifs at h ⊢ <;> first | omega | exact e h | simp_all
  lt_trans := by
    intro a b d h1 h2
    unfold tagCompare at h1 h2 ⊢
    have e := comparePreRelease_coherent.lt_trans a.PreReleaseTag b.PreReleaseTag d.PreReleaseTag
    split_ifs at h1 h2 ⊢ <;> first | omega | exact e h1 h2 | simp_all

/-- The precedence comparison of versions is coherent. -/
theorem precedence_coherent : Coherent precedence :=
  (intCompare_coherent _).lex ((intCompare_coherent _).lex ((intCompare_coherent _).lex
    tagCompare_coherent))

/-- The precedence comparison written as the chain of tests of the methods. -/
theorem precedence_eq (a b : Semver) :
    precedence a b =
      if a.Major ≠ b.Major then (if a.Major < b.Major then -1 else 1)
      else if a.Minor ≠ b.Minor then (if a.Minor < b.Minor then -1 else 1)
      else if a.Patch ≠ b.Patch then (if a.Patch < b.Patch then -1 else 1)
      else tagCompare a b := by
  simp only [precedence, lexCompare, intCompare]
  by_cases hM : a.Major = b.Major
  · by_cases hm : a.Minor = b.Minor
    · by_cases hp : a.Patch = b.Patch
      · simp [hM, hm, hp]
      · by_cases hp2 : a.Patch < b.Patch <;> simp [hM, hm, hp, hp2]
    · by_cases hm2 : a.Minor < b.Minor <;> simp [hM, hm, hm2]
  · by_cases hM2 : a.Major < b.Major <;> simp [hM, hM2]

/-- Method `GT` with `ignorePreRelease = false` is precedence `1`. -/
theorem GT_false_iff (a b : Semver) : a.GT b false = true ↔ precedence a b = 1 := by
  have hv := comparePreRelease_coherent.vals a.PreReleaseTag b.PreReleaseTag
  rw [precedence_eq]
  unfold Semver.GT
  by_cases hM : a.Major = b.Major
  · by_cases hm : a.Minor = b.Minor
    · by_cases hp : a.Patch = b.Patch
      · simp only [hM, hm, hp, ne_eq, not_true_eq_false, if_false, tagCompare, Bool.false_eq_true]
        split_ifs <;> simp_all
      · simp only [hM, hm, hp, ne_eq, not_true_eq_false, not_false_eq_true, if_true, if_false]
        split_ifs <;> simp <;> omega
    · simp only [hM, hm, ne_eq, not_true_eq_false, not_false_eq_true, if_true, if_false]
      split_ifs <;> simp <;> omega
  · simp only [hM, ne_eq, not_false_eq_true, if_true]
    split_ifs <;> simp <;> omega

/-- Method `LT` with `ignorePreRelease = false` is precedence `-1`. -/
theorem LT_false_iff (a b : Semver) : a.LT b false = true ↔ precedence a b = -1 := by
  have hv := comparePreRelease_coherent.vals a.PreReleaseTag b.PreReleaseTag
  rw [precedence_eq]
  unfold Semver.LT
  by_cases hM : a.Major = b.Major
  · by_cases hm : a.Minor = b.Minor
    · by_cases hp : a.Patch = b.Patch
      · simp only [hM, hm, hp, ne_eq, not_true_eq_false, if_false, tagCompare, Bool.false_eq_true]
        split_ifs <;> simp_all
      · simp only [hM, hm, hp, ne_eq, not_true_eq_false, not_false_eq_true, if_true, if_false]
        split_ifs <;> simp <;> omega
    · simp only [hM, hm, ne_eq, not_true_eq_false, not_false_eq_true, if_true, if_false]
      split_ifs <;> simp <;> omega
  · simp only [hM, ne_eq, not_false_eq_true, if_true]
    split_ifs <;> simp <;> omega

/-- Method `EQ` with `ignorePreRelease = false` is precedence `0`. -/
theorem EQ_false_iff (a b : Semver) : a.EQ b false = true ↔ precedence a b = 0 := by
  have hv := comparePreRelease_coherent.vals a.PreReleaseTag b.PreReleaseTag
  rw [precedence_eq]
  unfold Semver.EQ
  by_cases hM : a.Major = b.Major
  · by_cases hm : a.Minor = b.Minor
    · by_cases hp : a.Patch = b.Patch
      · simp only [hM, hm, hp, ne_eq, not_true_eq_false, if_false, tagCompare, or_self,
          Bool.false_eq_true]
        split_ifs <;> simp_all
      · simp only [hM, hm, hp, ne_eq, not_true_eq_false, not_false_eq_true, if_true, if_false,
          or_true, false_or]
        split_ifs <;> simp
    · simp only [hM, hm, ne_eq, not_true_eq_false, not_false_eq_true, if_true, if_false,
        or_true, true_or, false_or]
      split_ifs <;> simp
  · simp only [hM, ne_eq, not_false_eq_true, if_true, true_or]
    split_ifs <;> simp

/-- Method `Compare` with `ignorePreRelease = false` is the precedence comparison. -/
theorem Compare_false_eq (a b : Semver) : a.Compare b false = precedence a b := by
  unfold Semver.Compare
  rcases precedence_coherent.vals a b with h | h | h
  · have h1 : ¬ (a.EQ b false = true) := by rw [EQ_false_iff]; omega
    have h2 : ¬ (a.GT b false = true) := by rw [GT_false_iff]; omega
    simp [h1, h2, h]
  · have h1 : a.EQ b false = true := by rw [EQ_false_iff]; exact h
    simp [h1, h]
  · have h1 : ¬ (a.EQ b false = true) := by rw [EQ_false_iff]; omega
    have h2 : a.GT b false = true := by rw [GT_false_iff]; exact h
    simp [h1, h2, h]

theorem EQ_true_eq (a b : Semver) :
    a.EQ b true = decide (a.Major = b.Major ∧ a.Minor = b.Minor ∧ a.Patch = b.Patch) := by
  unfold Semver.EQ
  by_cases hM : a.Major = b.Major <;> by_cases hm : a.Minor = b.Minor <;>
    by_cases hp : a.Patch = b.Patch <;> simp [hM, hm, hp]

theorem GT_true_eq_LT (a b : Semver) : a.GT b true = b.LT a true := by
  unfold Semver.GT Semver.LT
  by_cases hM : a.Major = b.Major
  · by_cases hm : a.Minor = b.Minor
    · by_cases hp : a.Patch = b.Patch
      · simp [hM, hm, hp]
      · have hp2 : ¬ b.Patch = a.Patch := fun h => hp h.symm
        simp [hM, hm, hp, hp2]
    · have hm2 : ¬ b.Minor = a.Minor := fun h => hm h.symm
      simp [hM, hm, hm2]
  · have hM2 : ¬ b.Major = a.Major := fun h => hM h.symm
    simp [hM, hM2]

theorem Compare_true_anti (a b : Semver) : a.Compare b true = -(b.Compare a true) := by
  unfold Semver.Compare
  rw [EQ_true_eq a b, EQ_true_eq b a]
  unfold Semver.GT
  by_cases hM : a.Major = b.Major
  · by_cases hm : a.Minor = b.Minor
    · by_cases hp : a.Patch = b.Patch
      · simp [hM, hm, hp]
      · have hp2 : ¬ b.Patch = a.Patch := fun h => hp h.symm
        simp only [hM, hm, hp, hp2, and_false, and_true, true_and, decide_False, decide_True,
          if_false, ne_eq, not_true_eq_false, not_false_eq_true, if_true, Bool.false_eq_true,
          decide_eq_true_eq]
        split_ifs <;> omega
    · have hm2 : ¬ b.Minor = a.Minor := fun h => hm h.symm
      simp only [hM, hm, hm2, and_false, and_true, true_and, false_and, decide_False,
        decide_True, if_false, ne_eq, not_true_eq_false, not_false_eq_true, if_true,
        Bool.false_eq_true, decide_eq_true_eq]
      split_ifs <;> omega
  · have hM2 : ¬ b.Major = a.Major := fun h => hM h.symm
    simp only [hM, hM2, and_false, and_true, true_and, false_and, decide_False,
      decide_True, if_false, ne_eq, not_true_eq_false, not_false_eq_true, if_true,
      Bool.false_eq_true, decide_eq_true_eq]
    split_ifs <;> omega

/-! ## The evaluator -/

/-- Joins in front of the ones the loop reads only shift the index. -/
theorem SatisfiesFrom_shift (v : Semver) (pre J : List JoinOp) (f : Bool) (rs : List Range)
    (i : Nat) (conj : List Bool) :
    SatisfiesFrom v (pre ++ J) f rs (pre.length + i) conj = SatisfiesFrom v J f rs i conj := by
  induction rs generalizing i conj with
  | nil => rfl
  | cons r rs ih =>
    simp only [SatisfiesFrom]
    have hg : (((pre.length + i : Nat) : Int) ≤ ((pre ++ J).length : Int) - 1) ↔
        ((i : Int) ≤ (J.length : Int) - 1) := by
      simp only [List.length_append]
      omega
    have hget : (pre ++ J).get? (pre.length + i) = J.get? i := by
      simp [List.getElem?_append_right]
    rw [hget]
    simp only [hg]
    have e : pre.length + i + 1 = pre.length + (i + 1) := by omega
    rw [e, ih, ih]

/-- The run of the loop over the ranges of `A`, then a `DISJUNCTION`, then more
ranges. -/
theorem SatisfiesFrom_disjunction (v : Semver) (JA JB : List JoinOp) (f : Bool)
    (rsA rsB : List Range) (i : Nat) (conj : List Bool) (hne : rsA ≠ [])
    (hlen : i + rsA.length = JA.length + 1) :
    SatisfiesFrom v (JA ++ [JoinOp.DISJUNCTION] ++ JB) f (rsA ++ rsB) i conj =
      (SatisfiesFrom v JA f rsA i conj ||
        SatisfiesFrom v (JA ++ [JoinOp.DISJUNCTION] ++ JB) f rsB (JA.length + 1) []) := by
  induction rsA generalizing i conj with
  | nil => exact absurd rfl hne
  | cons r rs ih =>
    cases rs with
    | nil =>
      simp only [List.length_singleton] at hlen
      have hi : i = JA.length := by omega
      subst hi
      simp only [List.cons_append, List.nil_append, SatisfiesFrom]
      have hgA : ¬ (((JA.length : Nat) : Int) ≤ (JA.length : Int) - 1) := by omega
      have hgC : (((JA.length : Nat) : Int) ≤
          ((JA ++ [JoinOp.DISJUNCTION] ++ JB).length : Int) - 1) := by
        simp only [List.length_append, List.length_singleton]
        omega
      have hget : (JA ++ [JoinOp.DISJUNCTION] ++ JB).get? JA.length =
          some JoinOp.DISJUNCTION := by
        rw [List.append_assoc, List.get?_eq_getElem?, List.getElem?_append_right (le_refl _)]
        simp
      simp only [hgA, hgC, hget, false_and, and_self, if_true, if_false]
      cases ContainsOnly (conj ++ [rangeSatisfied v r f]) true <;> simp
    | cons r2 rs2 =>
      simp only [List.length_cons] at hlen
      have hi : i < JA.length := by omega
      have step := ih (i + 1) 
      simp only [List.cons_append, SatisfiesFrom] at step ⊢
      have hgA : ((i : Int) ≤ (JA.length : Int) - 1) := by omega
      have hgC : ((i : Int) ≤ ((JA ++ [JoinOp.DISJUNCTION] ++ JB).length : Int) - 1) := by
        simp only [List.length_append, List.length_singleton]
        omega
      have hget : (JA ++ [JoinOp.DISJUNCTION] ++ JB).get? i = JA.get? i := by
        simp [List.getElem?_append_left, hi]
      simp only [hgA, hgC, hget, true_and]
      have hl : i + 1 + (rs2.length + 1) = JA.length + 1 := by omega
      by_cases hd : JA.get? i = some JoinOp.DISJUNCTION
      · simp only [hd, if_true]
        cases hc : ContainsOnly (conj ++ [rangeSatisfied v r f]) true
        · simp only [Bool.false_eq_true, if_false]
          exact step [] (by simp) (by simp; omega)
        · simp
      · simp only [hd, if_false]
        exact step _ (by simp) (by simp; omega)

/-- C1: when `A` has at least one range and one join fewer than ranges, the
constraint with ranges `A.Ranges ++ B.Ranges` and joins
`A.Join ++ [DISJUNCTION] ++ B.Join` is satisfied exactly when `A` or `B` is, for
every version and flag. -/
theorem C1_Satisfies_disjunction (v : Semver) (f : Bool) (A B : Constraint) (original : String)
    (hne : A.Ranges ≠ []) (hlen : A.Join.length = A.Ranges.length - 1) :
    Satisfies v
        { Original := original, Ranges := A.Ranges ++ B.Ranges,
          Join := A.Join ++ [JoinOp.DISJUNCTION] ++ B.Join } f =
      (Satisfies v A f || Satisfies v B f) := by
  unfold Satisfies
  simp only
  have hpos : 0 < A.Ranges.length := List.length_pos.mpr hne
  rw [SatisfiesFrom_disjunction v A.Join B.Join f A.Ranges B.Ranges 0 [] hne (by omega)]
  have e := SatisfiesFrom_shift v (A.Join ++ [JoinOp.DISJUNCTION]) B.Join f B.Ranges 0 []
  simp only [List.length_append, List.length_singleton, Nat.add_zero] at e
  rw [e]

/-- Witness for C1: `>=5.0.0 || =1.0.0` on the version `1.0.0`. -/
theorem C1_Satisfies_disjunction_witness :
    ([{ Range.zero with StartOp := Token.GE, StartVersion := Semver.ofParts 5 0 0 "" }] :
        List Range) ≠ [] ∧
      ([] : List JoinOp).length =
        ([{ Range.zero with StartOp := Token.GE, StartVersion := Semver.ofParts 5 0 0 "" }] :
          List Range).length - 1 ∧
      Satisfies (Semver.ofParts 1 0 0 "")
          { Original := ">=5.0.0 || =1.0.0",
            Ranges :=
              [{ Range.zero with StartOp := Token.GE, StartVersion := Semver.ofParts 5 0 0 "" }] ++
                [{ Range.zero with StartOp := Token.EQ, StartVersion := Semver.ofParts 1 0 0 "" }],
            Join := [] ++ [JoinOp.DISJUNCTION] ++ [] } false =
        (Satisfies (Semver.ofParts 1 0 0 "")
            { Original := ">=5.0.0",
              Ranges :=
                [{ Range.zero with StartOp := Token.GE, StartVersion := Semver.ofParts 5 0 0 "" }],
              Join := [] } false ||
          Satisfies (Semver.ofParts 1 0 0 "")
            { Original := "=1.0.0",
              Ranges :=
                [{ Range.zero with StartOp := Token.EQ, StartVersion := Semver.ofParts 1 0 0 "" }],
              Join := [] } false) :=
  ⟨by decide, by decide,
    C1_Satisfies_disjunction (Semver.ofParts 1 0 0 "") false
      { Original := ">=5.0.0",
        Ranges :=
          [{ Range.zero with StartOp := Token.GE, StartVersion := Semver.ofParts 5 0 0 "" }],
        Join := [] }
      { Original := "=1.0.0",
        Ranges :=
          [{ Range.zero with StartOp := Token.EQ, StartVersion := Semver.ofParts 1 0 0 "" }],
        Join := [] }
      ">=5.0.0 || =1.0.0" (by decide) (by decide)⟩

/-- A constraint of one range and no join is satisfied exactly when its range is. -/
theorem Satisfies_single (v : Semver) (r : Range) (original : String) (f : Bool) :
    Satisfies v { Original := original, Ranges := [r], Join := [] } f = rangeSatisfied v r f := by
  simp only [Satisfies, SatisfiesFrom, List.length_nil, List.nil_append]
  have hg : ¬ (((0 : Nat) : Int) ≤ ((0 : Nat) : Int) - 1) := by omega
  simp only [hg, false_and, if_false, ContainsOnly]
  cases rangeSatisfied v r f <;> simp

/-- For a single range whose two endpoints both differ from `Semver{}`, and without
any pre-release tag, `Satisfies` is the lower-bound test and the upper-bound test. -/
theorem Satisfies_two_bounds (v : Semver) (r : Range) (original : String)
    (hv : v.PreReleaseTag = "") (hs : r.StartVersion.PreReleaseTag = "")
    (he : r.EndVersion.PreReleaseTag = "")
    (hso : r.StartOp = Token.GT ∨ r.StartOp = Token.GE)
    (heo : r.EndOp = Token.LT ∨ r.EndOp = Token.LE)
    (hsz : r.StartVersion ≠ Semver.zero) (hez : r.EndVersion ≠ Semver.zero) :
    Satisfies v { Original := original, Ranges := [r], Join := [] } false =
      ((if r.StartOp = Token.GT then v.GT r.StartVersion false
          else v.GE r.StartVersion false) &&
        (if r.EndOp = Token.LT then v.LT r.EndVersion false else v.LE r.EndVersion false)) := by
  rw [Satisfies_single]
  unfold rangeSatisfied
  simp only [hsz, hez, hv, hs, he, decide_False, Bool.not_false, Bool.and_self, if_true,
    ne_eq, not_true_eq_false, Bool.or_self, Bool.and_false, Bool.false_eq_true, if_false,
    Bool.not_true]
  rcases hso with h1 | h1 <;> rcases heo with h2 | h2 <;> simp [h1, h2]

/-- For a single range whose start version differs from `Semver{}` or whose end
version is `Semver{}`: when a pre-release tag is present, the range is only
satisfied by a version that shares `[major, minor, patch]` with an endpoint. -/
theorem Satisfies_prerelease_rule (v : Semver) (r : Range) (original : String)
    (hz : r.StartVersion ≠ Semver.zero ∨ r.EndVersion = Semver.zero)
    (htag : v.PreReleaseTag ≠ "" ∨ r.StartVersion.PreReleaseTag ≠ "" ∨
      r.EndVersion.PreReleaseTag ≠ "")
    (hsat : Satisfies v { Original := original, Ranges := [r], Join := [] } false = true) :
    v.EQ r.StartVersion true = true ∨ v.EQ r.EndVersion true = true := by
  rw [Satisfies_single] at hsat
  unfold rangeSatisfied at hsat
  by_cases hez : r.EndVersion = Semver.zero
  · have he : r.EndVersion.PreReleaseTag = "" := by rw [hez]; rfl
    simp only [hez, decide_True, Bool.not_true, Bool.false_and, Bool.false_eq_true, if_false,
      Bool.not_false, Bool.true_and] at hsat
    have hc : (decide (v.PreReleaseTag ≠ "") || decide (r.StartVersion.PreReleaseTag ≠ "")) =
        true := by
      rcases htag with h | h | h
      · simp [h]
      · simp [h]
      · exact absurd he h
    rw [hc] at hsat
    simp only [if_true] at hsat
    split_ifs at hsat with h1 h2
    all_goals (left; simpa using h2)
  · have hsz : r.StartVersion ≠ Semver.zero := by
      rcases hz with h | h
      · exact h
      · exact absurd h hez
    simp only [hez, hsz, decide_False, Bool.not_false, Bool.and_self, if_true] at hsat
    have hc : (decide (v.PreReleaseTag ≠ "") || decide (r.StartVersion.PreReleaseTag ≠ "") ||
        decide (r.EndVersion.PreReleaseTag ≠ "")) = true := by
      rcases htag with h | h | h <;> simp [h]
    rw [hc] at hsat
    generalize (if r.StartOp = Token.GT then v.GT r.StartVersion false
      else if r.StartOp = Token.GE then v.GE r.StartVersion false else false) = lower at hsat
    generalize (if r.EndOp = Token.LT then v.LT r.EndVersion false
      else if r.EndOp = Token.LE then v.LE r.EndVersion false else false) = upper at hsat
    cases lower
    · simp at hsat
    · simp only [Bool.not_true, Bool.false_eq_true, if_false, Bool.not_false, Bool.and_self,
        if_true, Bool.true_and] at hsat
      split_ifs at hsat with h3 h4
      simp only [Bool.and_eq_true, Bool.not_eq_true', not_and, Bool.not_eq_false] at h4
      by_cases h5 : v.EQ r.StartVersion true = true
      · left; exact h5
      · right
        exact h4 (by simpa using h5)

/-- A one-bound range whose endpoint has no pre-release tag rejects, with
`includePreReleases = false`, every version that has one. -/
theorem Satisfies_rejects_prerelease (v : Semver) (r : Range) (original : String)
    (hez : r.EndVersion = Semver.zero) (hs : r.StartVersion.PreReleaseTag = "")
    (hv : v.PreReleaseTag ≠ "") :
    Satisfies v { Original := original, Ranges := [r], Join := [] } false = false := by
  rw [Satisfies_single]
  unfold rangeSatisfied
  simp [hez, hs, hv]

/-- When no version of a non-empty list satisfies the constraint, `MaxSatisfying`
returns the first element. -/
theorem MaxSatisfying_of_none_satisfies (first : Semver) (rest : List Semver) (c : Constraint)
    (f : Bool) (hnone : ∀ w ∈ first :: rest, Satisfies w c f = false) :
    MaxSatisfying (first :: rest) c f = first := by
  unfold MaxSatisfying
  simp only
  have key : ∀ (l : List Semver) (m : Semver), (∀ w ∈ l, Satisfies w c f = false) →
      l.foldl
        (fun max version =>
          if Satisfies version c f then
            if version.GT max false then version else max
          else max) m = m := by
    intro l
    induction l with
    | nil => intro m _; rfl
    | cons x xs ih =>
      intro m h
      simp only [List.foldl_cons, h x (by simp), Bool.false_eq_true, if_false]
      exact ih m (fun w hw => h w (by simp [hw]))
  exact key _ _ hnone

/-- C2: the constraint parsed from `~0` is the range `>=0.0.0 <1.0.0`; because
its start version equals `Semver{}`, `Satisfies` takes the one-bound branch and
accepts `1.0.0`, although the conjunction of the lower-bound and upper-bound
tests is false there. -/
theorem C2_tilde_zero_accepts_upper_bound :
    ParseConstraint "~0" =
        .ok { Original := "~0",
              Ranges :=
                [{ StartOp := Token.GE, StartVersion := Semver.ofParts 0 0 0 "",
                   EndOp := Token.LT, EndVersion := Semver.ofParts 1 0 0 "" }],
              Join := [] } ∧
      Satisfies (Semver.ofParts 1 0 0 "")
          { Original := "~0",
            Ranges :=
              [{ StartOp := Token.GE, StartVersion := Semver.ofParts 0 0 0 "",
                 EndOp := Token.LT, EndVersion := Semver.ofParts 1 0 0 "" }],
            Join := [] } false = true ∧
      ((Semver.ofParts 1 0 0 "").GE (Semver.ofParts 0 0 0 "") false &&
          (Semver.ofParts 1 0 0 "").LT (Semver.ofParts 1 0 0 "") false) = false := by
  decide

/-- C3: the constraint parsed from `<=5.0.0` is the one-bound range `<=5.0.0`;
with `includePreReleases = false` it rejects `4.0.0-beta.5` and also
`5.0.0-beta.5`, because its only endpoint has no pre-release tag. -/
theorem C3_le_rejects_prerelease_of_same_tuple :
    ParseConstraint "<=5.0.0" =
        .ok { Original := "<=5.0.0",
              Ranges := [{ Range.zero with
                StartOp := Token.LE, StartVersion := Semver.ofParts 5 0 0 "" }],
              Join := [] } ∧
      Satisfies (Semver.ofParts 4 0 0 "beta.5")
          { Original := "<=5.0.0",
            Ranges := [{ Range.zero with
              StartOp := Token.LE, StartVersion := Semver.ofParts 5 0 0 "" }],
            Join := [] } false = false ∧
      Satisfies (Semver.ofParts 5 0 0 "beta.5")
          { Original := "<=5.0.0",
            Ranges := [{ Range.zero with
              StartOp := Token.LE, StartVersion := Semver.ofParts 5 0 0 "" }],
            Join := [] } false = false := by
  decide

/-- C4: the constraint parsed from `>=0.0.0 <1.0.0-beta` has an endpoint with a
pre-release tag and, with `includePreReleases = false`, is satisfied by `5.0.0`,
which shares its `[major, minor, patch]` with neither endpoint. -/
theorem C4_zero_start_skips_prerelease_rule :
    ParseConstraint ">=0.0.0 <1.0.0-beta" =
        .ok { Original := ">=0.0.0 <1.0.0-beta",
              Ranges :=
                [{ StartOp := Token.GE, StartVersion := Semver.ofParts 0 0 0 "",
                   EndOp := Token.LT, EndVersion := Semver.ofParts 1 0 0 "beta" }],
              Join := [] } ∧
      Satisfies (Semver.ofParts 5 0 0 "")
          { Original := ">=0.0.0 <1.0.0-beta",
            Ranges :=
              [{ StartOp := Token.GE, StartVersion := Semver.ofParts 0 0 0 "",
                 EndOp := Token.LT, EndVersion := Semver.ofParts 1 0 0 "beta" }],
            Join := [] } false = true ∧
      (Semver.ofParts 5 0 0 "").EQ (Semver.ofParts 0 0 0 "") true = false ∧
      (Semver.ofParts 5 0 0 "").EQ (Semver.ofParts 1 0 0 "beta") true = false := by
  decide

/-- C5: for the constraint parsed from `>=5.0.0` and the list `[2.5.0, 4.9.9]`,
in which no version satisfies it, `MaxSatisfying` returns the first element
`2.5.0`, not `Semver{}`; for the empty list it returns `Semver{}`. -/
theorem C5_MaxSatisfying_returns_first_when_none_satisfies :
    ParseConstraint ">=5.0.0" =
        .ok { Original := ">=5.0.0",
              Ranges := [{ Range.zero with
                StartOp := Token.GE, StartVersion := Semver.ofParts 5 0 0 "" }],
              Join := [] } ∧
      (∀ f : Bool, ∀ w ∈ [Semver.ofParts 2 5 0 "", Semver.ofParts 4 9 9 ""],
        Satisfies w
          { Original := ">=5.0.0",
            Ranges := [{ Range.zero with
              StartOp := Token.GE, StartVersion := Semver.ofParts 5 0 0 "" }],
            Join := [] } f = false) ∧
      (∀ f : Bool,
        MaxSatisfying [Semver.ofParts 2 5 0 "", Semver.ofParts 4 9 9 ""]
          { Original := ">=5.0.0",
            Ranges := [{ Range.zero with
              StartOp := Token.GE, StartVersion := Semver.ofParts 5 0 0 "" }],
            Join := [] } f = Semver.ofParts 2 5 0 "") ∧
      Semver.ofParts 2 5 0 "" ≠ Semver.zero ∧
      (∀ (c : Constraint) (f : Bool), MaxSatisfying [] c f = Semver.zero) := by
  refine ⟨by decide, by decide, by decide, by decide, ?_⟩
  intro c f
  rfl

/-- No version is greater than itself. -/
theorem GT_irrefl (a : Semver) : a.GT a false = false := by
  cases e : a.GT a false
  · rfl
  · have h := (GT_false_iff a a).mp e
    have h2 := precedence_coherent.anti a a
    omega

/-- Method `GT` with `ignorePreRelease = false` is transitive. -/
theorem GT_trans (a b c : Semver) (hab : a.GT b false = true) (hbc : b.GT c false = true) :
    a.GT c false = true :=
  (GT_false_iff a c).mpr
    (precedence_coherent.gt_trans a b c ((GT_false_iff a b).mp hab) ((GT_false_iff b c).mp hbc))

/-- The loop of `MaxSatisfying` keeps `max` at least as high as every satisfying
version it has passed. -/
theorem MaxSatisfying_loop_bound (c : Constraint) (f : Bool) (rest seen : List Semver)
    (max : Semver)
    (hseen : ∀ w ∈ seen, Satisfies w c f = true → w.GT max false = false) :
    ∀ w ∈ seen ++ rest, Satisfies w c f = true →
      w.GT (rest.foldl
        (fun max version =>
          if Satisfies version c f then
            if version.GT max false then version else max
          else max) max) false = false := by
  induction rest generalizing seen max with
  | nil => simpa using hseen
  | cons x xs ih =>
    intro w hw hsat
    have hw' : w ∈ (seen ++ [x]) ++ xs := by simpa using hw
    refine ih (seen ++ [x]) _ ?_ w hw' hsat
    intro u hu husat
    rcases List.mem_append.mp hu with hu1 | hu1
    · have h1 := hseen u hu1 husat
      by_cases hx : Satisfies x c f = true
      · by_cases hg : x.GT max false = true
        · simp only [hx, hg, if_true]
          cases e : u.GT x false
          · rfl
          · have := GT_trans u x max e hg
            rw [h1] at this
            exact absurd this (by decide)
        · simp only [hx, hg, if_true, if_false]
          exact h1
      · simp only [hx, if_false]
        exact h1
    · have hux : u = x := by simpa using hu1
      subst hux
      simp only [husat, if_true]
      by_cases hg : u.GT max false = true
      · simp only [hg, if_true]
        exact GT_irrefl u
      · simp only [hg, if_false]
        simpa using hg

/-- C6: in a non-empty list no version that satisfies the constraint is strictly
greater (`GT` with `ignorePreRelease = false`) than the result of `MaxSatisfying`,
whatever `IsDev` is; and for the constraint parsed from `>=5.0.0` and the
versions `0.0.0`, `2.5.0`, `5.0.0`, `10.11.12` the result is `10.11.12`. -/
theorem C6_MaxSatisfying_is_maximal :
    (∀ (versions : List Semver) (c : Constraint) (f : Bool) (w : Semver),
      versions ≠ [] → w ∈ versions → Satisfies w c f = true →
        w.GT (MaxSatisfying versions c f) false = false) ∧
      ParseConstraint ">=5.0.0" =
        .ok { Original := ">=5.0.0",
              Ranges := [{ Range.zero with
                StartOp := Token.GE, StartVersion := Semver.ofParts 5 0 0 "" }],
              Join := [] } ∧
      (∀ f : Bool,
        MaxSatisfyingStrings ["0.0.0", "2.5.0", "5.0.0", "10.11.12"]
          { Original := ">=5.0.0",
            Ranges := [{ Range.zero with
              StartOp := Token.GE, StartVersion := Semver.ofParts 5 0 0 "" }],
            Join := [] } f = (Semver.ofParts 10 11 12 "", none)) := by
  refine ⟨?_, by decide, by decide⟩
  intro versions c f w hne hw hsat
  cases versions with
  | nil => exact absurd rfl hne
  | cons first rest =>
    unfold MaxSatisfying
    simp only
    have h := MaxSatisfying_loop_bound c f (first :: rest) [] first (by simp) w
      (by simpa using hw) hsat
    exact h

/-- Witness for C6: in `[1.0.0, 3.0.0, 2.0.0]` under `>=2.0.0`, the satisfying
member `2.0.0` is not greater than the result. -/
theorem C6_MaxSatisfying_is_maximal_witness :
    [Semver.ofParts 1 0 0 "", Semver.ofParts 3 0 0 "", Semver.ofParts 2 0 0 ""] ≠ [] ∧
      Semver.ofParts 2 0 0 "" ∈
        [Semver.ofParts 1 0 0 "", Semver.ofParts 3 0 0 "", Semver.ofParts 2 0 0 ""] ∧
      Satisfies (Semver.ofParts 2 0 0 "")
          { Original := ">=2.0.0",
            Ranges := [{ Range.zero with
              StartOp := Token.GE, StartVersion := Semver.ofParts 2 0 0 "" }],
            Join := [] } false = true ∧
      (Semver.ofParts 2 0 0 "").GT
          (MaxSatisfying
            [Semver.ofParts 1 0 0 "", Semver.ofParts 3 0 0 "", Semver.ofParts 2 0 0 ""]
            { Original := ">=2.0.0",
              Ranges := [{ Range.zero with
                StartOp := Token.GE, StartVersion := Semver.ofParts 2 0 0 "" }],
              Join := [] } false) false = false :=
  ⟨by decide, by decide, by decide,
    C6_MaxSatisfying_is_maximal.1
      [Semver.ofParts 1 0 0 "", Semver.ofParts 3 0 0 "", Semver.ofParts 2 0 0 ""]
      { Original := ">=2.0.0",
        Ranges := [{ Range.zero with
          StartOp := Token.GE, StartVersion := Semver.ofParts 2 0 0 "" }],
        Join := [] } false (Semver.ofParts 2 0 0 "") (by decide) (by decide) (by decide)⟩

/-- The parsing loop stops with the error of the first string that fails. -/
theorem parseVersionsFrom_error (pre : List String) (s : String) (post : List String)
    (err : Error) (acc : List Semver)
    (hpre : ∀ x ∈ pre, ∃ v, ParseSemver x = .ok v) (hs : ParseSemver s = .error err) :
    parseVersionsFrom (pre ++ s :: post) acc = .error err := by
  induction pre generalizing acc with
  | nil => simp [parseVersionsFrom, hs]
  | cons x xs ih =>
    obtain ⟨v, hv⟩ := hpre x (by simp)
    simp only [List.cons_append, parseVersionsFrom, hv]
    exact ih _ (fun y hy => hpre y (by simp [hy]))

/-- The parsing loop appends the parsed versions in order when all strings parse. -/
theorem parseVersionsFrom_ok (versions : List String) (acc : List Semver)
    (hall : ∀ x ∈ versions, ∃ v, ParseSemver x = .ok v) :
    ∃ parsed, List.Forall₂ (fun s v => ParseSemver s = .ok v) versions parsed ∧
      parseVersionsFrom versions acc = .ok (acc ++ parsed) := by
  induction versions generalizing acc with
  | nil => exact ⟨[], List.Forall₂.nil, by simp [parseVersionsFrom]⟩
  | cons x xs ih =>
    obtain ⟨v, hv⟩ := hall x (by simp)
    obtain ⟨parsed, hp, he⟩ := ih (acc ++ [v]) (fun y hy => hall y (by simp [hy]))
    refine ⟨v :: parsed, List.Forall₂.cons hv hp, ?_⟩
    simp only [parseVersionsFrom, hv, he, List.append_assoc, List.singleton_append]

/-- C7: when some string of the list fails `ParseSemver`, `MaxSatisfyingStrings`
returns `Semver{}` with the error of the first such string; when every string
parses, it returns `MaxSatisfying` of the parsed versions, in order, with a nil
error. -/
theorem C7_MaxSatisfyingStrings_errors (versions : List String) (c : Constraint) (f : Bool) :
    (∀ (pre : List String) (s : String) (post : List String) (err : Error),
      versions = pre ++ s :: post → (∀ x ∈ pre, ∃ v, ParseSemver x = .ok v) →
        ParseSemver s = .error err →
          MaxSatisfyingStrings versions c f = (Semver.zero, some err)) ∧
      ((∀ x ∈ versions, ∃ v, ParseSemver x = .ok v) →
        ∃ parsed, List.Forall₂ (fun s v => ParseSemver s = .ok v) versions parsed ∧
          MaxSatisfyingStrings versions c f = (MaxSatisfying parsed c f, none)) := by
  constructor
  · intro pre s post err hv hpre hs
    unfold MaxSatisfyingStrings
    rw [hv, parseVersionsFrom_error pre s post err [] hpre hs]
  · intro hall
    obtain ⟨parsed, hp, he⟩ := parseVersionsFrom_ok versions [] hall
    refine ⟨parsed, hp, ?_⟩
    unfold MaxSatisfyingStrings
    rw [he]
    rfl

/-- Witness for C7: in `["1.0.0", "1.x.0", "2.0.0"]` the second string is the
first that fails to parse; in `["1.0.0", "2.0.0"]` every string parses. -/
theorem C7_MaxSatisfyingStrings_errors_witness :
    MaxSatisfyingStrings ["1.0.0", "1.x.0", "2.0.0"] Constraint.zero false =
        (Semver.zero, some Error.ErrInvalidVersionParts) ∧
      ∃ parsed,
        List.Forall₂ (fun s v => ParseSemver s = .ok v) ["1.0.0", "2.0.0"] parsed ∧
          MaxSatisfyingStrings ["1.0.0", "2.0.0"] Constraint.zero false =
            (MaxSatisfying parsed Constraint.zero false, none) :=
  ⟨(C7_MaxSatisfyingStrings_errors ["1.0.0", "1.x.0", "2.0.0"] Constraint.zero false).1
      ["1.0.0"] "1.x.0" ["2.0.0"] Error.ErrInvalidVersionParts rfl
      (by intro x hx; simp only [List.mem_singleton] at hx; subst hx; exact ⟨_, rfl⟩)
      (by decide),
    (C7_MaxSatisfyingStrings_errors ["1.0.0", "2.0.0"] Constraint.zero false).2
      (by
        intro x hx
        simp only [List.mem_cons, List.mem_singleton, List.not_mem_nil, or_false] at hx
        rcases hx with rfl | rfl
        · exact ⟨_, rfl⟩
        · exact ⟨_, rfl⟩)⟩

/-! ## The comparison methods -/

/-- C8: with `ignorePreRelease = false`, exactly one of `a.LT(b)`, `a.EQ(b)`, `a.GT(b)`
is true for any two versions. -/
theorem C8_exactly_one_of_LT_EQ_GT (a b : Semver) :
    (a.LT b false = true ∧ a.EQ b false = false ∧ a.GT b false = false) ∨
    (a.LT b false = false ∧ a.EQ b false = true ∧ a.GT b false = false) ∨
    (a.LT b false = false ∧ a.EQ b false = false ∧ a.GT b false = true) := by
  have hL := LT_false_iff a b
  have hE := EQ_false_iff a b
  have hG := GT_false_iff a b
  rcases precedence_coherent.vals a b with h | h | h
  · left
    refine ⟨hL.mpr h, ?_, ?_⟩
    · cases e : a.EQ b false
      · rfl
      · have := hE.mp e; omega
    · cases e : a.GT b false
      · rfl
      · have := hG.mp e; omega
  · right; left
    refine ⟨?_, hE.mpr h, ?_⟩
    · cases e : a.LT b false
      · rfl
      · have := hL.mp e; omega
    · cases e : a.GT b false
      · rfl
      · have := hG.mp e; omega
  · right; right
    refine ⟨?_, ?_, hG.mpr h⟩
    · cases e : a.LT b false
      · rfl
      · have := hL.mp e; omega
    · cases e : a.EQ b false
      · rfl
      · have := hE.mp e; omega

/-- C9: `Compare` is antisymmetric for either value of the flag,
`a.Compare(b, f) = -(b.Compare(a, f))`, and `a.GT(b, f)` holds exactly when
`b.LT(a, f)` does. -/
theorem C9_Compare_antisymmetric (a b : Semver) (f : Bool) :
    a.Compare b f = -(b.Compare a f) ∧ a.GT b f = b.LT a f := by
  cases f
  · constructor
    · rw [Compare_false_eq, Compare_false_eq]
      have := precedence_coherent.anti a b
      omega
    · have h1 := GT_false_iff a b
      have h2 := LT_false_iff b a
      have h3 := precedence_coherent.anti a b
      cases e1 : a.GT b false <;> cases e2 : b.LT a false <;> simp_all
  · exact ⟨Compare_true_anti a b, GT_true_eq_LT a b⟩

/-- C10: `Compare` with `ignorePreRelease = false` is transitive: from
`a.Compare(b) <= 0` and `b.Compare(c) <= 0` follows `a.Compare(c) <= 0`, whatever
the pre-release tags are. -/
theorem C10_Compare_transitive (a b c : Semver) (hab : a.Compare b false ≤ 0)
    (hbc : b.Compare c false ≤ 0) : a.Compare c false ≤ 0 := by
  rw [Compare_false_eq] at hab hbc ⊢
  exact precedence_coherent.le_trans a b c hab hbc

/-- Witness for C10 on tags of different lengths with numeric and alphanumeric
identifiers: `1.0.0-alpha.1`, `1.0.0-alpha.beta`, `1.0.0-beta`. -/
theorem C10_Compare_transitive_witness :
    (Semver.ofParts 1 0 0 "alpha.1").Compare (Semver.ofParts 1 0 0 "alpha.beta") false ≤ 0 ∧
      (Semver.ofParts 1 0 0 "alpha.beta").Compare (Semver.ofParts 1 0 0 "beta") false ≤ 0 ∧
      (Semver.ofParts 1 0 0 "alpha.1").Compare (Semver.ofParts 1 0 0 "beta") false ≤ 0 :=
  ⟨by decide, by decide,
    C10_Compare_transitive (Semver.ofParts 1 0 0 "alpha.1") (Semver.ofParts 1 0 0 "alpha.beta")
      (Semver.ofParts 1 0 0 "beta") (by decide) (by decide)⟩

end NodeSemver

namespace NodeSemver

/-! ## Successful results of a computation -/

theorem OkSat.intro {ε α : Type} {P : α → Prop} {x : Except ε α}
    (h : ∀ a, x = .ok a → P a) : OkSat P x := by
  unfold OkSat
  exact h

theorem OkSat.elim {ε α : Type} {P : α → Prop} {x : Except ε α} (h : OkSat P x) (a : α)
    (hx : x = .ok a) : P a := by
  unfold OkSat at h
  exact h a hx

theorem OkSat.bind {ε α β : Type} {P : β → Prop} {x : Except ε α} {f : α → Except ε β}
    (h : ∀ a, OkSat P (f a)) : OkSat P (x >>= f) := by
  refine OkSat.intro fun b hb => ?_
  cases x with
  | error e => simp [Bind.bind, Except.bind] at hb
  | ok a => exact (h a).elim b hb

theorem OkSat.bind_of {ε α β : Type} {Q : α → Prop} {P : β → Prop} {x : Except ε α}
    {f : α → Except ε β} (hx : OkSat Q x) (h : ∀ a, Q a → OkSat P (f a)) :
    OkSat P (x >>= f) := by
  refine OkSat.intro fun b hb => ?_
  cases x with
  | error e => simp [Bind.bind, Except.bind] at hb
  | ok a => exact (h a (hx.elim a rfl)).elim b hb

theorem OkSat.pure_bind {ε α β : Type} {P : β → Prop} {a : α} {f : α → Except ε β}
    (h : OkSat P (f a)) : OkSat P ((Pure.pure a : Except ε α) >>= f) := h

theorem OkSat.throw {ε α : Type} {P : α → Prop} (e : ε) :
    OkSat P (MonadExcept.throw e : Except ε α) := by
  refine OkSat.intro fun a h => ?_
  cases h

theorem OkSat.error {ε α : Type} {P : α → Prop} (e : ε) :
    OkSat P (Except.error e : Except ε α) := by
  refine OkSat.intro fun a h => ?_
  cases h

theorem OkSat.pure {ε α : Type} {P : α → Prop} {a : α} (h : P a) :
    OkSat P (Pure.pure a : Except ε α) := by
  refine OkSat.intro fun b hb => ?_
  cases hb
  exact h

theorem OkSat.ok {ε α : Type} {P : α → Prop} {a : α} (h : P a) :
    OkSat P (Except.ok a : Except ε α) := by
  refine OkSat.intro fun b hb => ?_
  cases hb
  exact h

theorem OkSat.ite {ε α : Type} {P : α → Prop} {c : Prop} [Decidable c] {x y : Except ε α}
    (hx : c → OkSat P x) (hy : ¬ c → OkSat P y) : OkSat P (if c then x else y) := by
  split_ifs with h
  · exact hx h
  · exact hy h

theorem OkSat.mono {ε α : Type} {P Q : α → Prop} {x : Except ε α} (h : OkSat P x)
    (hPQ : ∀ a, P a → Q a) : OkSat Q x :=
  OkSat.intro fun a ha => hPQ a (h.elim a ha)

theorem OkSat.app {ε α γ : Type} {P : α → Prop} {f : γ → Except ε α} (h : ∀ y, OkSat P (f y))
    (y : γ) : OkSat P (f y) := h y

/-- Inversion of a successful sequencing: the continuation succeeded on the value
of the first computation. -/
theorem ok_of_bind {ε α β : Type} {x : Except ε α} {f : α → Except ε β} {b : β}
    (hb : (x >>= f) = Except.ok b) : ∃ a, f a = Except.ok b ∧ x = Except.ok a := by
  rcases x with e | a
  · simp [Bind.bind, Except.bind] at hb
  · exact ⟨a, hb, rfl⟩

theorem index_sat {α : Type} (xs : List α) (i : Nat) :
    OkSat (fun x => xs.get? i = some x) (index xs (i : Int)) := by
  refine OkSat.intro fun x h => ?_
  unfold index at h
  simp only [Int.toNat_ofNat] at h
  split_ifs at h with h0
  cases hx : xs.get? i with
  | none => rw [hx] at h; cases h
  | some y => rw [hx] at h; cases h; rfl

/-! ## The chain of pre-releases, build metadata and the derived comparisons -/

/-- C11: with `ignorePreRelease = false`, `LT` holds between each consecutive pair
of `1.0.0-alpha`, `1.0.0-alpha.1`, `1.0.0-alpha.beta`, `1.0.0-beta`,
`1.0.0-beta.2`, `1.0.0-beta.11`, `1.0.0-rc.1`, `1.0.0`. -/
theorem C11_prerelease_precedence_chain :
    (Semver.ofParts 1 0 0 "alpha").LT (Semver.ofParts 1 0 0 "alpha.1") false = true ∧
      (Semver.ofParts 1 0 0 "alpha.1").LT (Semver.ofParts 1 0 0 "alpha.beta") false = true ∧
      (Semver.ofParts 1 0 0 "alpha.beta").LT (Semver.ofParts 1 0 0 "beta") false = true ∧
      (Semver.ofParts 1 0 0 "beta").LT (Semver.ofParts 1 0 0 "beta.2") false = true ∧
      (Semver.ofParts 1 0 0 "beta.2").LT (Semver.ofParts 1 0 0 "beta.11") false = true ∧
      (Semver.ofParts 1 0 0 "beta.11").LT (Semver.ofParts 1 0 0 "rc.1") false = true ∧
      (Semver.ofParts 1 0 0 "rc.1").LT (Semver.ofParts 1 0 0 "") false = true := by
  decide

/-- C12: replacing the build metadata of either version changes none of `GT`,
`GE`, `LT`, `LE`, `EQ`, `Compare`. -/
theorem C12_metadata_never_compared (a b : Semver) (m1 m2 : String) (f : Bool) :
    ({ a with MetaData := m1 } : Semver).GT { b with MetaData := m2 } f = a.GT b f ∧
      ({ a with MetaData := m1 } : Semver).GE { b with MetaData := m2 } f = a.GE b f ∧
      ({ a with MetaData := m1 } : Semver).LT { b with MetaData := m2 } f = a.LT b f ∧
      ({ a with MetaData := m1 } : Semver).LE { b with MetaData := m2 } f = a.LE b f ∧
      ({ a with MetaData := m1 } : Semver).EQ { b with MetaData := m2 } f = a.EQ b f ∧
      ({ a with MetaData := m1 } : Semver).Compare { b with MetaData := m2 } f =
        a.Compare b f :=
  ⟨rfl, rfl, rfl, rfl, rfl, rfl⟩

/-- Method `GE` on two versions that are not dev versions, written as the chain of
tests that `GT` and `EQ` share. -/
theorem GE_of_not_dev (a b : Semver) (f : Bool) (ha : a.IsDev = false) (hb : b.IsDev = false) :
    a.GE b f =
      if a.Major ≠ b.Major then decide (a.Major > b.Major)
      else if a.Minor ≠ b.Minor then decide (a.Minor > b.Minor)
      else if a.Patch ≠ b.Patch then decide (a.Patch > b.Patch)
      else if f then true
      else if a.PreReleaseTag = "" ∧ b.PreReleaseTag ≠ "" then true
      else if a.PreReleaseTag ≠ "" ∧ b.PreReleaseTag = "" then false
      else decide (comparePreRelease a.PreReleaseTag b.PreReleaseTag ≥ 0) := by
  unfold Semver.GE
  simp [ha, hb]

/-- Counterexample to C13 as stated: the Composer dev version `1.0.x-dev` (parsed to
`1.0.999` with `IsDev`) is `GE` the stable `2.0.0`, but neither `GT` nor `EQ`. -/
theorem C13_GE_dev_counterexample :
    ParseSemverWithEcosystem "1.0.x-dev" "composer" =
        .ok { Semver.zero with Major := 1, Minor := 0, Patch := 999, IsDev := true } ∧
      ¬ (∀ (a b : Semver) (f : Bool), a.GE b f = (a.GT b f || a.EQ b f)) := by
  refine ⟨by decide, ?_⟩
  intro h
  have h1 := h { Semver.zero with Major := 1, Minor := 0, Patch := 999, IsDev := true }
    (Semver.ofParts 2 0 0 "") false
  revert h1
  decide

/-- C13, amended: for two versions that are not dev versions (`IsDev` false) and
either flag, `a.GE(b, f)` is `a.GT(b, f) || a.EQ(b, f)`. -/
theorem C13_GE_is_GT_or_EQ_without_dev (a b : Semver) (f : Bool) (ha : a.IsDev = false)
    (hb : b.IsDev = false) : a.GE b f = (a.GT b f || a.EQ b f) := by
  have hv := comparePreRelease_coherent.vals a.PreReleaseTag b.PreReleaseTag
  rw [GE_of_not_dev a b f ha hb]
  unfold Semver.GT Semver.EQ
  by_cases hM : a.Major = b.Major
  · by_cases hm : a.Minor = b.Minor
    · by_cases hp : a.Patch = b.Patch
      · cases f
        · simp only [hM, hm, hp, ne_eq, not_true_eq_false, if_false, or_self,
            Bool.false_eq_true]
          rcases hv with h | h | h <;> split_ifs <;> first | (simp_all; done) | tauto
        · simp [hM, hm, hp]
      · simp [hM, hm, hp]
    · simp [hM, hm]
  · simp [hM]

/-- Witness for the amended C13 on `1.0.0-beta` and `1.0.0-alpha`. -/
theorem C13_GE_is_GT_or_EQ_without_dev_witness :
    (Semver.ofParts 1 0 0 "beta").IsDev = false ∧ (Semver.ofParts 1 0 0 "alpha").IsDev = false ∧
      (Semver.ofParts 1 0 0 "beta").GE (Semver.ofParts 1 0 0 "alpha") false =
        ((Semver.ofParts 1 0 0 "beta").GT (Semver.ofParts 1 0 0 "alpha") false ||
          (Semver.ofParts 1 0 0 "beta").EQ (Semver.ofParts 1 0 0 "alpha") false) :=
  ⟨rfl, rfl,
    C13_GE_is_GT_or_EQ_without_dev (Semver.ofParts 1 0 0 "beta") (Semver.ofParts 1 0 0 "alpha")
      false rfl rfl⟩

theorem LT_true_eq (a b : Semver) :
    a.LT b true =
      if a.Major ≠ b.Major then decide (a.Major < b.Major)
      else if a.Minor ≠ b.Minor then decide (a.Minor < b.Minor)
      else if a.Patch ≠ b.Patch then decide (a.Patch < b.Patch)
      else false := by
  unfold Semver.LT
  simp

theorem GT_true_eq (a b : Semver) :
    a.GT b true =
      if a.Major ≠ b.Major then decide (a.Major > b.Major)
      else if a.Minor ≠ b.Minor then decide (a.Minor > b.Minor)
      else if a.Patch ≠ b.Patch then decide (a.Patch > b.Patch)
      else false := by
  unfold Semver.GT
  simp

/-- Method `Compare` with `ignorePreRelease = true` is the lexicographic comparison
of `(Major, Minor, Patch)`. -/
theorem Compare_true_eq (a b : Semver) :
    a.Compare b true =
      if a.Major < b.Major then -1 else if a.Major > b.Major then 1
      else if a.Minor < b.Minor then -1 else if a.Minor > b.Minor then 1
      else if a.Patch < b.Patch then -1 else if a.Patch > b.Patch then 1
      else 0 := by
  unfold Semver.Compare
  rw [EQ_true_eq, GT_true_eq]
  by_cases hM : a.Major = b.Major
  · by_cases hm : a.Minor = b.Minor
    · by_cases hp : a.Patch = b.Patch
      · simp [hM, hm, hp]
      · simp only [hM, hm, hp, and_false, and_true, decide_False, Bool.false_eq_true, if_false,
          ne_eq, not_true_eq_false, not_false_eq_true, if_true, decide_eq_true_eq, lt_self_iff_false,
          gt_iff_lt]
        split_ifs <;> omega
    · simp only [hM, hm, false_and, and_false, and_true, decide_False, Bool.false_eq_true, if_false,
        ne_eq, not_true_eq_false, not_false_eq_true, if_true, decide_eq_true_eq, lt_self_iff_false,
        gt_iff_lt]
      split_ifs <;> omega
  · simp only [hM, false_and, decide_False, Bool.false_eq_true, if_false,
      ne_eq, not_false_eq_true, if_true, decide_eq_true_eq, gt_iff_lt]
    split_ifs <;> omega

/-- C14: `Compare` takes its values in `{-1, 0, 1}`; it is `0` exactly when `EQ`
holds, `1` exactly when `GT` holds and `-1` exactly when `LT` holds, for either
flag; and with `ignorePreRelease = true` it is the lexicographic comparison of
`(Major, Minor, Patch)`. -/
theorem C14_Compare_characterised (a b : Semver) (f : Bool) :
    (a.Compare b f = -1 ∨ a.Compare b f = 0 ∨ a.Compare b f = 1) ∧
      (a.Compare b f = 0 ↔ a.EQ b f = true) ∧
      (a.Compare b f = 1 ↔ a.GT b f = true) ∧
      (a.Compare b f = -1 ↔ a.LT b f = true) ∧
      a.Compare b true =
        (if a.Major < b.Major then -1 else if a.Major > b.Major then 1
          else if a.Minor < b.Minor then -1 else if a.Minor > b.Minor then 1
          else if a.Patch < b.Patch then -1 else if a.Patch > b.Patch then 1
          else 0) := by
  refine ⟨?_, ?_, ?_, ?_, Compare_true_eq a b⟩
  · unfold Semver.Compare
    split_ifs <;> simp
  · unfold Semver.Compare
    split_ifs with h1 h2 <;> simp [h1]
  · cases f
    · rw [Compare_false_eq, GT_false_iff]
    · unfold Semver.Compare
      rw [EQ_true_eq, GT_true_eq]
      by_cases hM : a.Major = b.Major <;> by_cases hm : a.Minor = b.Minor <;>
        by_cases hp : a.Patch = b.Patch <;> simp [hM, hm, hp]
  · cases f
    · rw [Compare_false_eq, LT_false_iff]
    · unfold Semver.Compare
      rw [EQ_true_eq, GT_true_eq, LT_true_eq]
      by_cases hM : a.Major = b.Major <;> by_cases hm : a.Minor = b.Minor <;>
        by_cases hp : a.Patch = b.Patch <;> simp [hM, hm, hp] <;> omega

/-! ## Formatting and re-parsing a version -/

theorem cutRunes_of_not_mem (sep : Char) (xs : List Char) (h : sep ∉ xs) :
    strings.cutRunes sep xs = none := by
  induction xs with
  | nil => rfl
  | cons c cs ih =>
    have hc : c ≠ sep := fun e => h (by simp [e])
    have hcs : sep ∉ cs := fun e => h (by simp [e])
    simp [strings.cutRunes, hc, ih hcs]

theorem cutRunes_append (sep : Char) (xs ys : List Char) (h : sep ∉ xs) :
    strings.cutRunes sep (xs ++ sep :: ys) = some (xs, ys) := by
  induction xs with
  | nil => simp [strings.cutRunes]
  | cons c cs ih =>
    have hc : c ≠ sep := fun e => h (by simp [e])
    have hcs : sep ∉ cs := fun e => h (by simp [e])
    simp [strings.cutRunes, hc, ih hcs]

theorem cutRunes_append_left (sep : Char) (N l : List Char) (h : sep ∉ N) :
    strings.cutRunes sep (N ++ l) =
      (strings.cutRunes sep l).map (fun p => (N ++ p.1, p.2)) := by
  induction N with
  | nil =>
    rw [List.nil_append]
    cases strings.cutRunes sep l <;> simp
  | cons c cs ih =>
    have hc : c ≠ sep := fun e => h (by simp [e])
    have hcs : sep ∉ cs := fun e => h (by simp [e])
    rw [List.cons_append, strings.cutRunes, if_neg hc, ih hcs]
    cases strings.cutRunes sep l <;> rfl

theorem cutRunes_some (sep : Char) (xs a b : List Char)
    (h : strings.cutRunes sep xs = some (a, b)) : sep ∉ a ∧ xs = a ++ sep :: b := by
  induction xs generalizing a with
  | nil => simp [strings.cutRunes] at h
  | cons c cs ih =>
    unfold strings.cutRunes at h
    split_ifs at h with hc
    · simp only [Option.some.injEq, Prod.mk.injEq] at h
      obtain ⟨rfl, rfl⟩ := h
      simp [hc]
    · cases hcut : strings.cutRunes sep cs with
      | none => rw [hcut] at h; cases h
      | some p =>
        obtain ⟨a1, b1⟩ := p
        rw [hcut] at h
        simp only [Option.some.injEq, Prod.mk.injEq] at h
        obtain ⟨rfl, rfl⟩ := h
        obtain ⟨h1, h2⟩ := ih a1 hcut
        refine ⟨?_, by rw [h2]; rfl⟩
        simp only [List.mem_cons, not_or]
        exact ⟨fun e => hc e.symm, h1⟩

theorem cutRunes_none (sep : Char) (xs : List Char) (h : strings.cutRunes sep xs = none) :
    sep ∉ xs := by
  induction xs with
  | nil => simp
  | cons c cs ih =>
    unfold strings.cutRunes at h
    split_ifs at h with hc
    cases hcut : strings.cutRunes sep cs with
    | none =>
      simp only [List.mem_cons, not_or]
      exact ⟨fun e => hc e.symm, ih hcut⟩
    | some p => rw [hcut] at h; cases h

theorem splitRunes_of_not_mem (sep : Char) (xs : List Char) (h : sep ∉ xs) :
    strings.splitRunes sep xs = [xs] := by
  induction xs with
  | nil => rfl
  | cons c cs ih =>
    have hc : c ≠ sep := fun e => h (by simp [e])
    have hcs : sep ∉ cs := fun e => h (by simp [e])
    simp [strings.splitRunes, hc, ih hcs]

theorem splitRunes_append (sep : Char) (xs ys : List Char) (h : sep ∉ xs) :
    strings.splitRunes sep (xs ++ sep :: ys) = xs :: strings.splitRunes sep ys := by
  induction xs with
  | nil => simp [strings.splitRunes]
  | cons c cs ih =>
    have hc : c ≠ sep := fun e => h (by simp [e])
    have hcs : sep ∉ cs := fun e => h (by simp [e])
    simp [strings.splitRunes, hc, ih hcs]

theorem splitRunes_mem (sep : Char) (xs : List Char) :
    ∀ p ∈ strings.splitRunes sep xs, ∀ c ∈ p, c ∈ xs := by
  induction xs with
  | nil =>
    intro p hp c hc
    simp [strings.splitRunes] at hp
    subst hp
    cases hc
  | cons x cs ih =>
    intro p hp c hc
    unfold strings.splitRunes at hp
    split_ifs at hp with hx
    · simp only [List.mem_cons] at hp
      rcases hp with hp | hp
      · subst hp; cases hc
      · exact List.mem_cons_of_mem _ (ih p hp c hc)
    · cases hs : strings.splitRunes sep cs with
      | nil =>
        rw [hs] at hp
        simp only [List.mem_singleton] at hp
        subst hp
        simp only [List.mem_singleton] at hc
        simp [hc]
      | cons q qs =>
        rw [hs] at hp ih
        simp only [List.mem_cons] at hp
        rcases hp with hp | hp
        · subst hp
          simp only [List.mem_cons] at hc
          rcases hc with hc | hc
          · simp [hc]
          · exact List.mem_cons_of_mem _ (ih q (by simp) c hc)
        · exact List.mem_cons_of_mem _ (ih p (by simp [hp]) c hc)

theorem digitsValue_append (xs ys : List Char) :
    ∀ acc, strconv.digitsValue (xs ++ ys) acc =
      (strconv.digitsValue xs acc).bind (strconv.digitsValue ys) := by
  induction xs with
  | nil => intro acc; rfl
  | cons c cs ih =>
    intro acc
    simp only [List.cons_append, strconv.digitsValue]
    split_ifs
    · exact ih _
    · rfl

theorem digitChar_digit (m : Nat) (h : m < 10) :
    '0' ≤ Nat.digitChar m ∧ Nat.digitChar m ≤ '9' ∧ (Nat.digitChar m).toNat - 48 = m := by
  interval_cases m <;> decide

theorem toDigitsCore_digits (fuel : Nat) :
    ∀ (n : Nat) (ds : List Char), n < fuel →
      ∃ L, Nat.toDigitsCore 10 fuel n ds = L ++ ds ∧ L ≠ [] ∧
        (∀ c ∈ L, '0' ≤ c ∧ c ≤ '9') ∧
        ∀ acc, strconv.digitsValue L acc = some (acc * 10 ^ L.length + n) := by
  induction fuel with
  | zero => intro n ds h; omega
  | succ fuel ih =>
    intro n ds h
    have hd := digitChar_digit (n % 10) (Nat.mod_lt _ (by decide))
    unfold Nat.toDigitsCore
    simp only
    split_ifs with h0
    · refine ⟨[Nat.digitChar (n % 10)], rfl, by simp, ?_, ?_⟩
      · intro c hc
        simp only [List.mem_singleton] at hc
        subst hc
        exact ⟨hd.1, hd.2.1⟩
      · intro acc
        simp only [strconv.digitsValue, hd.1, hd.2.1, and_self, if_true, hd.2.2,
          List.length_singleton, pow_one]
        congr 1
        omega
    · obtain ⟨L, hL, hne, hdig, hval⟩ :=
        ih (n / 10) (Nat.digitChar (n % 10) :: ds) (by omega)
      refine ⟨L ++ [Nat.digitChar (n % 10)], by rw [hL]; simp, by simp, ?_, ?_⟩
      · intro c hc
        simp only [List.mem_append, List.mem_singleton] at hc
        rcases hc with hc | hc
        · exact hdig c hc
        · subst hc; exact ⟨hd.1, hd.2.1⟩
      · intro acc
        rw [digitsValue_append, hval]
        simp only [Option.bind, strconv.digitsValue, hd.1, hd.2.1, and_self, if_true,
          hd.2.2, List.length_append, List.length_singleton, pow_succ]
        congr 1
        have := Nat.div_add_mod n 10
        ring_nf
        ring_nf at this
        omega

theorem formatInt_ofNat (n : Nat) :
    ∃ L, formatInt (n : Int) = String.mk L ∧ L ≠ [] ∧ (∀ c ∈ L, '0' ≤ c ∧ c ≤ '9') ∧
      strconv.digitsValue L 0 = some n := by
  obtain ⟨L, hL, hne, hdig, hval⟩ := toDigitsCore_digits (n + 1) n [] (by omega)
  refine ⟨L, ?_, hne, hdig, by simpa using hval 0⟩
  show (Nat.toDigits 10 n).asString = String.mk L
  unfold Nat.toDigits
  rw [hL]
  simp [List.asString]

theorem Atoi_digits (L : List Char) (n : Nat) (hne : L ≠ [])
    (hdig : ∀ c ∈ L, '0' ≤ c ∧ c ≤ '9') (hval : strconv.digitsValue L 0 = some n)
    (hn : n < 2 ^ 63) : strconv.Atoi (String.mk L) = some (n : Int) := by
  cases L with
  | nil => exact absurd rfl hne
  | cons c cs =>
    have hc := hdig c (by simp)
    have h1 : c ≠ '-' := by rintro rfl; exact absurd hc.1 (by decide)
    have h2 : c ≠ '+' := by rintro rfl; exact absurd hc.1 (by decide)
    simp only [strconv.Atoi, h1, h2, if_false, hval, hn, if_true]

theorem Atoi_nonneg (p : String) (z : Int) (h : strconv.Atoi p = some z)
    (hp : '-' ∉ p.data) : ∃ n : Nat, z = (n : Int) ∧ n < 2 ^ 63 := by
  unfold strconv.Atoi at h
  cases hd : p.data with
  | nil => rw [hd] at h; cases h
  | cons c cs =>
    rw [hd] at h hp
    have h1 : c ≠ '-' := fun e => hp (by simp [e])
    simp only [h1, if_false] at h
    split_ifs at h with h2 h3
    · cases hv : strconv.digitsValue cs 0 with
      | none => rw [hv] at h; cases h
      | some n =>
        rw [hv] at h
        simp only at h
        split_ifs at h with hn
        exact ⟨n, (Option.some.inj h).symm, hn⟩
    · cases hv : strconv.digitsValue (c :: cs) 0 with
      | none => rw [hv] at h; cases h
      | some n =>
        rw [hv] at h
        simp only at h
        split_ifs at h with hn
        exact ⟨n, (Option.some.inj h).symm, hn⟩

theorem digit_not_mem (L : List Char) (hdig : ∀ c ∈ L, '0' ≤ c ∧ c ≤ '9') (x : Char)
    (hx : ¬ ('0' ≤ x ∧ x ≤ '9')) : x ∉ L :=
  fun h => hx (hdig x h)

theorem mk_ne_empty (l : List Char) : String.mk l ≠ "" ↔ l ≠ [] := by
  constructor
  · rintro h rfl; exact h rfl
  · intro h e
    exact h (congrArg String.data e)

theorem Contains_iff (s : String) (c : Char) : strings.Contains s c = true ↔ c ∈ s.data := by
  simp [strings.Contains]

theorem not_Contains (l : List Char) (c : Char) (h : c ∉ l) :
    strings.Contains (String.mk l) c = false := by
  rw [← Bool.not_eq_true, Contains_iff]
  exact h

/-- The first element of `strings.SplitN(s, sep, 2)`, as the three part
functions read it; the list is never empty, so the default `d` is not used. -/
theorem SplitN2_first (s d : String) (sep : Char) :
    (match strings.SplitN2 s sep with
      | first :: _ => first
      | [] => d) =
    (match strings.cutRunes sep s.data with
      | none => s
      | some (a, _) => String.mk a) := by
  unfold strings.SplitN2
  cases strings.cutRunes sep s.data with
  | none => rfl
  | some p => rfl

theorem SplitN2_first_no_sep (s d : String) (sep : Char) :
    sep ∉ (match strings.SplitN2 s sep with
      | first :: _ => first
      | [] => d).data := by
  rw [SplitN2_first]
  cases h1 : strings.cutRunes sep s.data with
  | none => exact cutRunes_none _ _ h1
  | some p =>
    obtain ⟨a, b⟩ := p
    exact (cutRunes_some _ _ _ _ h1).1

theorem SplitN2_first_subset (s d : String) (sep : Char) :
    ∀ c ∈ (match strings.SplitN2 s sep with
      | first :: _ => first
      | [] => d).data, c ∈ s.data := by
  rw [SplitN2_first]
  cases h1 : strings.cutRunes sep s.data with
  | none => exact fun c hc => hc
  | some p =>
    obtain ⟨a, b⟩ := p
    intro c hc
    rw [(cutRunes_some _ _ _ _ h1).2]
    exact List.mem_append_left _ hc

theorem GetVersionPart_no_hyphen (x : String) : '-' ∉ (GetVersionPart x).data := by
  unfold GetVersionPart
  by_cases h : (!strings.Contains x '-' && !strings.Contains x '+') = true
  · rw [if_pos h]
    simp only [Bool.and_eq_true, Bool.not_eq_true', ← Bool.not_eq_true, Contains_iff] at h
    exact h.1
  · rw [if_neg h]
    exact fun hm => SplitN2_first_no_sep x x '-' (SplitN2_first_subset _ _ '+' _ hm)

theorem GetMetaDataPart_no_hyphen (x : String) : '-' ∉ (GetMetaDataPart x).data := by
  have key : ∀ o : Option String, '-' ∉
      (match o with
        | none => ""
        | some versionLiteral =>
          if versionLiteral ≠ "" then
            match strings.SplitN2 versionLiteral '-' with
            | first :: _ => first
            | [] => ""
          else versionLiteral).data := by
    intro o
    cases o with
    | none => simp
    | some y =>
      simp only
      by_cases hy : y ≠ ""
      · rw [if_pos hy]
        exact SplitN2_first_no_sep y "" '-'
      · rw [if_neg hy, not_not.1 hy]
        simp
  unfold GetMetaDataPart
  by_cases h : (!strings.Contains x '+') = true
  · rw [if_pos h]; simp
  · rw [if_neg h]; exact key _

theorem GetPreReleasePart_no_plus (x : String) : '+' ∉ (GetPreReleasePart x).data := by
  unfold GetPreReleasePart
  by_cases h : (!strings.Contains x '-') = true
  · rw [if_pos h]; simp
  · rw [if_neg h]
    split
    · exact SplitN2_first_no_sep _ "" '+'
    · simp

theorem GetVersionPart_append (N rest : List Char) (hN1 : '-' ∉ N) (hN2 : '+' ∉ N)
    (hrest : rest = [] ∨ (∃ r, rest = '+' :: r) ∨ ∃ r, rest = '-' :: r) :
    GetVersionPart (String.mk (N ++ rest)) = String.mk N := by
  unfold GetVersionPart
  rcases hrest with rfl | ⟨r, rfl⟩ | ⟨r, rfl⟩
  · simp [not_Contains _ _ hN1, not_Contains _ _ hN2]
  · have hc : strings.Contains (String.mk (N ++ '+' :: r)) '+' = true := by
      rw [Contains_iff]; simp
    have h2 : strings.cutRunes '-' ('+' :: r) =
        (strings.cutRunes '-' r).map (fun p => ('+' :: p.1, p.2)) := by
      rw [strings.cutRunes, if_neg (by decide)]
      cases strings.cutRunes '-' r <;> rfl
    simp only [hc, Bool.not_true, Bool.and_false, Bool.false_eq_true, if_false,
      strings.SplitN2, cutRunes_append_left _ _ _ hN1, h2]
    cases strings.cutRunes '-' r with
    | none => simp [cutRunes_append _ _ _ hN2]
    | some p => simp [cutRunes_append _ _ _ hN2]
  · have hc : strings.Contains (String.mk (N ++ '-' :: r)) '-' = true := by
      rw [Contains_iff]; simp
    simp [hc, strings.SplitN2, cutRunes_append _ _ _ hN1, cutRunes_of_not_mem _ _ hN2]

theorem GetMetaDataPart_none (l : List Char) (h : '+' ∉ l) :
    GetMetaDataPart (String.mk l) = "" := by
  unfold GetMetaDataPart
  simp [not_Contains _ _ h]

theorem GetMetaDataPart_append (N M tail : List Char) (hN : '+' ∉ N) (hM : M ≠ [])
    (hM1 : '-' ∉ M) (htail : tail = [] ∨ ∃ P, tail = '-' :: P) :
    GetMetaDataPart (String.mk (N ++ '+' :: (M ++ tail))) = String.mk M := by
  unfold GetMetaDataPart
  have hc : strings.Contains (String.mk (N ++ '+' :: (M ++ tail))) '+' = true := by
    rw [Contains_iff]; simp
  have hne : String.mk (N ++ '+' :: (M ++ tail)) ≠ "" := (mk_ne_empty _).2 (by simp)
  have hne2 : String.mk (M ++ tail) ≠ "" := (mk_ne_empty _).2 (by simp [hM])
  simp only [hc, Bool.not_true, Bool.false_eq_true, if_false, hne, if_true, ne_eq,
    not_false_eq_true, strings.SplitN2, cutRunes_append _ _ _ hN, hne2]
  rcases htail with rfl | ⟨P, rfl⟩
  · simp [cutRunes_of_not_mem _ _ hM1]
  · simp [cutRunes_append _ _ _ hM1]

theorem GetPreReleasePart_none (l : List Char) (h : '-' ∉ l) :
    GetPreReleasePart (String.mk l) = "" := by
  unfold GetPreReleasePart
  simp [not_Contains _ _ h]

theorem GetPreReleasePart_append (N P : List Char) (hN : '-' ∉ N) (hP : '+' ∉ P) :
    GetPreReleasePart (String.mk (N ++ '-' :: P)) = String.mk P := by
  unfold GetPreReleasePart
  have hc : strings.Contains (String.mk (N ++ '-' :: P)) '-' = true := by
    rw [Contains_iff]; simp
  simp [hc, strings.SplitN2, cutRunes_append _ _ _ hN, cutRunes_of_not_mem _ _ hP]

theorem TrimPrefix_v (c : Char) (cs : List Char) (h : c ≠ 'v') :
    strings.TrimPrefix (String.mk (c :: cs)) "v" = String.mk (c :: cs) := by
  have h1 : strings.HasPrefix (String.mk (c :: cs)) "v" = false := by
    have hv : "v".data = ['v'] := rfl
    have hvc : ¬ ('v' = c) := fun e => h e.symm
    simp [strings.HasPrefix, hv, strings.hasPrefixRunes, hvc]
  simp [strings.TrimPrefix, h1]

/-- What `ParseSemver` computes, with the Composer branches (not taken for the
ecosystem `nodejs`) removed. -/
theorem ParseSemver_eq (s : String) :
    ParseSemver s =
      if s = "" then .error Error.ErrInvalidVersionParts
      else
        match strings.Split (GetVersionPart (strings.TrimPrefix s "v")) '.' with
        | [part0, part1] =>
          match strconv.Atoi part0 with
          | none => .error Error.ErrInvalidVersionParts
          | some major =>
            match strconv.Atoi part1 with
            | none => .error Error.ErrInvalidVersionParts
            | some minor =>
              .ok { Semver.zero with
                Major := major, Minor := minor, Patch := 0,
                MetaData := GetMetaDataPart (strings.TrimPrefix s "v"),
                PreReleaseTag := GetPreReleasePart (strings.TrimPrefix s "v") }
        | [part0, part1, part2] =>
          match strconv.Atoi part0 with
          | none => .error Error.ErrInvalidVersionParts
          | some major =>
            match strconv.Atoi part1 with
            | none => .error Error.ErrInvalidVersionParts
            | some minor =>
              match strconv.Atoi part2 with
              | none => .error Error.ErrInvalidVersionParts
              | some patch =>
                .ok { Semver.zero with
                  Major := major, Minor := minor, Patch := patch,
                  MetaData := GetMetaDataPart (strings.TrimPrefix s "v"),
                  PreReleaseTag := GetPreReleasePart (strings.TrimPrefix s "v") }
        | _ => .error Error.ErrInvalidVersionParts := by
  have hne : ¬ ("nodejs" = "composer") := by decide
  unfold ParseSemver ParseSemverWithEcosystem
  simp only [hne, false_and, if_false]
  all_goals
    by_cases hs : s = ""
    · rw [if_pos hs, if_pos hs]
    · rw [if_neg hs, if_neg hs]
      generalize strings.Split (GetVersionPart (strings.TrimPrefix s "v")) '.' = parts
      rcases parts with _ | ⟨a, _ | ⟨b, _ | ⟨c, _ | ⟨d, t⟩⟩⟩⟩
      · rfl
      · rfl
      · cases strconv.Atoi a <;> first | rfl | (cases strconv.Atoi b <;> rfl)
      · cases strconv.Atoi a <;> first | rfl | (cases strconv.Atoi b <;> first | rfl |
          (cases strconv.Atoi c <;> rfl))
      · rfl

theorem ParseSemver_ok_shape (s : String) (v : Semver) (h : ParseSemver s = .ok v) :
    ∃ a b c : Nat, a < 2 ^ 63 ∧ b < 2 ^ 63 ∧ c < 2 ^ 63 ∧
      v = { Semver.zero with
        Major := (a : Int), Minor := (b : Int), Patch := (c : Int),
        MetaData := GetMetaDataPart (strings.TrimPrefix s "v"),
        PreReleaseTag := GetPreReleasePart (strings.TrimPrefix s "v") } := by
  rw [ParseSemver_eq] at h
  split_ifs at h with hs
  have hmem : ∀ p ∈ strings.Split (GetVersionPart (strings.TrimPrefix s "v")) '.',
      '-' ∉ p.data := by
    intro p hp hm
    unfold strings.Split at hp
    obtain ⟨q, hq, rfl⟩ := List.mem_map.1 hp
    exact GetVersionPart_no_hyphen _ (splitRunes_mem _ _ q hq _ hm)
  revert hmem h
  generalize strings.Split (GetVersionPart (strings.TrimPrefix s "v")) '.' = parts
  intro h hmem
  rcases parts with _ | ⟨p0, _ | ⟨p1, _ | ⟨p2, _ | ⟨p3, t⟩⟩⟩⟩
  · cases h
  · cases h
  · simp only at h
    cases h0 : strconv.Atoi p0 with
    | none => rw [h0] at h; cases h
    | some z0 =>
      cases h1 : strconv.Atoi p1 with
      | none => rw [h0, h1] at h; cases h
      | some z1 =>
        rw [h0, h1] at h
        obtain ⟨a, rfl, ha⟩ := Atoi_nonneg p0 z0 h0 (hmem p0 (by simp))
        obtain ⟨b, rfl, hb⟩ := Atoi_nonneg p1 z1 h1 (hmem p1 (by simp))
        exact ⟨a, b, 0, ha, hb, by norm_num, (Except.ok.inj h).symm⟩
  · simp only at h
    cases h0 : strconv.Atoi p0 with
    | none => rw [h0] at h; cases h
    | some z0 =>
      cases h1 : strconv.Atoi p1 with
      | none => rw [h0, h1] at h; cases h
      | some z1 =>
        cases h2 : strconv.Atoi p2 with
        | none => rw [h0, h1, h2] at h; cases h
        | some z2 =>
          rw [h0, h1, h2] at h
          obtain ⟨a, rfl, ha⟩ := Atoi_nonneg p0 z0 h0 (hmem p0 (by simp))
          obtain ⟨b, rfl, hb⟩ := Atoi_nonneg p1 z1 h1 (hmem p1 (by simp))
          obtain ⟨c, rfl, hc⟩ := Atoi_nonneg p2 z2 h2 (hmem p2 (by simp))
          exact ⟨a, b, c, ha, hb, hc, (Except.ok.inj h).symm⟩
  · cases h

/-- The formatted number triple, followed by nothing or by a part that starts
with `+` or `-`, parses to the three numbers. -/
theorem ParseSemver_formatted (a b c : Nat) (ha : a < 2 ^ 63) (hb : b < 2 ^ 63)
    (hc : c < 2 ^ 63) :
    ∃ N, '-' ∉ N ∧ '+' ∉ N ∧
      formatInt (a : Int) ++ "." ++ formatInt (b : Int) ++ "." ++ formatInt (c : Int) =
        String.mk N ∧
      ∀ rest, (rest = [] ∨ (∃ r, rest = '+' :: r) ∨ ∃ r, rest = '-' :: r) →
        ParseSemver (String.mk (N ++ rest)) =
          .ok { Semver.zero with
            Major := (a : Int), Minor := (b : Int), Patch := (c : Int),
            MetaData := GetMetaDataPart (String.mk (N ++ rest)),
            PreReleaseTag := GetPreReleasePart (String.mk (N ++ rest)) } := by
  obtain ⟨La, hfa, hnea, hda, hva⟩ := formatInt_ofNat a
  obtain ⟨Lb, hfb, hneb, hdb, hvb⟩ := formatInt_ofNat b
  obtain ⟨Lc, hfc, hnec, hdc, hvc⟩ := formatInt_ofNat c
  have hdot : "." = String.mk ['.'] := rfl
  have nm : ∀ (x : Char), ¬ ('0' ≤ x ∧ x ≤ '9') → x ≠ '.' →
      x ∉ La ++ '.' :: (Lb ++ '.' :: Lc) := by
    intro x hx hx2
    simp only [List.mem_append, List.mem_cons, not_or]
    exact ⟨digit_not_mem La hda x hx, hx2, digit_not_mem Lb hdb x hx, hx2,
      digit_not_mem Lc hdc x hx⟩
  refine ⟨La ++ '.' :: (Lb ++ '.' :: Lc), nm '-' (by decide) (by decide),
    nm '+' (by decide) (by decide), ?_, ?_⟩
  · rw [hfa, hfb, hfc, hdot]
    apply String.ext
    simp [String.data_append]
  · intro rest hrest
    have hsplit : strings.Split (String.mk (La ++ '.' :: (Lb ++ '.' :: Lc))) '.' =
        [String.mk La, String.mk Lb, String.mk Lc] := by
      unfold strings.Split
      simp only
      rw [splitRunes_append _ _ _ (digit_not_mem La hda '.' (by decide)),
        splitRunes_append _ _ _ (digit_not_mem Lb hdb '.' (by decide)),
        splitRunes_of_not_mem _ _ (digit_not_mem Lc hdc '.' (by decide))]
      rfl
    obtain ⟨x, xs, hLa⟩ := List.exists_cons_of_ne_nil hnea
    have hx : x ≠ 'v' := by
      rintro rfl
      exact absurd (hda 'v' (by simp [hLa])).2 (by decide)
    have htrim : strings.TrimPrefix (String.mk (La ++ '.' :: (Lb ++ '.' :: Lc) ++ rest)) "v" =
        String.mk (La ++ '.' :: (Lb ++ '.' :: Lc) ++ rest) := by
      rw [hLa]
      exact TrimPrefix_v x _ hx
    have hne : String.mk (La ++ '.' :: (Lb ++ '.' :: Lc) ++ rest) ≠ "" :=
      (mk_ne_empty _).2 (by simp [hLa])
    rw [ParseSemver_eq, if_neg hne, htrim,
      GetVersionPart_append _ _ (nm '-' (by decide) (by decide))
        (nm '+' (by decide) (by decide)) hrest, hsplit]
    simp only [Atoi_digits La a hnea hda hva ha, Atoi_digits Lb b hneb hdb hvb hb,
      Atoi_digits Lc c hnec hdc hvc hc]

/-- A version that `ParseSemver` returns is a fixed point of formatting and
parsing again. -/
theorem ParseSemver_String_fixed (s : String) (v : Semver) (h : ParseSemver s = .ok v) :
    ParseSemver v.String = .ok v := by
  obtain ⟨a, b, c, ha, hb, hc, rfl⟩ := ParseSemver_ok_shape s v h
  obtain ⟨N, hN1, hN2, hN, hparse⟩ := ParseSemver_formatted a b c ha hb hc
  have hM := GetMetaDataPart_no_hyphen (strings.TrimPrefix s "v")
  have hP := GetPreReleasePart_no_plus (strings.TrimPrefix s "v")
  generalize GetMetaDataPart (strings.TrimPrefix s "v") = M at hM
  generalize GetPreReleasePart (strings.TrimPrefix s "v") = P at hP
  have hplus : "+" = String.mk ['+'] := rfl
  have hminus : "-" = String.mk ['-'] := rfl
  unfold Semver.String
  simp only [hN]
  by_cases hM0 : M = "" <;> by_cases hP0 : P = ""
  · subst hM0 hP0
    have h1 := hparse [] (Or.inl rfl)
    rw [List.append_nil] at h1
    rw [GetMetaDataPart_none N hN2, GetPreReleasePart_none N hN1] at h1
    simpa using h1
  · subst hM0
    have hS : String.mk N ++ "-" ++ P = String.mk (N ++ '-' :: P.data) := by
      apply String.ext; simp [String.data_append, hminus]
    have h1 := hparse ('-' :: P.data) (Or.inr (Or.inr ⟨_, rfl⟩))
    rw [GetMetaDataPart_none _ (by simp [hN2, hP]), GetPreReleasePart_append N _ hN1 hP] at h1
    simpa [hP0, hS] using h1
  · subst hP0
    have hS : String.mk N ++ "+" ++ M = String.mk (N ++ '+' :: M.data) := by
      apply String.ext; simp [String.data_append, hplus]
    have hMd : M.data ≠ [] := fun e => hM0 (String.ext e)
    have h1 := hparse ('+' :: M.data) (Or.inr (Or.inl ⟨_, rfl⟩))
    have h2 := GetMetaDataPart_append N M.data [] hN2 hMd hM (Or.inl rfl)
    rw [List.append_nil] at h2
    rw [h2, GetPreReleasePart_none _ (by simp [hN1, hM])] at h1
    simpa [hM0, hS] using h1
  · have hS : String.mk N ++ "+" ++ M ++ "-" ++ P =
        String.mk (N ++ '+' :: (M.data ++ '-' :: P.data)) := by
      apply String.ext; simp [String.data_append, hplus, hminus]
    have hMd : M.data ≠ [] := fun e => hM0 (String.ext e)
    have h1 := hparse ('+' :: (M.data ++ '-' :: P.data)) (Or.inr (Or.inl ⟨_, rfl⟩))
    have h2 := GetMetaDataPart_append N M.data ('-' :: P.data) hN2 hMd hM (Or.inr ⟨_, rfl⟩)
    have h3 := GetPreReleasePart_append (N ++ '+' :: M.data) P.data (by simp [hN1, hM]) hP
    have e : N ++ '+' :: M.data ++ '-' :: P.data = N ++ '+' :: (M.data ++ '-' :: P.data) := by
      simp
    rw [e] at h3
    rw [h2, h3] at h1
    simpa [hM0, hP0, hS] using h1

theorem EQ_false_refl (v : Semver) : v.EQ v false = true := by
  rw [EQ_false_iff]
  have h := precedence_coherent.anti v v
  omega

/-- Claim C15: when `ParseSemver` succeeds on a literal with `v`, it succeeds on
`v.String()` too, with a version that is `EQ` to `v` under
`ignorePreRelease = false` and has the same major, minor, patch, pre-release
tag and build metadata. -/
theorem C15_String_round_trip (s : String) (v : Semver) (h : ParseSemver s = .ok v) :
    ∃ v1, ParseSemver v.String = .ok v1 ∧ v1.EQ v false = true ∧
      v1.Major = v.Major ∧ v1.Minor = v.Minor ∧ v1.Patch = v.Patch ∧
      v1.PreReleaseTag = v.PreReleaseTag ∧ v1.MetaData = v.MetaData :=
  ⟨v, ParseSemver_String_fixed s v h, EQ_false_refl v, rfl, rfl, rfl, rfl, rfl⟩

/-- Witness for C15 on `1.0.0-alpha+001`, which is formatted as
`1.0.0+001-alpha`. -/
theorem C15_String_round_trip_witness :
    ParseSemver "1.0.0-alpha+001" =
        .ok { Semver.ofParts 1 0 0 "alpha" with MetaData := "001" } ∧
      ({ Semver.ofParts 1 0 0 "alpha" with MetaData := "001" } : Semver).String =
        "1.0.0+001-alpha" ∧
      ∃ v1, ParseSemver
            ({ Semver.ofParts 1 0 0 "alpha" with MetaData := "001" } : Semver).String =
          .ok v1 ∧
        v1.EQ { Semver.ofParts 1 0 0 "alpha" with MetaData := "001" } false = true ∧
        v1.Major = 1 ∧ v1.Minor = 0 ∧ v1.Patch = 0 ∧
        v1.PreReleaseTag = "alpha" ∧ v1.MetaData = "001" :=
  ⟨by decide, by decide,
    C15_String_round_trip "1.0.0-alpha+001"
      { Semver.ofParts 1 0 0 "alpha" with MetaData := "001" } (by decide)⟩

/-! ## Literals that `ParseSemver` accepts -/

/-- Claim C16 fails on the code: `ParseSemver` accepts the four literals that
the claim names, two with a leading zero in a numeric identifier and two with
a character outside alphanumerics, hyphen and dot in the pre-release or build
part. -/
theorem C16_leading_zero_and_bad_character_accepted :
    ParseSemver "01.2.3" = .ok (Semver.ofParts 1 2 3 "") ∧
      ParseSemver "4.18.0-next.1599210529.00065" =
        .ok (Semver.ofParts 4 18 0 "next.1599210529.00065") ∧
      ParseSemver "1.2.3-alpha-1!" = .ok (Semver.ofParts 1 2 3 "alpha-1!") ∧
      ParseSemver "1.0.0+21AF26D3+++117B344092BD" =
        .ok { Semver.ofParts 1 0 0 "" with MetaData := "21AF26D3+++117B344092BD" } := by
  refine ⟨?_, ?_, ?_, ?_⟩ <;> decide

/-- Claim C17 fails on the code: `ParseSemver` accepts `5.66`, whose version
part has two components, and returns `5.66.0`; one and four components are
rejected. -/
theorem C17_two_components_accepted :
    ParseSemver "5.66" = .ok (Semver.ofParts 5 66 0 "") ∧
      ParseSemver "5" = .error Error.ErrInvalidVersionParts ∧
      ParseSemver "5.66.77.88" = .error Error.ErrInvalidVersionParts := by
  refine ⟨?_, ?_, ?_⟩ <;> decide

/-! ## The token list of the lexer -/

theorem isWhitespace_ne_eof (ch : Char) (h : isWhitespace ch = true) : ch ≠ eof := by
  intro e
  subst e
  revert h
  decide

theorem isOperatorStart_ne_eof (ch : Char) (h : isOperatorStart ch = true) : ch ≠ eof := by
  intro e
  subst e
  revert h
  decide

theorem isDigit_ne_eof (ch : Char) (h : isDigit ch = true) : ch ≠ eof := by
  intro e
  subst e
  revert h
  decide

theorem isLetter_ne_eof (ch : Char) (h : (isLetter ch || decide (ch = '*')) = true) :
    ch ≠ eof := by
  intro e
  subst e
  revert h
  decide

theorem isVersionUnsafe_isOperatorStart (ch : Char) (h : isVersionUnsafe ch = true) :
    isOperatorStart ch = true := by
  simp only [isVersionUnsafe, versionUnsafe, List.contains_eq_any_beq, List.any_cons,
    List.any_nil, Bool.or_false, Bool.or_eq_true, beq_iff_eq] at h
  simp only [isOperatorStart, operatorsStarts, List.contains_eq_any_beq, List.any_cons,
    List.any_nil, Bool.or_false, Bool.or_eq_true, beq_iff_eq]
  tauto

theorem isDigit_not_versionUnsafe (ch : Char) (h : isDigit ch = true) :
    isVersionUnsafe ch = false := by
  cases e : isVersionUnsafe ch
  · rfl
  · simp only [isVersionUnsafe, versionUnsafe, List.contains_eq_any_beq, List.any_cons,
      List.any_nil, Bool.or_false, Bool.or_eq_true, beq_iff_eq] at e
    rcases e with e | e | e | e | e | e | e | e | e | e <;> subst e <;> revert h <;> decide

theorem scanWhitespaceLoop_length (l : List Char) :
    (scanWhitespaceLoop l).2.length ≤ l.length := by
  induction l with
  | nil => simp [scanWhitespaceLoop]
  | cons ch rest ih =>
    simp only [scanWhitespaceLoop]
    split_ifs <;> simp <;> omega

theorem scanVersionExpressionLoop_length (l : List Char) :
    (scanVersionExpressionLoop l).2.length ≤ l.length := by
  induction l with
  | nil => simp [scanVersionExpressionLoop]
  | cons ch rest ih =>
    simp only [scanVersionExpressionLoop]
    split_ifs <;> simp <;> omega

theorem scanOperatorLoop_length (l : List Char) :
    (scanOperatorLoop l).2.length ≤ l.length := by
  induction l with
  | nil => simp [scanOperatorLoop]
  | cons ch rest ih =>
    simp only [scanOperatorLoop]
    split_ifs <;> simp <;> omega

/-- Every call of `ScanOne` that does not return `EOF` consumes input. -/
theorem ScanOne_progress (input : List Char) (h : (ScanOne input).1.1 ≠ Token.EOF) :
    (ScanOne input).2.length < input.length := by
  cases input with
  | nil => simp [ScanOne] at h
  | cons ch rest =>
    cases h1 : isWhitespace ch
    · cases h4 : isDigit ch
      · cases h6 : isOperatorStart ch
        · cases h7 : (isLetter ch || decide (ch = '*'))
          · by_cases h8 : ch = eof
            · simp only [Bool.or_eq_false_iff, decide_eq_false_iff_not] at h7
              simp only [ScanOne, h1, h4, h6, h7, Bool.false_eq_true, if_false, false_or,
                h8, if_true] at h
              exact absurd rfl h
            · simp only [Bool.or_eq_false_iff, decide_eq_false_iff_not] at h7
              simp [ScanOne, h1, h4, h6, h7, h8]
          · have h2 := isLetter_ne_eof ch h7
            have h5 : isVersionUnsafe ch = false := by
              cases e : isVersionUnsafe ch
              · rfl
              · have := isVersionUnsafe_isOperatorStart ch e
                rw [h6] at this
                exact absurd this (by decide)
            have h3 := scanVersionExpressionLoop_length rest
            simp only [ScanOne, h1, h4, h6, h7, Bool.false_eq_true, if_false, if_true,
              scanVersionExpression, scanVersionExpressionLoop, h2, h5, Bool.or_self,
              List.length_cons]
            omega
        · have h2 := isOperatorStart_ne_eof ch h6
          have h3 := scanOperatorLoop_length rest
          simp only [ScanOne, h1, h4, h6, Bool.false_eq_true, if_false, if_true, scanOperator,
            scanOperatorLoop, h2, Bool.not_true, List.length_cons]
          split_ifs <;> simp <;> omega
      · have h2 := isDigit_ne_eof ch h4
        have h5 := isDigit_not_versionUnsafe ch h4
        have h3 := scanVersionExpressionLoop_length rest
        simp only [ScanOne, h1, h4, Bool.false_eq_true, if_false, if_true,
          scanVersionExpression, scanVersionExpressionLoop, h2, h5, Bool.or_self,
          List.length_cons]
        omega
    · have h2 := isWhitespace_ne_eof ch h1
      have h3 := scanWhitespaceLoop_length rest
      simp only [ScanOne, h1, if_true, scanWhitespace, scanWhitespaceLoop, h2, if_false,
        Bool.not_true, Bool.false_eq_true, List.length_cons]
      omega

/-- With enough rounds the loop of `ScanWhole` appends tokens that are neither
`EOF` nor `WS` and then one `EOF`. -/
theorem ScanWholeLoop_shape (fuel : Nat) (input : List Char) (tokens : List Token)
    (literals : List String) (h : input.length < fuel) :
    ∃ mid, (ScanWholeLoop fuel input tokens literals).1 = tokens ++ mid ++ [Token.EOF] ∧
      Token.EOF ∉ mid ∧ Token.WS ∉ mid := by
  induction fuel generalizing input tokens literals with
  | zero => omega
  | succ fuel ih =>
    rcases hS : ScanOne input with ⟨⟨token, literal⟩, left⟩
    have hp := ScanOne_progress input
    rw [hS] at hp
    simp only [ScanWholeLoop, hS]
    by_cases h1 : token = Token.EOF
    · subst h1
      refine ⟨[], ?_, by simp, by simp⟩
      simp
    · have hlt : left.length < fuel := by
        have := hp h1
        simp only at this
        omega
      by_cases h2 : token = Token.WS
      · subst h2
        obtain ⟨mid, e, m1, m2⟩ := ih left tokens literals hlt
        refine ⟨mid, ?_, m1, m2⟩
        simpa using e
      · obtain ⟨mid, e, m1, m2⟩ := ih left (tokens ++ [token]) (literals ++ [literal]) hlt
        refine ⟨token :: mid, ?_, ?_, ?_⟩
        · simp only [h1, h2, ne_eq, not_false_eq_true, if_true, if_false]
          rw [e]
          simp
        · simp only [List.mem_cons, not_or]
          exact ⟨fun e => h1 e.symm, m1⟩
        · simp only [List.mem_cons, not_or]
          exact ⟨fun e => h2 e.symm, m2⟩

theorem augmentMissingEqualityOpFrom_count (tokens : List Token) (literals : List String)
    (x : Token) (hx : x ≠ Token.EQ) (rest : List Token) :
    ∀ (idx : Nat) (accT : List Token) (accL : List String),
      OkSat (fun r => r.1.count x = accT.count x + rest.count x)
        (augmentMissingEqualityOpFrom tokens literals rest idx accT accL) := by
  induction rest with
  | nil =>
    intro idx accT accL
    exact OkSat.ok (by simp)
  | cons t ts ih =>
    intro idx accT accL
    have hEQ : List.count x [Token.EQ] = 0 := List.count_eq_zero.2 (by simpa using hx)
    unfold augmentMissingEqualityOpFrom
    repeat' first
      | exact (ih _ _ _).mono (fun r hr => by
          simp only [hr, List.count_append, List.count_cons, List.count_nil, hEQ]
          omega)
      | (refine OkSat.bind fun _ => ?_)
      | (refine OkSat.ite (fun _ => ?_) (fun _ => ?_))

theorem augmentMissingEqualityOp_count (tokens : List Token) (literals : List String)
    (x : Token) (hx : x ≠ Token.EQ) :
    OkSat (fun r => r.1.count x = tokens.count x) (augmentMissingEqualityOp tokens literals) := by
  unfold augmentMissingEqualityOp
  refine OkSat.ite (fun _ => OkSat.ok rfl) (fun _ => ?_)
  exact (augmentMissingEqualityOpFrom_count tokens literals x hx tokens 0 [] []).mono
    (fun r hr => by simpa using hr)

theorem removeSuperfluousAndOpFrom_count (tokens : List Token) (literals : List String)
    (x : Token) (hx : x ≠ Token.AND) (rest : List Token) :
    ∀ (idx : Nat) (accT : List Token) (accL : List String),
      OkSat (fun r => r.1.count x = accT.count x + rest.count x)
        (removeSuperfluousAndOpFrom tokens literals rest idx accT accL) := by
  induction rest with
  | nil =>
    intro idx accT accL
    exact OkSat.ok (by simp)
  | cons t ts ih =>
    intro idx accT accL
    unfold removeSuperfluousAndOpFrom
    repeat' first
      | exact (ih _ _ _).mono (fun r hr => by
          rw [hr]
          first
            | (simp only [List.count_append, List.count_cons, List.count_nil]; omega)
            | (have ht : t = Token.AND := by tauto
               subst ht
               have hne : (Token.AND == x) = false := by simpa using hx.symm
               simp only [List.count_cons, hne, Bool.false_eq_true, if_false]
               omega))
      | contradiction
      | (with_reducible refine OkSat.pure_bind ?_)
      | (refine OkSat.bind fun _ => ?_)
      | (refine OkSat.ite (fun _ => ?_) (fun _ => ?_))

theorem removeSuperfluousAndOp_count (tokens : List Token) (literals : List String)
    (x : Token) (hx : x ≠ Token.AND) :
    OkSat (fun r => r.1.count x = tokens.count x) (removeSuperfluousAndOp tokens literals) := by
  unfold removeSuperfluousAndOp
  refine OkSat.ite (fun _ => OkSat.ok rfl) (fun _ => ?_)
  exact (removeSuperfluousAndOpFrom_count tokens literals x hx tokens 0 [] []).mono
    (fun r hr => by simpa using hr)

theorem ScanWhole_count_EOF (input : List Char) :
    OkSat (fun r => r.1.count Token.EOF = 1) (ScanWhole input) := by
  unfold ScanWhole
  obtain ⟨mid, h1, h2, h3⟩ :=
    ScanWholeLoop_shape (input.length + 1) input [Token.SOF] [""] (by omega)
  generalize ScanWholeLoop (input.length + 1) input [Token.SOF] [""] = p at h1
  obtain ⟨T, L⟩ := p
  simp only at h1
  subst h1
  have c1 : ¬ (([Token.SOF] ++ mid ++ [Token.EOF]).length > 1 ∧
      ([Token.SOF] ++ mid ++ [Token.EOF]).get? 1 = some Token.WS) := by
    rintro ⟨-, h⟩
    cases mid with
    | nil => simp at h
    | cons m ms =>
      simp at h
      exact h3 (by simp [h])
  have c2 : ¬ (([Token.SOF] ++ mid ++ [Token.EOF]).length > 1 ∧
      ([Token.SOF] ++ mid ++ [Token.EOF]).get?
        (([Token.SOF] ++ mid ++ [Token.EOF]).length - 2) = some Token.WS) := by
    rintro ⟨-, h⟩
    have hlen : ([Token.SOF] ++ mid ++ [Token.EOF]).length - 2 = mid.length := by simp
    rw [hlen, List.get?_eq_getElem?, List.getElem?_append_left (by simp)] at h
    have hm := List.getElem?_mem h
    simp only [List.singleton_append, List.mem_cons] at hm
    rcases hm with hm | hm
    · cases hm
    · exact h3 hm
  simp only [c1, c2, if_false]
  refine OkSat.bind_of (augmentMissingEqualityOp_count _ _ Token.EOF (by decide)) fun a ha => ?_
  refine (removeSuperfluousAndOp_count _ _ Token.EOF (by decide)).mono fun r hr => ?_
  rw [hr, ha]
  simp [List.count_append, List.count_eq_zero.2 h2]

theorem LexConstraint_count_EOF (s : String) :
    OkSat (fun r => r.1.count Token.EOF = 1) (LexConstraint s) :=
  ScanWhole_count_EOF s.data

/-! ## The loop of `ParseConstraint`: ranges and joins -/

theorem parseConstraintFrom_cons (literals : List String) (t : Token) (ts : List Token)
    (idx : Nat) (c : Constraint) (cur : List Token) (curL : List String) :
    parseConstraintFrom literals (t :: ts) idx c cur curL =
      match index literals idx with
      | .error e => .error e
      | .ok literal =>
        if t = Token.OR ∨ t = Token.AND then
          match parseSubConstraint cur curL with
          | .error e => .error e
          | .ok r =>
            parseConstraintFrom literals ts (idx + 1)
              { c with Join := c.Join ++ [joinOf t], Ranges := c.Ranges ++ [r] } [] []
        else if t = Token.EOF then
          match parseSubConstraint cur curL with
          | .error e => .error e
          | .ok r =>
            parseConstraintFrom literals ts (idx + 1)
              { c with Ranges := c.Ranges ++ [r] } [] []
        else if t ≠ Token.SOF then
          parseConstraintFrom literals ts (idx + 1) c (cur ++ [t]) (curL ++ [literal])
        else parseConstraintFrom literals ts (idx + 1) c cur curL := by
  rw [parseConstraintFrom]
  cases index literals idx with
  | error e => rfl
  | ok literal =>
    simp only [bind, Except.bind]
    by_cases h1 : t = Token.OR ∨ t = Token.AND
    · simp only [h1, if_true]
      cases parseSubConstraint cur curL with
      | error e => rfl
      | ok r =>
        simp only
        rcases h1 with h | h <;> subst h <;> simp [joinOf]
    · simp only [h1, if_false]
      by_cases h2 : t = Token.EOF
      · simp only [h2, if_true]
        cases parseSubConstraint cur curL with
        | error e => rfl
        | ok r => rfl
      · simp only [h2, if_false]

theorem ParseConstraint_ok (s : String) (c : Constraint) (h : ParseConstraint s = .ok c) :
    ∃ tokens literals, LexConstraint s = .ok (tokens, literals) ∧
      validateConstraintComposition tokens literals = .ok () ∧
      parseConstraintFrom literals tokens 0 { Original := s, Ranges := [], Join := [] } [] [] =
        .ok c := by
  unfold ParseConstraint at h
  obtain ⟨⟨tokens, literals⟩, h2, h1⟩ := ok_of_bind h
  refine ⟨tokens, literals, h1, ?_⟩
  simp only at h2
  split_ifs at h2 with h3
  · exact absurd h2 (by simp [bind, Except.bind, throw, throwThe, MonadExceptOf.throw])
  · obtain ⟨u, h4, _⟩ := ok_of_bind h2
    obtain ⟨u2, h6, h5⟩ := ok_of_bind h4
    cases u2
    exact ⟨h5, h6⟩

theorem parseConstraintFrom_lengths (literals : List String) (ts : List Token) :
    ∀ (idx : Nat) (c : Constraint) (cur : List Token) (curL : List String),
      OkSat (fun r =>
          r.Ranges.length =
            c.Ranges.length + ts.count Token.AND + ts.count Token.OR + ts.count Token.EOF ∧
          r.Join.length = c.Join.length + ts.count Token.AND + ts.count Token.OR)
        (parseConstraintFrom literals ts idx c cur curL) := by
  induction ts with
  | nil =>
    intro idx c cur curL
    unfold parseConstraintFrom
    exact OkSat.ok (by simp)
  | cons t ts ih =>
    intro idx c cur curL
    rw [parseConstraintFrom_cons]
    cases index literals idx with
    | error e => exact OkSat.error e
    | ok literal =>
      simp only
      by_cases h1 : t = Token.OR ∨ t = Token.AND
      · rw [if_pos h1]
        cases parseSubConstraint cur curL with
        | error e => exact OkSat.error e
        | ok r =>
          refine (ih _ _ _ _).mono fun a ha => ?_
          rcases h1 with h1 | h1 <;> subst h1 <;>
            simp [ha.1, ha.2, List.count_cons] <;> omega
      · rw [if_neg h1]
        by_cases h2 : t = Token.EOF
        · rw [if_pos h2]
          cases parseSubConstraint cur curL with
          | error e => exact OkSat.error e
          | ok r =>
            refine (ih _ _ _ _).mono fun a ha => ?_
            subst h2
            simp [ha.1, ha.2, List.count_cons]
            omega
        · rw [if_neg h2]
          have e1 : (t == Token.AND) = false := by simpa using fun h => h1 (Or.inr h)
          have e2 : (t == Token.OR) = false := by simpa using fun h => h1 (Or.inl h)
          have e3 : (t == Token.EOF) = false := by simpa using h2
          split_ifs <;> refine (ih _ _ _ _).mono fun a ha => ?_ <;>
            simp [ha.1, ha.2, List.count_cons, e1, e2, e3]

/-- Claim C18: a constraint that `ParseConstraint` returns has at least one
range, and one join operator fewer than ranges. -/
theorem C18_one_join_fewer_than_ranges (s : String) (c : Constraint)
    (h : ParseConstraint s = .ok c) :
    1 ≤ c.Ranges.length ∧ c.Join.length = c.Ranges.length - 1 := by
  obtain ⟨tokens, literals, hlex, -, hparse⟩ := ParseConstraint_ok s c h
  have hEOF := (LexConstraint_count_EOF s).elim _ hlex
  have hlen := (parseConstraintFrom_lengths literals tokens 0 _ [] []).elim _ hparse
  simp only [List.length_nil, Nat.zero_add] at hlen hEOF
  omega

/-- Witness for C18 on `>=1.0.0 <2.0.0 || ~3.1`: two ranges and one join. -/
theorem C18_one_join_fewer_than_ranges_witness :
    ParseConstraint ">=1.0.0 <2.0.0 || ~3.1" = .ok exampleTwoRanges ∧
      1 ≤ exampleTwoRanges.Ranges.length ∧
      exampleTwoRanges.Join.length = exampleTwoRanges.Ranges.length - 1 :=
  ⟨by decide,
    C18_one_join_fewer_than_ranges ">=1.0.0 <2.0.0 || ~3.1" exampleTwoRanges (by decide)⟩

/-! ## The operators of a parsed range -/

theorem finishRange_ops (pr : Range) (s e : String) :
    OkSat (fun r => r.StartOp = pr.StartOp ∧ r.EndOp = pr.EndOp) (finishRange pr s e) := by
  unfold finishRange
  exact OkSat.bind fun a => OkSat.bind fun b => OkSat.pure ⟨rfl, rfl⟩

theorem parseHyphen_ops (lits : List String) :
    OkSat (fun r => r.StartOp = Token.GE ∧ (r.EndOp = Token.LE ∨ r.EndOp = Token.LT))
      (parseHyphen lits) := by
  unfold parseHyphen
  simp only
  repeat' first
    | exact (finishRange_ops _ _ _).mono (fun r hr => by simp [hr.1, hr.2])
    | exact OkSat.throw _
    | (with_reducible refine OkSat.pure_bind ?_)
    | (refine OkSat.bind fun _ => ?_)
    | (refine OkSat.ite (fun _ => ?_) (fun _ => ?_))
    | split

theorem parseTildeRange_ops (lits : List String) :
    OkSat (fun r => r.StartOp = Token.GE ∧ (r.EndOp = Token.UNSET ∨ r.EndOp = Token.LT))
      (parseTildeRange lits) := by
  unfold parseTildeRange
  simp only
  repeat' first
    | exact (finishRange_ops _ _ _).mono (fun r hr => by simp [hr.1, hr.2])
    | exact OkSat.throw _
    | exact OkSat.pure (by simp [Range.zero])
    | (refine OkSat.bind fun _ => ?_)
    | (refine OkSat.ite (fun _ => ?_) (fun _ => ?_))
    | split

theorem parseCaretRange_ops (lits : List String) :
    OkSat (fun r => r.StartOp = Token.GE ∧ (r.EndOp = Token.UNSET ∨ r.EndOp = Token.LT))
      (parseCaretRange lits) := by
  unfold parseCaretRange
  simp only
  repeat' first
    | exact (finishRange_ops _ _ _).mono (fun r hr => by simp [hr.1, hr.2])
    | exact OkSat.throw _
    | exact OkSat.pure (by simp [Range.zero])
    | (refine OkSat.bind fun _ => ?_)
    | (refine OkSat.ite (fun _ => ?_) (fun _ => ?_))
    | split

theorem parseXRange_ops (lits : List String) :
    OkSat (fun r => r.StartOp = Token.GE ∧ (r.EndOp = Token.UNSET ∨ r.EndOp = Token.LT))
      (parseXRange lits) := by
  unfold parseXRange
  simp only
  repeat' first
    | exact OkSat.throw _
    | exact OkSat.pure (by simp [Range.zero])
    | (refine OkSat.bind fun _ => ?_)
    | (refine OkSat.ite (fun _ => ?_) (fun _ => ?_))
    | split

theorem parseStaticRange_ops (tokens : List Token) (lits : List String) :
    OkSat (fun r => tokens.get? 0 = some r.StartOp ∧ r.EndOp = Token.UNSET)
      (parseStaticRange tokens lits) := by
  unfold parseStaticRange
  refine OkSat.bind_of (index_sat tokens 0) fun t0 h0 => ?_
  repeat' first
    | exact OkSat.pure ⟨h0, rfl⟩
    | (refine OkSat.bind fun _ => ?_)

theorem parseRange_ops (tokens : List Token) (lits : List String) :
    OkSat (fun r => tokens.get? 0 = some r.StartOp ∧
        (r.EndOp = Token.UNSET ∨ tokens.get? 2 = some r.EndOp))
      (parseRange tokens lits) := by
  unfold parseRange
  simp only
  refine OkSat.ite (fun _ => ?_) (fun _ => OkSat.ite (fun _ => ?_) (fun _ => OkSat.throw _))
  · refine OkSat.bind_of (index_sat tokens 0) fun t0 h0 => ?_
    repeat' first
      | exact OkSat.pure ⟨h0, Or.inl rfl⟩
      | (refine OkSat.bind fun _ => ?_)
  · refine OkSat.bind_of (index_sat tokens 0) fun t0 h0 => ?_
    refine OkSat.bind fun _ => OkSat.bind fun _ => OkSat.bind fun _ => ?_
    refine OkSat.bind_of (index_sat tokens 2) fun t2 h2 => ?_
    repeat' first
      | exact OkSat.pure ⟨h0, Or.inr h2⟩
      | (refine OkSat.bind fun _ => ?_)

theorem isStaticRange_tokens (tokens : List Token) (lits : List String) :
    OkSat (fun b => b = true → tokens.get? 0 = some Token.EQ) (isStaticRange tokens lits) := by
  unfold isStaticRange
  split
  · refine OkSat.ite (fun h => ?_) (fun _ => OkSat.pure (by simp))
    refine OkSat.bind fun _ => OkSat.pure fun _ => ?_
    have := h.1
    simp only [IsEqualityToken, decide_eq_true_eq] at this
    simp [this]
  · exact OkSat.pure (by simp)

theorem validateStep_previous (tokens : List Token) (literals : List String) (idx : Nat) (token : Token)
    (j tp : List Token) (prev : Token) :
    OkSat (fun r => r.2.2 = token) (validateStep tokens literals idx token j tp prev) := by
  unfold validateStep
  lift_lets
  repeat
    intro jp
    first
      | (have h : ∀ y, OkSat (fun r : List Token × List Token × Token => r.2.2 = token) (jp y) := by
          intro y
          simp only [jp]
          repeat' first
            | exact OkSat.app (by assumption) _
            | exact OkSat.throw _
            | exact OkSat.pure rfl
            | (refine OkSat.bind fun _ => ?_)
            | (refine OkSat.ite (fun _ => ?_) (fun _ => ?_))
         clear_value jp)
      | skip
  repeat' first
    | exact OkSat.app (by assumption) _
    | exact OkSat.throw _
    | exact OkSat.pure rfl
    | (refine OkSat.bind fun _ => ?_)
    | (refine OkSat.ite (fun _ => ?_) (fun _ => ?_))

theorem validateStep_hyphen (tokens : List Token) (literals : List String) (idx : Nat)
    (j tp : List Token) (prev : Token) (h : prev ≠ Token.VERSION_EXPRESSION) :
    validateStep tokens literals idx Token.HYPHEN j tp prev = .error Error.invalidVersionConstraint := by
  cases prev <;> first | exact absurd rfl h | (simp [validateStep, IsJoinToken, IsRangeToken, IsEqualityToken, bind, Except.bind, throw, throwThe, MonadExceptOf.throw, pure, Except.pure])

theorem validateFrom_chain (tokens : List Token) (literals : List String) (rest : List Token) :
    ∀ (idx : Nat) (j tp : List Token) (prev : Token),
      validateFrom tokens literals rest idx j tp prev = .ok () →
      List.Chain (fun p t => t = Token.HYPHEN → p = Token.VERSION_EXPRESSION) prev rest := by
  induction rest with
  | nil => intro idx j tp prev _; exact List.Chain.nil
  | cons t ts ih =>
    intro idx j tp prev h
    unfold validateFrom at h
    cases hs : validateStep tokens literals idx t j tp prev with
    | error e => rw [hs] at h; cases h
    | ok r =>
      rw [hs] at h
      obtain ⟨j1, tp1, p1⟩ := r
      have hp : p1 = t := (validateStep_previous tokens literals idx t j tp prev).elim _ hs
      subst hp
      refine List.Chain.cons (fun ht => ?_) (ih _ _ _ _ h)
      by_contra hne
      subst ht
      rw [validateStep_hyphen tokens literals idx j tp prev hne] at hs
      cases hs

/-- Claim C19 as stated fails: `ParseConstraint` succeeds on `<=5.0.0` with the
single range `StartOp = LE`, no upper bound (the expectation of
`TestRangeParsing`), and `LE` is not among `GE`, `GT`, `EQ`. -/
theorem C19_le_is_a_start_operator :
    ParseConstraint "<=5.0.0" =
        .ok { Original := "<=5.0.0",
              Ranges := [{ Range.zero with
                StartOp := Token.LE, StartVersion := Semver.ofParts 5 0 0 "" }],
              Join := [] } ∧
      ¬ (∀ (s : String) (c : Constraint), ParseConstraint s = .ok c →
          ∀ r ∈ c.Ranges,
            r.StartOp ∈ [Token.GE, Token.GT, Token.EQ] ∧
            r.EndOp ∈ [Token.UNSET, Token.LT, Token.LE]) := by
  have h0 : ParseConstraint "<=5.0.0" =
      .ok { Original := "<=5.0.0",
            Ranges := [{ Range.zero with
              StartOp := Token.LE, StartVersion := Semver.ofParts 5 0 0 "" }],
            Join := [] } := by decide
  refine ⟨h0, fun h => ?_⟩
  have h1 := (h _ _ h0 _ (List.mem_singleton.2 rfl)).1
  revert h1
  decide

/-! ## The original input of a constraint -/

theorem parseConstraintFrom_Original (literals : List String) (ts : List Token) (idx : Nat)
    (c : Constraint) (cur : List Token) (curL : List String) (c' : Constraint)
    (h : parseConstraintFrom literals ts idx c cur curL = .ok c') :
    c'.Original = c.Original := by
  induction ts generalizing idx c cur curL with
  | nil =>
    simp only [parseConstraintFrom] at h
    cases h
    rfl
  | cons t ts ih =>
    rw [parseConstraintFrom_cons] at h
    cases h1 : index literals idx with
    | error e => simp [h1] at h
    | ok literal =>
      simp only [h1] at h
      split_ifs at h with h2 h3 h4
      · cases h5 : parseSubConstraint cur curL with
        | error e => simp [h5] at h
        | ok r =>
          simp only [h5] at h
          have e := ih _ _ _ _ h
          exact e
      · cases h5 : parseSubConstraint cur curL with
        | error e => simp [h5] at h
        | ok r =>
          simp only [h5] at h
          have e := ih _ _ _ _ h
          exact e
      · exact ih _ _ _ _ h
      · exact ih _ _ _ _ h

/-- C20: when `ParseConstraint` succeeds on `s`, the field `Original` of the
result is `s`. -/
theorem C20_Original_is_input (s : String) (c : Constraint) (h : ParseConstraint s = .ok c) :
    c.Original = s := by
  obtain ⟨tokens, literals, _, _, h3⟩ := ParseConstraint_ok s c h
  exact parseConstraintFrom_Original _ _ _ _ _ _ _ h3

/-- Witness for C20 on `>=1.0.0`, the input of `TestBackwardCompatibility`. -/
theorem C20_Original_is_input_witness :
    ParseConstraint ">=1.0.0" =
        .ok { Original := ">=1.0.0",
              Ranges := [{ Range.zero with
                StartOp := Token.GE, StartVersion := Semver.ofParts 1 0 0 "" }],
              Join := [] } ∧
      ({ Original := ">=1.0.0",
         Ranges := [{ Range.zero with
           StartOp := Token.GE, StartVersion := Semver.ofParts 1 0 0 "" }],
         Join := [] } : Constraint).Original = ">=1.0.0" :=
  ⟨by decide,
    C20_Original_is_input ">=1.0.0"
      { Original := ">=1.0.0",
        Ranges := [{ Range.zero with
          StartOp := Token.GE, StartVersion := Semver.ofParts 1 0 0 "" }],
        Join := [] } (by decide)⟩

end NodeSemver

namespace NodeSemver

/-! ## Join operators at the end of the input, parentheses and the passes of the lexer -/

theorem validateStep_eof_after_join (tokens : List Token) (literals : List String) (idx : Nat)
    (j tp : List Token) (prev : Token) (h : IsJoinToken prev = true) :
    validateStep tokens literals idx Token.EOF j tp prev =
      .error Error.invalidVersionConstraint := by
  cases prev <;> first
    | (exact absurd h (by decide))
    | (simp [validateStep, IsJoinToken, IsRangeToken, IsEqualityToken, bind, Except.bind,
        throw, throwThe, MonadExceptOf.throw, pure, Except.pure])

theorem validateFrom_no_eof_after_join (tokens : List Token) (literals : List String)
    (rest : List Token) :
    ∀ (idx : Nat) (j tp : List Token) (prev : Token),
      validateFrom tokens literals rest idx j tp prev = .ok () →
      List.Chain (fun p t => ¬ (t = Token.EOF ∧ IsJoinToken p = true)) prev rest := by
  induction rest with
  | nil => intro idx j tp prev _; exact List.Chain.nil
  | cons t ts ih =>
    intro idx j tp prev h
    unfold validateFrom at h
    cases hs : validateStep tokens literals idx t j tp prev with
    | error e => rw [hs] at h; cases h
    | ok r =>
      rw [hs] at h
      obtain ⟨j1, tp1, p1⟩ := r
      have hp : p1 = t := (validateStep_previous tokens literals idx t j tp prev).elim _ hs
      subst hp
      refine List.Chain.cons (fun ht => ?_) (ih _ _ _ _ h)
      obtain ⟨rfl, hj⟩ := ht
      rw [validateStep_eof_after_join tokens literals idx j tp prev hj] at hs
      cases hs

/-- When the lexer returns a token list whose last token before `EOF` is a join
operator, `ParseConstraint` returns no constraint. -/
theorem ParseConstraint_trailing_join (s : String) (tokens pre : List Token)
    (literals : List String) (jt : Token) (hlex : LexConstraint s = .ok (tokens, literals))
    (htok : tokens = pre ++ [jt, Token.EOF]) (hj : IsJoinToken jt = true) (c : Constraint) :
    ParseConstraint s ≠ .ok c := by
  intro h
  obtain ⟨tokens1, literals1, hlex1, hval, -⟩ := ParseConstraint_ok s c h
  rw [hlex] at hlex1
  cases hlex1
  have hch := validateFrom_no_eof_after_join tokens literals tokens 0 [] [] Token.SOF hval
  rw [htok, List.chain_split] at hch
  have := (List.chain_cons.1 hch.2).1
  exact this ⟨rfl, hj⟩

/-- Claim C21 fails on the code: on `1.x || >= 5.0.0 &&` the pass
`removeSuperfluousAndOp` of the lexer reads `tokens[idx+2]` one position beyond
the end of the token list (the run-time panic of Go, `indexOutOfRange` here), so
`ParseConstraint` does not return an error value; on `5.0.0 &&` it returns an
error. -/
theorem C21_trailing_and_reads_beyond_the_tokens :
    LexConstraint "1.x || >= 5.0.0 &&" = .error Error.indexOutOfRange ∧
      ParseConstraint "1.x || >= 5.0.0 &&" = .error Error.indexOutOfRange ∧
      ParseConstraint "5.0.0 &&" = .error Error.invalidVersionConstraint := by
  refine ⟨?_, ?_, ?_⟩ <;> decide

/-! ## The shape of the lexer's result -/

theorem ScanWholeLoop_lengths (fuel : Nat) :
    ∀ (input : List Char) (tokens : List Token) (literals : List String),
      tokens.length = literals.length →
      (ScanWholeLoop fuel input tokens literals).1.length =
        (ScanWholeLoop fuel input tokens literals).2.length := by
  induction fuel with
  | zero => intro input tokens literals h; exact h
  | succ fuel ih =>
    intro input tokens literals h
    rcases hS : ScanOne input with ⟨⟨token, literal⟩, left⟩
    simp only [ScanWholeLoop, hS]
    by_cases h2 : token = Token.WS
    · subst h2
      have h3 : ¬ (Token.WS = Token.EOF) := by decide
      simp only [ne_eq, not_true_eq_false, if_false, h3]
      exact ih _ _ _ h
    · simp only [ne_eq, h2, not_false_eq_true, if_true]
      split_ifs
      · simp [h]
      · exact ih _ _ _ (by simp [h])

/-- One step of a pass that appends `pre` (the visited token, possibly after an
inserted one, or nothing) to the tokens built so far. -/
theorem frame_step (accT pre t1 r1 : List Token) (tok : Token) (ts : List Token)
    (hr : r1 = accT ++ pre ++ t1) (hnil : ts = [] → t1 = [])
    (hhead : tok = Token.SOF → pre.head? = some Token.SOF)
    (hlast1 : tok = Token.EOF → pre.getLast? = some Token.EOF)
    (hlast : ts.getLast? = some Token.EOF → t1.getLast? = some Token.EOF) :
    ∃ t, r1 = accT ++ t ∧ (tok :: ts = [] → t = []) ∧
      ((tok :: ts).head? = some Token.SOF → t.head? = some Token.SOF) ∧
      ((tok :: ts).getLast? = some Token.EOF → t.getLast? = some Token.EOF) := by
  refine ⟨pre ++ t1, by rw [hr, List.append_assoc], ?_, ?_, ?_⟩
  · intro h; cases h
  · intro h
    simp only [List.head?_cons, Option.some.injEq] at h
    have := hhead h
    cases pre with
    | nil => simp at this
    | cons p ps => simpa using this
  · intro h
    cases ts with
    | nil =>
      simp only [List.getLast?_singleton, Option.some.injEq] at h
      rw [hnil rfl, List.append_nil]
      exact hlast1 h
    | cons u us =>
      rw [List.getLast?_cons_cons] at h
      have h1 := hlast h
      cases t1 with
      | nil => simp at h1
      | cons v vs => rw [List.getLast?_append_of_ne_nil _ (by simp)]; exact h1

/-- One step of a pass that drops the visited token `AND`. -/
theorem frame_skip (accT t1 r1 : List Token) (ts : List Token) (hr : r1 = accT ++ t1)
    (hlast : ts.getLast? = some Token.EOF → t1.getLast? = some Token.EOF) :
    ∃ t, r1 = accT ++ t ∧ (Token.AND :: ts = [] → t = []) ∧
      ((Token.AND :: ts).head? = some Token.SOF → t.head? = some Token.SOF) ∧
      ((Token.AND :: ts).getLast? = some Token.EOF → t.getLast? = some Token.EOF) := by
  refine ⟨t1, hr, ?_, ?_, ?_⟩
  · intro h; cases h
  · intro h
    simp only [List.head?_cons, Option.some.injEq] at h
    cases h
  · intro h
    cases ts with
    | nil =>
      simp only [List.getLast?_singleton, Option.some.injEq] at h
      cases h
    | cons u us => rw [List.getLast?_cons_cons] at h; exact hlast h

theorem augmentMissingEqualityOpFrom_frame (tokens : List Token) (literals : List String)
    (rest : List Token) :
    ∀ (idx : Nat) (accT : List Token) (accL : List String),
      OkSat (fun r => (accT.length = accL.length → r.1.length = r.2.length) ∧
          ∃ t, r.1 = accT ++ t ∧ (rest = [] → t = []) ∧
            (rest.head? = some Token.SOF → t.head? = some Token.SOF) ∧
            (rest.getLast? = some Token.EOF → t.getLast? = some Token.EOF))
        (augmentMissingEqualityOpFrom tokens literals rest idx accT accL) := by
  induction rest with
  | nil =>
    intro idx accT accL
    exact OkSat.ok ⟨fun h => h, [], by simp, fun _ => rfl, by simp, by simp⟩
  | cons tok ts ih =>
    intro idx accT accL
    unfold augmentMissingEqualityOpFrom
    repeat' first
      | exact (ih _ (accT ++ [Token.EQ] ++ [tok]) _).mono (fun r hr => by
          obtain ⟨hlen, t1, hr1, hnil, -, hlast⟩ := hr
          have hVE : tok = Token.VERSION_EXPRESSION := by tauto
          refine ⟨fun h => hlen (by simp [h]), ?_⟩
          exact frame_step accT [Token.EQ, tok] t1 r.1 tok ts (by rw [hr1]; simp) hnil
            (fun e => by rw [hVE] at e; cases e) (fun e => by rw [hVE] at e; cases e) hlast)
      | exact (ih _ (accT ++ [tok]) _).mono (fun r hr => by
          obtain ⟨hlen, t1, hr1, hnil, -, hlast⟩ := hr
          refine ⟨fun h => hlen (by simp [h]), ?_⟩
          exact frame_step accT [tok] t1 r.1 tok ts hr1 hnil
            (fun e => by rw [e]; rfl) (fun e => by rw [e]; rfl) hlast)
      | (refine OkSat.bind fun _ => ?_)
      | (refine OkSat.ite (fun _ => ?_) (fun _ => ?_))

theorem removeSuperfluousAndOpFrom_frame (tokens : List Token) (literals : List String)
    (rest : List Token) :
    ∀ (idx : Nat) (accT : List Token) (accL : List String),
      OkSat (fun r => (accT.length = accL.length → r.1.length = r.2.length) ∧
          ∃ t, r.1 = accT ++ t ∧ (rest = [] → t = []) ∧
            (rest.head? = some Token.SOF → t.head? = some Token.SOF) ∧
            (rest.getLast? = some Token.EOF → t.getLast? = some Token.EOF))
        (removeSuperfluousAndOpFrom tokens literals rest idx accT accL) := by
  induction rest with
  | nil =>
    intro idx accT accL
    exact OkSat.ok ⟨fun h => h, [], by simp, fun _ => rfl, by simp, by simp⟩
  | cons tok ts ih =>
    intro idx accT accL
    unfold removeSuperfluousAndOpFrom
    repeat' first
      | exact (ih _ (accT ++ [tok]) _).mono (fun r hr => by
          obtain ⟨hlen, t1, hr1, hnil, -, hlast⟩ := hr
          refine ⟨fun h => hlen (by simp [h]), ?_⟩
          exact frame_step accT [tok] t1 r.1 tok ts hr1 hnil
            (fun e => by rw [e]; rfl) (fun e => by rw [e]; rfl) hlast)
      | exact (ih _ accT _).mono (fun r hr => by
          obtain ⟨hlen, t1, hr1, hnil, -, hlast⟩ := hr
          have hAND : tok = Token.AND := by tauto
          refine ⟨hlen, ?_⟩
          subst hAND
          exact frame_skip accT t1 r.1 ts hr1 hlast)
      | contradiction
      | (with_reducible refine OkSat.pure_bind ?_)
      | (refine OkSat.bind fun _ => ?_)
      | (refine OkSat.ite (fun _ => ?_) (fun _ => ?_))

/-- The two trimming steps of `ScanWhole` never change the lists: the scanning
loop does not append `WS`. -/
theorem ScanWhole_eq (input : List Char) :
    ScanWhole input =
      (augmentMissingEqualityOp (ScanWholeLoop (input.length + 1) input [Token.SOF] [""]).1
          (ScanWholeLoop (input.length + 1) input [Token.SOF] [""]).2 >>=
        fun r => removeSuperfluousAndOp r.1 r.2) := by
  unfold ScanWhole
  obtain ⟨mid, h1, h2, h3⟩ :=
    ScanWholeLoop_shape (input.length + 1) input [Token.SOF] [""] (by omega)
  generalize ScanWholeLoop (input.length + 1) input [Token.SOF] [""] = p at h1
  obtain ⟨T, L⟩ := p
  simp only at h1
  subst h1
  have c1 : ¬ (([Token.SOF] ++ mid ++ [Token.EOF]).length > 1 ∧
      ([Token.SOF] ++ mid ++ [Token.EOF]).get? 1 = some Token.WS) := by
    rintro ⟨-, h⟩
    cases mid with
    | nil => simp at h
    | cons m ms =>
      simp at h
      exact h3 (by simp [h])
  have c2 : ¬ (([Token.SOF] ++ mid ++ [Token.EOF]).length > 1 ∧
      ([Token.SOF] ++ mid ++ [Token.EOF]).get?
        (([Token.SOF] ++ mid ++ [Token.EOF]).length - 2) = some Token.WS) := by
    rintro ⟨-, h⟩
    have hlen : ([Token.SOF] ++ mid ++ [Token.EOF]).length - 2 = mid.length := by simp
    rw [hlen, List.get?_eq_getElem?, List.getElem?_append_left (by simp)] at h
    have hm := List.getElem?_mem h
    simp only [List.singleton_append, List.mem_cons] at hm
    rcases hm with hm | hm
    · cases hm
    · exact h3 hm
  simp only [c1, c2, if_false]
  all_goals rfl

theorem augmentMissingEqualityOp_frame (tokens : List Token) (literals : List String)
    (hlen : tokens.length = literals.length) :
    OkSat (fun r => r.1.length = r.2.length ∧
        (tokens.head? = some Token.SOF → r.1.head? = some Token.SOF) ∧
        (tokens.getLast? = some Token.EOF → r.1.getLast? = some Token.EOF))
      (augmentMissingEqualityOp tokens literals) := by
  unfold augmentMissingEqualityOp
  refine OkSat.ite (fun _ => OkSat.ok ⟨hlen, fun h => h, fun h => h⟩) (fun _ => ?_)
  refine (augmentMissingEqualityOpFrom_frame tokens literals tokens 0 [] []).mono ?_
  rintro r ⟨h1, t, h2, -, h3, h4⟩
  rw [List.nil_append] at h2
  rw [h2]
  rw [h2] at h1
  exact ⟨h1 rfl, h3, h4⟩

theorem removeSuperfluousAndOp_frame (tokens : List Token) (literals : List String)
    (hlen : tokens.length = literals.length) :
    OkSat (fun r => r.1.length = r.2.length ∧
        (tokens.head? = some Token.SOF → r.1.head? = some Token.SOF) ∧
        (tokens.getLast? = some Token.EOF → r.1.getLast? = some Token.EOF))
      (removeSuperfluousAndOp tokens literals) := by
  unfold removeSuperfluousAndOp
  refine OkSat.ite (fun _ => OkSat.ok ⟨hlen, fun h => h, fun h => h⟩) (fun _ => ?_)
  refine (removeSuperfluousAndOpFrom_frame tokens literals tokens 0 [] []).mono ?_
  rintro r ⟨h1, t, h2, -, h3, h4⟩
  rw [List.nil_append] at h2
  rw [h2]
  rw [h2] at h1
  exact ⟨h1 rfl, h3, h4⟩

/-- Claim C24: when `LexConstraint` returns, the token list and the literal list
have the same length, the first token is `SOF`, the last token is `EOF`, and no
token is `WS`. -/
theorem C24_lexer_result_shape (s : String) (tokens : List Token) (literals : List String)
    (h : LexConstraint s = .ok (tokens, literals)) :
    tokens.length = literals.length ∧ tokens.head? = some Token.SOF ∧
      tokens.getLast? = some Token.EOF ∧ Token.WS ∉ tokens := by
  unfold LexConstraint at h
  rw [ScanWhole_eq] at h
  obtain ⟨mid, h1, h2, h3⟩ :=
    ScanWholeLoop_shape (s.data.length + 1) s.data [Token.SOF] [""] (by omega)
  have hlen := ScanWholeLoop_lengths (s.data.length + 1) s.data [Token.SOF] [""] rfl
  revert h
  generalize ScanWholeLoop (s.data.length + 1) s.data [Token.SOF] [""] = p at h1 hlen
  obtain ⟨T, L⟩ := p
  simp only at h1 hlen
  intro h
  obtain ⟨a, hrem, haug⟩ := ok_of_bind h
  obtain ⟨ha1, ha2, ha3⟩ := (augmentMissingEqualityOp_frame T L hlen).elim a haug
  obtain ⟨hr1, hr2, hr3⟩ := (removeSuperfluousAndOp_frame a.1 a.2 ha1).elim _ hrem
  have hWSa := (augmentMissingEqualityOp_count T L Token.WS (by decide)).elim a haug
  have hWSr := (removeSuperfluousAndOp_count a.1 a.2 Token.WS (by decide)).elim _ hrem
  have hT0 : T.head? = some Token.SOF := by rw [h1]; simp
  have hT1 : T.getLast? = some Token.EOF := by
    rw [h1, List.getLast?_append_of_ne_nil _ (by simp)]
    rfl
  have hT2 : T.count Token.WS = 0 := by
    rw [h1]
    simp [List.count_append, List.count_eq_zero.2 h3]
  refine ⟨hr1, hr2 (ha2 hT0), hr3 (ha3 hT1), ?_⟩
  simp only at hWSr
  rw [← List.count_eq_zero, hWSr, hWSa, hT2]

/-- Witness for C24 on ` 1.0.0 || >= 1.0.0 && <2.0.0 || 3.x `, where the lexer
drops the white space, inserts an `EQ` and removes the `AND`. -/
theorem C24_lexer_result_shape_witness :
    LexConstraint " 1.0.0 || >= 1.0.0 && <2.0.0 || 3.x " =
        .ok ([Token.SOF, Token.EQ, Token.VERSION_EXPRESSION, Token.OR, Token.GE,
              Token.VERSION_EXPRESSION, Token.LT, Token.VERSION_EXPRESSION, Token.OR,
              Token.VERSION_EXPRESSION, Token.EOF],
             ["", "=", "1.0.0", "||", ">=", "1.0.0", "<", "2.0.0", "||", "3.x", ""]) ∧
      [Token.SOF, Token.EQ, Token.VERSION_EXPRESSION, Token.OR, Token.GE,
          Token.VERSION_EXPRESSION, Token.LT, Token.VERSION_EXPRESSION, Token.OR,
          Token.VERSION_EXPRESSION, Token.EOF].length =
        ["", "=", "1.0.0", "||", ">=", "1.0.0", "<", "2.0.0", "||", "3.x", ""].length ∧
      [Token.SOF, Token.EQ, Token.VERSION_EXPRESSION, Token.OR, Token.GE,
          Token.VERSION_EXPRESSION, Token.LT, Token.VERSION_EXPRESSION, Token.OR,
          Token.VERSION_EXPRESSION, Token.EOF].head? = some Token.SOF ∧
      [Token.SOF, Token.EQ, Token.VERSION_EXPRESSION, Token.OR, Token.GE,
          Token.VERSION_EXPRESSION, Token.LT, Token.VERSION_EXPRESSION, Token.OR,
          Token.VERSION_EXPRESSION, Token.EOF].getLast? = some Token.EOF ∧
      Token.WS ∉ [Token.SOF, Token.EQ, Token.VERSION_EXPRESSION, Token.OR, Token.GE,
          Token.VERSION_EXPRESSION, Token.LT, Token.VERSION_EXPRESSION, Token.OR,
          Token.VERSION_EXPRESSION, Token.EOF] :=
  ⟨by decide,
    C24_lexer_result_shape " 1.0.0 || >= 1.0.0 && <2.0.0 || 3.x " _ _ (by decide)⟩

/-! ## Decimal numerals and version literals -/

theorem numeral_data (n : Nat) : (numeral n).data = Nat.toDigits 10 n := rfl

theorem numeral_IsNumeral (n : Nat) (h : n < 2 ^ 63) : IsNumeral (numeral n).data n := by
  obtain ⟨L, hL, hne, hdig, hval⟩ := toDigitsCore_digits (n + 1) n [] (by omega)
  have e : (numeral n).data = L := by
    rw [numeral_data]
    unfold Nat.toDigits
    rw [hL, List.append_nil]
  rw [e]
  exact ⟨hne, hdig, by simpa using hval 0, h⟩

theorem IsNumeral.atoi {L : List Char} {n : Nat} (h : IsNumeral L n) :
    strconv.Atoi (String.mk L) = some (n : Int) :=
  Atoi_digits L n h.1 h.2.1 h.2.2.1 h.2.2.2

theorem IsNumeral.not_mem {L : List Char} {n : Nat} (h : IsNumeral L n) (x : Char)
    (hx : ¬ ('0' ≤ x ∧ x ≤ '9')) : x ∉ L :=
  digit_not_mem L h.2.1 x hx

theorem digit_toLower (c : Char) (h : '0' ≤ c ∧ c ≤ '9') : c.toLower = c := by
  have h1 : c.toNat ≤ 57 := h.2
  unfold Char.toLower
  have h2 : ¬ (c.toNat ≥ 65 ∧ c.toNat ≤ 90) := by omega
  simp only [h2, if_false]

theorem IsNumeral.toLower {L : List Char} {n : Nat} (h : IsNumeral L n) :
    strings.ToLower (String.mk L) = String.mk L := by
  unfold strings.ToLower
  congr 1
  simp only
  conv_rhs => rw [← List.map_id L]
  exact List.map_congr_left fun c hc => digit_toLower c (h.2.1 c hc)

theorem IsNumeral.count_zero {L : List Char} {n : Nat} (h : IsNumeral L n) (x : Char)
    (hx : ¬ ('0' ≤ x ∧ x ≤ '9')) : L.count x = 0 :=
  List.count_eq_zero.2 (h.not_mem x hx)

theorem IsNumeral.ne_of_head {L : List Char} {n : Nat} (h : IsNumeral L n) (x : Char)
    (xs : List Char) (hx : ¬ ('0' ≤ x ∧ x ≤ '9')) : String.mk L ≠ String.mk (x :: xs) := by
  intro e
  have e1 : L = x :: xs := congrArg String.data e
  exact h.not_mem x hx (by rw [e1]; simp)

theorem IsNumeral.ne_empty {L : List Char} {n : Nat} (h : IsNumeral L n) :
    String.mk L ≠ "" :=
  (mk_ne_empty L).2 h.1

theorem GetVersionPart_plain (D : List Char) (h1 : '-' ∉ D) (h2 : '+' ∉ D) :
    GetVersionPart (String.mk D) = String.mk D := by
  have h := GetVersionPart_append D [] h1 h2 (Or.inl rfl)
  rwa [List.append_nil] at h

theorem Count_mk (D : List Char) (c : Char) : strings.Count (String.mk D) c = D.count c := rfl

theorem IsWildCardVersion_plain (D : List Char) (h1 : '-' ∉ D) (h2 : '+' ∉ D)
    (hx : D.count 'x' = 0) (hX : D.count 'X' = 0) (hs : D.count '*' = 0)
    (hA : String.mk D ≠ "ANY") : IsWildCardVersion (String.mk D) = false := by
  have hstar : String.mk D ≠ "*" := by
    intro e
    have e1 : D = ['*'] := congrArg String.data e
    rw [e1] at hs
    exact absurd hs (by decide)
  unfold IsWildCardVersion
  simp [GetVersionPart_plain D h1 h2, Count_mk, hx, hX, hs, hA, hstar]

theorem IsStaticVersion_plain (D : List Char) (h1 : '-' ∉ D) (h2 : '+' ∉ D)
    (hx : D.count 'x' = 0) (hX : D.count 'X' = 0) (hs : D.count '*' = 0)
    (hA : String.mk D ≠ "ANY") :
    IsStaticVersion (String.mk D) = decide (D.count '.' = 2) := by
  unfold IsStaticVersion
  simp [GetVersionPart_plain D h1 h2, Count_mk, IsWildCardVersion_plain D h1 h2 hx hX hs hA]

theorem IsPartialVersion_plain (D : List Char) (h1 : '-' ∉ D) (h2 : '+' ∉ D)
    (hx : D.count 'x' = 0) (hX : D.count 'X' = 0) (hs : D.count '*' = 0)
    (hA : String.mk D ≠ "ANY") :
    IsPartialVersion (String.mk D) = decide (D.count '.' < 2) := by
  unfold IsPartialVersion
  simp [GetVersionPart_plain D h1 h2, Count_mk, IsWildCardVersion_plain D h1 h2 hx hX hs hA]

/-- The runes of a run of digits followed by digits and dots. -/
theorem digits_facts (A : List Char) (hd : ∀ c ∈ A, '0' ≤ c ∧ c ≤ '9') (R : List Char)
    (hR : ∀ c ∈ R, ('0' ≤ c ∧ c ≤ '9') ∨ c = '.') :
    '-' ∉ A ++ R ∧ '+' ∉ A ++ R ∧ (A ++ R).count 'x' = 0 ∧ (A ++ R).count 'X' = 0 ∧
      (A ++ R).count '*' = 0 ∧ String.mk (A ++ R) ≠ "ANY" ∧
      (∀ c ∈ A ++ R, c ≠ eof ∧ isWhitespace c = false ∧ isVersionUnsafe c = false) := by
  have key : ∀ x : Char, ¬ ('0' ≤ x ∧ x ≤ '9') → x ≠ '.' → x ∉ A ++ R := by
    intro x h1 h2 hm
    rcases List.mem_append.1 hm with hm | hm
    · exact digit_not_mem A hd x h1 hm
    · rcases hR x hm with h | h
      · exact h1 h
      · exact h2 h
  refine ⟨key '-' (by decide) (by decide), key '+' (by decide) (by decide),
    List.count_eq_zero.2 (key 'x' (by decide) (by decide)),
    List.count_eq_zero.2 (key 'X' (by decide) (by decide)),
    List.count_eq_zero.2 (key '*' (by decide) (by decide)), ?_, ?_⟩
  · intro e
    have e1 : A ++ R = ['A', 'N', 'Y'] := congrArg String.data e
    exact key 'A' (by decide) (by decide) (by rw [e1]; simp)
  · intro c hc
    have hcases : ('0' ≤ c ∧ c ≤ '9') ∨ c = '.' := by
      rcases List.mem_append.1 hc with hm | hm
      · exact Or.inl (hd c hm)
      · exact hR c hm
    rcases hcases with h | h
    · have h1 : 48 ≤ c.toNat := h.1
      have h2 : c.toNat ≤ 57 := h.2
      refine ⟨?_, ?_, ?_⟩
      · rintro rfl; exact absurd h1 (by decide)
      · unfold isWhitespace
        have e1 : c ≠ ' ' := by rintro rfl; exact absurd h1 (by decide)
        have e2 : c ≠ '\t' := by rintro rfl; exact absurd h1 (by decide)
        have e3 : c ≠ '\n' := by rintro rfl; exact absurd h1 (by decide)
        simp [e1, e2, e3]
      · cases hv : isVersionUnsafe c
        · rfl
        · exfalso
          unfold isVersionUnsafe versionUnsafe at hv
          simp only [List.contains_cons, List.contains_nil, Bool.or_false, Bool.or_eq_true,
            beq_iff_eq] at hv
          rcases hv with hv | hv | hv | hv | hv | hv | hv | hv | hv | hv <;>
            (subst hv; revert h1 h2; decide)
    · subst h
      exact ⟨by decide, by decide, by decide⟩

/-- The runes of one, two or three numerals separated by dots. -/
theorem dotted_facts (A : List Char) (a : Nat) (hA : IsNumeral A a) (R : List Char)
    (hR : ∀ c ∈ R, ('0' ≤ c ∧ c ≤ '9') ∨ c = '.') :
    '-' ∉ A ++ R ∧ '+' ∉ A ++ R ∧ (A ++ R).count 'x' = 0 ∧ (A ++ R).count 'X' = 0 ∧
      (A ++ R).count '*' = 0 ∧ String.mk (A ++ R) ≠ "ANY" ∧
      (∀ c ∈ A ++ R, c ≠ eof ∧ isWhitespace c = false ∧ isVersionUnsafe c = false) :=
  digits_facts A hA.2.1 R hR

/-! ## Scanning a known text -/

theorem scanVersionExpressionLoop_run (V rest : List Char)
    (hV : ∀ c ∈ V, c ≠ eof ∧ isWhitespace c = false ∧ isVersionUnsafe c = false)
    (hrest : rest = [] ∨ ∃ c r, rest = c :: r ∧ c ≠ eof ∧
      (isWhitespace c || isVersionUnsafe c) = true) :
    scanVersionExpressionLoop (V ++ rest) = (V, rest) := by
  induction V with
  | nil =>
    rcases hrest with rfl | ⟨c, r, rfl, h1, h2⟩
    · rfl
    · simp only [List.nil_append, scanVersionExpressionLoop, h1, if_false, h2, if_true]
  | cons v vs ih =>
    obtain ⟨h1, h2, h3⟩ := hV v (by simp)
    have ih1 := ih (fun c hc => hV c (by simp [hc]))
    simp only [List.cons_append, scanVersionExpressionLoop, h1, if_false, h2, h3,
      Bool.or_self, Bool.false_eq_true, List.append_eq, ih1]

theorem scanOperatorLoop_run (O rest : List Char)
    (hO : ∀ c ∈ O, c ≠ eof ∧ isOperatorStart c = true ∧ c ≠ '(' ∧ c ≠ ')')
    (hrest : rest = [] ∨ ∃ c r, rest = c :: r ∧ c ≠ eof ∧ isOperatorStart c = false) :
    scanOperatorLoop (O ++ rest) = (O, rest) := by
  induction O with
  | nil =>
    rcases hrest with rfl | ⟨c, r, rfl, h1, h2⟩
    · rfl
    · simp only [List.nil_append, scanOperatorLoop, h1, if_false, h2, Bool.not_false, if_true]
  | cons v vs ih =>
    obtain ⟨h1, h2, h3, h4⟩ := hO v (by simp)
    have ih1 := ih (fun c hc => hO c (by simp [hc]))
    simp only [List.cons_append, scanOperatorLoop, h1, if_false, h2, h3, h4, Bool.not_true,
      Bool.false_eq_true, or_self, List.append_eq, ih1]

theorem scanWhitespaceLoop_run (W rest : List Char)
    (hW : ∀ c ∈ W, c ≠ eof ∧ isWhitespace c = true)
    (hrest : rest = [] ∨ ∃ c r, rest = c :: r ∧ c ≠ eof ∧ isWhitespace c = false) :
    scanWhitespaceLoop (W ++ rest) = (W, rest) := by
  induction W with
  | nil =>
    rcases hrest with rfl | ⟨c, r, rfl, h1, h2⟩
    · rfl
    · simp only [List.nil_append, scanWhitespaceLoop, h1, if_false, h2, Bool.not_false, if_true]
  | cons v vs ih =>
    obtain ⟨h1, h2⟩ := hW v (by simp)
    have ih1 := ih (fun c hc => hW c (by simp [hc]))
    simp only [List.cons_append, scanWhitespaceLoop, h1, if_false, h2, Bool.not_true,
      Bool.false_eq_true, List.append_eq, ih1]

theorem isOperatorStart_plain (c : Char) (h : isOperatorStart c = true) :
    isWhitespace c = false ∧ isDigit c = false := by
  unfold isOperatorStart operatorsStarts at h
  simp only [List.contains_cons, List.contains_nil, Bool.or_false, Bool.or_eq_true,
    beq_iff_eq] at h
  rcases h with h | h | h | h | h | h | h | h | h | h | h <;> (subst h; decide)

theorem ScanOne_version (c : Char) (cs rest : List Char) (hc : isDigit c = true)
    (hV : ∀ d ∈ c :: cs, d ≠ eof ∧ isWhitespace d = false ∧ isVersionUnsafe d = false)
    (hrest : rest = [] ∨ ∃ d r, rest = d :: r ∧ d ≠ eof ∧
      (isWhitespace d || isVersionUnsafe d) = true) :
    ScanOne (c :: cs ++ rest) = ((Token.VERSION_EXPRESSION, String.mk (c :: cs)), rest) := by
  have h1 := (hV c (by simp)).2.1
  have h2 := scanVersionExpressionLoop_run (c :: cs) rest hV hrest
  rw [List.cons_append] at h2
  simp only [List.cons_append, ScanOne, h1, Bool.false_eq_true, if_false, hc, if_true,
    scanVersionExpression, h2]

theorem ScanOne_operator (c : Char) (cs rest : List Char)
    (hO : ∀ d ∈ c :: cs, d ≠ eof ∧ isOperatorStart d = true ∧ d ≠ '(' ∧ d ≠ ')')
    (hrest : rest = [] ∨ ∃ d r, rest = d :: r ∧ d ≠ eof ∧ isOperatorStart d = false) :
    ScanOne (c :: cs ++ rest) = ((scanOperator (c :: cs)).1, rest) := by
  have h0 := (hO c (by simp)).2.1
  obtain ⟨h1, h2⟩ := isOperatorStart_plain c h0
  have h3 := scanOperatorLoop_run (c :: cs) rest hO hrest
  have h4 := scanOperatorLoop_run (c :: cs) [] hO (Or.inl rfl)
  rw [List.cons_append] at h3
  rw [List.append_nil] at h4
  simp only [List.cons_append, ScanOne, h1, h2, Bool.false_eq_true, if_false, h0, if_true,
    scanOperator, h3, h4]

theorem ScanOne_whitespace (c : Char) (cs rest : List Char)
    (hW : ∀ d ∈ c :: cs, d ≠ eof ∧ isWhitespace d = true)
    (hrest : rest = [] ∨ ∃ d r, rest = d :: r ∧ d ≠ eof ∧ isWhitespace d = false) :
    ScanOne (c :: cs ++ rest) = ((Token.WS, String.mk (c :: cs)), rest) := by
  have h1 := (hW c (by simp)).2
  have h2 := scanWhitespaceLoop_run (c :: cs) rest hW hrest
  rw [List.cons_append] at h2
  simp only [List.cons_append, ScanOne, h1, if_true, scanWhitespace, h2]

/-- The number of rounds granted to the loop of `ScanWhole` does not matter once
it exceeds the length of the input. -/
theorem ScanWholeLoop_fuel (f1 : Nat) :
    ∀ (f2 : Nat) (input : List Char) (tokens : List Token) (literals : List String),
      input.length < f1 → input.length < f2 →
      ScanWholeLoop f1 input tokens literals = ScanWholeLoop f2 input tokens literals := by
  induction f1 with
  | zero => intro f2 input tokens literals h; omega
  | succ f1 ih =>
    intro f2 input tokens literals h1 h2
    cases f2 with
    | zero => omega
    | succ f2 =>
      rcases hS : ScanOne input with ⟨⟨token, literal⟩, left⟩
      have hp := ScanOne_progress input
      rw [hS] at hp
      simp only [ScanWholeLoop, hS]
      by_cases h3 : token = Token.EOF
      · simp only [h3, if_true]
      · have hlt := hp h3
        simp only at hlt
        simp only [h3, if_false]
        exact ih _ _ _ _ (by omega) (by omega)

theorem ScanWholeLoop_token (input left : List Char) (t : Token) (l : String)
    (tokens : List Token) (literals : List String) (hS : ScanOne input = ((t, l), left))
    (h1 : t ≠ Token.EOF) (h2 : t ≠ Token.WS) :
    ScanWholeLoop (input.length + 1) input tokens literals =
      ScanWholeLoop (left.length + 1) left (tokens ++ [t]) (literals ++ [l]) := by
  have hp := ScanOne_progress input
  rw [hS] at hp
  have hlt := hp h1
  simp only at hlt
  simp only [ScanWholeLoop, hS, h1, h2, ne_eq, not_false_eq_true, if_true, if_false]
  exact ScanWholeLoop_fuel input.length (left.length + 1) left _ _ (by omega) (by omega)

theorem ScanWholeLoop_space (input left : List Char) (l : String)
    (tokens : List Token) (literals : List String)
    (hS : ScanOne input = ((Token.WS, l), left)) :
    ScanWholeLoop (input.length + 1) input tokens literals =
      ScanWholeLoop (left.length + 1) left tokens literals := by
  have hp := ScanOne_progress input
  rw [hS] at hp
  have h3 : ¬ (Token.WS = Token.EOF) := by decide
  have hlt := hp h3
  simp only at hlt
  simp only [ScanWholeLoop, hS, ne_eq, not_true_eq_false, if_false, h3]
  exact ScanWholeLoop_fuel input.length (left.length + 1) left _ _ (by omega) (by omega)

theorem ScanWholeLoop_end (tokens : List Token) (literals : List String) :
    ScanWholeLoop (([] : List Char).length + 1) [] tokens literals =
      (tokens ++ [Token.EOF], literals ++ [""]) := by
  simp [ScanWholeLoop, ScanOne]

theorem isDigit_plain (c : Char) (h : isDigit c = true) :
    c ≠ eof ∧ isOperatorStart c = false ∧ isWhitespace c = false := by
  refine ⟨isDigit_ne_eof c h, ?_, ?_⟩
  · cases h1 : isOperatorStart c
    · rfl
    · have := (isOperatorStart_plain c h1).2
      rw [h] at this
      cases this
  · cases h1 : isWhitespace c
    · rfl
    · exfalso
      unfold isWhitespace at h1
      simp only [Bool.or_eq_true, decide_eq_true_eq] at h1
      rcases h1 with (h1 | h1) | h1 <;> (subst h1; revert h; decide)

theorem IsNumeral.head {L : List Char} {n : Nat} (h : IsNumeral L n) :
    ∃ c cs, L = c :: cs ∧ isDigit c = true := by
  obtain ⟨c, cs, e⟩ := List.exists_cons_of_ne_nil h.1
  refine ⟨c, cs, e, ?_⟩
  have := h.2.1 c (by rw [e]; simp)
  unfold isDigit
  simp [this.1, this.2]

theorem lex_operator_version (o : Char) (os : List Char) (tok : Token) (c : Char)
    (cs : List Char)
    (hO : ∀ d ∈ o :: os, d ≠ eof ∧ isOperatorStart d = true ∧ d ≠ '(' ∧ d ≠ ')')
    (htok : (scanOperator (o :: os)).1 = (tok, String.mk (o :: os)))
    (h1 : tok ≠ Token.EOF) (h2 : tok ≠ Token.WS) (hc : isDigit c = true)
    (hV : ∀ d ∈ c :: cs, d ≠ eof ∧ isWhitespace d = false ∧ isVersionUnsafe d = false) :
    ScanWholeLoop ((o :: os ++ c :: cs).length + 1) (o :: os ++ c :: cs) [Token.SOF] [""] =
      ([Token.SOF, tok, Token.VERSION_EXPRESSION, Token.EOF],
        ["", String.mk (o :: os), String.mk (c :: cs), ""]) := by
  obtain ⟨d1, d2, d3⟩ := isDigit_plain c hc
  have s1 := ScanOne_operator o os (c :: cs) hO (Or.inr ⟨c, cs, rfl, d1, d2⟩)
  rw [htok] at s1
  have s2 := ScanOne_version c cs [] hc hV (Or.inl rfl)
  rw [List.append_nil] at s2
  rw [ScanWholeLoop_token _ _ _ _ _ _ s1 h1 h2,
    ScanWholeLoop_token _ _ _ _ _ _ s2 (by decide) (by decide), ScanWholeLoop_end]
  rfl

theorem lex_version (c : Char) (cs : List Char) (hc : isDigit c = true)
    (hV : ∀ d ∈ c :: cs, d ≠ eof ∧ isWhitespace d = false ∧ isVersionUnsafe d = false) :
    ScanWholeLoop ((c :: cs).length + 1) (c :: cs) [Token.SOF] [""] =
      ([Token.SOF, Token.VERSION_EXPRESSION, Token.EOF], ["", String.mk (c :: cs), ""]) := by
  have s2 := ScanOne_version c cs [] hc hV (Or.inl rfl)
  rw [List.append_nil] at s2
  rw [ScanWholeLoop_token _ _ _ _ _ _ s2 (by decide) (by decide), ScanWholeLoop_end]
  rfl

theorem IsNumeral.rest3 {B C : List Char} {b c : Nat} (hB : IsNumeral B b)
    (hC : IsNumeral C c) :
    ∀ d ∈ '.' :: (B ++ '.' :: C), ('0' ≤ d ∧ d ≤ '9') ∨ d = '.' := by
  intro d hd
  simp only [List.mem_cons, List.mem_append] at hd
  rcases hd with hd | hd | hd | hd
  · exact Or.inr hd
  · exact Or.inl (hB.2.1 d hd)
  · exact Or.inr hd
  · exact Or.inl (hC.2.1 d hd)

theorem IsNumeral.rest2 {B : List Char} {b : Nat} (hB : IsNumeral B b) :
    ∀ d ∈ '.' :: B, ('0' ≤ d ∧ d ≤ '9') ∨ d = '.' := by
  intro d hd
  simp only [List.mem_cons] at hd
  rcases hd with hd | hd
  · exact Or.inr hd
  · exact Or.inl (hB.2.1 d hd)

theorem Split_dotted3 {A B C : List Char} {a b c : Nat} (hA : IsNumeral A a)
    (hB : IsNumeral B b) (hC : IsNumeral C c) :
    strings.Split (String.mk (A ++ '.' :: (B ++ '.' :: C))) '.' =
      [String.mk A, String.mk B, String.mk C] := by
  unfold strings.Split
  simp only
  rw [splitRunes_append _ _ _ (hA.not_mem '.' (by decide)),
    splitRunes_append _ _ _ (hB.not_mem '.' (by decide)),
    splitRunes_of_not_mem _ _ (hC.not_mem '.' (by decide))]
  rfl

theorem Split_dotted2 {A B : List Char} {a b : Nat} (hA : IsNumeral A a)
    (hB : IsNumeral B b) :
    strings.Split (String.mk (A ++ '.' :: B)) '.' = [String.mk A, String.mk B] := by
  unfold strings.Split
  simp only
  rw [splitRunes_append _ _ _ (hA.not_mem '.' (by decide)),
    splitRunes_of_not_mem _ _ (hB.not_mem '.' (by decide))]
  rfl

theorem Split_dotted1 {A : List Char} {a : Nat} (hA : IsNumeral A a) :
    strings.Split (String.mk A) '.' = [String.mk A] := by
  unfold strings.Split
  simp only
  rw [splitRunes_of_not_mem _ _ (hA.not_mem '.' (by decide))]
  rfl

theorem count_dotted3 {A B C : List Char} {a b c : Nat} (hA : IsNumeral A a)
    (hB : IsNumeral B b) (hC : IsNumeral C c) :
    (A ++ '.' :: (B ++ '.' :: C)).count '.' = 2 := by
  simp [List.count_append, List.count_cons, hA.count_zero '.' (by decide),
    hB.count_zero '.' (by decide), hC.count_zero '.' (by decide)]

theorem count_dotted2 {A B : List Char} {a b : Nat} (hA : IsNumeral A a)
    (hB : IsNumeral B b) : (A ++ '.' :: B).count '.' = 1 := by
  simp [List.count_append, List.count_cons, hA.count_zero '.' (by decide),
    hB.count_zero '.' (by decide)]

/-- A literal of three numerals parses to the three numbers. -/
theorem ParseSemver_dotted3 {A B C : List Char} {a b c : Nat} (hA : IsNumeral A a)
    (hB : IsNumeral B b) (hC : IsNumeral C c) :
    ParseSemver (String.mk (A ++ '.' :: (B ++ '.' :: C))) =
      .ok (Semver.ofParts (a : Int) (b : Int) (c : Int) "") := by
  obtain ⟨f1, f2, -, -, -, -, -⟩ := dotted_facts A a hA _ (hB.rest3 hC)
  obtain ⟨x, xs, hx, hd⟩ := hA.head
  have hxv : x ≠ 'v' := by rintro rfl; revert hd; decide
  have htrim : strings.TrimPrefix (String.mk (A ++ '.' :: (B ++ '.' :: C))) "v" =
      String.mk (A ++ '.' :: (B ++ '.' :: C)) := by
    rw [hx]
    exact TrimPrefix_v x _ hxv
  have hne : String.mk (A ++ '.' :: (B ++ '.' :: C)) ≠ "" :=
    (mk_ne_empty _).2 (by simp [hx])
  rw [ParseSemver_eq, if_neg hne, htrim, GetVersionPart_plain _ f1 f2,
    Split_dotted3 hA hB hC]
  simp only [hA.atoi, hB.atoi, hC.atoi, GetMetaDataPart_none _ f2, GetPreReleasePart_none _ f1]
  rfl

theorem increment_of_lt (n : Nat) (h : n + 1 < 2 ^ 63) :
    increment (n : Int) = ((n + 1 : Nat) : Int) := by
  unfold increment
  have : ¬ ((n : Int) + 1 > 2 ^ 63 - 1) := by
    have : ((n + 1 : Nat) : Int) < 2 ^ 63 := by exact_mod_cast h
    push_cast at this
    omega
  rw [if_neg this]
  push_cast
  rfl

theorem formatInt_numeral (n : Nat) : formatInt ((n : Nat) : Int) = String.mk (numeral n).data :=
  rfl

theorem zero_IsNumeral : IsNumeral ['0'] 0 := by
  refine ⟨by simp, ?_, by decide, by norm_num⟩
  intro c hc
  simp only [List.mem_singleton] at hc
  subst hc
  decide

theorem IsNumeral.ne_wild {L : List Char} {n : Nat} (h : IsNumeral L n) :
    String.mk L ≠ "x" ∧ String.mk L ≠ "X" ∧ String.mk L ≠ "*" ∧ String.mk L ≠ "" ∧
      String.mk L ≠ "ANY" :=
  ⟨h.ne_of_head 'x' [] (by decide), h.ne_of_head 'X' [] (by decide),
    h.ne_of_head '*' [] (by decide), h.ne_empty, h.ne_of_head 'A' ['N', 'Y'] (by decide)⟩

theorem splitParts_three (x y z d : String) (hx : strings.ToLower x = x)
    (hy : strings.ToLower y = y) (hz : strings.ToLower z = z) :
    splitParts [x, y, z] d = .ok (x, y, z) := by
  simp [splitParts, index, hx, hy, hz, bind, Except.bind, pure, Except.pure]

theorem parseTildeRange_dotted3 {A B C : List Char} {a b c : Nat} (hA : IsNumeral A a)
    (hB : IsNumeral B b) (hC : IsNumeral C c) (hb : b + 1 < 2 ^ 63) (op : String) :
    parseTildeRange [op, String.mk (A ++ '.' :: (B ++ '.' :: C))] =
      .ok { StartOp := Token.GE, StartVersion := Semver.ofParts (a : Int) (b : Int) (c : Int) "",
            EndOp := Token.LT,
            EndVersion := Semver.ofParts (a : Int) ((b + 1 : Nat) : Int) 0 "" } := by
  obtain ⟨f1, f2, f3, f4, f5, f6, -⟩ := dotted_facts A a hA _ (hB.rest3 hC)
  have hB1 := numeral_IsNumeral (b + 1) hb
  have hend : String.mk A ++ "." ++ formatInt (increment (b : Int)) ++ ".0" =
      String.mk (A ++ '.' :: ((numeral (b + 1)).data ++ '.' :: ['0'])) := by
    rw [increment_of_lt b hb, formatInt_numeral]
    apply String.ext
    simp [String.data_append]
  have hstart := ParseSemver_dotted3 hA hB hC
  have hfin := ParseSemver_dotted3 hA hB1 zero_IsNumeral
  obtain ⟨a1, a2, a3, a4, a5⟩ := hA.ne_wild
  obtain ⟨b1, b2, b3, b4, b5⟩ := hB.ne_wild
  obtain ⟨c1, c2, c3, c4, c5⟩ := hC.ne_wild
  unfold parseTildeRange
  simp [index, GetVersionPart_plain _ f1 f2, GetMetaDataPart_none _ f2,
    GetPreReleasePart_none _ f1, Split_dotted3 hA hB hC,
    splitParts_three _ _ _ _ hA.toLower hB.toLower hC.toLower, bind, Except.bind, pure,
    Except.pure, isAnyVersion, ContainsOnly, a1, a2, a3, b1, b2, b3, c1, c2, c3, f6, Count_mk,
    count_dotted3 hA hB hC, hB.atoi, getVersionStringFromMetaPreReleaseParts, hend, finishRange,
    hstart, hfin, Range.zero]

/-! ## Unfolding the loops of the lexer passes one round at a time -/

theorem augmentMissingEqualityOpFrom_nil (tokens : List Token) (literals : List String)
    (idx : Nat) (tokensToReturn : List Token) (literalsToReturn : List String) :
    augmentMissingEqualityOpFrom tokens literals [] idx tokensToReturn literalsToReturn =
      .ok (tokensToReturn, literalsToReturn) := by
  rw [augmentMissingEqualityOpFrom]

theorem augmentMissingEqualityOpFrom_cons (tokens : List Token) (literals : List String)
    (token : Token) (rest : List Token) (idx : Nat) (tokensToReturn : List Token)
    (literalsToReturn : List String) :
    augmentMissingEqualityOpFrom tokens literals (token :: rest) idx tokensToReturn
        literalsToReturn =
      (do
        let literal ← index literals idx
        let previousToken ← if idx ≥ 1 then index tokens ((idx : Int) - 1) else pure Token.SOF
        let nextToken ←
          if (idx : Int) + 1 ≤ (tokens.length : Int) - 1 then index tokens ((idx : Int) + 1)
          else pure Token.EOF
        if token = Token.VERSION_EXPRESSION ∧ IsStaticVersion literal ∧
            (!IsRangeToken previousToken && !IsEqualityToken previousToken) ∧
            previousToken ≠ Token.HYPHEN ∧ nextToken ≠ Token.HYPHEN then
          augmentMissingEqualityOpFrom tokens literals rest (idx + 1)
            (tokensToReturn ++ [Token.EQ] ++ [token]) (literalsToReturn ++ ["="] ++ [literal])
        else
          augmentMissingEqualityOpFrom tokens literals rest (idx + 1)
            (tokensToReturn ++ [token]) (literalsToReturn ++ [literal])) := by
  rw [augmentMissingEqualityOpFrom]

theorem removeSuperfluousAndOpFrom_nil (tokens : List Token) (literals : List String)
    (idx : Nat) (tokensToReturn : List Token) (literalsToReturn : List String) :
    removeSuperfluousAndOpFrom tokens literals [] idx tokensToReturn literalsToReturn =
      .ok (tokensToReturn, literalsToReturn) := by
  rw [removeSuperfluousAndOpFrom]

theorem removeSuperfluousAndOpFrom_cons (tokens : List Token) (literals : List String)
    (token : Token) (rest : List Token) (idx : Nat) (tokensToReturn : List Token)
    (literalsToReturn : List String) :
    removeSuperfluousAndOpFrom tokens literals (token :: rest) idx tokensToReturn
        literalsToReturn =
      (do
        let literal ← index literals idx
        let skip ←
          if token = Token.AND ∧ idx ≥ 2 then do
            let prevPrevToken ← index tokens ((idx : Int) - 2)
            let prevToken ← index tokens ((idx : Int) - 1)
            let prevPrevPrevToken ←
              if idx ≥ 3 then index tokens ((idx : Int) - 3) else pure Token.EOF
            if IsRangeToken prevPrevToken ∧ prevToken = Token.VERSION_EXPRESSION ∧
                (tokens.length : Int) - (idx : Int) ≥ 2 ∧
                (prevPrevPrevToken = Token.EOF ∨ IsJoinToken prevPrevPrevToken) then do
              let nextToken ← index tokens ((idx : Int) + 1)
              let nextNextToken ← index tokens ((idx : Int) + 2)
              pure (IsRangeToken nextToken && decide (nextNextToken = Token.VERSION_EXPRESSION))
            else pure false
          else pure false
        if skip then
          removeSuperfluousAndOpFrom tokens literals rest (idx + 1) tokensToReturn
            literalsToReturn
        else
          removeSuperfluousAndOpFrom tokens literals rest (idx + 1)
            (tokensToReturn ++ [token]) (literalsToReturn ++ [literal])) := by
  rw [removeSuperfluousAndOpFrom]

theorem parseConstraintFrom_nil (literals : List String) (idx : Nat) (c : Constraint)
    (cur : List Token) (curL : List String) :
    parseConstraintFrom literals [] idx c cur curL = .ok c := by
  rw [parseConstraintFrom]

/-- One round of the loop of `augmentMissingEqualityOp` that copies the token. -/
theorem augmentMissingEqualityOpFrom_keep (tokens : List Token) (literals : List String)
    (token : Token) (rest : List Token) (idx : Nat) (tokensToReturn : List Token)
    (literalsToReturn : List String) (literal : String) (previousToken nextToken : Token)
    (hl : index literals idx = .ok literal)
    (hp : (if idx ≥ 1 then index tokens ((idx : Int) - 1) else pure Token.SOF) =
      .ok previousToken)
    (hn : (if (idx : Int) + 1 ≤ (tokens.length : Int) - 1 then index tokens ((idx : Int) + 1)
      else pure Token.EOF) = .ok nextToken)
    (hc : ¬ (token = Token.VERSION_EXPRESSION ∧ IsStaticVersion literal = true ∧
      (!IsRangeToken previousToken && !IsEqualityToken previousToken) = true ∧
      previousToken ≠ Token.HYPHEN ∧ nextToken ≠ Token.HYPHEN)) :
    augmentMissingEqualityOpFrom tokens literals (token :: rest) idx tokensToReturn
        literalsToReturn =
      augmentMissingEqualityOpFrom tokens literals rest (idx + 1) (tokensToReturn ++ [token])
        (literalsToReturn ++ [literal]) := by
  rw [augmentMissingEqualityOpFrom_cons, hl]
  simp only [bind, Except.bind]
  by_cases h1 : idx ≥ 1 <;> by_cases h2 : (idx : Int) + 1 ≤ (tokens.length : Int) - 1 <;>
    simp only [h1, h2, if_true, if_false, pure, Except.pure] at hp hn ⊢ <;>
    first
    | rw [hp, hn]
    | (rw [hp]; cases hn)
    | (cases hp; rw [hn])
    | (cases hp; cases hn)
  all_goals simp only [if_neg hc]

/-- One round of the loop of `augmentMissingEqualityOp` that inserts an `EQ`. -/
theorem augmentMissingEqualityOpFrom_insert (tokens : List Token) (literals : List String)
    (token : Token) (rest : List Token) (idx : Nat) (tokensToReturn : List Token)
    (literalsToReturn : List String) (literal : String) (previousToken nextToken : Token)
    (hl : index literals idx = .ok literal)
    (hp : (if idx ≥ 1 then index tokens ((idx : Int) - 1) else pure Token.SOF) =
      .ok previousToken)
    (hn : (if (idx : Int) + 1 ≤ (tokens.length : Int) - 1 then index tokens ((idx : Int) + 1)
      else pure Token.EOF) = .ok nextToken)
    (hc : token = Token.VERSION_EXPRESSION ∧ IsStaticVersion literal = true ∧
      (!IsRangeToken previousToken && !IsEqualityToken previousToken) = true ∧
      previousToken ≠ Token.HYPHEN ∧ nextToken ≠ Token.HYPHEN) :
    augmentMissingEqualityOpFrom tokens literals (token :: rest) idx tokensToReturn
        literalsToReturn =
      augmentMissingEqualityOpFrom tokens literals rest (idx + 1)
        (tokensToReturn ++ [Token.EQ] ++ [token]) (literalsToReturn ++ ["="] ++ [literal]) := by
  rw [augmentMissingEqualityOpFrom_cons, hl]
  simp only [bind, Except.bind]
  by_cases h1 : idx ≥ 1 <;> by_cases h2 : (idx : Int) + 1 ≤ (tokens.length : Int) - 1 <;>
    simp only [h1, h2, if_true, if_false, pure, Except.pure] at hp hn ⊢ <;>
    first
    | rw [hp, hn]
    | (rw [hp]; cases hn)
    | (cases hp; rw [hn])
    | (cases hp; cases hn)
  all_goals simp only [if_pos hc]

theorem parseSubConstraint_static (L : String) (hs : IsStaticVersion L = true) :
    parseSubConstraint [Token.EQ, Token.VERSION_EXPRESSION] ["=", L] =
      parseStaticRange [Token.EQ, Token.VERSION_EXPRESSION] ["=", L] := by
  simp [index, IsRangeToken, IsEqualityToken, bind, Except.bind, pure, Except.pure, hs,
    parseSubConstraint, isHyphenatedRange, isCaretRange, isTildeRange, isRange, isStaticRange]

/-! ## The passes, the validator and the desugaring loop on short token lists -/

theorem passes_operator_version (tok : Token)
    (ht : tok = Token.TILDE ∨ tok = Token.CARET ∨ tok = Token.EQ) (O V : String) :
    (augmentMissingEqualityOp [Token.SOF, tok, Token.VERSION_EXPRESSION, Token.EOF]
        ["", O, V, ""] >>= fun r => removeSuperfluousAndOp r.1 r.2) =
      .ok ([Token.SOF, tok, Token.VERSION_EXPRESSION, Token.EOF], ["", O, V, ""]) := by
  have h0 : [Token.SOF, tok, Token.VERSION_EXPRESSION, Token.EOF].contains Token.ILLEGAL =
      false := by
    rcases ht with rfl | rfl | rfl <;> rfl
  have h1 : (!IsRangeToken tok && !IsEqualityToken tok) = false := by
    rcases ht with rfl | rfl | rfl <;> rfl
  have h2 : tok ≠ Token.VERSION_EXPRESSION := by
    rcases ht with rfl | rfl | rfl <;> decide
  have hrem : removeSuperfluousAndOp [Token.SOF, tok, Token.VERSION_EXPRESSION, Token.EOF]
      ["", O, V, ""] =
      .ok ([Token.SOF, tok, Token.VERSION_EXPRESSION, Token.EOF], ["", O, V, ""]) := by
    rcases ht with rfl | rfl | rfl <;> rfl
  have haug : augmentMissingEqualityOp [Token.SOF, tok, Token.VERSION_EXPRESSION, Token.EOF]
      ["", O, V, ""] =
      .ok ([Token.SOF, tok, Token.VERSION_EXPRESSION, Token.EOF], ["", O, V, ""]) := by
    unfold augmentMissingEqualityOp
    rw [h0, if_neg (by decide)]
    rw [augmentMissingEqualityOpFrom_keep _ _ _ _ _ _ _ "" Token.SOF tok (by rfl) (by rfl)
      (by rfl) (by simp)]
    rw [augmentMissingEqualityOpFrom_keep _ _ _ _ _ _ _ O Token.SOF Token.VERSION_EXPRESSION
      (by rfl) (by rfl) (by rfl) (by simp [h2])]
    rw [augmentMissingEqualityOpFrom_keep _ _ _ _ _ _ _ V tok Token.EOF (by rfl) (by rfl)
      (by rfl) (by simp [h1])]
    rw [augmentMissingEqualityOpFrom_keep _ _ _ _ _ _ _ "" Token.VERSION_EXPRESSION Token.EOF
      (by rfl) (by rfl) (by rfl) (by decide)]
    rw [augmentMissingEqualityOpFrom_nil]
    rfl
  rw [haug]
  exact hrem

theorem validate_operator_version (tok : Token)
    (ht : tok = Token.TILDE ∨ tok = Token.CARET ∨ tok = Token.EQ) (O V : String) :
    validateConstraintComposition [Token.SOF, tok, Token.VERSION_EXPRESSION, Token.EOF]
      ["", O, V, ""] = .ok () := by
  rcases ht with rfl | rfl | rfl <;>
    simp [index, IsRangeToken, IsEqualityToken, IsJoinToken, IsOperatorToken,
      validateConstraintComposition, validateFrom, validateStep, slices.Index, bind,
      Except.bind, pure, Except.pure]

theorem parse_operator_version (tok : Token)
    (ht : tok = Token.TILDE ∨ tok = Token.CARET ∨ tok = Token.EQ) (O V : String)
    (c : Constraint) :
    parseConstraintFrom ["", O, V, ""] [Token.SOF, tok, Token.VERSION_EXPRESSION, Token.EOF] 0
        c [] [] =
      (parseSubConstraint [tok, Token.VERSION_EXPRESSION] [O, V] >>= fun r =>
        (.ok { c with Ranges := c.Ranges ++ [r] } : Except Error Constraint)) := by
  have h3 : ¬ (tok = Token.OR ∨ tok = Token.AND) := by
    rcases ht with rfl | rfl | rfl <;> decide
  have h4 : tok ≠ Token.EOF := by rcases ht with rfl | rfl | rfl <;> decide
  have h5 : tok ≠ Token.SOF := by rcases ht with rfl | rfl | rfl <;> decide
  simp [parseConstraintFrom_cons, parseConstraintFrom_nil, index, bind, Except.bind, h3, h4, h5]
  generalize parseSubConstraint [tok, Token.VERSION_EXPRESSION] [O, V] = x
  cases x <;> rfl

/-- An operator directly followed by a version text: `ParseConstraint` desugars
the one sub-constraint made of the two tokens. -/
theorem ParseConstraint_operator_version (o : Char) (os : List Char) (tok : Token) (c : Char)
    (cs : List Char)
    (hO : ∀ d ∈ o :: os, d ≠ eof ∧ isOperatorStart d = true ∧ d ≠ '(' ∧ d ≠ ')')
    (htok : (scanOperator (o :: os)).1 = (tok, String.mk (o :: os)))
    (ht : tok = Token.TILDE ∨ tok = Token.CARET ∨ tok = Token.EQ) (hc : isDigit c = true)
    (hV : ∀ d ∈ c :: cs, d ≠ eof ∧ isWhitespace d = false ∧ isVersionUnsafe d = false) :
    ParseConstraint (String.mk (o :: os ++ c :: cs)) =
      (parseSubConstraint [tok, Token.VERSION_EXPRESSION]
          [String.mk (o :: os), String.mk (c :: cs)] >>= fun r =>
        (.ok { Original := String.mk (o :: os ++ c :: cs), Ranges := [r], Join := [] } :
          Except Error Constraint)) := by
  have hlex := lex_operator_version o os tok c cs hO htok
    (by rcases ht with h | h | h <;> (rw [h]; decide))
    (by rcases ht with h | h | h <;> (rw [h]; decide)) hc hV
  unfold ParseConstraint LexConstraint
  rw [ScanWhole_eq]
  simp only
  rw [hlex, passes_operator_version tok ht]
  simp only [bind, Except.bind]
  rw [if_neg (by rcases ht with rfl | rfl | rfl <;> decide), validate_operator_version tok ht]
  simp only
  rw [parse_operator_version tok ht]
  rfl

/-! ## Tilde ranges -/

theorem dotted3_runes {A B C : List Char} {a b c : Nat} (hA : IsNumeral A a)
    (hB : IsNumeral B b) (hC : IsNumeral C c) :
    ∃ x xs, A ++ '.' :: (B ++ '.' :: C) = x :: xs ∧ isDigit x = true ∧
      ∀ d ∈ x :: xs, d ≠ eof ∧ isWhitespace d = false ∧ isVersionUnsafe d = false := by
  obtain ⟨x, xs, hx, hd⟩ := hA.head
  refine ⟨x, xs ++ '.' :: (B ++ '.' :: C), by rw [hx]; rfl, hd, ?_⟩
  have h := (dotted_facts A a hA _ (hB.rest3 hC)).2.2.2.2.2.2
  rw [hx] at h
  exact h

theorem tilde_operator :
    (∀ d ∈ ['~'], d ≠ eof ∧ isOperatorStart d = true ∧ d ≠ '(' ∧ d ≠ ')') ∧
      (scanOperator ['~']).1 = (Token.TILDE, String.mk ['~']) := by
  decide

theorem ParseConstraint_tilde_dotted3 {A B C : List Char} {a b c : Nat} (hA : IsNumeral A a)
    (hB : IsNumeral B b) (hC : IsNumeral C c) (hb : b + 1 < 2 ^ 63) :
    ParseConstraint (String.mk ('~' :: (A ++ '.' :: (B ++ '.' :: C)))) =
      .ok { Original := String.mk ('~' :: (A ++ '.' :: (B ++ '.' :: C))),
            Ranges := [{ StartOp := Token.GE,
                         StartVersion := Semver.ofParts (a : Int) (b : Int) (c : Int) "",
                         EndOp := Token.LT,
                         EndVersion := Semver.ofParts (a : Int) ((b + 1 : Nat) : Int) 0 "" }],
            Join := [] } := by
  obtain ⟨x, xs, hx, hd, hV⟩ := dotted3_runes hA hB hC
  have h := ParseConstraint_operator_version '~' [] Token.TILDE x xs tilde_operator.1
    tilde_operator.2 (Or.inl rfl) hd hV
  rw [← hx] at h
  rw [show '~' :: (A ++ '.' :: (B ++ '.' :: C)) = ['~'] ++ (A ++ '.' :: (B ++ '.' :: C)) from rfl,
    h]
  have hsub : parseSubConstraint [Token.TILDE, Token.VERSION_EXPRESSION]
      [String.mk ['~'], String.mk (A ++ '.' :: (B ++ '.' :: C))] =
      parseTildeRange [String.mk ['~'], String.mk (A ++ '.' :: (B ++ '.' :: C))] := by
    simp [parseSubConstraint, isHyphenatedRange, isCaretRange, isTildeRange]
  rw [hsub, parseTildeRange_dotted3 hA hB hC hb]
  rfl

/-- Claim C25 (amended): for natural numbers `M`, `m`, `p` that fit the Go type
`int`, `m + 1` included, `ParseConstraint("~M.m.p")` succeeds with exactly one
range `(GE, M.m.p, LT, M.(m+1).0)` and no joins. -/
theorem C25_tilde_three_numbers (M m p : Nat) (hM : M < 2 ^ 63) (hm : m + 1 < 2 ^ 63)
    (hp : p < 2 ^ 63) :
    ParseConstraint ("~" ++ numeral M ++ "." ++ numeral m ++ "." ++ numeral p) =
      .ok { Original := "~" ++ numeral M ++ "." ++ numeral m ++ "." ++ numeral p,
            Ranges := [{ StartOp := Token.GE,
                         StartVersion := Semver.ofParts (M : Int) (m : Int) (p : Int) "",
                         EndOp := Token.LT,
                         EndVersion := Semver.ofParts (M : Int) ((m + 1 : Nat) : Int) 0 "" }],
            Join := [] } := by
  have e : "~" ++ numeral M ++ "." ++ numeral m ++ "." ++ numeral p =
      String.mk ('~' :: ((numeral M).data ++ '.' :: ((numeral m).data ++ '.' ::
        (numeral p).data))) := by
    apply String.ext
    simp [String.data_append]
  rw [e]
  exact ParseConstraint_tilde_dotted3 (numeral_IsNumeral M hM)
    (numeral_IsNumeral m (by omega)) (numeral_IsNumeral p hp) hm

/-- Witness for C25 (amended) on `~1.2.3`, which gives `>=1.2.3 <1.3.0`. -/
theorem C25_tilde_three_numbers_witness :
    "~" ++ numeral 1 ++ "." ++ numeral 2 ++ "." ++ numeral 3 = "~1.2.3" ∧
      ParseConstraint ("~" ++ numeral 1 ++ "." ++ numeral 2 ++ "." ++ numeral 3) =
        .ok { Original := "~" ++ numeral 1 ++ "." ++ numeral 2 ++ "." ++ numeral 3,
              Ranges := [{ StartOp := Token.GE,
                           StartVersion := Semver.ofParts ((1 : Nat) : Int) ((2 : Nat) : Int)
                             ((3 : Nat) : Int) "",
                           EndOp := Token.LT,
                           EndVersion := Semver.ofParts ((1 : Nat) : Int) ((2 + 1 : Nat) : Int)
                             0 "" }],
              Join := [] } :=
  ⟨by decide, C25_tilde_three_numbers 1 2 3 (by norm_num) (by norm_num) (by norm_num)⟩

/-- Claim C25 as stated fails: natural numbers beyond the Go type `int` are not
parsed (`strconv.Atoi` reports an error at `2^63`), and at the minor
`2^63 - 1` the bumped minor wraps around, so `ParseConstraint` returns an error
on `~9223372036854775808.0.0` and on `~0.9223372036854775807.0`. -/
theorem C25_tilde_beyond_int :
    "~" ++ numeral (2 ^ 63) ++ "." ++ numeral 0 ++ "." ++ numeral 0 =
        "~9223372036854775808.0.0" ∧
      ParseConstraint "~9223372036854775808.0.0" = .error Error.ErrInvalidVersionParts ∧
      "~" ++ numeral 0 ++ "." ++ numeral (2 ^ 63 - 1) ++ "." ++ numeral 0 =
        "~0.9223372036854775807.0" ∧
      ParseConstraint "~0.9223372036854775807.0" = .error Error.ErrInvalidVersionParts ∧
      ¬ (∀ M m p : Nat, ∃ c,
          ParseConstraint ("~" ++ numeral M ++ "." ++ numeral m ++ "." ++ numeral p) =
            .ok c) := by
  have h1 : "~" ++ numeral (2 ^ 63) ++ "." ++ numeral 0 ++ "." ++ numeral 0 =
      "~9223372036854775808.0.0" := by decide
  have h2 : ParseConstraint "~9223372036854775808.0.0" =
      .error Error.ErrInvalidVersionParts := by decide
  refine ⟨h1, h2, by decide, by decide, fun h => ?_⟩
  obtain ⟨c, hc⟩ := h (2 ^ 63) 0 0
  rw [h1, h2] at hc
  cases hc

/-! ## Caret ranges -/

theorem dotted3_string (A B C : List Char) :
    String.mk A ++ "." ++ String.mk B ++ "." ++ String.mk C =
      String.mk (A ++ '.' :: (B ++ '.' :: C)) := by
  apply String.ext
  simp [String.data_append]

theorem getVersionStringFromParts_plain (x y z : String) :
    getVersionStringFromParts x y z "" "" = x ++ "." ++ y ++ "." ++ z := by
  simp [getVersionStringFromParts]

theorem finishRange_ok (pr : Range) (s e : String) (v1 v2 : Semver)
    (h1 : ParseSemver s = .ok v1) (h2 : ParseSemver e = .ok v2) :
    finishRange pr s e = .ok { pr with StartVersion := v1, EndVersion := v2 } := by
  unfold finishRange
  rw [h1, h2]
  rfl

theorem caretEnd_major {A : List Char} {a : Nat} (hA : IsNumeral A a)
    (h0 : String.mk A ≠ "0") (h1 : a + 1 < 2 ^ 63) (y z : String) (bp : Bool) :
    caretEnd (String.mk A) y z bp =
      .ok (String.mk ((numeral (a + 1)).data ++ '.' :: (['0'] ++ '.' :: ['0']))) := by
  unfold caretEnd
  rw [if_pos h0, hA.atoi]
  simp only
  rw [increment_of_lt a h1, formatInt_numeral, getVersionStringFromParts_plain]
  show Except.ok _ = Except.ok _
  congr 1
  apply String.ext
  simp [String.data_append]

theorem caretEnd_minor {B : List Char} {b : Nat} (hB : IsNumeral B b) (x : String)
    (h0 : x = "0") (h2 : String.mk B ≠ "0") (h1 : b + 1 < 2 ^ 63) (z : String) (bp : Bool) :
    caretEnd x (String.mk B) z bp =
      .ok (String.mk (x.data ++ '.' :: ((numeral (b + 1)).data ++ '.' :: ['0']))) := by
  unfold caretEnd
  rw [if_neg (not_not.2 h0), if_pos h2, hB.atoi]
  simp only
  rw [increment_of_lt b h1, formatInt_numeral, getVersionStringFromParts_plain]
  show Except.ok _ = Except.ok _
  congr 1
  apply String.ext
  simp [String.data_append]

theorem caretEnd_patch {C : List Char} {c : Nat} (hC : IsNumeral C c) (x y : String)
    (h0 : x = "0") (h2 : y = "0") (h1 : c + 1 < 2 ^ 63) :
    caretEnd x y (String.mk C) true =
      .ok (String.mk (x.data ++ '.' :: (y.data ++ '.' :: (numeral (c + 1)).data))) := by
  unfold caretEnd
  rw [if_neg (not_not.2 h0), if_neg (not_not.2 h2), hC.atoi]
  simp only [if_true]
  rw [increment_of_lt c h1, formatInt_numeral, getVersionStringFromParts_plain]
  show Except.ok _ = Except.ok _
  congr 1
  apply String.ext
  simp [String.data_append]

theorem parseCaretRange_dotted3 {A B C : List Char} {a b c : Nat} (hA : IsNumeral A a)
    (hB : IsNumeral B b) (hC : IsNumeral C c) (op : String) :
    (String.mk A ≠ "0" → a + 1 < 2 ^ 63 →
      parseCaretRange [op, String.mk (A ++ '.' :: (B ++ '.' :: C))] =
        .ok { StartOp := Token.GE,
              StartVersion := Semver.ofParts (a : Int) (b : Int) (c : Int) "",
              EndOp := Token.LT,
              EndVersion := Semver.ofParts ((a + 1 : Nat) : Int) 0 0 "" }) ∧
    (String.mk A = "0" → String.mk B ≠ "0" → b + 1 < 2 ^ 63 →
      parseCaretRange [op, String.mk (A ++ '.' :: (B ++ '.' :: C))] =
        .ok { StartOp := Token.GE,
              StartVersion := Semver.ofParts (a : Int) (b : Int) (c : Int) "",
              EndOp := Token.LT,
              EndVersion := Semver.ofParts (a : Int) ((b + 1 : Nat) : Int) 0 "" }) ∧
    (String.mk A = "0" → String.mk B = "0" → c + 1 < 2 ^ 63 →
      parseCaretRange [op, String.mk (A ++ '.' :: (B ++ '.' :: C))] =
        .ok { StartOp := Token.GE,
              StartVersion := Semver.ofParts (a : Int) (b : Int) (c : Int) "",
              EndOp := Token.LT,
              EndVersion := Semver.ofParts (a : Int) (b : Int) ((c + 1 : Nat) : Int) "" }) := by
  obtain ⟨f1, f2, f3, f4, f5, f6, -⟩ := dotted_facts A a hA _ (hB.rest3 hC)
  obtain ⟨a1, a2, a3, a4, a5⟩ := hA.ne_wild
  obtain ⟨b1, b2, b3, b4, b5⟩ := hB.ne_wild
  obtain ⟨c1, c2, c3, c4, c5⟩ := hC.ne_wild
  have hstart := ParseSemver_dotted3 hA hB hC
  have hz : "0" = String.mk ['0'] := rfl
  have common : parseCaretRange [op, String.mk (A ++ '.' :: (B ++ '.' :: C))] =
      (caretEnd (String.mk A) (String.mk B) (String.mk C) true >>= fun e =>
        finishRange { Range.zero with StartOp := Token.GE, EndOp := Token.LT }
          (String.mk (A ++ '.' :: (B ++ '.' :: C))) e) := by
    unfold parseCaretRange
    simp [index, GetVersionPart_plain _ f1 f2, GetMetaDataPart_none _ f2,
      GetPreReleasePart_none _ f1, Split_dotted3 hA hB hC,
      splitParts_three _ _ _ _ hA.toLower hB.toLower hC.toLower, bind, Except.bind, pure,
      Except.pure, isAnyVersion, ContainsOnly, a1, a2, a3, a4, b1, b2, b3, b4, c1, c2, c3, c4,
      f6, getVersionStringFromParts_plain, dotted3_string]
    all_goals (cases caretEnd (String.mk A) (String.mk B) (String.mk C) true <;> rfl)
  rw [common]
  refine ⟨fun h0 h1 => ?_, fun h0 h2 h1 => ?_, fun h0 h2 h1 => ?_⟩
  · rw [caretEnd_major hA h0 h1]
    exact finishRange_ok _ _ _ _ _ hstart
      (ParseSemver_dotted3 (numeral_IsNumeral (a + 1) h1) zero_IsNumeral zero_IsNumeral)
  · rw [caretEnd_minor hB _ h0 h2 h1]
    exact finishRange_ok _ _ _ _ _ hstart
      (ParseSemver_dotted3 hA (numeral_IsNumeral (b + 1) h1) zero_IsNumeral)
  · rw [caretEnd_patch hC _ _ h0 h2 h1]
    exact finishRange_ok _ _ _ _ _ hstart
      (ParseSemver_dotted3 hA hB (numeral_IsNumeral (c + 1) h1))

theorem numeral_eq_zero (n : Nat) : String.mk (numeral n).data = "0" ↔ n = 0 := by
  constructor
  · intro h
    obtain ⟨L, hL, -, -, hval⟩ := formatInt_ofNat n
    have e : L = ['0'] := by
      have h1 : (numeral n).data = ['0'] := congrArg String.data h
      have h2 : (numeral n).data = L := congrArg String.data hL
      rw [← h2, h1]
    rw [e] at hval
    have : strconv.digitsValue ['0'] 0 = some 0 := by decide
    rw [this] at hval
    exact (Option.some.inj hval).symm
  · rintro rfl
    decide

theorem caret_operator :
    (∀ d ∈ ['^'], d ≠ eof ∧ isOperatorStart d = true ∧ d ≠ '(' ∧ d ≠ ')') ∧
      (scanOperator ['^']).1 = (Token.CARET, String.mk ['^']) := by
  decide

theorem ParseConstraint_caret_dotted3 {A B C : List Char} {a b c : Nat} (hA : IsNumeral A a)
    (hB : IsNumeral B b) (hC : IsNumeral C c) :
    ParseConstraint (String.mk ('^' :: (A ++ '.' :: (B ++ '.' :: C)))) =
      (parseCaretRange [String.mk ['^'], String.mk (A ++ '.' :: (B ++ '.' :: C))] >>= fun r =>
        (.ok { Original := String.mk ('^' :: (A ++ '.' :: (B ++ '.' :: C))), Ranges := [r],
               Join := [] } : Except Error Constraint)) := by
  obtain ⟨x, xs, hx, hd, hV⟩ := dotted3_runes hA hB hC
  have h := ParseConstraint_operator_version '^' [] Token.CARET x xs caret_operator.1
    caret_operator.2 (Or.inr (Or.inl rfl)) hd hV
  rw [← hx] at h
  rw [show '^' :: (A ++ '.' :: (B ++ '.' :: C)) = ['^'] ++ (A ++ '.' :: (B ++ '.' :: C)) from rfl,
    h]
  have hsub : parseSubConstraint [Token.CARET, Token.VERSION_EXPRESSION]
      [String.mk ['^'], String.mk (A ++ '.' :: (B ++ '.' :: C))] =
      parseCaretRange [String.mk ['^'], String.mk (A ++ '.' :: (B ++ '.' :: C))] := by
    simp [parseSubConstraint, isHyphenatedRange, isCaretRange, isTildeRange]
  rw [hsub]

/-- Claim C26 (amended): for natural numbers `M`, `m`, `p` that fit the Go type
`int`, the bumped one included, `ParseConstraint("^M.m.p")` succeeds with one
range whose lower bound is `GE M.m.p` and whose upper bound is `LT (M+1).0.0`
if `M > 0`, `LT 0.(m+1).0` if `M = 0` and `m > 0`, and `LT 0.0.(p+1)` if
`M = m = 0`. -/
theorem C26_caret_three_numbers (M m p : Nat) (hM : M < 2 ^ 63) (hm : m < 2 ^ 63)
    (hp : p < 2 ^ 63) (hbump : (if 0 < M then M else if 0 < m then m else p) + 1 < 2 ^ 63) :
    ParseConstraint ("^" ++ numeral M ++ "." ++ numeral m ++ "." ++ numeral p) =
      .ok { Original := "^" ++ numeral M ++ "." ++ numeral m ++ "." ++ numeral p,
            Ranges := [{ StartOp := Token.GE,
                         StartVersion := Semver.ofParts (M : Int) (m : Int) (p : Int) "",
                         EndOp := Token.LT,
                         EndVersion :=
                           if 0 < M then Semver.ofParts ((M + 1 : Nat) : Int) 0 0 ""
                           else if 0 < m then Semver.ofParts 0 ((m + 1 : Nat) : Int) 0 ""
                           else Semver.ofParts 0 0 ((p + 1 : Nat) : Int) "" }],
            Join := [] } := by
  have e : "^" ++ numeral M ++ "." ++ numeral m ++ "." ++ numeral p =
      String.mk ('^' :: ((numeral M).data ++ '.' :: ((numeral m).data ++ '.' ::
        (numeral p).data))) := by
    apply String.ext
    simp [String.data_append]
  have hA := numeral_IsNumeral M hM
  have hB := numeral_IsNumeral m hm
  have hC := numeral_IsNumeral p hp
  obtain ⟨k1, k2, k3⟩ := parseCaretRange_dotted3 hA hB hC (String.mk ['^'])
  rw [e, ParseConstraint_caret_dotted3 hA hB hC]
  by_cases h1 : 0 < M
  · rw [if_pos h1] at hbump
    rw [k1 (fun h => by have := (numeral_eq_zero M).1 h; omega) hbump, if_pos h1]
    rfl
  · have hM0 : M = 0 := by omega
    subst hM0
    rw [if_neg h1] at hbump
    by_cases h2 : 0 < m
    · rw [if_pos h2] at hbump
      rw [k2 ((numeral_eq_zero 0).2 rfl) (fun h => by have := (numeral_eq_zero m).1 h; omega)
        hbump, if_neg h1, if_pos h2]
      rfl
    · have hm0 : m = 0 := by omega
      subst hm0
      rw [if_neg h2] at hbump
      rw [k3 ((numeral_eq_zero 0).2 rfl) ((numeral_eq_zero 0).2 rfl) hbump, if_neg h1,
        if_neg h2]
      rfl

/-- Witness for C26 (amended) on `^0.2.3`, which gives `>=0.2.3 <0.3.0`. -/
theorem C26_caret_three_numbers_witness :
    "^" ++ numeral 0 ++ "." ++ numeral 2 ++ "." ++ numeral 3 = "^0.2.3" ∧
      ParseConstraint ("^" ++ numeral 0 ++ "." ++ numeral 2 ++ "." ++ numeral 3) =
        .ok { Original := "^" ++ numeral 0 ++ "." ++ numeral 2 ++ "." ++ numeral 3,
              Ranges := [{ StartOp := Token.GE,
                           StartVersion := Semver.ofParts ((0 : Nat) : Int) ((2 : Nat) : Int)
                             ((3 : Nat) : Int) "",
                           EndOp := Token.LT,
                           EndVersion :=
                             if 0 < 0 then Semver.ofParts ((0 + 1 : Nat) : Int) 0 0 ""
                             else if 0 < 2 then Semver.ofParts 0 ((2 + 1 : Nat) : Int) 0 ""
                             else Semver.ofParts 0 0 ((3 + 1 : Nat) : Int) "" }],
              Join := [] } :=
  ⟨by decide,
    C26_caret_three_numbers 0 2 3 (by norm_num) (by norm_num) (by norm_num) (by norm_num)⟩

/-- Claim C26 as stated fails: at the major `2^63 - 1` the bumped major wraps
around, and `2^63` is beyond the Go type `int`, so `ParseConstraint` returns an
error on `^9223372036854775807.0.0` and on `^9223372036854775808.0.0`. -/
theorem C26_caret_beyond_int :
    "^" ++ numeral (2 ^ 63 - 1) ++ "." ++ numeral 0 ++ "." ++ numeral 0 =
        "^9223372036854775807.0.0" ∧
      ParseConstraint "^9223372036854775807.0.0" = .error Error.ErrInvalidVersionParts ∧
      ParseConstraint "^9223372036854775808.0.0" = .error Error.ErrInvalidVersion ∧
      ¬ (∀ M m p : Nat, ∃ c,
          ParseConstraint ("^" ++ numeral M ++ "." ++ numeral m ++ "." ++ numeral p) =
            .ok c) := by
  have h1 : "^" ++ numeral (2 ^ 63 - 1) ++ "." ++ numeral 0 ++ "." ++ numeral 0 =
      "^9223372036854775807.0.0" := by decide
  have h2 : ParseConstraint "^9223372036854775807.0.0" =
      .error Error.ErrInvalidVersionParts := by decide
  refine ⟨h1, h2, by decide, fun h => ?_⟩
  obtain ⟨c, hc⟩ := h (2 ^ 63 - 1) 0 0
  rw [h1, h2] at hc
  cases hc

/-! ## Hyphen ranges -/

theorem static_dotted3 {A B C : List Char} {a b c : Nat} (hA : IsNumeral A a)
    (hB : IsNumeral B b) (hC : IsNumeral C c) :
    IsStaticVersion (String.mk (A ++ '.' :: (B ++ '.' :: C))) = true ∧
      IsPartialVersion (String.mk (A ++ '.' :: (B ++ '.' :: C))) = false := by
  obtain ⟨f1, f2, f3, f4, f5, f6, -⟩ := dotted_facts A a hA _ (hB.rest3 hC)
  rw [IsStaticVersion_plain _ f1 f2 f3 f4 f5 f6, IsPartialVersion_plain _ f1 f2 f3 f4 f5 f6,
    count_dotted3 hA hB hC]
  exact ⟨by decide, by decide⟩

theorem static_dotted2 {A B : List Char} {a b : Nat} (hA : IsNumeral A a)
    (hB : IsNumeral B b) :
    IsStaticVersion (String.mk (A ++ '.' :: B)) = false ∧
      IsPartialVersion (String.mk (A ++ '.' :: B)) = true := by
  obtain ⟨f1, f2, f3, f4, f5, f6, -⟩ := dotted_facts A a hA _ hB.rest2
  rw [IsStaticVersion_plain _ f1 f2 f3 f4 f5 f6, IsPartialVersion_plain _ f1 f2 f3 f4 f5 f6,
    count_dotted2 hA hB]
  exact ⟨by decide, by decide⟩

theorem static_dotted1 {A : List Char} {a : Nat} (hA : IsNumeral A a) :
    IsStaticVersion (String.mk A) = false ∧ IsPartialVersion (String.mk A) = true := by
  obtain ⟨f1, f2, f3, f4, f5, f6, -⟩ := dotted_facts A a hA [] (by simp)
  rw [List.append_nil] at f1 f2 f3 f4 f5 f6
  rw [IsStaticVersion_plain _ f1 f2 f3 f4 f5 f6, IsPartialVersion_plain _ f1 f2 f3 f4 f5 f6,
    hA.count_zero '.' (by decide)]
  exact ⟨by decide, by decide⟩

theorem lex_hyphen (c1 : Char) (cs1 : List Char) (c2 : Char) (cs2 : List Char)
    (hc1 : isDigit c1 = true)
    (hV1 : ∀ d ∈ c1 :: cs1, d ≠ eof ∧ isWhitespace d = false ∧ isVersionUnsafe d = false)
    (hc2 : isDigit c2 = true)
    (hV2 : ∀ d ∈ c2 :: cs2, d ≠ eof ∧ isWhitespace d = false ∧ isVersionUnsafe d = false) :
    ScanWholeLoop ((c1 :: cs1 ++ ' ' :: '-' :: ' ' :: c2 :: cs2).length + 1)
        (c1 :: cs1 ++ ' ' :: '-' :: ' ' :: c2 :: cs2) [Token.SOF] [""] =
      ([Token.SOF, Token.VERSION_EXPRESSION, Token.HYPHEN, Token.VERSION_EXPRESSION,
          Token.EOF],
        ["", String.mk (c1 :: cs1), "-", String.mk (c2 :: cs2), ""]) := by
  obtain ⟨d1, d2, d3⟩ := isDigit_plain c2 hc2
  have s1 := ScanOne_version c1 cs1 (' ' :: '-' :: ' ' :: c2 :: cs2) hc1 hV1
    (Or.inr ⟨' ', _, rfl, by decide, by decide⟩)
  have s2 : ScanOne (' ' :: '-' :: ' ' :: c2 :: cs2) =
      ((Token.WS, String.mk [' ']), '-' :: ' ' :: c2 :: cs2) :=
    ScanOne_whitespace ' ' [] ('-' :: ' ' :: c2 :: cs2) (by decide)
      (Or.inr ⟨'-', _, rfl, by decide, by decide⟩)
  have s3t : (scanOperator ['-']).1 = (Token.HYPHEN, "-") := by decide
  have s3 : ScanOne ('-' :: ' ' :: c2 :: cs2) = ((Token.HYPHEN, "-"), ' ' :: c2 :: cs2) := by
    rw [← s3t]
    exact ScanOne_operator '-' [] (' ' :: c2 :: cs2) (by decide)
      (Or.inr ⟨' ', _, rfl, by decide, by decide⟩)
  have s4 : ScanOne (' ' :: c2 :: cs2) = ((Token.WS, String.mk [' ']), c2 :: cs2) :=
    ScanOne_whitespace ' ' [] (c2 :: cs2) (by decide) (Or.inr ⟨c2, cs2, rfl, d1, d3⟩)
  have s5 := ScanOne_version c2 cs2 [] hc2 hV2 (Or.inl rfl)
  rw [List.append_nil] at s5
  rw [ScanWholeLoop_token _ _ _ _ _ _ s1 (by decide) (by decide)]
  rw [ScanWholeLoop_space _ _ _ _ _ s2]
  rw [ScanWholeLoop_token _ _ _ _ _ _ s3 (by decide) (by decide)]
  rw [ScanWholeLoop_space _ _ _ _ _ s4]
  rw [ScanWholeLoop_token _ _ _ _ _ _ s5 (by decide) (by decide), ScanWholeLoop_end]
  rfl

theorem passes_hyphen (V1 V2 : String) :
    (augmentMissingEqualityOp
        [Token.SOF, Token.VERSION_EXPRESSION, Token.HYPHEN, Token.VERSION_EXPRESSION, Token.EOF]
        ["", V1, "-", V2, ""] >>= fun r => removeSuperfluousAndOp r.1 r.2) =
      .ok ([Token.SOF, Token.VERSION_EXPRESSION, Token.HYPHEN, Token.VERSION_EXPRESSION,
          Token.EOF], ["", V1, "-", V2, ""]) := by
  have haug : augmentMissingEqualityOp
      [Token.SOF, Token.VERSION_EXPRESSION, Token.HYPHEN, Token.VERSION_EXPRESSION, Token.EOF]
      ["", V1, "-", V2, ""] =
      .ok ([Token.SOF, Token.VERSION_EXPRESSION, Token.HYPHEN, Token.VERSION_EXPRESSION,
        Token.EOF], ["", V1, "-", V2, ""]) := by
    unfold augmentMissingEqualityOp
    rw [if_neg (by decide)]
    rw [augmentMissingEqualityOpFrom_keep _ _ _ _ _ _ _ "" Token.SOF Token.VERSION_EXPRESSION
      (by rfl) (by rfl) (by rfl) (by decide)]
    rw [augmentMissingEqualityOpFrom_keep _ _ _ _ _ _ _ V1 Token.SOF Token.HYPHEN
      (by rfl) (by rfl) (by rfl) (by simp)]
    rw [augmentMissingEqualityOpFrom_keep _ _ _ _ _ _ _ "-" Token.VERSION_EXPRESSION
      Token.VERSION_EXPRESSION (by rfl) (by rfl) (by rfl) (by decide)]
    rw [augmentMissingEqualityOpFrom_keep _ _ _ _ _ _ _ V2 Token.HYPHEN Token.EOF
      (by rfl) (by rfl) (by rfl) (by simp)]
    rw [augmentMissingEqualityOpFrom_keep _ _ _ _ _ _ _ "" Token.VERSION_EXPRESSION Token.EOF
      (by rfl) (by rfl) (by rfl) (by decide)]
    rw [augmentMissingEqualityOpFrom_nil]
    rfl
  rw [haug]
  rfl

theorem validate_hyphen (V1 V2 : String) (hs1 : IsStaticVersion V1 = true)
    (hs2 : IsStaticVersion V2 = true ∨ IsPartialVersion V2 = true) :
    validateConstraintComposition
        [Token.SOF, Token.VERSION_EXPRESSION, Token.HYPHEN, Token.VERSION_EXPRESSION, Token.EOF]
        ["", V1, "-", V2, ""] = .ok () := by
  rcases hs2 with hs2 | hs2 <;>
    simp [index, IsRangeToken, IsEqualityToken, IsJoinToken, IsOperatorToken,
      validateConstraintComposition, validateFrom, validateStep, slices.Index, bind,
      Except.bind, pure, Except.pure, hs1, hs2]

theorem parse_hyphen (V1 V2 : String) (c : Constraint) :
    parseConstraintFrom ["", V1, "-", V2, ""]
        [Token.SOF, Token.VERSION_EXPRESSION, Token.HYPHEN, Token.VERSION_EXPRESSION, Token.EOF]
        0 c [] [] =
      (parseHyphen [V1, "-", V2] >>= fun r =>
        (.ok { c with Ranges := c.Ranges ++ [r] } : Except Error Constraint)) := by
  have hsub : parseSubConstraint
      [Token.VERSION_EXPRESSION, Token.HYPHEN, Token.VERSION_EXPRESSION] [V1, "-", V2] =
      parseHyphen [V1, "-", V2] := by
    simp [parseSubConstraint, isHyphenatedRange]
  simp [parseConstraintFrom_cons, parseConstraintFrom_nil, index, bind, Except.bind, hsub]
  generalize parseHyphen [V1, "-", V2] = x
  cases x <;> rfl

/-- Two version texts joined by ` - `: `ParseConstraint` desugars the one
hyphenated sub-constraint. -/
theorem ParseConstraint_hyphen (c1 : Char) (cs1 : List Char) (c2 : Char) (cs2 : List Char)
    (hc1 : isDigit c1 = true)
    (hV1 : ∀ d ∈ c1 :: cs1, d ≠ eof ∧ isWhitespace d = false ∧ isVersionUnsafe d = false)
    (hc2 : isDigit c2 = true)
    (hV2 : ∀ d ∈ c2 :: cs2, d ≠ eof ∧ isWhitespace d = false ∧ isVersionUnsafe d = false)
    (hs1 : IsStaticVersion (String.mk (c1 :: cs1)) = true)
    (hs2 : IsStaticVersion (String.mk (c2 :: cs2)) = true ∨
      IsPartialVersion (String.mk (c2 :: cs2)) = true) :
    ParseConstraint (String.mk (c1 :: cs1 ++ ' ' :: '-' :: ' ' :: c2 :: cs2)) =
      (parseHyphen [String.mk (c1 :: cs1), "-", String.mk (c2 :: cs2)] >>= fun r =>
        (.ok { Original := String.mk (c1 :: cs1 ++ ' ' :: '-' :: ' ' :: c2 :: cs2),
               Ranges := [r], Join := [] } : Except Error Constraint)) := by
  have hlex := lex_hyphen c1 cs1 c2 cs2 hc1 hV1 hc2 hV2
  unfold ParseConstraint LexConstraint
  rw [ScanWhole_eq]
  simp only
  rw [hlex, passes_hyphen]
  simp only [bind, Except.bind]
  rw [if_neg (by decide), validate_hyphen _ _ hs1 hs2]
  simp only
  rw [parse_hyphen]
  rfl

theorem plain_parts (V : List Char) (h1 : '-' ∉ V) (h2 : '+' ∉ V) :
    GetVersionPart (String.mk V) = String.mk V ∧ GetMetaDataPart (String.mk V) = "" ∧
      GetPreReleasePart (String.mk V) = "" :=
  ⟨GetVersionPart_plain V h1 h2, GetMetaDataPart_none V h2, GetPreReleasePart_none V h1⟩

theorem coercePartialEnd_dotted2 {D E : List Char} {d e : Nat} (hD : IsNumeral D d)
    (hE : IsNumeral E e) (he : e + 1 < 2 ^ 63) :
    coercePartialEnd (String.mk (D ++ '.' :: E)) =
      .ok (String.mk (D ++ '.' :: ((numeral (e + 1)).data ++ '.' :: ['0']))) := by
  have hend : String.mk D ++ "." ++ formatInt (increment (e : Int)) ++ ".0" =
      String.mk (D ++ '.' :: ((numeral (e + 1)).data ++ '.' :: ['0'])) := by
    rw [increment_of_lt e he, formatInt_numeral]
    apply String.ext
    simp [String.data_append]
  unfold coercePartialEnd
  simp [Count_mk, count_dotted2 hD hE, Split_dotted2 hD hE, index, hE.atoi, hend, bind,
    Except.bind, pure, Except.pure]

theorem coercePartialEnd_dotted1 {D : List Char} {d : Nat} (hD : IsNumeral D d)
    (hd : d + 1 < 2 ^ 63) :
    coercePartialEnd (String.mk D) =
      .ok (String.mk ((numeral (d + 1)).data ++ '.' :: (['0'] ++ '.' :: ['0']))) := by
  have hend : formatInt (increment (d : Int)) ++ ".0.0" =
      String.mk ((numeral (d + 1)).data ++ '.' :: (['0'] ++ '.' :: ['0'])) := by
    rw [increment_of_lt d hd, formatInt_numeral]
    apply String.ext
    simp [String.data_append]
  unfold coercePartialEnd
  simp [Count_mk, hD.count_zero '.' (by decide), hD.atoi, hend, bind, Except.bind, pure,
    Except.pure]

theorem parseHyphen_static_end (V1 V2 : List Char) (v1 v2 : Semver) (op : String)
    (p1 : '-' ∉ V1 ∧ '+' ∉ V1) (p2 : '-' ∉ V2 ∧ '+' ∉ V2)
    (s1 : IsStaticVersion (String.mk V1) = true ∧ IsPartialVersion (String.mk V1) = false)
    (s2 : IsStaticVersion (String.mk V2) = true ∧ IsPartialVersion (String.mk V2) = false)
    (h1 : ParseSemver (String.mk V1) = .ok v1) (h2 : ParseSemver (String.mk V2) = .ok v2) :
    parseHyphen [String.mk V1, op, String.mk V2] =
      .ok { StartOp := Token.GE, StartVersion := v1, EndOp := Token.LE, EndVersion := v2 } := by
  obtain ⟨g1, g2, g3⟩ := plain_parts V1 p1.1 p1.2
  obtain ⟨k1, k2, k3⟩ := plain_parts V2 p2.1 p2.2
  unfold parseHyphen
  simp [index, g1, g2, g3, k1, k2, k3, s1.1, s1.2, s2.1, s2.2,
    getVersionStringFromMetaPreReleaseParts, finishRange, h1, h2, bind, Except.bind, pure,
    Except.pure, Range.zero]

theorem parseHyphen_partial_end (V1 V2 : List Char) (v1 v2 : Semver) (op e : String)
    (p1 : '-' ∉ V1 ∧ '+' ∉ V1) (p2 : '-' ∉ V2 ∧ '+' ∉ V2)
    (s1 : IsStaticVersion (String.mk V1) = true ∧ IsPartialVersion (String.mk V1) = false)
    (s2 : IsStaticVersion (String.mk V2) = false ∧ IsPartialVersion (String.mk V2) = true)
    (hco : coercePartialEnd (String.mk V2) = .ok e)
    (h1 : ParseSemver (String.mk V1) = .ok v1) (h2 : ParseSemver e = .ok v2) :
    parseHyphen [String.mk V1, op, String.mk V2] =
      .ok { StartOp := Token.GE, StartVersion := v1, EndOp := Token.LT, EndVersion := v2 } := by
  obtain ⟨g1, g2, g3⟩ := plain_parts V1 p1.1 p1.2
  obtain ⟨k1, k2, k3⟩ := plain_parts V2 p2.1 p2.2
  unfold parseHyphen
  simp [index, g1, g2, g3, k1, k2, k3, s1.1, s1.2, s2.1, s2.2, hco,
    getVersionStringFromMetaPreReleaseParts, finishRange, h1, h2, bind, Except.bind, pure,
    Except.pure, Range.zero]

theorem dotted_runes {A : List Char} {a : Nat} (hA : IsNumeral A a) (R : List Char)
    (hR : ∀ c ∈ R, ('0' ≤ c ∧ c ≤ '9') ∨ c = '.') :
    ('-' ∉ A ++ R ∧ '+' ∉ A ++ R) ∧
      ∃ x xs, A ++ R = x :: xs ∧ isDigit x = true ∧
        ∀ d ∈ x :: xs, d ≠ eof ∧ isWhitespace d = false ∧ isVersionUnsafe d = false := by
  obtain ⟨x, xs, hx, hd⟩ := hA.head
  obtain ⟨f1, f2, -, -, -, -, h⟩ := dotted_facts A a hA R hR
  refine ⟨⟨f1, f2⟩, x, xs ++ R, by rw [hx]; rfl, hd, ?_⟩
  rw [hx] at h
  exact h

theorem ParseConstraint_hyphen_runes (V1 V2 : List Char) (r : Range)
    (h1 : ∃ x xs, V1 = x :: xs ∧ isDigit x = true ∧
      ∀ d ∈ x :: xs, d ≠ eof ∧ isWhitespace d = false ∧ isVersionUnsafe d = false)
    (h2 : ∃ x xs, V2 = x :: xs ∧ isDigit x = true ∧
      ∀ d ∈ x :: xs, d ≠ eof ∧ isWhitespace d = false ∧ isVersionUnsafe d = false)
    (hs1 : IsStaticVersion (String.mk V1) = true)
    (hs2 : IsStaticVersion (String.mk V2) = true ∨ IsPartialVersion (String.mk V2) = true)
    (hr : parseHyphen [String.mk V1, "-", String.mk V2] = .ok r) :
    ParseConstraint (String.mk (V1 ++ ' ' :: '-' :: ' ' :: V2)) =
      .ok { Original := String.mk (V1 ++ ' ' :: '-' :: ' ' :: V2), Ranges := [r],
            Join := [] } := by
  obtain ⟨x, xs, rfl, hx, hV1⟩ := h1
  obtain ⟨y, ys, rfl, hy, hV2⟩ := h2
  have h := ParseConstraint_hyphen x xs y ys hx hV1 hy hV2 hs1 hs2
  rw [hr] at h
  exact h

theorem hyphen_string (a b : String) :
    a ++ " - " ++ b = String.mk (a.data ++ ' ' :: '-' :: ' ' :: b.data) := by
  apply String.ext
  simp [String.data_append]

theorem dotted3_numerals (A B C : Nat) :
    (numeral A ++ "." ++ numeral B ++ "." ++ numeral C).data =
      (numeral A).data ++ '.' :: ((numeral B).data ++ '.' :: (numeral C).data) := by
  simp [String.data_append]

theorem dotted2_numerals (A B : Nat) :
    (numeral A ++ "." ++ numeral B).data = (numeral A).data ++ '.' :: (numeral B).data := by
  simp [String.data_append]

/-- Claim C27 (amended): for natural numbers that fit the Go type `int`,
`ParseConstraint("A.B.C - D.E.F")` gives the single range
`(GE, A.B.C, LE, D.E.F)`; with the second operand `D.E` and `E + 1` in the type
the upper bound is `LT D.(E+1).0`; with the second operand `D` and `D + 1` in
the type the upper bound is `LT (D+1).0.0`. -/
theorem C27_hyphen_ranges (A B C D : Nat) (hA : A < 2 ^ 63) (hB : B < 2 ^ 63)
    (hC : C < 2 ^ 63) (hD : D < 2 ^ 63) :
    (∀ E F : Nat, E < 2 ^ 63 → F < 2 ^ 63 →
      ParseConstraint (numeral A ++ "." ++ numeral B ++ "." ++ numeral C ++ " - " ++
          (numeral D ++ "." ++ numeral E ++ "." ++ numeral F)) =
        .ok { Original := numeral A ++ "." ++ numeral B ++ "." ++ numeral C ++ " - " ++
                (numeral D ++ "." ++ numeral E ++ "." ++ numeral F),
              Ranges := [{ StartOp := Token.GE,
                           StartVersion := Semver.ofParts (A : Int) (B : Int) (C : Int) "",
                           EndOp := Token.LE,
                           EndVersion := Semver.ofParts (D : Int) (E : Int) (F : Int) "" }],
              Join := [] }) ∧
    (∀ E : Nat, E + 1 < 2 ^ 63 →
      ParseConstraint (numeral A ++ "." ++ numeral B ++ "." ++ numeral C ++ " - " ++
          (numeral D ++ "." ++ numeral E)) =
        .ok { Original := numeral A ++ "." ++ numeral B ++ "." ++ numeral C ++ " - " ++
                (numeral D ++ "." ++ numeral E),
              Ranges := [{ StartOp := Token.GE,
                           StartVersion := Semver.ofParts (A : Int) (B : Int) (C : Int) "",
                           EndOp := Token.LT,
                           EndVersion := Semver.ofParts (D : Int) ((E + 1 : Nat) : Int) 0 "" }],
              Join := [] }) ∧
    (D + 1 < 2 ^ 63 →
      ParseConstraint (numeral A ++ "." ++ numeral B ++ "." ++ numeral C ++ " - " ++
          numeral D) =
        .ok { Original := numeral A ++ "." ++ numeral B ++ "." ++ numeral C ++ " - " ++
                numeral D,
              Ranges := [{ StartOp := Token.GE,
                           StartVersion := Semver.ofParts (A : Int) (B : Int) (C : Int) "",
                           EndOp := Token.LT,
                           EndVersion := Semver.ofParts ((D + 1 : Nat) : Int) 0 0 "" }],
              Join := [] }) := by
  have nA := numeral_IsNumeral A hA
  have nB := numeral_IsNumeral B hB
  have nC := numeral_IsNumeral C hC
  have nD := numeral_IsNumeral D hD
  obtain ⟨p1, r1⟩ := dotted_runes nA _ (nB.rest3 nC)
  have s1 := static_dotted3 nA nB nC
  have v1 := ParseSemver_dotted3 nA nB nC
  refine ⟨fun E F hE hF => ?_, fun E hE => ?_, fun hD1 => ?_⟩
  · have nE := numeral_IsNumeral E hE
    have nF := numeral_IsNumeral F hF
    obtain ⟨p2, r2⟩ := dotted_runes nD _ (nE.rest3 nF)
    have s2 := static_dotted3 nD nE nF
    rw [hyphen_string, dotted3_numerals, dotted3_numerals]
    exact ParseConstraint_hyphen_runes _ _ _ r1 r2 s1.1 (Or.inl s2.1)
      (parseHyphen_static_end _ _ _ _ _ p1 p2 s1 s2 v1 (ParseSemver_dotted3 nD nE nF))
  · have nE := numeral_IsNumeral E (by omega)
    obtain ⟨p2, r2⟩ := dotted_runes nD _ nE.rest2
    have s2 := static_dotted2 nD nE
    rw [hyphen_string, dotted3_numerals, dotted2_numerals]
    exact ParseConstraint_hyphen_runes _ _ _ r1 r2 s1.1 (Or.inr s2.2)
      (parseHyphen_partial_end _ _ _ _ _ _ p1 p2 s1 s2
        (coercePartialEnd_dotted2 nD nE hE) v1
        (ParseSemver_dotted3 nD (numeral_IsNumeral (E + 1) hE) zero_IsNumeral))
  · obtain ⟨p2, r2⟩ := dotted_runes nD [] (by simp)
    rw [List.append_nil] at p2 r2
    have s2 := static_dotted1 nD
    rw [hyphen_string, dotted3_numerals]
    exact ParseConstraint_hyphen_runes _ _ _ r1 r2 s1.1 (Or.inr s2.2)
      (parseHyphen_partial_end _ _ _ _ _ _ p1 p2 s1 s2
        (coercePartialEnd_dotted1 nD hD1) v1
        (ParseSemver_dotted3 (numeral_IsNumeral (D + 1) hD1) zero_IsNumeral zero_IsNumeral))

/-- Witness for C27 (amended) on `1.2.3 - 2.3.4`, `1.2.3 - 2.3` and `1.2.3 - 2`. -/
theorem C27_hyphen_ranges_witness :
    (numeral 1 ++ "." ++ numeral 2 ++ "." ++ numeral 3 ++ " - " ++
        (numeral 2 ++ "." ++ numeral 3 ++ "." ++ numeral 4) = "1.2.3 - 2.3.4" ∧
      numeral 1 ++ "." ++ numeral 2 ++ "." ++ numeral 3 ++ " - " ++
        (numeral 2 ++ "." ++ numeral 3) = "1.2.3 - 2.3" ∧
      numeral 1 ++ "." ++ numeral 2 ++ "." ++ numeral 3 ++ " - " ++ numeral 2 =
        "1.2.3 - 2") ∧
    ParseConstraint (numeral 1 ++ "." ++ numeral 2 ++ "." ++ numeral 3 ++ " - " ++
        (numeral 2 ++ "." ++ numeral 3 ++ "." ++ numeral 4)) =
      .ok { Original := numeral 1 ++ "." ++ numeral 2 ++ "." ++ numeral 3 ++ " - " ++
              (numeral 2 ++ "." ++ numeral 3 ++ "." ++ numeral 4),
            Ranges := [{ StartOp := Token.GE,
                         StartVersion := Semver.ofParts ((1 : Nat) : Int) ((2 : Nat) : Int)
                           ((3 : Nat) : Int) "",
                         EndOp := Token.LE,
                         EndVersion := Semver.ofParts ((2 : Nat) : Int) ((3 : Nat) : Int)
                           ((4 : Nat) : Int) "" }],
            Join := [] } ∧
    ParseConstraint (numeral 1 ++ "." ++ numeral 2 ++ "." ++ numeral 3 ++ " - " ++
        (numeral 2 ++ "." ++ numeral 3)) =
      .ok { Original := numeral 1 ++ "." ++ numeral 2 ++ "." ++ numeral 3 ++ " - " ++
              (numeral 2 ++ "." ++ numeral 3),
            Ranges := [{ StartOp := Token.GE,
                         StartVersion := Semver.ofParts ((1 : Nat) : Int) ((2 : Nat) : Int)
                           ((3 : Nat) : Int) "",
                         EndOp := Token.LT,
                         EndVersion := Semver.ofParts ((2 : Nat) : Int) ((3 + 1 : Nat) : Int)
                           0 "" }],
            Join := [] } ∧
    ParseConstraint (numeral 1 ++ "." ++ numeral 2 ++ "." ++ numeral 3 ++ " - " ++
        numeral 2) =
      .ok { Original := numeral 1 ++ "." ++ numeral 2 ++ "." ++ numeral 3 ++ " - " ++
              numeral 2,
            Ranges := [{ StartOp := Token.GE,
                         StartVersion := Semver.ofParts ((1 : Nat) : Int) ((2 : Nat) : Int)
                           ((3 : Nat) : Int) "",
                         EndOp := Token.LT,
                         EndVersion := Semver.ofParts ((2 + 1 : Nat) : Int) 0 0 "" }],
            Join := [] } :=
  ⟨⟨by decide, by decide, by decide⟩,
    (C27_hyphen_ranges 1 2 3 2 (by norm_num) (by norm_num) (by norm_num) (by norm_num)).1 3 4
      (by norm_num) (by norm_num),
    (C27_hyphen_ranges 1 2 3 2 (by norm_num) (by norm_num) (by norm_num) (by norm_num)).2.1 3
      (by norm_num),
    (C27_hyphen_ranges 1 2 3 2 (by norm_num) (by norm_num) (by norm_num) (by norm_num)).2.2
      (by norm_num)⟩

/-- Claim C27 as stated fails: numbers beyond the Go type `int` are not parsed, and
a partial second operand whose last number is `2^63 - 1` cannot be bumped, so
`ParseConstraint` returns an error on `1.2.3 - 9223372036854775808.0.0`, on
`1.2.3 - 2.9223372036854775807` and on `1.2.3 - 9223372036854775807`. -/
theorem C27_hyphen_beyond_int :
    (numeral 1 ++ "." ++ numeral 2 ++ "." ++ numeral 3 ++ " - " ++
        (numeral (2 ^ 63) ++ "." ++ numeral 0 ++ "." ++ numeral 0) =
        "1.2.3 - 9223372036854775808.0.0" ∧
      ParseConstraint "1.2.3 - 9223372036854775808.0.0" =
        .error Error.ErrInvalidVersionParts) ∧
    (numeral 1 ++ "." ++ numeral 2 ++ "." ++ numeral 3 ++ " - " ++
        (numeral 2 ++ "." ++ numeral (2 ^ 63 - 1)) = "1.2.3 - 2.9223372036854775807" ∧
      ParseConstraint "1.2.3 - 2.9223372036854775807" =
        .error Error.ErrInvalidVersionParts) ∧
    (numeral 1 ++ "." ++ numeral 2 ++ "." ++ numeral 3 ++ " - " ++ numeral (2 ^ 63 - 1) =
        "1.2.3 - 9223372036854775807" ∧
      ParseConstraint "1.2.3 - 9223372036854775807" =
        .error Error.ErrInvalidVersionParts) := by
  refine ⟨⟨?_, ?_⟩, ⟨?_, ?_⟩, ⟨?_, ?_⟩⟩ <;> decide

/-! ## Bare versions -/

theorem passes_bare_version (V : String) (hs : IsStaticVersion V = false) :
    (augmentMissingEqualityOp [Token.SOF, Token.VERSION_EXPRESSION, Token.EOF] ["", V, ""] >>=
        fun r => removeSuperfluousAndOp r.1 r.2) =
      .ok ([Token.SOF, Token.VERSION_EXPRESSION, Token.EOF], ["", V, ""]) := by
  have haug : augmentMissingEqualityOp [Token.SOF, Token.VERSION_EXPRESSION, Token.EOF]
      ["", V, ""] = .ok ([Token.SOF, Token.VERSION_EXPRESSION, Token.EOF], ["", V, ""]) := by
    unfold augmentMissingEqualityOp
    rw [if_neg (by decide)]
    rw [augmentMissingEqualityOpFrom_keep _ _ _ _ _ _ _ "" Token.SOF Token.VERSION_EXPRESSION
      (by rfl) (by rfl) (by rfl) (by decide)]
    rw [augmentMissingEqualityOpFrom_keep _ _ _ _ _ _ _ V Token.SOF Token.EOF
      (by rfl) (by rfl) (by rfl) (by simp [hs])]
    rw [augmentMissingEqualityOpFrom_keep _ _ _ _ _ _ _ "" Token.VERSION_EXPRESSION Token.EOF
      (by rfl) (by rfl) (by rfl) (by decide)]
    rw [augmentMissingEqualityOpFrom_nil]
    rfl
  rw [haug]
  rfl

theorem passes_bare_static (V : String) (hs : IsStaticVersion V = true) :
    (augmentMissingEqualityOp [Token.SOF, Token.VERSION_EXPRESSION, Token.EOF] ["", V, ""] >>=
        fun r => removeSuperfluousAndOp r.1 r.2) =
      .ok ([Token.SOF, Token.EQ, Token.VERSION_EXPRESSION, Token.EOF], ["", "=", V, ""]) := by
  have haug : augmentMissingEqualityOp [Token.SOF, Token.VERSION_EXPRESSION, Token.EOF]
      ["", V, ""] =
      .ok ([Token.SOF, Token.EQ, Token.VERSION_EXPRESSION, Token.EOF], ["", "=", V, ""]) := by
    unfold augmentMissingEqualityOp
    rw [if_neg (by decide)]
    rw [augmentMissingEqualityOpFrom_keep _ _ _ _ _ _ _ "" Token.SOF Token.VERSION_EXPRESSION
      (by rfl) (by rfl) (by rfl) (by decide)]
    rw [augmentMissingEqualityOpFrom_insert _ _ _ _ _ _ _ V Token.SOF Token.EOF
      (by rfl) (by rfl) (by rfl) ⟨rfl, hs, by decide, by decide, by decide⟩]
    rw [augmentMissingEqualityOpFrom_keep _ _ _ _ _ _ _ "" Token.VERSION_EXPRESSION Token.EOF
      (by rfl) (by rfl) (by rfl) (by decide)]
    rw [augmentMissingEqualityOpFrom_nil]
    rfl
  rw [haug]
  rfl

theorem validate_bare_version (V : String) (hs : IsStaticVersion V = false) :
    validateConstraintComposition [Token.SOF, Token.VERSION_EXPRESSION, Token.EOF]
      ["", V, ""] = .ok () := by
  simp [index, IsRangeToken, IsEqualityToken, IsJoinToken, IsOperatorToken,
    validateConstraintComposition, validateFrom, validateStep, slices.Index, bind,
    Except.bind, pure, Except.pure, hs]

theorem parse_bare_version (V : String) (c : Constraint) :
    parseConstraintFrom ["", V, ""] [Token.SOF, Token.VERSION_EXPRESSION, Token.EOF] 0
        c [] [] =
      (parseXRange [V] >>= fun r =>
        (.ok { c with Ranges := c.Ranges ++ [r] } : Except Error Constraint)) := by
  have hsub : parseSubConstraint [Token.VERSION_EXPRESSION] [V] = parseXRange [V] := by
    cases hp : IsPartialVersion V <;>
      simp [parseSubConstraint, isHyphenatedRange, isCaretRange, isTildeRange, isRange,
        isStaticRange, isPartialRange, isXRange, index, hp, bind, Except.bind, pure,
        Except.pure]
  simp [parseConstraintFrom_cons, parseConstraintFrom_nil, index, bind, Except.bind, hsub]
  generalize parseXRange [V] = x
  cases x <;> rfl

theorem ParseConstraint_bare_version (c : Char) (cs : List Char) (hc : isDigit c = true)
    (hV : ∀ d ∈ c :: cs, d ≠ eof ∧ isWhitespace d = false ∧ isVersionUnsafe d = false)
    (hs : IsStaticVersion (String.mk (c :: cs)) = false) :
    ParseConstraint (String.mk (c :: cs)) =
      (parseXRange [String.mk (c :: cs)] >>= fun r =>
        (.ok { Original := String.mk (c :: cs), Ranges := [r], Join := [] } :
          Except Error Constraint)) := by
  have hlex := lex_version c cs hc hV
  unfold ParseConstraint LexConstraint
  rw [ScanWhole_eq]
  simp only
  rw [hlex, passes_bare_version _ hs]
  simp only [bind, Except.bind]
  rw [if_neg (by decide), validate_bare_version _ hs]
  simp only
  rw [parse_bare_version]
  rfl

theorem ParseConstraint_bare_static (c : Char) (cs : List Char) (hc : isDigit c = true)
    (hV : ∀ d ∈ c :: cs, d ≠ eof ∧ isWhitespace d = false ∧ isVersionUnsafe d = false)
    (hs : IsStaticVersion (String.mk (c :: cs)) = true) :
    ParseConstraint (String.mk (c :: cs)) =
      (parseStaticRange [Token.EQ, Token.VERSION_EXPRESSION] ["=", String.mk (c :: cs)] >>=
        fun r => (.ok { Original := String.mk (c :: cs), Ranges := [r], Join := [] } :
          Except Error Constraint)) := by
  have hlex := lex_version c cs hc hV
  unfold ParseConstraint LexConstraint
  rw [ScanWhole_eq]
  simp only
  rw [hlex, passes_bare_static _ hs]
  simp only [bind, Except.bind]
  rw [if_neg (by decide), validate_operator_version Token.EQ (Or.inr (Or.inr rfl))]
  simp only
  rw [parse_operator_version Token.EQ (Or.inr (Or.inr rfl)), parseSubConstraint_static _ hs]
  rfl

theorem zeros_string (M : List Char) :
    String.mk M ++ ".0.0" = String.mk (M ++ '.' :: (['0'] ++ '.' :: ['0'])) := by
  apply String.ext
  simp [String.data_append]

theorem zero_string (M N : List Char) :
    String.mk M ++ "." ++ String.mk N ++ ".0" = String.mk (M ++ '.' :: (N ++ '.' :: ['0'])) := by
  apply String.ext
  simp [String.data_append]

theorem bump_string (M : List Char) (n : Nat) (hn : n + 1 < 2 ^ 63) :
    String.mk M ++ "." ++ formatInt (increment (n : Int)) ++ ".0" =
      String.mk (M ++ '.' :: ((numeral (n + 1)).data ++ '.' :: ['0'])) := by
  rw [increment_of_lt n hn, formatInt_numeral]
  apply String.ext
  simp [String.data_append]

theorem bump_zeros_string (n : Nat) (hn : n + 1 < 2 ^ 63) :
    formatInt (increment (n : Int)) ++ ".0.0" =
      String.mk ((numeral (n + 1)).data ++ '.' :: (['0'] ++ '.' :: ['0'])) := by
  rw [increment_of_lt n hn, formatInt_numeral]
  apply String.ext
  simp [String.data_append]

/-- The desugaring of an x-range whose version part splits into a numeral,
followed by nothing or by `x`. -/
theorem parseXRange_major (V : String) (M : List Char) (m : Nat) (rest : List String)
    (hr : rest = [] ∨ rest = ["x"]) (hV : GetVersionPart V = V)
    (hne : V ≠ "" ∧ V ≠ "*" ∧ V ≠ "ANY") (hsplit : strings.Split V '.' = String.mk M :: rest)
    (hM : IsNumeral M m) (hm : m + 1 < 2 ^ 63) :
    parseXRange [V] =
      .ok { StartOp := Token.GE, StartVersion := Semver.ofParts (m : Int) 0 0 "",
            EndOp := Token.LT, EndVersion := Semver.ofParts ((m + 1 : Nat) : Int) 0 0 "" } := by
  obtain ⟨w1, w2, w3, w4, w5⟩ := hM.ne_wild
  have v1 : ParseSemver (String.mk (M ++ ['.', '0', '.', '0'])) =
      .ok (Semver.ofParts (m : Int) 0 0 "") :=
    ParseSemver_dotted3 hM zero_IsNumeral zero_IsNumeral
  have v2 : ParseSemver (String.mk ((numeral (m + 1)).data ++ ['.', '0', '.', '0'])) =
      .ok (Semver.ofParts ((m + 1 : Nat) : Int) 0 0 "") :=
    ParseSemver_dotted3 (numeral_IsNumeral (m + 1) hm) zero_IsNumeral zero_IsNumeral
  have hx : strings.ToLower "x" = "x" := by decide
  unfold parseXRange
  rcases hr with rfl | rfl <;>
    simp [index, hV, hne.1, hne.2.1, hne.2.2, hsplit, splitParts, ContainsOnly, w1, w2, w3,
      hM.toLower, hx, hM.atoi, zeros_string, bump_zeros_string m hm, v1, v2, mk_ne_empty,
      bind, Except.bind, pure, Except.pure, Range.zero]

/-- The desugaring of an x-range whose version part splits into two numerals,
followed by nothing or by `x`. -/
theorem parseXRange_minor (V : String) (M N : List Char) (m n : Nat) (rest : List String)
    (hr : rest = [] ∨ rest = ["x"]) (hV : GetVersionPart V = V)
    (hne : V ≠ "" ∧ V ≠ "*" ∧ V ≠ "ANY")
    (hsplit : strings.Split V '.' = String.mk M :: String.mk N :: rest)
    (hM : IsNumeral M m) (hN : IsNumeral N n) (hn : n + 1 < 2 ^ 63) :
    parseXRange [V] =
      .ok { StartOp := Token.GE, StartVersion := Semver.ofParts (m : Int) (n : Int) 0 "",
            EndOp := Token.LT,
            EndVersion := Semver.ofParts (m : Int) ((n + 1 : Nat) : Int) 0 "" } := by
  obtain ⟨w1, w2, w3, w4, w5⟩ := hM.ne_wild
  obtain ⟨u1, u2, u3, u4, u5⟩ := hN.ne_wild
  have v1 : ParseSemver (String.mk (M ++ '.' :: (N ++ ['.', '0']))) =
      .ok (Semver.ofParts (m : Int) (n : Int) 0 "") :=
    ParseSemver_dotted3 hM hN zero_IsNumeral
  have v2 : ParseSemver (String.mk (M ++ '.' :: ((numeral (n + 1)).data ++ ['.', '0']))) =
      .ok (Semver.ofParts (m : Int) ((n + 1 : Nat) : Int) 0 "") :=
    ParseSemver_dotted3 hM (numeral_IsNumeral (n + 1) hn) zero_IsNumeral
  have hx : strings.ToLower "x" = "x" := by decide
  unfold parseXRange
  rcases hr with rfl | rfl <;>
    simp [index, hV, hne.1, hne.2.1, hne.2.2, hsplit, splitParts, ContainsOnly, w1, w2, w3,
      u1, u2, u3, u4, hM.toLower, hN.toLower, hx, hN.atoi, zero_string, bump_string M n hn,
      v1, v2, mk_ne_empty, bind, Except.bind, pure, Except.pure, Range.zero]

/-! ## X-ranges -/

theorem xrange_runes {A : List Char} {a : Nat} (hA : IsNumeral A a) (R : List Char)
    (hR : ∀ c ∈ R, ('0' ≤ c ∧ c ≤ '9') ∨ c = '.' ∨ c = 'x') :
    GetVersionPart (String.mk (A ++ R)) = String.mk (A ++ R) ∧
      (String.mk (A ++ R) ≠ "" ∧ String.mk (A ++ R) ≠ "*" ∧ String.mk (A ++ R) ≠ "ANY") ∧
      ∃ x xs, A ++ R = x :: xs ∧ isDigit x = true ∧
        ∀ d ∈ x :: xs, d ≠ eof ∧ isWhitespace d = false ∧ isVersionUnsafe d = false := by
  have key : ∀ x : Char, ¬ ('0' ≤ x ∧ x ≤ '9') → x ≠ '.' → x ≠ 'x' → x ∉ A ++ R := by
    intro x h1 h2 h3 hm
    rcases List.mem_append.1 hm with hm | hm
    · exact hA.not_mem x h1 hm
    · rcases hR x hm with h | h | h
      · exact h1 h
      · exact h2 h
      · exact h3 h
  have safe : ∀ d ∈ A ++ R, d ≠ eof ∧ isWhitespace d = false ∧ isVersionUnsafe d = false := by
    intro d hd
    have hd1 : ('0' ≤ d ∧ d ≤ '9') ∨ d = '.' ∨ d = 'x' := by
      rcases List.mem_append.1 hd with hm | hm
      · exact Or.inl (hA.2.1 d hm)
      · exact hR d hm
    rcases hd1 with h | h | h
    · have hdig : isDigit d = true := by
        unfold isDigit
        simp [h.1, h.2]
      obtain ⟨d1, -, d3⟩ := isDigit_plain d hdig
      refine ⟨d1, d3, ?_⟩
      cases hu : isVersionUnsafe d
      · rfl
      · exfalso
        have : d ∈ versionUnsafe := by
          unfold isVersionUnsafe at hu
          simpa using hu
        revert h
        revert this
        unfold versionUnsafe
        simp only [List.mem_cons, List.mem_singleton, List.not_mem_nil, or_false]
        rintro (rfl | rfl | rfl | rfl | rfl | rfl | rfl | rfl | rfl | rfl) <;> decide
    · subst h
      decide
    · subst h
      decide
  obtain ⟨x, xs, hx, hd⟩ := hA.head
  have e : A ++ R = x :: (xs ++ R) := by rw [hx]; rfl
  have hxd : '0' ≤ x ∧ x ≤ '9' := hA.2.1 x (by rw [hx]; simp)
  refine ⟨GetVersionPart_plain _ (key '-' (by decide) (by decide) (by decide))
    (key '+' (by decide) (by decide) (by decide)), ⟨?_, ?_, ?_⟩, x, xs ++ R, e, hd, ?_⟩
  · exact (mk_ne_empty _).2 (by rw [e]; simp)
  · intro h
    have h1 : A ++ R = ['*'] := congrArg String.data h
    rw [e] at h1
    injection h1 with h2 h3
    subst h2
    revert hxd
    decide
  · intro h
    have h1 : A ++ R = ['A', 'N', 'Y'] := congrArg String.data h
    rw [e] at h1
    injection h1 with h2 h3
    subst h2
    revert hxd
    decide
  · rw [← e]
    exact safe

theorem IsStaticVersion_wild (V : List Char) (hV : GetVersionPart (String.mk V) = String.mk V)
    (hx : 'x' ∈ V) : IsStaticVersion (String.mk V) = false := by
  have hc : 0 < V.count 'x' := List.count_pos_iff.2 hx
  unfold IsStaticVersion IsWildCardVersion
  simp [hV, Count_mk, hc]

theorem ParseConstraint_xrange_runes (V : List Char) (r : Range)
    (h1 : ∃ x xs, V = x :: xs ∧ isDigit x = true ∧
      ∀ d ∈ x :: xs, d ≠ eof ∧ isWhitespace d = false ∧ isVersionUnsafe d = false)
    (hs : IsStaticVersion (String.mk V) = false)
    (hr : parseXRange [String.mk V] = .ok r) :
    ParseConstraint (String.mk V) =
      .ok { Original := String.mk V, Ranges := [r], Join := [] } := by
  obtain ⟨x, xs, rfl, hx, hV1⟩ := h1
  have h := ParseConstraint_bare_version x xs hx hV1 hs
  rw [hr] at h
  exact h

theorem Split_x1 {A : List Char} {a : Nat} (hA : IsNumeral A a) :
    strings.Split (String.mk (A ++ ['.', 'x'])) '.' = [String.mk A, "x"] := by
  unfold strings.Split
  simp only
  rw [splitRunes_append _ _ _ (hA.not_mem '.' (by decide)),
    splitRunes_of_not_mem _ _ (by decide)]
  rfl

theorem Split_x2 {A B : List Char} {a b : Nat} (hA : IsNumeral A a) (hB : IsNumeral B b) :
    strings.Split (String.mk (A ++ '.' :: (B ++ ['.', 'x']))) '.' =
      [String.mk A, String.mk B, "x"] := by
  unfold strings.Split
  simp only
  rw [splitRunes_append _ _ _ (hA.not_mem '.' (by decide)),
    splitRunes_append _ _ _ (hB.not_mem '.' (by decide)),
    splitRunes_of_not_mem _ _ (by decide)]
  rfl

theorem x_string (a : String) : a ++ ".x" = String.mk (a.data ++ ['.', 'x']) := by
  apply String.ext
  simp [String.data_append]

theorem x2_string (a b : String) :
    a ++ "." ++ b ++ ".x" = String.mk (a.data ++ '.' :: (b.data ++ ['.', 'x'])) := by
  apply String.ext
  simp [String.data_append]

theorem dot_string (a b : String) : a ++ "." ++ b = String.mk (a.data ++ '.' :: b.data) := by
  apply String.ext
  simp [String.data_append]

theorem ParseConstraint_major_x {A : List Char} {a : Nat} (hA : IsNumeral A a)
    (ha : a + 1 < 2 ^ 63) :
    ParseConstraint (String.mk (A ++ ['.', 'x'])) =
      .ok { Original := String.mk (A ++ ['.', 'x']),
            Ranges := [{ StartOp := Token.GE, StartVersion := Semver.ofParts (a : Int) 0 0 "",
                         EndOp := Token.LT,
                         EndVersion := Semver.ofParts ((a + 1 : Nat) : Int) 0 0 "" }],
            Join := [] } := by
  obtain ⟨g, hne, r⟩ := xrange_runes hA ['.', 'x'] (by simp)
  exact ParseConstraint_xrange_runes _ _ r (IsStaticVersion_wild _ g (by simp))
    (parseXRange_major _ A a ["x"] (Or.inr rfl) g hne (Split_x1 hA) hA ha)

theorem ParseConstraint_major {A : List Char} {a : Nat} (hA : IsNumeral A a)
    (ha : a + 1 < 2 ^ 63) :
    ParseConstraint (String.mk A) =
      .ok { Original := String.mk A,
            Ranges := [{ StartOp := Token.GE, StartVersion := Semver.ofParts (a : Int) 0 0 "",
                         EndOp := Token.LT,
                         EndVersion := Semver.ofParts ((a + 1 : Nat) : Int) 0 0 "" }],
            Join := [] } := by
  obtain ⟨g, hne, r⟩ := xrange_runes hA [] (by simp)
  rw [List.append_nil] at g hne r
  exact ParseConstraint_xrange_runes _ _ r (static_dotted1 hA).1
    (parseXRange_major _ A a [] (Or.inl rfl) g hne (Split_dotted1 hA) hA ha)

theorem ParseConstraint_minor_x {A B : List Char} {a b : Nat} (hA : IsNumeral A a)
    (hB : IsNumeral B b) (hb : b + 1 < 2 ^ 63) :
    ParseConstraint (String.mk (A ++ '.' :: (B ++ ['.', 'x']))) =
      .ok { Original := String.mk (A ++ '.' :: (B ++ ['.', 'x'])),
            Ranges := [{ StartOp := Token.GE,
                         StartVersion := Semver.ofParts (a : Int) (b : Int) 0 "",
                         EndOp := Token.LT,
                         EndVersion := Semver.ofParts (a : Int) ((b + 1 : Nat) : Int) 0 "" }],
            Join := [] } := by
  obtain ⟨g, hne, r⟩ := xrange_runes hA ('.' :: (B ++ ['.', 'x'])) (by
    intro c hc
    simp only [List.mem_cons, List.mem_append, List.mem_singleton, List.not_mem_nil,
      or_false] at hc
    rcases hc with h | h | h | h
    · exact Or.inr (Or.inl h)
    · exact Or.inl (hB.2.1 c h)
    · exact Or.inr (Or.inl h)
    · exact Or.inr (Or.inr h))
  exact ParseConstraint_xrange_runes _ _ r (IsStaticVersion_wild _ g (by simp))
    (parseXRange_minor _ A B a b ["x"] (Or.inr rfl) g hne (Split_x2 hA hB) hA hB hb)

theorem ParseConstraint_minor {A B : List Char} {a b : Nat} (hA : IsNumeral A a)
    (hB : IsNumeral B b) (hb : b + 1 < 2 ^ 63) :
    ParseConstraint (String.mk (A ++ '.' :: B)) =
      .ok { Original := String.mk (A ++ '.' :: B),
            Ranges := [{ StartOp := Token.GE,
                         StartVersion := Semver.ofParts (a : Int) (b : Int) 0 "",
                         EndOp := Token.LT,
                         EndVersion := Semver.ofParts (a : Int) ((b + 1 : Nat) : Int) 0 "" }],
            Join := [] } := by
  obtain ⟨g, hne, r⟩ := xrange_runes hA ('.' :: B) (by
    intro c hc
    rcases hB.rest2 c hc with h | h
    · exact Or.inl h
    · exact Or.inr (Or.inl h))
  exact ParseConstraint_xrange_runes _ _ r (static_dotted2 hA hB).1
    (parseXRange_minor _ A B a b [] (Or.inl rfl) g hne (Split_dotted2 hA hB) hA hB hb)

/-- Claim C28 (amended): for a natural number `M` that fits the Go type `int`:
when `M + 1` fits too, `ParseConstraint("M.x")` and `ParseConstraint("M")` give
the single range `(GE, M.0.0, LT, (M+1).0.0)`; for every `m` with `m + 1` in the
type, `ParseConstraint("M.m.x")` and `ParseConstraint("M.m")` give
`(GE, M.m.0, LT, M.(m+1).0)`; and `*`, the empty string and `ANY` give
`(GE, 0.0.0)` with no upper bound. -/
theorem C28_x_ranges (M : Nat) (hM : M < 2 ^ 63) :
    (M + 1 < 2 ^ 63 → ∀ s, s = numeral M ++ ".x" ∨ s = numeral M →
      ParseConstraint s =
        .ok { Original := s,
              Ranges := [{ StartOp := Token.GE,
                           StartVersion := Semver.ofParts (M : Int) 0 0 "",
                           EndOp := Token.LT,
                           EndVersion := Semver.ofParts ((M + 1 : Nat) : Int) 0 0 "" }],
              Join := [] }) ∧
    (∀ m : Nat, m + 1 < 2 ^ 63 →
      ∀ s, s = numeral M ++ "." ++ numeral m ++ ".x" ∨ s = numeral M ++ "." ++ numeral m →
      ParseConstraint s =
        .ok { Original := s,
              Ranges := [{ StartOp := Token.GE,
                           StartVersion := Semver.ofParts (M : Int) (m : Int) 0 "",
                           EndOp := Token.LT,
                           EndVersion := Semver.ofParts (M : Int) ((m + 1 : Nat) : Int) 0 "" }],
              Join := [] }) ∧
    (∀ s, s = "*" ∨ s = "" ∨ s = "ANY" →
      ParseConstraint s =
        .ok { Original := s,
              Ranges := [{ StartOp := Token.GE, StartVersion := Semver.ofParts 0 0 0 "",
                           EndOp := Token.UNSET, EndVersion := Semver.zero }],
              Join := [] }) := by
  have nM := numeral_IsNumeral M hM
  refine ⟨?_, ?_, ?_⟩
  · rintro hM1 s (rfl | rfl)
    · rw [x_string]
      exact ParseConstraint_major_x nM hM1
    · exact ParseConstraint_major nM hM1
  · rintro m hm s (rfl | rfl)
    · rw [x2_string]
      exact ParseConstraint_minor_x nM (numeral_IsNumeral m (by omega)) hm
    · rw [dot_string]
      exact ParseConstraint_minor nM (numeral_IsNumeral m (by omega)) hm
  · rintro s (rfl | rfl | rfl) <;> decide

/-- Witness for C28 (amended) on `1.x`, `1`, `1.2.x`, `1.2` and `*`. -/
theorem C28_x_ranges_witness :
    (numeral 1 ++ ".x" = "1.x" ∧ numeral 1 = "1" ∧
      numeral 1 ++ "." ++ numeral 2 ++ ".x" = "1.2.x" ∧
      numeral 1 ++ "." ++ numeral 2 = "1.2") ∧
    ParseConstraint (numeral 1 ++ ".x") =
      .ok { Original := numeral 1 ++ ".x",
            Ranges := [{ StartOp := Token.GE,
                         StartVersion := Semver.ofParts ((1 : Nat) : Int) 0 0 "",
                         EndOp := Token.LT,
                         EndVersion := Semver.ofParts ((1 + 1 : Nat) : Int) 0 0 "" }],
            Join := [] } ∧
    ParseConstraint (numeral 1) =
      .ok { Original := numeral 1,
            Ranges := [{ StartOp := Token.GE,
                         StartVersion := Semver.ofParts ((1 : Nat) : Int) 0 0 "",
                         EndOp := Token.LT,
                         EndVersion := Semver.ofParts ((1 + 1 : Nat) : Int) 0 0 "" }],
            Join := [] } ∧
    ParseConstraint (numeral 1 ++ "." ++ numeral 2 ++ ".x") =
      .ok { Original := numeral 1 ++ "." ++ numeral 2 ++ ".x",
            Ranges := [{ StartOp := Token.GE,
                         StartVersion := Semver.ofParts ((1 : Nat) : Int) ((2 : Nat) : Int) 0 "",
                         EndOp := Token.LT,
                         EndVersion := Semver.ofParts ((1 : Nat) : Int) ((2 + 1 : Nat) : Int)
                           0 "" }],
            Join := [] } ∧
    ParseConstraint (numeral 1 ++ "." ++ numeral 2) =
      .ok { Original := numeral 1 ++ "." ++ numeral 2,
            Ranges := [{ StartOp := Token.GE,
                         StartVersion := Semver.ofParts ((1 : Nat) : Int) ((2 : Nat) : Int) 0 "",
                         EndOp := Token.LT,
                         EndVersion := Semver.ofParts ((1 : Nat) : Int) ((2 + 1 : Nat) : Int)
                           0 "" }],
            Join := [] } ∧
    ParseConstraint "*" =
      .ok { Original := "*",
            Ranges := [{ StartOp := Token.GE, StartVersion := Semver.ofParts 0 0 0 "",
                         EndOp := Token.UNSET, EndVersion := Semver.zero }],
            Join := [] } :=
  ⟨⟨by decide, by decide, by decide, by decide⟩,
    (C28_x_ranges 1 (by norm_num)).1 (by norm_num) _ (Or.inl rfl),
    (C28_x_ranges 1 (by norm_num)).1 (by norm_num) _ (Or.inr rfl),
    (C28_x_ranges 1 (by norm_num)).2.1 2 (by norm_num) _ (Or.inl rfl),
    (C28_x_ranges 1 (by norm_num)).2.1 2 (by norm_num) _ (Or.inr rfl),
    (C28_x_ranges 1 (by norm_num)).2.2 _ (Or.inl rfl)⟩

/-- Claim C28 as stated fails: a number beyond the Go type `int` is not parsed, and
the largest `int` cannot be bumped, so `ParseConstraint` returns an error on
`9223372036854775808.x`, on `9223372036854775807` and on
`1.9223372036854775807.x`. -/
theorem C28_x_range_beyond_int :
    (numeral (2 ^ 63) ++ ".x" = "9223372036854775808.x" ∧
      ParseConstraint "9223372036854775808.x" = .error Error.ErrInvalidVersion) ∧
    (numeral (2 ^ 63 - 1) = "9223372036854775807" ∧
      ParseConstraint "9223372036854775807" = .error Error.ErrInvalidVersionParts) ∧
    (numeral 1 ++ "." ++ numeral (2 ^ 63 - 1) ++ ".x" = "1.9223372036854775807.x" ∧
      ParseConstraint "1.9223372036854775807.x" = .error Error.ErrInvalidVersionParts) := by
  refine ⟨⟨?_, ?_⟩, ⟨?_, ?_⟩, ⟨?_, ?_⟩⟩ <;> decide

/-! ## Static versions -/

theorem parsePartsOrZero_dotted3 {A B C : List Char} {a b c : Nat} (hA : IsNumeral A a)
    (hB : IsNumeral B b) (hC : IsNumeral C c) :
    parsePartsOrZero (String.mk (A ++ '.' :: (B ++ '.' :: C))) =
      .ok (String.mk (A ++ '.' :: (B ++ '.' :: C))) := by
  obtain ⟨f1, f2, -, -, -, -, -⟩ := dotted_facts A a hA _ (hB.rest3 hC)
  unfold parsePartsOrZero
  simp only [GetVersionPart_plain _ f1 f2, GetMetaDataPart_none _ f2, GetPreReleasePart_none _ f1,
    Split_dotted3 hA hB hC, splitParts_three _ _ _ _ hA.toLower hB.toLower hC.toLower,
    getVersionStringFromParts_plain, dotted3_string, bind, Except.bind, pure, Except.pure]

theorem parseStaticRange_dotted3 {A B C : List Char} {a b c : Nat} (hA : IsNumeral A a)
    (hB : IsNumeral B b) (hC : IsNumeral C c) (tok : Token) (op : String) :
    parseStaticRange [tok, Token.VERSION_EXPRESSION]
        [op, String.mk (A ++ '.' :: (B ++ '.' :: C))] =
      .ok { StartOp := tok, StartVersion := Semver.ofParts (a : Int) (b : Int) (c : Int) "",
            EndOp := Token.UNSET, EndVersion := Semver.zero } := by
  unfold parseStaticRange
  simp [index, parsePartsOrZero_dotted3 hA hB hC, ParseSemver_dotted3 hA hB hC, bind,
    Except.bind, pure, Except.pure, Range.zero]

theorem eq_operator :
    (∀ d ∈ ['='], d ≠ eof ∧ isOperatorStart d = true ∧ d ≠ '(' ∧ d ≠ ')') ∧
      (scanOperator ['=']).1 = (Token.EQ, String.mk ['=']) := by
  refine ⟨?_, by decide⟩
  intro d hd
  simp only [List.mem_singleton] at hd
  subst hd
  decide

theorem ParseConstraint_static_dotted3 {A B C : List Char} {a b c : Nat} (hA : IsNumeral A a)
    (hB : IsNumeral B b) (hC : IsNumeral C c) :
    ParseConstraint (String.mk (A ++ '.' :: (B ++ '.' :: C))) =
      .ok { Original := String.mk (A ++ '.' :: (B ++ '.' :: C)),
            Ranges := [{ StartOp := Token.EQ,
                         StartVersion := Semver.ofParts (a : Int) (b : Int) (c : Int) "",
                         EndOp := Token.UNSET, EndVersion := Semver.zero }],
            Join := [] } := by
  obtain ⟨x, xs, hx, hd, hV⟩ := dotted3_runes hA hB hC
  have h := ParseConstraint_bare_static x xs hd hV (hx ▸ (static_dotted3 hA hB hC).1)
  rw [← hx, parseStaticRange_dotted3 hA hB hC] at h
  exact h

theorem ParseConstraint_eq_dotted3 {A B C : List Char} {a b c : Nat} (hA : IsNumeral A a)
    (hB : IsNumeral B b) (hC : IsNumeral C c) :
    ParseConstraint (String.mk ('=' :: (A ++ '.' :: (B ++ '.' :: C)))) =
      .ok { Original := String.mk ('=' :: (A ++ '.' :: (B ++ '.' :: C))),
            Ranges := [{ StartOp := Token.EQ,
                         StartVersion := Semver.ofParts (a : Int) (b : Int) (c : Int) "",
                         EndOp := Token.UNSET, EndVersion := Semver.zero }],
            Join := [] } := by
  obtain ⟨x, xs, hx, hd, hV⟩ := dotted3_runes hA hB hC
  have h := ParseConstraint_operator_version '=' [] Token.EQ x xs eq_operator.1
    eq_operator.2 (Or.inr (Or.inr rfl)) hd hV
  rw [← hx] at h
  rw [show '=' :: (A ++ '.' :: (B ++ '.' :: C)) = ['='] ++ (A ++ '.' :: (B ++ '.' :: C)) from rfl,
    h]
  have hsub : parseSubConstraint [Token.EQ, Token.VERSION_EXPRESSION]
      [String.mk ['='], String.mk (A ++ '.' :: (B ++ '.' :: C))] =
      parseStaticRange [Token.EQ, Token.VERSION_EXPRESSION]
        [String.mk ['='], String.mk (A ++ '.' :: (B ++ '.' :: C))] := by
    simp [parseSubConstraint, isHyphenatedRange, isCaretRange, isTildeRange, isRange,
      isStaticRange, IsRangeToken, IsEqualityToken, index, (static_dotted3 hA hB hC).1, bind,
      Except.bind, pure, Except.pure]
  rw [hsub, parseStaticRange_dotted3 hA hB hC]
  rfl

theorem eq_dotted3_string (a b c : String) :
    "=" ++ a ++ "." ++ b ++ "." ++ c = String.mk ('=' :: (a.data ++ '.' :: (b.data ++ '.' ::
      c.data))) := by
  apply String.ext
  simp [String.data_append]

theorem dotted3_numerals_string (A B C : Nat) :
    numeral A ++ "." ++ numeral B ++ "." ++ numeral C =
      String.mk ((numeral A).data ++ '.' :: ((numeral B).data ++ '.' :: (numeral C).data)) := by
  apply String.ext
  simp [String.data_append]

/-- Claim C29 (amended): for natural numbers `M`, `m`, `p` that fit the Go type
`int`, `ParseConstraint("M.m.p")` and `ParseConstraint("=M.m.p")` both succeed
with the same ranges and joins: the one range `(EQ, M.m.p)` with no upper bound
and no join. -/
theorem C29_bare_version_is_equality (M m p : Nat) (hM : M < 2 ^ 63) (hm : m < 2 ^ 63)
    (hp : p < 2 ^ 63) :
    ∃ c1 c2 : Constraint,
      ParseConstraint (numeral M ++ "." ++ numeral m ++ "." ++ numeral p) = .ok c1 ∧
      ParseConstraint ("=" ++ numeral M ++ "." ++ numeral m ++ "." ++ numeral p) = .ok c2 ∧
      c1.Ranges = c2.Ranges ∧ c1.Join = c2.Join ∧ c1.Join = [] ∧
      c1.Ranges = [{ StartOp := Token.EQ,
                     StartVersion := Semver.ofParts (M : Int) (m : Int) (p : Int) "",
                     EndOp := Token.UNSET, EndVersion := Semver.zero }] := by
  have nM := numeral_IsNumeral M hM
  have nm := numeral_IsNumeral m hm
  have np := numeral_IsNumeral p hp
  have h1 := ParseConstraint_static_dotted3 nM nm np
  have h2 := ParseConstraint_eq_dotted3 nM nm np
  rw [← dotted3_numerals_string] at h1
  rw [← eq_dotted3_string] at h2
  exact ⟨_, _, h1, h2, rfl, rfl, rfl, rfl⟩

/-- Witness for C29 (amended) on `1.2.3` and `=1.2.3`. -/
theorem C29_bare_version_is_equality_witness :
    (numeral 1 ++ "." ++ numeral 2 ++ "." ++ numeral 3 = "1.2.3" ∧
      "=" ++ numeral 1 ++ "." ++ numeral 2 ++ "." ++ numeral 3 = "=1.2.3") ∧
    ∃ c1 c2 : Constraint,
      ParseConstraint (numeral 1 ++ "." ++ numeral 2 ++ "." ++ numeral 3) = .ok c1 ∧
      ParseConstraint ("=" ++ numeral 1 ++ "." ++ numeral 2 ++ "." ++ numeral 3) = .ok c2 ∧
      c1.Ranges = c2.Ranges ∧ c1.Join = c2.Join ∧ c1.Join = [] ∧
      c1.Ranges = [{ StartOp := Token.EQ,
                     StartVersion := Semver.ofParts ((1 : Nat) : Int) ((2 : Nat) : Int)
                       ((3 : Nat) : Int) "",
                     EndOp := Token.UNSET, EndVersion := Semver.zero }] :=
  ⟨⟨by decide, by decide⟩,
    C29_bare_version_is_equality 1 2 3 (by norm_num) (by norm_num) (by norm_num)⟩

/-- Claim C29 as stated fails: a number beyond the Go type `int` is not parsed, so
`ParseConstraint` returns an error on `9223372036854775808.0.0` and on
`=9223372036854775808.0.0`. -/
theorem C29_static_beyond_int :
    (numeral (2 ^ 63) ++ "." ++ numeral 0 ++ "." ++ numeral 0 = "9223372036854775808.0.0" ∧
      ParseConstraint "9223372036854775808.0.0" = .error Error.ErrInvalidVersionParts) ∧
    ("=" ++ numeral (2 ^ 63) ++ "." ++ numeral 0 ++ "." ++ numeral 0 =
        "=9223372036854775808.0.0" ∧
      ParseConstraint "=9223372036854775808.0.0" = .error Error.ErrInvalidVersionParts) := by
  refine ⟨⟨?_, ?_⟩, ⟨?_, ?_⟩⟩ <;> decide

/-! ## Two equalities and a join -/

/-- The decimal notation of any natural number is a non-empty run of digits. -/
theorem numeral_digits (n : Nat) :
    (numeral n).data ≠ [] ∧ ∀ c ∈ (numeral n).data, '0' ≤ c ∧ c ≤ '9' := by
  obtain ⟨L, hL, hne, hdig, -⟩ := toDigitsCore_digits (n + 1) n [] (by omega)
  have e : (numeral n).data = L := by
    rw [numeral_data]
    unfold Nat.toDigits
    rw [hL, List.append_nil]
  rw [e]
  exact ⟨hne, hdig⟩

/-- Three non-empty runs of digits separated by dots form a static version text
that the lexer reads as one version expression. -/
theorem digits3_facts (A B C : List Char) (hne : A ≠ [])
    (hA : ∀ c ∈ A, '0' ≤ c ∧ c ≤ '9') (hB : ∀ c ∈ B, '0' ≤ c ∧ c ≤ '9')
    (hC : ∀ c ∈ C, '0' ≤ c ∧ c ≤ '9') :
    IsStaticVersion (String.mk (A ++ '.' :: (B ++ '.' :: C))) = true ∧
      ∃ x xs, A ++ '.' :: (B ++ '.' :: C) = x :: xs ∧ isDigit x = true ∧
        ∀ d ∈ x :: xs, d ≠ eof ∧ isWhitespace d = false ∧ isVersionUnsafe d = false := by
  have hR : ∀ d ∈ '.' :: (B ++ '.' :: C), ('0' ≤ d ∧ d ≤ '9') ∨ d = '.' := by
    intro d hd
    simp only [List.mem_cons, List.mem_append] at hd
    rcases hd with hd | hd | hd | hd
    · exact Or.inr hd
    · exact Or.inl (hB d hd)
    · exact Or.inr hd
    · exact Or.inl (hC d hd)
  obtain ⟨f1, f2, f3, f4, f5, f6, f7⟩ := digits_facts A hA _ hR
  have hcount : (A ++ '.' :: (B ++ '.' :: C)).count '.' = 2 := by
    simp [List.count_append, List.count_cons,
      List.count_eq_zero.2 (digit_not_mem A hA '.' (by decide)),
      List.count_eq_zero.2 (digit_not_mem B hB '.' (by decide)),
      List.count_eq_zero.2 (digit_not_mem C hC '.' (by decide))]
  obtain ⟨x, xs, hx⟩ := List.exists_cons_of_ne_nil hne
  have hxd := hA x (by rw [hx]; simp)
  refine ⟨?_, x, xs ++ '.' :: (B ++ '.' :: C), by rw [hx]; rfl, ?_, ?_⟩
  · rw [IsStaticVersion_plain _ f1 f2 f3 f4 f5 f6, hcount]
    decide
  · unfold isDigit
    simp [hxd.1, hxd.2]
  · rw [hx] at f7
    exact f7

theorem lex_eq_join_eq (j : Char) (jt : Token) (c1 : Char) (cs1 : List Char) (c2 : Char)
    (cs2 : List Char)
    (hj : ∀ d ∈ [j, j], d ≠ eof ∧ isOperatorStart d = true ∧ d ≠ '(' ∧ d ≠ ')')
    (hjt : (scanOperator [j, j]).1 = (jt, String.mk [j, j]))
    (hj1 : jt ≠ Token.EOF) (hj2 : jt ≠ Token.WS)
    (hc1 : isDigit c1 = true)
    (hV1 : ∀ d ∈ c1 :: cs1, d ≠ eof ∧ isWhitespace d = false ∧ isVersionUnsafe d = false)
    (hc2 : isDigit c2 = true)
    (hV2 : ∀ d ∈ c2 :: cs2, d ≠ eof ∧ isWhitespace d = false ∧ isVersionUnsafe d = false) :
    ScanWholeLoop (('=' :: (c1 :: cs1 ++ ' ' :: j :: j :: ' ' :: '=' :: c2 :: cs2)).length + 1)
        ('=' :: (c1 :: cs1 ++ ' ' :: j :: j :: ' ' :: '=' :: c2 :: cs2)) [Token.SOF] [""] =
      ([Token.SOF, Token.EQ, Token.VERSION_EXPRESSION, jt, Token.EQ,
          Token.VERSION_EXPRESSION, Token.EOF],
        ["", "=", String.mk (c1 :: cs1), String.mk [j, j], "=", String.mk (c2 :: cs2), ""]) := by
  obtain ⟨d1, d2, d3⟩ := isDigit_plain c1 hc1
  obtain ⟨e1, e2, e3⟩ := isDigit_plain c2 hc2
  have hjw : isWhitespace j = false := by
    have := (hj j (by simp)).2.1
    exact (isOperatorStart_plain j this).1
  have hje := (hj j (by simp)).1
  have t0 : (scanOperator ['=']).1 = (Token.EQ, "=") := by decide
  have s0 : ScanOne ('=' :: (c1 :: cs1 ++ ' ' :: j :: j :: ' ' :: '=' :: c2 :: cs2)) =
      ((Token.EQ, "="), c1 :: cs1 ++ ' ' :: j :: j :: ' ' :: '=' :: c2 :: cs2) := by
    rw [← t0]
    exact ScanOne_operator '=' [] _ (by decide) (Or.inr ⟨c1, _, rfl, d1, d2⟩)
  have s1 := ScanOne_version c1 cs1 (' ' :: j :: j :: ' ' :: '=' :: c2 :: cs2) hc1 hV1
    (Or.inr ⟨' ', _, rfl, by decide, by decide⟩)
  have s2 : ScanOne (' ' :: j :: j :: ' ' :: '=' :: c2 :: cs2) =
      ((Token.WS, String.mk [' ']), j :: j :: ' ' :: '=' :: c2 :: cs2) :=
    ScanOne_whitespace ' ' [] (j :: j :: ' ' :: '=' :: c2 :: cs2) (by decide)
      (Or.inr ⟨j, _, rfl, hje, hjw⟩)
  have s3 : ScanOne (j :: j :: ' ' :: '=' :: c2 :: cs2) =
      ((jt, String.mk [j, j]), ' ' :: '=' :: c2 :: cs2) := by
    rw [← hjt]
    exact ScanOne_operator j [j] (' ' :: '=' :: c2 :: cs2) hj
      (Or.inr ⟨' ', _, rfl, by decide, by decide⟩)
  have s4 : ScanOne (' ' :: '=' :: c2 :: cs2) =
      ((Token.WS, String.mk [' ']), '=' :: c2 :: cs2) :=
    ScanOne_whitespace ' ' [] ('=' :: c2 :: cs2) (by decide)
      (Or.inr ⟨'=', _, rfl, by decide, by decide⟩)
  have s5 : ScanOne ('=' :: c2 :: cs2) = ((Token.EQ, "="), c2 :: cs2) := by
    rw [← t0]
    exact ScanOne_operator '=' [] (c2 :: cs2) (by decide) (Or.inr ⟨c2, cs2, rfl, e1, e2⟩)
  have s6 := ScanOne_version c2 cs2 [] hc2 hV2 (Or.inl rfl)
  rw [List.append_nil] at s6
  rw [ScanWholeLoop_token _ _ _ _ _ _ s0 (by decide) (by decide)]
  rw [ScanWholeLoop_token _ _ _ _ _ _ s1 (by decide) (by decide)]
  rw [ScanWholeLoop_space _ _ _ _ _ s2]
  rw [ScanWholeLoop_token _ _ _ _ _ _ s3 hj1 hj2]
  rw [ScanWholeLoop_space _ _ _ _ _ s4]
  rw [ScanWholeLoop_token _ _ _ _ _ _ s5 (by decide) (by decide)]
  rw [ScanWholeLoop_token _ _ _ _ _ _ s6 (by decide) (by decide), ScanWholeLoop_end]
  rfl

theorem and_operator :
    (∀ d ∈ ['&', '&'], d ≠ eof ∧ isOperatorStart d = true ∧ d ≠ '(' ∧ d ≠ ')') ∧
      (scanOperator ['&', '&']).1 = (Token.AND, String.mk ['&', '&']) := by
  decide

theorem or_operator :
    (∀ d ∈ ['|', '|'], d ≠ eof ∧ isOperatorStart d = true ∧ d ≠ '(' ∧ d ≠ ')') ∧
      (scanOperator ['|', '|']).1 = (Token.OR, String.mk ['|', '|']) := by
  decide

/-- The two passes of the lexer leave `=a && =b` and `=a || =b` as they are. -/
theorem passes_eq_join_eq (jt : Token) (hj : jt = Token.AND ∨ jt = Token.OR)
    (jl L1 L2 : String) :
    (augmentMissingEqualityOp
        [Token.SOF, Token.EQ, Token.VERSION_EXPRESSION, jt, Token.EQ,
          Token.VERSION_EXPRESSION, Token.EOF] ["", "=", L1, jl, "=", L2, ""] >>= fun r =>
      removeSuperfluousAndOp r.1 r.2) =
      .ok ([Token.SOF, Token.EQ, Token.VERSION_EXPRESSION, jt, Token.EQ,
          Token.VERSION_EXPRESSION, Token.EOF], ["", "=", L1, jl, "=", L2, ""]) := by
  have h0 : [Token.SOF, Token.EQ, Token.VERSION_EXPRESSION, jt, Token.EQ,
      Token.VERSION_EXPRESSION, Token.EOF].contains Token.ILLEGAL = false := by
    rcases hj with rfl | rfl <;> rfl
  have hjv : jt ≠ Token.VERSION_EXPRESSION := by rcases hj with rfl | rfl <;> decide
  have hrem : removeSuperfluousAndOp
      [Token.SOF, Token.EQ, Token.VERSION_EXPRESSION, jt, Token.EQ,
        Token.VERSION_EXPRESSION, Token.EOF] ["", "=", L1, jl, "=", L2, ""] =
      .ok ([Token.SOF, Token.EQ, Token.VERSION_EXPRESSION, jt, Token.EQ,
        Token.VERSION_EXPRESSION, Token.EOF], ["", "=", L1, jl, "=", L2, ""]) := by
    rcases hj with rfl | rfl <;> rfl
  have haug : augmentMissingEqualityOp
      [Token.SOF, Token.EQ, Token.VERSION_EXPRESSION, jt, Token.EQ,
        Token.VERSION_EXPRESSION, Token.EOF] ["", "=", L1, jl, "=", L2, ""] =
      .ok ([Token.SOF, Token.EQ, Token.VERSION_EXPRESSION, jt, Token.EQ,
        Token.VERSION_EXPRESSION, Token.EOF], ["", "=", L1, jl, "=", L2, ""]) := by
    unfold augmentMissingEqualityOp
    rw [h0, if_neg (by decide)]
    rw [augmentMissingEqualityOpFrom_keep _ _ _ _ _ _ _ "" Token.SOF Token.EQ (by rfl) (by rfl)
      (by rfl) (by decide)]
    rw [augmentMissingEqualityOpFrom_keep _ _ _ _ _ _ _ "=" Token.SOF Token.VERSION_EXPRESSION
      (by rfl) (by rfl) (by rfl) (by decide)]
    rw [augmentMissingEqualityOpFrom_keep _ _ _ _ _ _ _ L1 Token.EQ jt (by rfl) (by rfl)
      (by rfl) (by simp [IsEqualityToken])]
    rw [augmentMissingEqualityOpFrom_keep _ _ _ _ _ _ _ jl Token.VERSION_EXPRESSION Token.EQ
      (by rfl) (by rfl) (by rfl) (by simp [hjv])]
    rw [augmentMissingEqualityOpFrom_keep _ _ _ _ _ _ _ "=" jt Token.VERSION_EXPRESSION
      (by rfl) (by rfl) (by rfl) (by simp)]
    rw [augmentMissingEqualityOpFrom_keep _ _ _ _ _ _ _ L2 Token.EQ Token.EOF (by rfl) (by rfl)
      (by rfl) (by simp [IsEqualityToken])]
    rw [augmentMissingEqualityOpFrom_keep _ _ _ _ _ _ _ "" Token.VERSION_EXPRESSION Token.EOF
      (by rfl) (by rfl) (by rfl) (by decide)]
    rw [augmentMissingEqualityOpFrom_nil]
    rfl
  rw [haug]
  exact hrem

theorem validate_eq_and_eq (jl L1 L2 : String) (hs1 : IsStaticVersion L1 = true)
    (hs2 : IsStaticVersion L2 = true) :
    validateConstraintComposition
        [Token.SOF, Token.EQ, Token.VERSION_EXPRESSION, Token.AND, Token.EQ,
          Token.VERSION_EXPRESSION, Token.EOF] ["", "=", L1, jl, "=", L2, ""] =
      .error Error.invalidVersionConstraint := by
  simp [index, IsRangeToken, IsEqualityToken, IsJoinToken, IsOperatorToken,
    validateConstraintComposition, validateFrom, validateStep, slices.Index, bind,
    Except.bind, pure, Except.pure, hs1, hs2]

theorem validate_eq_or_eq (jl L1 L2 : String) (hs1 : IsStaticVersion L1 = true)
    (hs2 : IsStaticVersion L2 = true) :
    validateConstraintComposition
        [Token.SOF, Token.EQ, Token.VERSION_EXPRESSION, Token.OR, Token.EQ,
          Token.VERSION_EXPRESSION, Token.EOF] ["", "=", L1, jl, "=", L2, ""] =
      .ok () := by
  simp [index, IsRangeToken, IsEqualityToken, IsJoinToken, IsOperatorToken,
    validateConstraintComposition, validateFrom, validateStep, slices.Index, bind,
    Except.bind, pure, Except.pure, hs1, hs2]

theorem parse_eq_or_eq (c : Constraint) (jl L1 L2 : String) (r1 r2 : Range)
    (hr1 : parseSubConstraint [Token.EQ, Token.VERSION_EXPRESSION] ["=", L1] = .ok r1)
    (hr2 : parseSubConstraint [Token.EQ, Token.VERSION_EXPRESSION] ["=", L2] = .ok r2) :
    parseConstraintFrom ["", "=", L1, jl, "=", L2, ""]
        [Token.SOF, Token.EQ, Token.VERSION_EXPRESSION, Token.OR, Token.EQ,
          Token.VERSION_EXPRESSION, Token.EOF] 0 c [] [] =
      .ok { Original := c.Original, Ranges := c.Ranges ++ [r1, r2],
            Join := c.Join ++ [JoinOp.DISJUNCTION] } := by
  simp [parseConstraintFrom_cons, parseConstraintFrom_nil, index, joinOf, hr1, hr2]

/-- Two static versions, each anchored by `=` and joined by `&&`: the validator
rejects the constraint. -/
theorem ParseConstraint_eq_and_eq (c1 : Char) (cs1 : List Char) (c2 : Char) (cs2 : List Char)
    (hc1 : isDigit c1 = true)
    (hV1 : ∀ d ∈ c1 :: cs1, d ≠ eof ∧ isWhitespace d = false ∧ isVersionUnsafe d = false)
    (hc2 : isDigit c2 = true)
    (hV2 : ∀ d ∈ c2 :: cs2, d ≠ eof ∧ isWhitespace d = false ∧ isVersionUnsafe d = false)
    (hs1 : IsStaticVersion (String.mk (c1 :: cs1)) = true)
    (hs2 : IsStaticVersion (String.mk (c2 :: cs2)) = true) :
    ParseConstraint
        (String.mk ('=' :: (c1 :: cs1 ++ ' ' :: '&' :: '&' :: ' ' :: '=' :: c2 :: cs2))) =
      .error Error.invalidVersionConstraint := by
  have hlex := lex_eq_join_eq '&' Token.AND c1 cs1 c2 cs2 and_operator.1 and_operator.2
    (by decide) (by decide) hc1 hV1 hc2 hV2
  unfold ParseConstraint LexConstraint
  rw [ScanWhole_eq]
  simp only
  rw [hlex, passes_eq_join_eq Token.AND (Or.inl rfl)]
  simp only [bind, Except.bind]
  rw [if_neg (by decide), validate_eq_and_eq _ _ _ hs1 hs2]
  rfl

/-- Two static versions, each anchored by `=` and joined by `||`:
`ParseConstraint` desugars the two sub-constraints in turn. -/
theorem ParseConstraint_eq_or_eq (c1 : Char) (cs1 : List Char) (c2 : Char) (cs2 : List Char)
    (r1 r2 : Range) (hc1 : isDigit c1 = true)
    (hV1 : ∀ d ∈ c1 :: cs1, d ≠ eof ∧ isWhitespace d = false ∧ isVersionUnsafe d = false)
    (hc2 : isDigit c2 = true)
    (hV2 : ∀ d ∈ c2 :: cs2, d ≠ eof ∧ isWhitespace d = false ∧ isVersionUnsafe d = false)
    (hs1 : IsStaticVersion (String.mk (c1 :: cs1)) = true)
    (hs2 : IsStaticVersion (String.mk (c2 :: cs2)) = true)
    (hr1 : parseStaticRange [Token.EQ, Token.VERSION_EXPRESSION]
      ["=", String.mk (c1 :: cs1)] = .ok r1)
    (hr2 : parseStaticRange [Token.EQ, Token.VERSION_EXPRESSION]
      ["=", String.mk (c2 :: cs2)] = .ok r2) :
    ParseConstraint
        (String.mk ('=' :: (c1 :: cs1 ++ ' ' :: '|' :: '|' :: ' ' :: '=' :: c2 :: cs2))) =
      .ok { Original :=
              String.mk ('=' :: (c1 :: cs1 ++ ' ' :: '|' :: '|' :: ' ' :: '=' :: c2 :: cs2)),
            Ranges := [r1, r2], Join := [JoinOp.DISJUNCTION] } := by
  have hlex := lex_eq_join_eq '|' Token.OR c1 cs1 c2 cs2 or_operator.1 or_operator.2
    (by decide) (by decide) hc1 hV1 hc2 hV2
  rw [← parseSubConstraint_static _ hs1] at hr1
  rw [← parseSubConstraint_static _ hs2] at hr2
  unfold ParseConstraint LexConstraint
  rw [ScanWhole_eq]
  simp only
  rw [hlex, passes_eq_join_eq Token.OR (Or.inr rfl)]
  simp only [bind, Except.bind]
  rw [if_neg (by decide), validate_eq_or_eq _ _ _ hs1 hs2]
  simp only
  rw [parse_eq_or_eq _ _ _ _ r1 r2 hr1 hr2]
  rfl

theorem eq_and_eq_string (a b : String) :
    "=" ++ a ++ " && =" ++ b =
      String.mk ('=' :: (a.data ++ ' ' :: '&' :: '&' :: ' ' :: '=' :: b.data)) := by
  apply String.ext
  simp [String.data_append]

theorem eq_or_eq_string (a b : String) :
    "=" ++ a ++ " || =" ++ b =
      String.mk ('=' :: (a.data ++ ' ' :: '|' :: '|' :: ' ' :: '=' :: b.data)) := by
  apply String.ext
  simp [String.data_append]

/-- Claim C30 (amended): for all natural numbers, `ParseConstraint("=a && =b")` with
`a = A.B.C` and `b = D.E.F` returns an error; when the six numbers fit the Go
type `int`, `ParseConstraint("=a || =b")` succeeds with the two ranges `(EQ, a)`
and `(EQ, b)` joined by one `DISJUNCTION`. -/
theorem C30_two_equalities (A B C D E F : Nat) :
    ParseConstraint ("=" ++ (numeral A ++ "." ++ numeral B ++ "." ++ numeral C) ++ " && =" ++
        (numeral D ++ "." ++ numeral E ++ "." ++ numeral F)) =
      .error Error.invalidVersionConstraint ∧
    (A < 2 ^ 63 → B < 2 ^ 63 → C < 2 ^ 63 → D < 2 ^ 63 → E < 2 ^ 63 → F < 2 ^ 63 →
      ParseConstraint ("=" ++ (numeral A ++ "." ++ numeral B ++ "." ++ numeral C) ++ " || =" ++
          (numeral D ++ "." ++ numeral E ++ "." ++ numeral F)) =
        .ok { Original := "=" ++ (numeral A ++ "." ++ numeral B ++ "." ++ numeral C) ++
                " || =" ++ (numeral D ++ "." ++ numeral E ++ "." ++ numeral F),
              Ranges := [{ StartOp := Token.EQ,
                           StartVersion := Semver.ofParts (A : Int) (B : Int) (C : Int) "",
                           EndOp := Token.UNSET, EndVersion := Semver.zero },
                         { StartOp := Token.EQ,
                           StartVersion := Semver.ofParts (D : Int) (E : Int) (F : Int) "",
                           EndOp := Token.UNSET, EndVersion := Semver.zero }],
              Join := [JoinOp.DISJUNCTION] }) := by
  obtain ⟨s1, x, xs, hx, hxd, hV1⟩ := digits3_facts _ _ _ (numeral_digits A).1
    (numeral_digits A).2 (numeral_digits B).2 (numeral_digits C).2
  obtain ⟨s2, y, ys, hy, hyd, hV2⟩ := digits3_facts _ _ _ (numeral_digits D).1
    (numeral_digits D).2 (numeral_digits E).2 (numeral_digits F).2
  have e1 := eq_and_eq_string (numeral A ++ "." ++ numeral B ++ "." ++ numeral C)
    (numeral D ++ "." ++ numeral E ++ "." ++ numeral F)
  have e2 := eq_or_eq_string (numeral A ++ "." ++ numeral B ++ "." ++ numeral C)
    (numeral D ++ "." ++ numeral E ++ "." ++ numeral F)
  rw [dotted3_numerals, dotted3_numerals, hx, hy] at e1 e2
  rw [hx] at s1
  rw [hy] at s2
  rw [e1, e2]
  refine ⟨?_, fun hA hB hC hD hE hF => ?_⟩
  · exact ParseConstraint_eq_and_eq x xs y ys hxd hV1 hyd hV2 s1 s2
  · have nA := numeral_IsNumeral A hA
    have nB := numeral_IsNumeral B hB
    have nC := numeral_IsNumeral C hC
    have nD := numeral_IsNumeral D hD
    have nE := numeral_IsNumeral E hE
    have nF := numeral_IsNumeral F hF
    have r1 := parseStaticRange_dotted3 nA nB nC Token.EQ "="
    have r2 := parseStaticRange_dotted3 nD nE nF Token.EQ "="
    rw [hx] at r1
    rw [hy] at r2
    exact ParseConstraint_eq_or_eq x xs y ys _ _ hxd hV1 hyd hV2 s1 s2 r1 r2

/-- Witness for C30 (amended) on `=1.2.3 && =4.5.6` and `=1.2.3 || =4.5.6`. -/
theorem C30_two_equalities_witness :
    ("=" ++ (numeral 1 ++ "." ++ numeral 2 ++ "." ++ numeral 3) ++ " && =" ++
        (numeral 4 ++ "." ++ numeral 5 ++ "." ++ numeral 6) = "=1.2.3 && =4.5.6" ∧
      "=" ++ (numeral 1 ++ "." ++ numeral 2 ++ "." ++ numeral 3) ++ " || =" ++
        (numeral 4 ++ "." ++ numeral 5 ++ "." ++ numeral 6) = "=1.2.3 || =4.5.6") ∧
    ParseConstraint ("=" ++ (numeral 1 ++ "." ++ numeral 2 ++ "." ++ numeral 3) ++ " && =" ++
        (numeral 4 ++ "." ++ numeral 5 ++ "." ++ numeral 6)) =
      .error Error.invalidVersionConstraint ∧
    ParseConstraint ("=" ++ (numeral 1 ++ "." ++ numeral 2 ++ "." ++ numeral 3) ++ " || =" ++
        (numeral 4 ++ "." ++ numeral 5 ++ "." ++ numeral 6)) =
      .ok { Original := "=" ++ (numeral 1 ++ "." ++ numeral 2 ++ "." ++ numeral 3) ++
              " || =" ++ (numeral 4 ++ "." ++ numeral 5 ++ "." ++ numeral 6),
            Ranges := [{ StartOp := Token.EQ,
                         StartVersion := Semver.ofParts ((1 : Nat) : Int) ((2 : Nat) : Int)
                           ((3 : Nat) : Int) "",
                         EndOp := Token.UNSET, EndVersion := Semver.zero },
                       { StartOp := Token.EQ,
                         StartVersion := Semver.ofParts ((4 : Nat) : Int) ((5 : Nat) : Int)
                           ((6 : Nat) : Int) "",
                         EndOp := Token.UNSET, EndVersion := Semver.zero }],
            Join := [JoinOp.DISJUNCTION] } :=
  ⟨⟨by decide, by decide⟩, (C30_two_equalities 1 2 3 4 5 6).1,
    (C30_two_equalities 1 2 3 4 5 6).2 (by norm_num) (by norm_num) (by norm_num)
      (by norm_num) (by norm_num) (by norm_num)⟩

/-- Claim C30 as stated fails in its second half: a number beyond the Go type `int`
is not parsed, so `ParseConstraint` returns an error on
`=9223372036854775808.2.3 || =1.2.3`. -/
theorem C30_or_beyond_int :
    "=" ++ (numeral (2 ^ 63) ++ "." ++ numeral 2 ++ "." ++ numeral 3) ++ " || =" ++
        (numeral 1 ++ "." ++ numeral 2 ++ "." ++ numeral 3) =
      "=9223372036854775808.2.3 || =1.2.3" ∧
    ParseConstraint "=9223372036854775808.2.3 || =1.2.3" =
      .error Error.ErrInvalidVersionParts := by
  refine ⟨?_, ?_⟩ <;> decide

/-! ## Parentheses and the totality of the lexer -/

/-- Claim C22 fails on `(1.0.0) || >= 5.0.0 &&`: the parentheses are lexed to
tokens of their own, not to `ILLEGAL`, so the two passes of the lexer run and
`removeSuperfluousAndOp` reads `tokens[idx+2]` one place beyond the end of the
tokens, before `ParseConstraint` can reject the parentheses.  With an illegal
rune in place of the parentheses the passes are skipped and the constraint is
rejected, as it is for parentheses without the trailing `&&`. -/
theorem C22_parentheses_before_trailing_and :
    ParseConstraint "(1.0.0) || >= 5.0.0 &&" = .error Error.indexOutOfRange ∧
      ParseConstraint "1.0.0 $ || >= 5.0.0 &&" = .error Error.illegalTokenInConstraint ∧
      ParseConstraint "(1.0.0)" = .error Error.illegalTokenInConstraint := by
  refine ⟨?_, ?_, ?_⟩ <;> decide

/-- Claim C23 fails on `>=1.0.0 || >=2.0.0 &&`: the scan gives eight tokens,
`augmentMissingEqualityOp` returns them unchanged, and `removeSuperfluousAndOp`
at the `AND` of index 6 passes the guard `len(tokens) - idx >= 2` and reads
`tokens[8]`, beyond the end of the tokens. -/
theorem C23_remove_pass_reads_beyond_the_tokens :
    ScanWholeLoop (">=1.0.0 || >=2.0.0 &&".data.length + 1) ">=1.0.0 || >=2.0.0 &&".data
        [Token.SOF] [""] =
      ([Token.SOF, Token.GE, Token.VERSION_EXPRESSION, Token.OR, Token.GE,
          Token.VERSION_EXPRESSION, Token.AND, Token.EOF],
        ["", ">=", "1.0.0", "||", ">=", "2.0.0", "&&", ""]) ∧
    augmentMissingEqualityOp
        [Token.SOF, Token.GE, Token.VERSION_EXPRESSION, Token.OR, Token.GE,
          Token.VERSION_EXPRESSION, Token.AND, Token.EOF]
        ["", ">=", "1.0.0", "||", ">=", "2.0.0", "&&", ""] =
      .ok ([Token.SOF, Token.GE, Token.VERSION_EXPRESSION, Token.OR, Token.GE,
          Token.VERSION_EXPRESSION, Token.AND, Token.EOF],
        ["", ">=", "1.0.0", "||", ">=", "2.0.0", "&&", ""]) ∧
    removeSuperfluousAndOp
        [Token.SOF, Token.GE, Token.VERSION_EXPRESSION, Token.OR, Token.GE,
          Token.VERSION_EXPRESSION, Token.AND, Token.EOF]
        ["", ">=", "1.0.0", "||", ">=", "2.0.0", "&&", ""] =
      .error Error.indexOutOfRange ∧
    LexConstraint ">=1.0.0 || >=2.0.0 &&" = .error Error.indexOutOfRange := by
  refine ⟨?_, ?_, ?_, ?_⟩ <;> decide

end NodeSemver

namespace NodeSemver

/-! ## The evaluator: totality and monotonicity -/

theorem ContainsOnly_snoc (conds : List Bool) (b : Bool) :
    ContainsOnly (conds ++ [b]) true = (ContainsOnly conds true && b) := by
  induction conds with
  | nil => cases b <;> rfl
  | cons x xs ih =>
    cases x
    · simp [ContainsOnly]
    · simpa [ContainsOnly] using ih

theorem SatisfiesFromChecked_eq (v : Semver) (Join : List JoinOp) (f : Bool) :
    ∀ (ranges : List Range) (idx : Nat) (conds : List Bool),
      SatisfiesFromChecked v Join f ranges idx ((idx : Int) - 1) conds =
        .ok (SatisfiesFrom v Join f ranges idx conds) := by
  intro ranges
  induction ranges with
  | nil => intro idx conds; rfl
  | cons r rs ih =>
    intro idx conds
    have hstep : ((idx : Int) - 1 + 1) = ((idx + 1 : Nat) : Int) - 1 := by push_cast; ring
    rw [SatisfiesFromChecked, SatisfiesFrom]
    by_cases hg : (idx : Int) ≤ (Join.length : Int) - 1
    · have hlt : idx < Join.length := by omega
      have hidx : index Join ((idx : Int) - 1 + 1) = .ok (Join.get ⟨idx, hlt⟩) := by
        have e : ((idx : Int) - 1 + 1) = (idx : Int) := by ring
        rw [e]
        unfold index
        have h0 : ¬ ((idx : Int) < 0) := by omega
        simp [h0, List.getElem?_eq_getElem hlt]
      have hget : Join.get? idx = some (Join.get ⟨idx, hlt⟩) := by
        simp [List.getElem?_eq_getElem hlt]
      simp only [hg, if_true, hidx, hget, bind, Except.bind, pure, Except.pure, true_and,
        Option.some.injEq]
      by_cases hd : Join.get ⟨idx, hlt⟩ = JoinOp.DISJUNCTION
      · simp only [hd, decide_True, if_true]
        split_ifs
        · rfl
        · rw [hstep]; exact ih (idx + 1) []
      · simp only [hd, decide_False, if_false, Bool.false_eq_true]
        rw [hstep]; exact ih (idx + 1) _
    · simp only [hg, if_false, false_and, bind, Except.bind, pure, Except.pure,
        Bool.false_eq_true]
      rw [hstep]; exact ih (idx + 1) _

/-- Claim C32: for every constraint value, whatever the lengths of `Ranges` and
`Join`, every version and every flag, `Satisfies` with the bounds check of
`c.Join[joinIndex]` explicit returns a boolean, the one of `Satisfies`: the
index is read only within the bounds of `Join`. -/
theorem C32_Satisfies_reads_Join_within_bounds (v : Semver) (c : Constraint) (f : Bool) :
    SatisfiesChecked v c f = .ok (Satisfies v c f) := by
  have h := SatisfiesFromChecked_eq v c.Join f c.Ranges 0 []
  exact h

theorem rangeSatisfied_mono (v : Semver) (r : Range) (h : rangeSatisfied v r false = true) :
    rangeSatisfied v r true = true := by
  unfold rangeSatisfied at h ⊢
  simp only [Bool.not_true, Bool.false_and, Bool.false_eq_true, if_false]
  simp only [Bool.not_false, Bool.true_and] at h
  split_ifs at h ⊢ <;> first | exact h | (exact absurd h (by decide))

theorem SatisfiesFrom_mono (v : Semver) (Join : List JoinOp) :
    ∀ (ranges : List Range) (idx : Nat) (c1 c2 : List Bool),
      (ContainsOnly c1 true = true → ContainsOnly c2 true = true) →
      SatisfiesFrom v Join false ranges idx c1 = true →
      SatisfiesFrom v Join true ranges idx c2 = true := by
  intro ranges
  induction ranges with
  | nil => intro idx c1 c2 hc h; exact hc h
  | cons r rs ih =>
    intro idx c1 c2 hc h
    have hsnoc : ContainsOnly (c1 ++ [rangeSatisfied v r false]) true = true →
        ContainsOnly (c2 ++ [rangeSatisfied v r true]) true = true := by
      rw [ContainsOnly_snoc, ContainsOnly_snoc]
      intro h1
      simp only [Bool.and_eq_true] at h1 ⊢
      exact ⟨hc h1.1, rangeSatisfied_mono v r h1.2⟩
    rw [SatisfiesFrom] at h ⊢
    by_cases hg : (idx : Int) ≤ (Join.length : Int) - 1 ∧
        Join.get? idx = some JoinOp.DISJUNCTION
    · rw [if_pos hg] at h ⊢
      by_cases h2 : ContainsOnly (c2 ++ [rangeSatisfied v r true]) true = true
      · rw [if_pos h2]
      · rw [if_neg h2]
        have h1 : ¬ ContainsOnly (c1 ++ [rangeSatisfied v r false]) true = true :=
          fun e => h2 (hsnoc e)
        rw [if_neg h1] at h
        exact ih (idx + 1) [] [] id h
    · rw [if_neg hg] at h ⊢
      exact ih (idx + 1) _ _ hsnoc h

/-- Claim C37: for every version `v` and constraint `c`, `Satisfies(v, c, false)`
implies `Satisfies(v, c, true)`. -/
theorem C37_includePreReleases_is_monotone (v : Semver) (c : Constraint)
    (h : Satisfies v c false = true) : Satisfies v c true = true :=
  SatisfiesFrom_mono v c.Join c.Ranges 0 [] [] id h

/-- Witness for C37 on the version `1.5.0` and the constraint
`>=1.0.0 <2.0.0 || ~3.1`. -/
theorem C37_includePreReleases_is_monotone_witness :
    Satisfies (Semver.ofParts 1 5 0 "") exampleTwoRanges false = true ∧
      Satisfies (Semver.ofParts 1 5 0 "") exampleTwoRanges true = true :=
  ⟨by decide, C37_includePreReleases_is_monotone _ _ (by decide)⟩

/-- Claim C38: for every version `v` and flag `f`, `Satisfies(v, Constraint{}, f)`
is true; `Constraint{}` is the value that `ParseConstraint` returns next to an
error. -/
theorem C38_zero_constraint_is_satisfied (v : Semver) (f : Bool) :
    Satisfies v Constraint.zero f = true := by
  rfl

theorem MaxSatisfying_loop_member (c : Constraint) (f : Bool) (first : Semver) :
    ∀ (rest : List Semver) (max : Semver),
      (max = first ∨ Satisfies max c f = true) →
      (rest.foldl
          (fun max version =>
            if Satisfies version c f then
              if version.GT max false then version else max
            else max) max ∈ max :: rest) ∧
        (rest.foldl
          (fun max version =>
            if Satisfies version c f then
              if version.GT max false then version else max
            else max) max = first ∨
          Satisfies (rest.foldl
            (fun max version =>
              if Satisfies version c f then
                if version.GT max false then version else max
              else max) max) c f = true) := by
  intro rest
  induction rest with
  | nil => intro max h; exact ⟨by simp, h⟩
  | cons x xs ih =>
    intro max h
    rw [List.foldl_cons]
    by_cases hs : Satisfies x c f = true
    · by_cases hg : x.GT max false = true
      · simp only [hs, hg, if_true]
        obtain ⟨m1, m2⟩ := ih x (Or.inr hs)
        exact ⟨List.mem_cons_of_mem _ m1, m2⟩
      · simp only [hs, hg, if_true, if_false, Bool.false_eq_true]
        obtain ⟨m1, m2⟩ := ih max h
        refine ⟨?_, m2⟩
        rcases List.mem_cons.1 m1 with e | e
        · rw [e]; simp
        · exact List.mem_cons_of_mem _ (List.mem_cons_of_mem _ e)
    · simp only [hs, if_false, Bool.false_eq_true]
      obtain ⟨m1, m2⟩ := ih max h
      refine ⟨?_, m2⟩
      rcases List.mem_cons.1 m1 with e | e
      · rw [e]; simp
      · exact List.mem_cons_of_mem _ (List.mem_cons_of_mem _ e)

/-- Claim C40: for every non-empty list of versions, every constraint `c` and flag
`f`, `MaxSatisfying(list, c, f)` is a member of the list, and it is the first
element or an element that satisfies `c`. -/
theorem C40_MaxSatisfying_is_a_member (versions : List Semver) (c : Constraint) (f : Bool)
    (hne : versions ≠ []) :
    MaxSatisfying versions c f ∈ versions ∧
      (versions.head? = some (MaxSatisfying versions c f) ∨
        Satisfies (MaxSatisfying versions c f) c f = true) := by
  cases versions with
  | nil => exact absurd rfl hne
  | cons first rest =>
    have hM : MaxSatisfying (first :: rest) c f =
        (first :: rest).foldl
          (fun max version =>
            if Satisfies version c f then
              if version.GT max false then version else max
            else max) first := rfl
    obtain ⟨m1, m2⟩ := MaxSatisfying_loop_member c f first (first :: rest) first (Or.inl rfl)
    rw [← hM] at m1 m2
    refine ⟨?_, ?_⟩
    · rcases List.mem_cons.1 m1 with e | e
      · rw [e]; simp
      · exact e
    · rcases m2 with e | e
      · left
        rw [e]
        rfl
      · exact Or.inr e

/-- Witness for C40 on the list `0.5.0, 1.2.0, 1.5.0, 3.0.0` and the constraint
`>=1.0.0 <2.0.0 || ~3.1`, where the result `1.5.0` is not the first element. -/
theorem C40_MaxSatisfying_is_a_member_witness :
    MaxSatisfying [Semver.ofParts 0 5 0 "", Semver.ofParts 1 2 0 "", Semver.ofParts 1 5 0 "",
        Semver.ofParts 3 0 0 ""] exampleTwoRanges false = Semver.ofParts 1 5 0 "" ∧
      (MaxSatisfying [Semver.ofParts 0 5 0 "", Semver.ofParts 1 2 0 "", Semver.ofParts 1 5 0 "",
          Semver.ofParts 3 0 0 ""] exampleTwoRanges false ∈
        [Semver.ofParts 0 5 0 "", Semver.ofParts 1 2 0 "", Semver.ofParts 1 5 0 "",
          Semver.ofParts 3 0 0 ""] ∧
      ([Semver.ofParts 0 5 0 "", Semver.ofParts 1 2 0 "", Semver.ofParts 1 5 0 "",
          Semver.ofParts 3 0 0 ""].head? =
          some (MaxSatisfying [Semver.ofParts 0 5 0 "", Semver.ofParts 1 2 0 "",
            Semver.ofParts 1 5 0 "", Semver.ofParts 3 0 0 ""] exampleTwoRanges false) ∨
        Satisfies (MaxSatisfying [Semver.ofParts 0 5 0 "", Semver.ofParts 1 2 0 "",
          Semver.ofParts 1 5 0 "", Semver.ofParts 3 0 0 ""] exampleTwoRanges false)
          exampleTwoRanges false = true)) :=
  ⟨by decide, C40_MaxSatisfying_is_a_member _ _ _ (by simp)⟩

/-! ## Adjacent version expressions, parsed components, reversed ranges -/

/-- Claim C31 fails on its own example `1.x 2.x`: the lexer gives two adjacent
version expressions, the validator lets them through (its test for two version
expressions looks two tokens back and needs three processed tokens), and
`isXRange` reads only the first literal, so `ParseConstraint` returns the range
`>=1.0.0 <2.0.0` and drops `2.x`.  With a third expression, or with a static
second expression, the constraint is rejected. -/
theorem C31_adjacent_x_ranges_accepted :
    LexConstraint "1.x 2.x" =
        .ok ([Token.SOF, Token.VERSION_EXPRESSION, Token.VERSION_EXPRESSION, Token.EOF],
          ["", "1.x", "2.x", ""]) ∧
      ParseConstraint "1.x 2.x" =
        .ok { Original := "1.x 2.x",
              Ranges := [{ StartOp := Token.GE, StartVersion := Semver.ofParts 1 0 0 "",
                           EndOp := Token.LT, EndVersion := Semver.ofParts 2 0 0 "" }],
              Join := [] } ∧
      ParseConstraint "1.x 2.x 3.x" = .error Error.invalidVersionConstraint ∧
      ParseConstraint "1.x 2.0.0" = .error Error.invalidVersionConstraint := by
  refine ⟨?_, ?_, ?_, ?_⟩ <;> decide

/-- Claim C33: on every literal on which `ParseSemver` succeeds, the resulting
`Major`, `Minor` and `Patch` are all `>= 0`. -/
theorem C33_parsed_components_nonnegative (s : String) (v : Semver)
    (h : ParseSemver s = .ok v) : 0 ≤ v.Major ∧ 0 ≤ v.Minor ∧ 0 ≤ v.Patch := by
  obtain ⟨a, b, c, -, -, -, rfl⟩ := ParseSemver_ok_shape s v h
  exact ⟨Int.natCast_nonneg a, Int.natCast_nonneg b, Int.natCast_nonneg c⟩

/-- Witness for C33 on `v1.2.3-rc.1+build`. -/
theorem C33_parsed_components_nonnegative_witness :
    ParseSemver "v1.2.3-rc.1+build" =
        .ok { Semver.zero with
          Major := 1, Minor := 2, Patch := 3, PreReleaseTag := "rc.1", MetaData := "build" } ∧
      (0 ≤ ({ Semver.zero with
          Major := 1, Minor := 2, Patch := 3, PreReleaseTag := "rc.1",
          MetaData := "build" } : Semver).Major ∧
        0 ≤ ({ Semver.zero with
          Major := 1, Minor := 2, Patch := 3, PreReleaseTag := "rc.1",
          MetaData := "build" } : Semver).Minor ∧
        0 ≤ ({ Semver.zero with
          Major := 1, Minor := 2, Patch := 3, PreReleaseTag := "rc.1",
          MetaData := "build" } : Semver).Patch) :=
  ⟨by decide, C33_parsed_components_nonnegative "v1.2.3-rc.1+build" _ (by decide)⟩

theorem rangeSatisfied_reversed (v : Semver) (r : Range) (f : Bool)
    (hop : r.StartOp = Token.LT ∨ r.StartOp = Token.LE)
    (hs : r.StartVersion ≠ Semver.zero) (he : r.EndVersion ≠ Semver.zero) :
    rangeSatisfied v r f = false := by
  have h1 : r.StartOp ≠ Token.GT := by rcases hop with h | h <;> (rw [h]; decide)
  have h2 : r.StartOp ≠ Token.GE := by rcases hop with h | h <;> (rw [h]; decide)
  unfold rangeSatisfied
  simp [hs, he, h1, h2]

/-- Claim C39: `ParseConstraint` accepts a two-comparator range whose first
operator is `<` or `<=` (`< 7.0.0 > 5.0.0` and `<= 7.0.0 > 5.0.0`); for every
single range with such a start operator and both endpoints different from
`Semver{}`, `Satisfies` returns false for every version and flag; and `6.0.0`
lies between the bounds of the example. -/
theorem C39_reversed_range_is_never_satisfied :
    (ParseConstraint "< 7.0.0 > 5.0.0" =
        .ok { Original := "< 7.0.0 > 5.0.0",
              Ranges := [{ StartOp := Token.LT, StartVersion := Semver.ofParts 7 0 0 "",
                           EndOp := Token.GT, EndVersion := Semver.ofParts 5 0 0 "" }],
              Join := [] } ∧
      ParseConstraint "<= 7.0.0 > 5.0.0" =
        .ok { Original := "<= 7.0.0 > 5.0.0",
              Ranges := [{ StartOp := Token.LE, StartVersion := Semver.ofParts 7 0 0 "",
                           EndOp := Token.GT, EndVersion := Semver.ofParts 5 0 0 "" }],
              Join := [] }) ∧
    (∀ (r : Range) (original : String) (v : Semver) (f : Bool),
      r.StartOp = Token.LT ∨ r.StartOp = Token.LE →
      r.StartVersion ≠ Semver.zero → r.EndVersion ≠ Semver.zero →
      Satisfies v { Original := original, Ranges := [r], Join := [] } f = false) ∧
    ((Semver.ofParts 6 0 0 "").LT (Semver.ofParts 7 0 0 "") false = true ∧
      (Semver.ofParts 6 0 0 "").GT (Semver.ofParts 5 0 0 "") false = true) := by
  refine ⟨⟨by decide, by decide⟩, ?_, by decide, by decide⟩
  intro r original v f hop hs he
  rw [Satisfies_single]
  exact rangeSatisfied_reversed v r f hop hs he

/-- Witness for C39 on the range of `< 7.0.0 > 5.0.0` and the version `6.0.0`. -/
theorem C39_reversed_range_is_never_satisfied_witness :
    Satisfies (Semver.ofParts 6 0 0 "")
        { Original := "< 7.0.0 > 5.0.0",
          Ranges := [{ StartOp := Token.LT, StartVersion := Semver.ofParts 7 0 0 "",
                       EndOp := Token.GT, EndVersion := Semver.ofParts 5 0 0 "" }],
          Join := [] } false = false :=
  C39_reversed_range_is_never_satisfied.2.1 _ _ _ _ (Or.inl rfl) (by decide) (by decide)

/-! ## Numeric pre-release identifiers -/

theorem numeral_value (n : Nat) : strconv.digitsValue (numeral n).data 0 = some n := by
  obtain ⟨L, hL, -, -, hval⟩ := formatInt_ofNat n
  have e : (numeral n).data = L := congrArg String.data hL
  rw [e]
  exact hval

theorem numeral_injective (x y : Nat) (h : numeral x = numeral y) : x = y := by
  have h1 := numeral_value x
  rw [h, numeral_value y] at h1
  exact (Option.some.inj h1).symm

theorem Atoi_numeral (n : Nat) :
    strconv.Atoi (numeral n) = if n < 2 ^ 63 then some (n : Int) else none := by
  obtain ⟨hne, hdig⟩ := numeral_digits n
  have hval := numeral_value n
  obtain ⟨c, cs, e⟩ := List.exists_cons_of_ne_nil hne
  have hc := hdig c (by rw [e]; simp)
  have h1 : c ≠ '-' := by rintro rfl; exact absurd hc.1 (by decide)
  have h2 : c ≠ '+' := by rintro rfl; exact absurd hc.1 (by decide)
  unfold strconv.Atoi
  rw [e] at hval ⊢
  simp only [h1, h2, if_false, hval]

/-- The value of a run of digits is below the power of ten of its length. -/
theorem digits_value_bound (L : List Char) (hdig : ∀ c ∈ L, '0' ≤ c ∧ c ≤ '9') :
    ∃ n, n < 10 ^ L.length ∧
      ∀ acc, strconv.digitsValue L acc = some (acc * 10 ^ L.length + n) := by
  induction L with
  | nil => exact ⟨0, by simp, fun acc => by simp [strconv.digitsValue]⟩
  | cons c cs ih =>
    obtain ⟨m, hm, hv⟩ := ih fun d hd => hdig d (List.mem_cons_of_mem _ hd)
    have hc := hdig c (by simp)
    have h9 : c.toNat - 48 ≤ 9 := by
      have : c.toNat ≤ 57 := hc.2
      omega
    refine ⟨(c.toNat - 48) * 10 ^ cs.length + m, ?_, fun acc => ?_⟩
    · have : (c.toNat - 48) * 10 ^ cs.length ≤ 9 * 10 ^ cs.length :=
        Nat.mul_le_mul_right _ h9
      rw [List.length_cons, pow_succ]
      omega
    · simp only [strconv.digitsValue, hc, and_self, if_true, hv, List.length_cons, pow_succ]
      congr 1
      ring

/-- On two runs of digits of the same length the lexical order is the order of
the values. -/
theorem compareRunes_digits :
    ∀ (L1 L2 : List Char), L1.length = L2.length →
      (∀ c ∈ L1, '0' ≤ c ∧ c ≤ '9') → (∀ c ∈ L2, '0' ≤ c ∧ c ≤ '9') →
      ∀ n1 n2, strconv.digitsValue L1 0 = some n1 → strconv.digitsValue L2 0 = some n2 →
        (strings.compareRunes L1 L2 = -1 ↔ n1 < n2) := by
  intro L1
  induction L1 with
  | nil =>
    intro L2 hlen _ _ n1 n2 h1 h2
    have e : L2 = [] := List.length_eq_zero.1 hlen.symm
    subst e
    simp only [strconv.digitsValue, Option.some.injEq] at h1 h2
    subst h1
    subst h2
    simp [strings.compareRunes]
  | cons c cs ih =>
    intro L2 hlen hd1 hd2 n1 n2 h1 h2
    cases L2 with
    | nil => simp at hlen
    | cons d ds =>
      have hlen1 : cs.length = ds.length := by simpa using hlen
      have hc := hd1 c (by simp)
      have hd := hd2 d (by simp)
      have hcs : ∀ x ∈ cs, '0' ≤ x ∧ x ≤ '9' := fun x hx => hd1 x (List.mem_cons_of_mem _ hx)
      have hds : ∀ x ∈ ds, '0' ≤ x ∧ x ≤ '9' := fun x hx => hd2 x (List.mem_cons_of_mem _ hx)
      obtain ⟨m1, hm1, hv1⟩ := digits_value_bound cs hcs
      obtain ⟨m2, hm2, hv2⟩ := digits_value_bound ds hds
      have c48 : 48 ≤ c.toNat := hc.1
      have d48 : 48 ≤ d.toNat := hd.1
      simp only [strconv.digitsValue, hc, hd, and_self, if_true, hv1, hv2, zero_mul, zero_add,
        Option.some.injEq] at h1 h2
      rw [← hlen1] at h2 hm2
      have i1 := hv1 0
      have i2 := hv2 0
      simp only [zero_mul, zero_add] at i1 i2
      have hrec := ih ds hlen1 hcs hds m1 m2 i1 i2
      simp only [strings.compareRunes, char_lt_iff]
      by_cases hlt : c.toNat < d.toNat
      · have hmul : (c.toNat - 48 + 1) * 10 ^ cs.length ≤ (d.toNat - 48) * 10 ^ cs.length :=
          Nat.mul_le_mul_right _ (by omega)
        rw [Nat.succ_mul] at hmul
        simp only [hlt, if_true, true_iff]
        omega
      · by_cases hgt : d.toNat < c.toNat
        · have hmul : (d.toNat - 48 + 1) * 10 ^ cs.length ≤ (c.toNat - 48) * 10 ^ cs.length :=
            Nat.mul_le_mul_right _ (by omega)
          rw [Nat.succ_mul] at hmul
          simp only [hlt, hgt, if_true, if_false]
          constructor
          · intro h; exact absurd h (by decide)
          · intro h; omega
        · have e : c.toNat = d.toNat := by omega
          simp only [hlt, hgt, if_false]
          rw [hrec, ← h1, ← h2, e]
          omega

theorem comparePreReleaseIdentifier_numerals (x y : Nat)
    (h : x < 2 ^ 63 ∨ y < 2 ^ 63 ∨ (numeral x).length = (numeral y).length) :
    comparePreReleaseIdentifier (numeral x) (numeral y) = -1 ↔ x < y := by
  by_cases hxy : x = y
  · subst hxy
    simp [comparePreReleaseIdentifier]
  · have hne : numeral x ≠ numeral y := fun e => hxy (numeral_injective x y e)
    have hx0 : numeral x ≠ "" := fun e => (numeral_digits x).1 (congrArg String.data e)
    have hy0 : numeral y ≠ "" := fun e => (numeral_digits y).1 (congrArg String.data e)
    unfold comparePreReleaseIdentifier
    simp only [hne, hx0, hy0, if_false, false_and, and_false, ne_eq, not_true_eq_false,
      not_false_eq_true, Atoi_numeral]
    by_cases bx : x < 2 ^ 63 <;> by_cases by1 : y < 2 ^ 63
    · simp only [bx, by1, if_true]
      split_ifs with h1 h2
      · constructor
        · intro e; exact absurd e (by decide)
        · intro e; omega
      · simp only [true_iff]; omega
      · constructor
        · intro e; exact absurd e (by decide)
        · intro e; omega
    · simp only [bx, by1, if_true, if_false, true_iff]
      omega
    · simp only [bx, by1, if_true, if_false]
      constructor
      · intro e; exact absurd e (by decide)
      · intro e; omega
    · simp only [bx, by1, if_false]
      have hlen : (numeral x).data.length = (numeral y).data.length := by
        rcases h with h | h | h
        · exact absurd h bx
        · exact absurd h by1
        · exact h
      exact compareRunes_digits _ _ hlen (numeral_digits x).2 (numeral_digits y).2 x y
        (numeral_value x) (numeral_value y)

theorem comparePreRelease_numerals (x y : Nat) :
    comparePreRelease (numeral x) (numeral y) =
      comparePreReleaseIdentifier (numeral x) (numeral y) := by
  have sx : strings.Split (numeral x) '.' = [numeral x] := by
    unfold strings.Split
    rw [splitRunes_of_not_mem _ _ (digit_not_mem _ (numeral_digits x).2 '.' (by decide))]
    rfl
  have sy : strings.Split (numeral y) '.' = [numeral y] := by
    unfold strings.Split
    rw [splitRunes_of_not_mem _ _ (digit_not_mem _ (numeral_digits y).2 '.' (by decide))]
    rfl
  unfold comparePreRelease
  simp only [sx, sy, List.length_singleton, gt_iff_lt, lt_self_iff_false, if_false]
  simp only [comparePreReleaseFrom, List.length_singleton, Nat.lt_one_iff, if_true,
    List.getD_cons_zero]
  split_ifs with h
  · rfl
  · exact (not_not.1 h).symm

/-- Where the order of numeric pre-release tags is the order of the numbers: for
all versions `a`, `b` with equal major, minor and patch whose pre-release tags
are the decimal notations of natural numbers `x` and `y`, of which one fits the
Go type `int` or which have the same number of digits, `a.LT(b, false)` holds
exactly when `x < y`. -/
theorem LT_numeral_tags (a b : Semver) (x y : Nat) (hM : a.Major = b.Major)
    (hm : a.Minor = b.Minor) (hp : a.Patch = b.Patch) (ha : a.PreReleaseTag = numeral x)
    (hb : b.PreReleaseTag = numeral y)
    (h : x < 2 ^ 63 ∨ y < 2 ^ 63 ∨ (numeral x).length = (numeral y).length) :
    a.LT b false = true ↔ x < y := by
  have hx0 : numeral x ≠ "" := fun e => (numeral_digits x).1 (congrArg String.data e)
  have hy0 : numeral y ≠ "" := fun e => (numeral_digits y).1 (congrArg String.data e)
  unfold Semver.LT
  simp only [hM, hm, hp, ha, hb, ne_eq, not_true_eq_false, if_false, Bool.false_eq_true, hx0,
    hy0, false_and, and_false, not_false_eq_true, comparePreRelease_numerals, decide_eq_true_eq]
  exact comparePreReleaseIdentifier_numerals x y h

/-- The tags `9` and `10`, and two tags of twenty digits beyond the type `int`,
are ordered as numbers. -/
theorem LT_numeral_tags_examples :
    (numeral 9 = "9" ∧ numeral 10 = "10" ∧
      numeral (10 ^ 19) = "10000000000000000000" ∧
      numeral (10 ^ 19 + 1) = "10000000000000000001") ∧
    ((Semver.ofParts 1 0 0 (numeral 9)).LT (Semver.ofParts 1 0 0 (numeral 10)) false = true ↔
      9 < 10) ∧
    ((Semver.ofParts 1 0 0 (numeral (10 ^ 19))).LT
        (Semver.ofParts 1 0 0 (numeral (10 ^ 19 + 1))) false = true ↔
      10 ^ 19 < 10 ^ 19 + 1) :=
  ⟨⟨by decide, by decide, by decide, by decide⟩,
    LT_numeral_tags _ _ 9 10 (by decide) (by decide) (by decide) rfl rfl
      (Or.inl (by norm_num)),
    LT_numeral_tags _ _ (10 ^ 19) (10 ^ 19 + 1) (by decide) (by decide) (by decide)
      rfl rfl
      (Or.inr (Or.inr (Eq.trans (by decide : (numeral (10 ^ 19)).length = 20)
        (by decide : (numeral (10 ^ 19 + 1)).length = 20).symm)))⟩

/-- Claim C36 fails on `1.0.0-9223372036854775808` and
`1.0.0-10000000000000000000`: `ParseSemver` accepts both, their pre-release
identifiers consist of digits only, but `strconv.Atoi` rejects the two numbers
(they are beyond the Go type `int`) and the identifiers are compared as text.
The first version is then not `LT` the second, and is `GT` it, although
`2^63 < 10^19`; the tags `9` and `10` are ordered as numbers. -/
theorem C36_numeric_order_beyond_int :
    ParseSemver "1.0.0-9223372036854775808" =
        .ok (Semver.ofParts 1 0 0 "9223372036854775808") ∧
      ParseSemver "1.0.0-10000000000000000000" =
        .ok (Semver.ofParts 1 0 0 "10000000000000000000") ∧
      numeral (2 ^ 63) = "9223372036854775808" ∧ numeral (10 ^ 19) = "10000000000000000000" ∧
      (2 : Nat) ^ 63 < 10 ^ 19 ∧
      (Semver.ofParts 1 0 0 "9223372036854775808").LT
        (Semver.ofParts 1 0 0 "10000000000000000000") false = false ∧
      (Semver.ofParts 1 0 0 "9223372036854775808").GT
        (Semver.ofParts 1 0 0 "10000000000000000000") false = true ∧
      (Semver.ofParts 1 0 0 "9").LT (Semver.ofParts 1 0 0 "10") false = true := by
  refine ⟨by decide, by decide, by decide, by decide, by norm_num, by decide, by decide,
    by decide⟩

/-! ## The operators of the lexer -/

theorem scanOperator_ne_NOT (input : List Char) : (scanOperator input).1.1 ≠ Token.NOT := by
  unfold scanOperator
  rcases scanOperatorLoop input with ⟨buf, left⟩
  simp only
  generalize String.mk buf = lit
  intro e
  by_cases h0 : lit = "&&"
  · rw [if_pos h0] at e; cases e
  rw [if_neg h0] at e
  by_cases h1 : lit = "||"
  · rw [if_pos h1] at e; cases e
  rw [if_neg h1] at e
  by_cases h2 : lit = "="
  · rw [if_pos h2] at e; cases e
  rw [if_neg h2] at e
  by_cases h3 : lit = "<="
  · rw [if_pos h3] at e; cases e
  rw [if_neg h3] at e
  by_cases h4 : lit = ">="
  · rw [if_pos h4] at e; cases e
  rw [if_neg h4] at e
  by_cases h5 : lit = "<"
  · rw [if_pos h5] at e; cases e
  rw [if_neg h5] at e
  by_cases h6 : lit = ">"
  · rw [if_pos h6] at e; cases e
  rw [if_neg h6] at e
  by_cases h7 : lit = "!"
  · rw [if_pos h7] at e; cases e
  rw [if_neg h7] at e
  by_cases h8 : lit = "~"
  · rw [if_pos h8] at e; cases e
  rw [if_neg h8] at e
  by_cases h9 : lit = "^"
  · rw [if_pos h9] at e; cases e
  rw [if_neg h9] at e
  by_cases h10 : lit = "("
  · rw [if_pos h10] at e; cases e
  rw [if_neg h10] at e
  by_cases h11 : lit = ")"
  · rw [if_pos h11] at e; cases e
  rw [if_neg h11] at e
  by_cases h12 : lit = "-"
  · rw [if_pos h12] at e; cases e
  rw [if_neg h12] at e
  cases e

theorem ScanOne_ne_NOT (input : List Char) : (ScanOne input).1.1 ≠ Token.NOT := by
  cases input with
  | nil => simp [ScanOne]
  | cons ch rest =>
    simp only [ScanOne]
    split_ifs
    · simp [scanWhitespace]
    · simp [scanVersionExpression]
    · exact scanOperator_ne_NOT _
    · simp [scanVersionExpression]
    · simp
    · simp

theorem ScanWholeLoop_no_NOT (fuel : Nat) :
    ∀ (input : List Char) (tokens : List Token) (literals : List String),
      Token.NOT ∉ tokens → Token.NOT ∉ (ScanWholeLoop fuel input tokens literals).1 := by
  induction fuel with
  | zero => intro input tokens literals h; exact h
  | succ fuel ih =>
    intro input tokens literals h
    have hn := ScanOne_ne_NOT input
    rcases hS : ScanOne input with ⟨⟨token, literal⟩, left⟩
    rw [hS] at hn
    simp only at hn
    have h2 : Token.NOT ∉ tokens ++ [token] := by
      simp only [List.mem_append, List.mem_singleton, not_or]
      exact ⟨h, fun e => hn e.symm⟩
    simp only [ScanWholeLoop, hS]
    split_ifs <;> first | exact h2 | exact ih _ _ _ h2 | exact h | exact ih _ _ _ h

theorem LexConstraint_no_NOT (s : String) (tokens : List Token) (literals : List String)
    (h : LexConstraint s = .ok (tokens, literals)) : Token.NOT ∉ tokens := by
  unfold LexConstraint at h
  rw [ScanWhole_eq] at h
  have h0 := ScanWholeLoop_no_NOT (s.data.length + 1) s.data [Token.SOF] [""] (by simp)
  revert h
  generalize ScanWholeLoop (s.data.length + 1) s.data [Token.SOF] [""] = p at h0
  obtain ⟨T, L⟩ := p
  simp only at h0
  intro h
  obtain ⟨a, hrem, haug⟩ := ok_of_bind h
  have ha := (augmentMissingEqualityOp_count T L Token.NOT (by decide)).elim a haug
  have hr := (removeSuperfluousAndOp_count a.1 a.2 Token.NOT (by decide)).elim _ hrem
  simp only at hr
  rw [← List.count_eq_zero, hr, ha, List.count_eq_zero]
  exact h0

/-- The token that `scanOperator` chooses, as a function of the literal. -/
theorem scanOperator_table (input : List Char) :
    ∃ tok lit, (scanOperator input).1 = (tok, lit) ∧
      lit = String.mk (scanOperatorLoop input).1 ∧
      (tok = Token.AND ↔ lit = "&&") ∧
      (tok = Token.OR ↔ lit = "||") ∧
      (tok = Token.EQ ↔ lit = "=") ∧
      (tok = Token.LE ↔ lit = "<=") ∧
      (tok = Token.GE ↔ lit = ">=") ∧
      (tok = Token.LT ↔ lit = "<") ∧
      (tok = Token.GT ↔ lit = ">") ∧
      (tok = Token.TILDE ↔ lit = "~") ∧
      (tok = Token.CARET ↔ lit = "^") ∧
      (tok = Token.HYPHEN ↔ lit = "-") ∧
      (tok = Token.ILLEGAL ↔
        lit ∉ ["&&", "||", "=", "<=", ">=", "<", ">", "~", "^", "-", "(", ")"]) := by
  unfold scanOperator
  rcases scanOperatorLoop input with ⟨buf, left⟩
  simp only
  refine ⟨_, _, rfl, rfl, ?_⟩
  generalize String.mk buf = lit
  by_cases h0 : lit = "&&"
  · subst h0; decide
  by_cases h1 : lit = "||"
  · subst h1; decide
  by_cases h2 : lit = "="
  · subst h2; decide
  by_cases h3 : lit = "<="
  · subst h3; decide
  by_cases h4 : lit = ">="
  · subst h4; decide
  by_cases h5 : lit = "<"
  · subst h5; decide
  by_cases h6 : lit = ">"
  · subst h6; decide
  by_cases h7 : lit = "~"
  · subst h7; decide
  by_cases h8 : lit = "^"
  · subst h8; decide
  by_cases h9 : lit = "-"
  · subst h9; decide
  by_cases ho : lit = "("
  · subst ho; decide
  by_cases hc : lit = ")"
  · subst hc; decide
  simp [h0, h1, h2, h3, h4, h5, h6, h7, h8, h9, ho, hc]

/-- The buffer that the loop of `scanOperator` fills from a maximal run of
operator runes: the whole run, or its part up to the first parenthesis. -/
theorem scanOperatorLoop_buffer (O rest : List Char)
    (hO : ∀ d ∈ O, isOperatorStart d = true)
    (hrest : ∀ d r, rest = d :: r → isOperatorStart d = false) :
    (scanOperatorLoop (O ++ rest)).1 = O ∨
      ∃ pre p post, (scanOperatorLoop (O ++ rest)).1 = pre ++ [p] ∧ O = pre ++ p :: post ∧
        (p = '(' ∨ p = ')') := by
  induction O with
  | nil =>
    left
    cases rest with
    | nil => rfl
    | cons d r =>
      have h := hrest d r rfl
      simp only [List.nil_append, scanOperatorLoop, h, Bool.not_false, if_true]
      split_ifs <;> rfl
  | cons v vs ih =>
    have hv := hO v (by simp)
    have hne : v ≠ eof := by
      intro e
      rw [e] at hv
      exact absurd hv (by decide)
    by_cases hp : v = '(' ∨ v = ')'
    · right
      refine ⟨[], v, vs, ?_, rfl, hp⟩
      simp only [List.cons_append, scanOperatorLoop, hne, if_false, hv, Bool.not_true,
        Bool.false_eq_true, hp, if_true, List.nil_append]
    · have ih1 := ih (fun d hd => hO d (by simp [hd]))
      have e : (scanOperatorLoop (v :: vs ++ rest)).1 = v :: (scanOperatorLoop (vs ++ rest)).1 := by
        simp only [List.cons_append, scanOperatorLoop, hne, if_false, hv, Bool.not_true,
          Bool.false_eq_true, hp, List.append_eq]
      rw [e]
      rcases ih1 with h | ⟨pre, p, post, h1, h2, h3⟩
      · left; rw [h]
      · right
        exact ⟨v :: pre, p, post, by rw [h1]; rfl, by rw [h2]; rfl, h3⟩

/-- A literal without a parenthesis is not a buffer with one. -/
theorem literal_without_parenthesis (L : String) (h1 : '(' ∉ L.data) (h2 : ')' ∉ L.data)
    (X : List Char) (p : Char) (hp : p ∈ X) (hpar : p = '(' ∨ p = ')') : String.mk X ≠ L := by
  intro e
  have e1 : X = L.data := congrArg String.data e
  rw [e1] at hp
  rcases hpar with rfl | rfl
  · exact h1 hp
  · exact h2 hp

/-- A run that starts with a rune other than `p` is not the literal `p`. -/
theorem literal_without_parenthesis_converse (c : Char) (cs : List Char) (L : String) (p : Char)
    (hL : L.data = [p]) (hc : c ≠ p) : String.mk (c :: cs) ≠ L := by
  intro e
  have e1 : c :: cs = L.data := congrArg String.data e
  rw [hL] at e1
  exact hc (List.cons.inj e1).1

/-- One call of `ScanOne` on input that begins with a maximal run of operator
runes: the token is `AND`, `OR`, `EQ`, `LE`, `GE`, `LT`, `GT`, `TILDE`, `CARET`,
`HYPHEN` exactly when the run is `&&`, `||`, `=`, `<=`, `>=`, `<`, `>`, `~`, `^`,
`-`; when the run has no parenthesis the literal of the token is the whole run,
and the token is `ILLEGAL` exactly when the run is none of the ten. -/
theorem ScanOne_operator_run (c : Char) (cs rest : List Char)
    (hO : ∀ d ∈ c :: cs, isOperatorStart d = true)
    (hrest : ∀ d r, rest = d :: r → isOperatorStart d = false) :
      ∃ tok lit, (scanOperator (c :: cs ++ rest)).1 = (tok, lit) ∧
        ScanOne (c :: cs ++ rest) = scanOperator (c :: cs ++ rest) ∧
        (tok = Token.AND ↔ String.mk (c :: cs) = "&&") ∧
        (tok = Token.OR ↔ String.mk (c :: cs) = "||") ∧
        (tok = Token.EQ ↔ String.mk (c :: cs) = "=") ∧
        (tok = Token.LE ↔ String.mk (c :: cs) = "<=") ∧
        (tok = Token.GE ↔ String.mk (c :: cs) = ">=") ∧
        (tok = Token.LT ↔ String.mk (c :: cs) = "<") ∧
        (tok = Token.GT ↔ String.mk (c :: cs) = ">") ∧
        (tok = Token.TILDE ↔ String.mk (c :: cs) = "~") ∧
        (tok = Token.CARET ↔ String.mk (c :: cs) = "^") ∧
        (tok = Token.HYPHEN ↔ String.mk (c :: cs) = "-") ∧
        ((∀ d ∈ c :: cs, d ≠ '(' ∧ d ≠ ')') →
          lit = String.mk (c :: cs) ∧
          (tok = Token.ILLEGAL ↔ String.mk (c :: cs) ∉ ["&&", "||", "=", "<=", ">=", "<", ">", "~", "^", "-"])) := by
  have h0 := hO c (by simp)
  obtain ⟨p1, p2⟩ := isOperatorStart_plain c h0
  have hS : ScanOne (c :: cs ++ rest) = scanOperator (c :: cs ++ rest) := by
    simp only [List.cons_append, ScanOne, p1, p2, Bool.false_eq_true, if_false, h0, if_true]
  obtain ⟨tok, lit, e, hlit, t0, t1, t2, t3, t4, t5, t6, t7, t8, t9, tI⟩ :=
    scanOperator_table (c :: cs ++ rest)
  have key : ∀ L : String, '(' ∉ L.data → ')' ∉ L.data →
      (lit = L ↔ String.mk (c :: cs) = L) := by
    intro L l1 l2
    rcases scanOperatorLoop_buffer (c :: cs) rest hO hrest with h | ⟨pre, p, post, b1, b2, b3⟩
    · rw [hlit, h]
    · rw [hlit, b1, b2]
      constructor
      · intro x
        exact absurd x (literal_without_parenthesis L l1 l2 _ p (by simp) b3)
      · intro x
        exact absurd x (literal_without_parenthesis L l1 l2 _ p (by simp) b3)
  refine ⟨tok, lit, e, hS,
    t0.trans (key _ (by decide) (by decide)), t1.trans (key _ (by decide) (by decide)),
    t2.trans (key _ (by decide) (by decide)), t3.trans (key _ (by decide) (by decide)),
    t4.trans (key _ (by decide) (by decide)), t5.trans (key _ (by decide) (by decide)),
    t6.trans (key _ (by decide) (by decide)), t7.trans (key _ (by decide) (by decide)),
    t8.trans (key _ (by decide) (by decide)), t9.trans (key _ (by decide) (by decide)), ?_⟩
  intro hnp
  have hbuf : lit = String.mk (c :: cs) := by
    rcases scanOperatorLoop_buffer (c :: cs) rest hO hrest with h | ⟨pre, p, post, b1, b2, b3⟩
    · rw [hlit, h]
    · have hm : p ∈ c :: cs := by rw [b2]; simp
      have := hnp p hm
      rcases b3 with rfl | rfl
      · exact absurd rfl this.1
      · exact absurd rfl this.2
  refine ⟨hbuf, tI.trans ?_⟩
  have hc := hnp c (by simp)
  have hopen : String.mk (c :: cs) ≠ "(" :=
    literal_without_parenthesis_converse c cs "(" '(' rfl hc.1
  have hclose : String.mk (c :: cs) ≠ ")" :=
    literal_without_parenthesis_converse c cs ")" ')' rfl hc.2
  rw [hbuf]
  simp only [List.mem_cons, List.mem_singleton, List.not_mem_nil, or_false, hopen, hclose]

/-! ## A two-sided range after a join -/

theorem lex_static_join_range (j : Char) (jt : Token) (c0 : Char) (cs0 : List Char)
    (o1 : Char) (os1 : List Char) (t1 : Token) (c1 : Char) (cs1 : List Char)
    (o2 : Char) (os2 : List Char) (t2 : Token) (c2 : Char) (cs2 : List Char)
    (hj : ∀ d ∈ [j, j], d ≠ eof ∧ isOperatorStart d = true ∧ d ≠ '(' ∧ d ≠ ')')
    (hjt : (scanOperator [j, j]).1 = (jt, String.mk [j, j]))
    (hj1 : jt ≠ Token.EOF) (hj2 : jt ≠ Token.WS)
    (hO1 : ∀ d ∈ o1 :: os1, d ≠ eof ∧ isOperatorStart d = true ∧ d ≠ '(' ∧ d ≠ ')')
    (htok1 : (scanOperator (o1 :: os1)).1 = (t1, String.mk (o1 :: os1)))
    (ht11 : t1 ≠ Token.EOF) (ht12 : t1 ≠ Token.WS)
    (hO2 : ∀ d ∈ o2 :: os2, d ≠ eof ∧ isOperatorStart d = true ∧ d ≠ '(' ∧ d ≠ ')')
    (htok2 : (scanOperator (o2 :: os2)).1 = (t2, String.mk (o2 :: os2)))
    (ht21 : t2 ≠ Token.EOF) (ht22 : t2 ≠ Token.WS)
    (hc0 : isDigit c0 = true)
    (hV0 : ∀ d ∈ c0 :: cs0, d ≠ eof ∧ isWhitespace d = false ∧ isVersionUnsafe d = false)
    (hc1 : isDigit c1 = true)
    (hV1 : ∀ d ∈ c1 :: cs1, d ≠ eof ∧ isWhitespace d = false ∧ isVersionUnsafe d = false)
    (hc2 : isDigit c2 = true)
    (hV2 : ∀ d ∈ c2 :: cs2, d ≠ eof ∧ isWhitespace d = false ∧ isVersionUnsafe d = false) :
    ScanWholeLoop
        ((c0 :: cs0 ++ ' ' :: j :: j :: ' ' :: (o1 :: os1 ++ ' ' :: (c1 :: cs1 ++
          ' ' :: '&' :: '&' :: ' ' :: (o2 :: os2 ++ ' ' :: c2 :: cs2)))).length + 1)
        (c0 :: cs0 ++ ' ' :: j :: j :: ' ' :: (o1 :: os1 ++ ' ' :: (c1 :: cs1 ++
          ' ' :: '&' :: '&' :: ' ' :: (o2 :: os2 ++ ' ' :: c2 :: cs2)))) [Token.SOF] [""] =
      ([Token.SOF, Token.VERSION_EXPRESSION, jt, t1, Token.VERSION_EXPRESSION, Token.AND, t2,
          Token.VERSION_EXPRESSION, Token.EOF],
        ["", String.mk (c0 :: cs0), String.mk [j, j], String.mk (o1 :: os1),
          String.mk (c1 :: cs1), "&&", String.mk (o2 :: os2), String.mk (c2 :: cs2), ""]) := by
  obtain ⟨d1, d2, d3⟩ := isDigit_plain c1 hc1
  obtain ⟨e1, e2, e3⟩ := isDigit_plain c2 hc2
  have hjw : isWhitespace j = false :=
    (isOperatorStart_plain j (hj j (by simp)).2.1).1
  have hje := (hj j (by simp)).1
  have ho1w : isWhitespace o1 = false :=
    (isOperatorStart_plain o1 (hO1 o1 (by simp)).2.1).1
  have ho1e := (hO1 o1 (by simp)).1
  have ho2w : isWhitespace o2 = false :=
    (isOperatorStart_plain o2 (hO2 o2 (by simp)).2.1).1
  have ho2e := (hO2 o2 (by simp)).1
  have s0 := ScanOne_version c0 cs0 (' ' :: j :: j :: ' ' :: (o1 :: os1 ++ ' ' :: (c1 :: cs1 ++
      ' ' :: '&' :: '&' :: ' ' :: (o2 :: os2 ++ ' ' :: c2 :: cs2)))) hc0 hV0
    (Or.inr ⟨' ', _, rfl, by decide, by decide⟩)
  have s1 : ScanOne (' ' :: j :: j :: ' ' :: (o1 :: os1 ++ ' ' :: (c1 :: cs1 ++
      ' ' :: '&' :: '&' :: ' ' :: (o2 :: os2 ++ ' ' :: c2 :: cs2)))) =
      ((Token.WS, String.mk [' ']), j :: j :: ' ' :: (o1 :: os1 ++ ' ' :: (c1 :: cs1 ++
        ' ' :: '&' :: '&' :: ' ' :: (o2 :: os2 ++ ' ' :: c2 :: cs2)))) :=
    ScanOne_whitespace ' ' [] _ (by decide) (Or.inr ⟨j, _, rfl, hje, hjw⟩)
  have s2 : ScanOne (j :: j :: ' ' :: (o1 :: os1 ++ ' ' :: (c1 :: cs1 ++
      ' ' :: '&' :: '&' :: ' ' :: (o2 :: os2 ++ ' ' :: c2 :: cs2)))) =
      ((jt, String.mk [j, j]), ' ' :: (o1 :: os1 ++ ' ' :: (c1 :: cs1 ++
        ' ' :: '&' :: '&' :: ' ' :: (o2 :: os2 ++ ' ' :: c2 :: cs2)))) := by
    rw [← hjt]
    exact ScanOne_operator j [j] _ hj (Or.inr ⟨' ', _, rfl, by decide, by decide⟩)
  have s3 : ScanOne (' ' :: (o1 :: os1 ++ ' ' :: (c1 :: cs1 ++
      ' ' :: '&' :: '&' :: ' ' :: (o2 :: os2 ++ ' ' :: c2 :: cs2)))) =
      ((Token.WS, String.mk [' ']), o1 :: os1 ++ ' ' :: (c1 :: cs1 ++
        ' ' :: '&' :: '&' :: ' ' :: (o2 :: os2 ++ ' ' :: c2 :: cs2))) :=
    ScanOne_whitespace ' ' [] _ (by decide) (Or.inr ⟨o1, _, rfl, ho1e, ho1w⟩)
  have s4 : ScanOne (o1 :: os1 ++ ' ' :: (c1 :: cs1 ++
      ' ' :: '&' :: '&' :: ' ' :: (o2 :: os2 ++ ' ' :: c2 :: cs2))) =
      ((t1, String.mk (o1 :: os1)), ' ' :: (c1 :: cs1 ++
        ' ' :: '&' :: '&' :: ' ' :: (o2 :: os2 ++ ' ' :: c2 :: cs2))) := by
    rw [← htok1]
    exact ScanOne_operator o1 os1 _ hO1 (Or.inr ⟨' ', _, rfl, by decide, by decide⟩)
  have s5 : ScanOne (' ' :: (c1 :: cs1 ++
      ' ' :: '&' :: '&' :: ' ' :: (o2 :: os2 ++ ' ' :: c2 :: cs2))) =
      ((Token.WS, String.mk [' ']), c1 :: cs1 ++
        ' ' :: '&' :: '&' :: ' ' :: (o2 :: os2 ++ ' ' :: c2 :: cs2)) :=
    ScanOne_whitespace ' ' [] _ (by decide) (Or.inr ⟨c1, _, rfl, d1, d3⟩)
  have s6 := ScanOne_version c1 cs1 (' ' :: '&' :: '&' :: ' ' :: (o2 :: os2 ++ ' ' :: c2 :: cs2))
    hc1 hV1 (Or.inr ⟨' ', _, rfl, by decide, by decide⟩)
  have s7 : ScanOne (' ' :: '&' :: '&' :: ' ' :: (o2 :: os2 ++ ' ' :: c2 :: cs2)) =
      ((Token.WS, String.mk [' ']), '&' :: '&' :: ' ' :: (o2 :: os2 ++ ' ' :: c2 :: cs2)) :=
    ScanOne_whitespace ' ' [] _ (by decide) (Or.inr ⟨'&', _, rfl, by decide, by decide⟩)
  have s8 : ScanOne ('&' :: '&' :: ' ' :: (o2 :: os2 ++ ' ' :: c2 :: cs2)) =
      ((Token.AND, "&&"), ' ' :: (o2 :: os2 ++ ' ' :: c2 :: cs2)) := by
    have := ScanOne_operator '&' ['&'] (' ' :: (o2 :: os2 ++ ' ' :: c2 :: cs2)) and_operator.1
      (Or.inr ⟨' ', _, rfl, by decide, by decide⟩)
    rw [and_operator.2] at this
    exact this
  have s9 : ScanOne (' ' :: (o2 :: os2 ++ ' ' :: c2 :: cs2)) =
      ((Token.WS, String.mk [' ']), o2 :: os2 ++ ' ' :: c2 :: cs2) :=
    ScanOne_whitespace ' ' [] _ (by decide) (Or.inr ⟨o2, _, rfl, ho2e, ho2w⟩)
  have s10 : ScanOne (o2 :: os2 ++ ' ' :: c2 :: cs2) =
      ((t2, String.mk (o2 :: os2)), ' ' :: c2 :: cs2) := by
    rw [← htok2]
    exact ScanOne_operator o2 os2 _ hO2 (Or.inr ⟨' ', _, rfl, by decide, by decide⟩)
  have s11 : ScanOne (' ' :: c2 :: cs2) = ((Token.WS, String.mk [' ']), c2 :: cs2) :=
    ScanOne_whitespace ' ' [] _ (by decide) (Or.inr ⟨c2, _, rfl, e1, e3⟩)
  have s12 := ScanOne_version c2 cs2 [] hc2 hV2 (Or.inl rfl)
  rw [List.append_nil] at s12
  rw [ScanWholeLoop_token _ _ _ _ _ _ s0 (by decide) (by decide)]
  rw [ScanWholeLoop_space _ _ _ _ _ s1]
  rw [ScanWholeLoop_token _ _ _ _ _ _ s2 hj1 hj2]
  rw [ScanWholeLoop_space _ _ _ _ _ s3]
  rw [ScanWholeLoop_token _ _ _ _ _ _ s4 ht11 ht12]
  rw [ScanWholeLoop_space _ _ _ _ _ s5]
  rw [ScanWholeLoop_token _ _ _ _ _ _ s6 (by decide) (by decide)]
  rw [ScanWholeLoop_space _ _ _ _ _ s7]
  rw [ScanWholeLoop_token _ _ _ _ _ _ s8 (by decide) (by decide)]
  rw [ScanWholeLoop_space _ _ _ _ _ s9]
  rw [ScanWholeLoop_token _ _ _ _ _ _ s10 ht21 ht22]
  rw [ScanWholeLoop_space _ _ _ _ _ s11]
  rw [ScanWholeLoop_token _ _ _ _ _ _ s12 (by decide) (by decide), ScanWholeLoop_end]
  rfl

/-- The two passes of the lexer on `a j op1 v1 && op2 v2`: an `EQ` is put before
the static version `a`, and the `AND` inside the range is removed. -/
theorem passes_static_join_range (jt t1 t2 : Token) (hj : jt = Token.AND ∨ jt = Token.OR)
    (ht1 : t1 = Token.LT ∨ t1 = Token.LE ∨ t1 = Token.GT ∨ t1 = Token.GE)
    (ht2 : t2 = Token.LT ∨ t2 = Token.LE ∨ t2 = Token.GT ∨ t2 = Token.GE)
    (V0 jl O1 V1 al O2 V2 : String) (hs : IsStaticVersion V0 = true) :
    (augmentMissingEqualityOp
        [Token.SOF, Token.VERSION_EXPRESSION, jt, t1, Token.VERSION_EXPRESSION, Token.AND, t2,
          Token.VERSION_EXPRESSION, Token.EOF] ["", V0, jl, O1, V1, al, O2, V2, ""] >>= fun r =>
      removeSuperfluousAndOp r.1 r.2) =
      .ok ([Token.SOF, Token.EQ, Token.VERSION_EXPRESSION, jt, t1, Token.VERSION_EXPRESSION, t2,
          Token.VERSION_EXPRESSION, Token.EOF], ["", "=", V0, jl, O1, V1, O2, V2, ""]) := by
  have h0 : [Token.SOF, Token.VERSION_EXPRESSION, jt, t1, Token.VERSION_EXPRESSION, Token.AND,
      t2, Token.VERSION_EXPRESSION, Token.EOF].contains Token.ILLEGAL = false := by
    rcases hj with rfl | rfl <;> rcases ht1 with rfl | rfl | rfl | rfl <;>
      rcases ht2 with rfl | rfl | rfl | rfl <;> rfl
  have hjv : jt ≠ Token.VERSION_EXPRESSION := by rcases hj with rfl | rfl <;> decide
  have hjh : jt ≠ Token.HYPHEN := by rcases hj with rfl | rfl <;> decide
  have h1v : t1 ≠ Token.VERSION_EXPRESSION := by
    rcases ht1 with rfl | rfl | rfl | rfl <;> decide
  have h2v : t2 ≠ Token.VERSION_EXPRESSION := by
    rcases ht2 with rfl | rfl | rfl | rfl <;> decide
  have h1r : IsRangeToken t1 = true := by rcases ht1 with rfl | rfl | rfl | rfl <;> rfl
  have h2r : IsRangeToken t2 = true := by rcases ht2 with rfl | rfl | rfl | rfl <;> rfl
  have hrem : removeSuperfluousAndOp
      [Token.SOF, Token.EQ, Token.VERSION_EXPRESSION, jt, t1, Token.VERSION_EXPRESSION,
        Token.AND, t2, Token.VERSION_EXPRESSION, Token.EOF]
      ["", "=", V0, jl, O1, V1, al, O2, V2, ""] =
      .ok ([Token.SOF, Token.EQ, Token.VERSION_EXPRESSION, jt, t1, Token.VERSION_EXPRESSION, t2,
        Token.VERSION_EXPRESSION, Token.EOF], ["", "=", V0, jl, O1, V1, O2, V2, ""]) := by
    rcases hj with rfl | rfl <;> rcases ht1 with rfl | rfl | rfl | rfl <;>
      rcases ht2 with rfl | rfl | rfl | rfl <;> rfl
  have haug : augmentMissingEqualityOp
      [Token.SOF, Token.VERSION_EXPRESSION, jt, t1, Token.VERSION_EXPRESSION, Token.AND, t2,
        Token.VERSION_EXPRESSION, Token.EOF] ["", V0, jl, O1, V1, al, O2, V2, ""] =
      .ok ([Token.SOF, Token.EQ, Token.VERSION_EXPRESSION, jt, t1, Token.VERSION_EXPRESSION,
        Token.AND, t2, Token.VERSION_EXPRESSION, Token.EOF],
        ["", "=", V0, jl, O1, V1, al, O2, V2, ""]) := by
    unfold augmentMissingEqualityOp
    rw [h0, if_neg (by decide)]
    rw [augmentMissingEqualityOpFrom_keep _ _ _ _ _ _ _ "" Token.SOF Token.VERSION_EXPRESSION
      (by rfl) (by rfl) (by rfl) (by decide)]
    rw [augmentMissingEqualityOpFrom_insert _ _ _ _ _ _ _ V0 Token.SOF jt
      (by rfl) (by rfl) (by rfl) ⟨rfl, hs, by decide, by decide, hjh⟩]
    rw [augmentMissingEqualityOpFrom_keep _ _ _ _ _ _ _ jl Token.VERSION_EXPRESSION t1
      (by rfl) (by rfl) (by rfl) (by simp [hjv])]
    rw [augmentMissingEqualityOpFrom_keep _ _ _ _ _ _ _ O1 jt Token.VERSION_EXPRESSION
      (by rfl) (by rfl) (by rfl) (by simp [h1v])]
    rw [augmentMissingEqualityOpFrom_keep _ _ _ _ _ _ _ V1 t1 Token.AND
      (by rfl) (by rfl) (by rfl) (by simp [h1r])]
    rw [augmentMissingEqualityOpFrom_keep _ _ _ _ _ _ _ al Token.VERSION_EXPRESSION t2
      (by rfl) (by rfl) (by rfl) (by simp)]
    rw [augmentMissingEqualityOpFrom_keep _ _ _ _ _ _ _ O2 Token.AND Token.VERSION_EXPRESSION
      (by rfl) (by rfl) (by rfl) (by simp [h2v])]
    rw [augmentMissingEqualityOpFrom_keep _ _ _ _ _ _ _ V2 t2 Token.EOF
      (by rfl) (by rfl) (by rfl) (by simp [h2r])]
    rw [augmentMissingEqualityOpFrom_keep _ _ _ _ _ _ _ "" Token.VERSION_EXPRESSION Token.EOF
      (by rfl) (by rfl) (by rfl) (by decide)]
    rw [augmentMissingEqualityOpFrom_nil]
    rfl
  rw [haug]
  exact hrem

theorem range_operator_facts (t : Token)
    (ht : t = Token.LT ∨ t = Token.LE ∨ t = Token.GT ∨ t = Token.GE) :
    IsRangeToken t = true ∧ IsEqualityToken t = false ∧ IsJoinToken t = false ∧
      IsOperatorToken t = true ∧ t ≠ Token.VERSION_EXPRESSION ∧ t ≠ Token.EOF ∧
      t ≠ Token.HYPHEN ∧ t ≠ Token.EQ ∧ t ≠ Token.NOT ∧ t ≠ Token.SOF ∧ t ≠ Token.AND ∧
      t ≠ Token.OR := by
  rcases ht with rfl | rfl | rfl | rfl <;> decide

theorem join_operator_facts (t : Token) (ht : t = Token.AND ∨ t = Token.OR) :
    IsRangeToken t = false ∧ IsEqualityToken t = false ∧ IsJoinToken t = true ∧
      IsOperatorToken t = true ∧ t ≠ Token.VERSION_EXPRESSION ∧ t ≠ Token.EOF ∧
      t ≠ Token.HYPHEN ∧ t ≠ Token.EQ ∧ t ≠ Token.NOT ∧ t ≠ Token.SOF := by
  rcases ht with rfl | rfl <;> decide

theorem validate_static_join_range (jt t1 t2 : Token) (hj : jt = Token.AND ∨ jt = Token.OR)
    (ht1 : t1 = Token.LT ∨ t1 = Token.LE ∨ t1 = Token.GT ∨ t1 = Token.GE)
    (ht2 : t2 = Token.LT ∨ t2 = Token.LE ∨ t2 = Token.GT ∨ t2 = Token.GE)
    (V0 jl O1 V1 O2 V2 : String) (hs0 : IsStaticVersion V0 = true)
    (hs1 : IsStaticVersion V1 = true) (hs2 : IsStaticVersion V2 = true) :
    validateConstraintComposition
        [Token.SOF, Token.EQ, Token.VERSION_EXPRESSION, jt, t1, Token.VERSION_EXPRESSION, t2,
          Token.VERSION_EXPRESSION, Token.EOF] ["", "=", V0, jl, O1, V1, O2, V2, ""] =
      .ok () := by
  obtain ⟨a1, a2, a3, a4, a5, a6, a7, a8, a9, a10, a11, a12⟩ := range_operator_facts t1 ht1
  obtain ⟨b1, b2, b3, b4, b5, b6, b7, b8, b9, b10, b11, b12⟩ := range_operator_facts t2 ht2
  obtain ⟨c1, c2, c3, c4, c5, c6, c7, c8, c9, c10⟩ := join_operator_facts jt hj
  have e1 : IsRangeToken Token.SOF = false := rfl
  have e2 : IsRangeToken Token.EQ = false := rfl
  have e3 : IsRangeToken Token.VERSION_EXPRESSION = false := rfl
  have e4 : IsRangeToken Token.EOF = false := rfl
  have e5 : IsEqualityToken Token.SOF = false := rfl
  have e6 : IsEqualityToken Token.EQ = true := rfl
  have e7 : IsEqualityToken Token.VERSION_EXPRESSION = false := rfl
  have e8 : IsEqualityToken Token.EOF = false := rfl
  have e9 : IsJoinToken Token.SOF = false := rfl
  have e10 : IsJoinToken Token.EQ = false := rfl
  have e11 : IsJoinToken Token.VERSION_EXPRESSION = false := rfl
  have e12 : IsJoinToken Token.EOF = false := rfl
  have e13 : IsOperatorToken Token.SOF = false := rfl
  have e14 : IsOperatorToken Token.EQ = true := rfl
  have e15 : IsOperatorToken Token.VERSION_EXPRESSION = false := rfl
  have e16 : IsOperatorToken Token.EOF = false := rfl
  simp [index, validateConstraintComposition, validateFrom, validateStep, slices.Index, bind,
    Except.bind, pure, Except.pure, hs0, hs1, hs2, a1, a2, a3, a4, a5, a6, a7, a8, a9, a10,
    b1, b2, b3, b4, b5, b6, b7, b8, b9, b10, c1, c2, c3, c4, c5, c6, c7, c8, c9, c10,
    e1, e2, e3, e4, e5, e6, e7, e8, e9, e10, e11, e12, e13, e14, e15, e16]

theorem parse_static_join_range (jt t1 t2 : Token) (hj : jt = Token.AND ∨ jt = Token.OR)
    (ht1 : t1 = Token.LT ∨ t1 = Token.LE ∨ t1 = Token.GT ∨ t1 = Token.GE)
    (ht2 : t2 = Token.LT ∨ t2 = Token.LE ∨ t2 = Token.GT ∨ t2 = Token.GE)
    (c : Constraint) (V0 jl O1 V1 O2 V2 : String) (r1 r2 : Range)
    (hr1 : parseSubConstraint [Token.EQ, Token.VERSION_EXPRESSION] ["=", V0] = .ok r1)
    (hr2 : parseSubConstraint [t1, Token.VERSION_EXPRESSION, t2, Token.VERSION_EXPRESSION]
      [O1, V1, O2, V2] = .ok r2) :
    parseConstraintFrom ["", "=", V0, jl, O1, V1, O2, V2, ""]
        [Token.SOF, Token.EQ, Token.VERSION_EXPRESSION, jt, t1, Token.VERSION_EXPRESSION, t2,
          Token.VERSION_EXPRESSION, Token.EOF] 0 c [] [] =
      .ok { Original := c.Original, Ranges := c.Ranges ++ [r1, r2],
            Join := c.Join ++ [joinOf jt] } := by
  obtain ⟨-, -, -, -, -, a6, -, -, -, a10, a11, a12⟩ := range_operator_facts t1 ht1
  obtain ⟨-, -, -, -, -, b6, -, -, -, b10, b11, b12⟩ := range_operator_facts t2 ht2
  have hj2 : jt = Token.OR ∨ jt = Token.AND := hj.symm
  simp [parseConstraintFrom_cons, parseConstraintFrom_nil, index, hr1, hr2, a6, a10, a11, a12,
    b6, b10, b11, b12, hj2]

theorem parseSubConstraint_range4 (t1 t2 : Token)
    (ht1 : t1 = Token.LT ∨ t1 = Token.LE ∨ t1 = Token.GT ∨ t1 = Token.GE)
    (ht2 : t2 = Token.LT ∨ t2 = Token.LE ∨ t2 = Token.GT ∨ t2 = Token.GE)
    (L : List String) :
    parseSubConstraint [t1, Token.VERSION_EXPRESSION, t2, Token.VERSION_EXPRESSION] L =
      parseRange [t1, Token.VERSION_EXPRESSION, t2, Token.VERSION_EXPRESSION] L := by
  obtain ⟨a1, -⟩ := range_operator_facts t1 ht1
  obtain ⟨b1, -⟩ := range_operator_facts t2 ht2
  simp [parseSubConstraint, isHyphenatedRange, isCaretRange, isTildeRange, isRange, a1, b1]

theorem map_replace_absent (L : List Char) (o n : Char) (h : o ∉ L) :
    L.map (fun c => if c = o then n else c) = L := by
  induction L with
  | nil => rfl
  | cons x xs ih =>
    have hx : x ≠ o := fun e => h (by simp [e])
    simp only [List.map_cons, if_neg hx, ih (fun hm => h (by simp [hm]))]

theorem zeroWildcards_plain (L : List Char) (h1 : 'x' ∉ L) (h2 : 'X' ∉ L) (h3 : '*' ∉ L) :
    zeroWildcards (String.mk L) = String.mk L := by
  unfold zeroWildcards strings.ReplaceAll
  simp only [map_replace_absent L _ _ h1, map_replace_absent L _ _ h2,
    map_replace_absent L _ _ h3]

theorem zeroWildcards_dotted3 {A B C : List Char} {a b c : Nat} (hA : IsNumeral A a)
    (hB : IsNumeral B b) (hC : IsNumeral C c) :
    zeroWildcards (String.mk (A ++ '.' :: (B ++ '.' :: C))) =
      String.mk (A ++ '.' :: (B ++ '.' :: C)) := by
  obtain ⟨-, -, f3, f4, f5, -, -⟩ := dotted_facts A a hA _ (hB.rest3 hC)
  exact zeroWildcards_plain _ (List.count_eq_zero.1 f3) (List.count_eq_zero.1 f4)
    (List.count_eq_zero.1 f5)

theorem parseRange_dotted3 {A B C D E F : List Char} {a b c d e f : Nat} (hA : IsNumeral A a)
    (hB : IsNumeral B b) (hC : IsNumeral C c) (hD : IsNumeral D d) (hE : IsNumeral E e)
    (hF : IsNumeral F f) (t1 t2 : Token) (O1 O2 : String) :
    parseRange [t1, Token.VERSION_EXPRESSION, t2, Token.VERSION_EXPRESSION]
        [O1, String.mk (A ++ '.' :: (B ++ '.' :: C)), O2,
          String.mk (D ++ '.' :: (E ++ '.' :: F))] =
      .ok { StartOp := t1, StartVersion := Semver.ofParts (a : Int) (b : Int) (c : Int) "",
            EndOp := t2, EndVersion := Semver.ofParts (d : Int) (e : Int) (f : Int) "" } := by
  unfold parseRange
  simp [index, parsePartsOrZero_dotted3 hA hB hC, parsePartsOrZero_dotted3 hD hE hF,
    zeroWildcards_dotted3 hA hB hC, zeroWildcards_dotted3 hD hE hF,
    ParseSemver_dotted3 hA hB hC, ParseSemver_dotted3 hD hE hF, bind,
    Except.bind, pure, Except.pure, Range.zero]

/-- After a static version and a join, a range written `op1 v1 && op2 v2`: the
lexer removes the `AND` inside the range, and `ParseConstraint` desugars the
static version and the two-sided range in turn. -/
theorem ParseConstraint_static_join_range (j : Char) (jt : Token) (c0 : Char)
    (cs0 : List Char) (o1 : Char) (os1 : List Char) (t1 : Token) (c1 : Char) (cs1 : List Char)
    (o2 : Char) (os2 : List Char) (t2 : Token) (c2 : Char) (cs2 : List Char)
    (hj : ∀ d ∈ [j, j], d ≠ eof ∧ isOperatorStart d = true ∧ d ≠ '(' ∧ d ≠ ')')
    (hjt : (scanOperator [j, j]).1 = (jt, String.mk [j, j]))
    (hjj : jt = Token.AND ∨ jt = Token.OR)
    (hO1 : ∀ d ∈ o1 :: os1, d ≠ eof ∧ isOperatorStart d = true ∧ d ≠ '(' ∧ d ≠ ')')
    (htok1 : (scanOperator (o1 :: os1)).1 = (t1, String.mk (o1 :: os1)))
    (ht1 : t1 = Token.LT ∨ t1 = Token.LE ∨ t1 = Token.GT ∨ t1 = Token.GE)
    (hO2 : ∀ d ∈ o2 :: os2, d ≠ eof ∧ isOperatorStart d = true ∧ d ≠ '(' ∧ d ≠ ')')
    (htok2 : (scanOperator (o2 :: os2)).1 = (t2, String.mk (o2 :: os2)))
    (ht2 : t2 = Token.LT ∨ t2 = Token.LE ∨ t2 = Token.GT ∨ t2 = Token.GE)
    (hc0 : isDigit c0 = true)
    (hV0 : ∀ d ∈ c0 :: cs0, d ≠ eof ∧ isWhitespace d = false ∧ isVersionUnsafe d = false)
    (hc1 : isDigit c1 = true)
    (hV1 : ∀ d ∈ c1 :: cs1, d ≠ eof ∧ isWhitespace d = false ∧ isVersionUnsafe d = false)
    (hc2 : isDigit c2 = true)
    (hV2 : ∀ d ∈ c2 :: cs2, d ≠ eof ∧ isWhitespace d = false ∧ isVersionUnsafe d = false)
    (hs0 : IsStaticVersion (String.mk (c0 :: cs0)) = true)
    (hs1 : IsStaticVersion (String.mk (c1 :: cs1)) = true)
    (hs2 : IsStaticVersion (String.mk (c2 :: cs2)) = true) :
    LexConstraint (String.mk (c0 :: cs0 ++ ' ' :: j :: j :: ' ' :: (o1 :: os1 ++ ' ' ::
        (c1 :: cs1 ++ ' ' :: '&' :: '&' :: ' ' :: (o2 :: os2 ++ ' ' :: c2 :: cs2))))) =
      .ok ([Token.SOF, Token.EQ, Token.VERSION_EXPRESSION, jt, t1, Token.VERSION_EXPRESSION, t2,
          Token.VERSION_EXPRESSION, Token.EOF],
        ["", "=", String.mk (c0 :: cs0), String.mk [j, j], String.mk (o1 :: os1),
          String.mk (c1 :: cs1), String.mk (o2 :: os2), String.mk (c2 :: cs2), ""]) ∧
    ∀ r1 r2 : Range,
      parseStaticRange [Token.EQ, Token.VERSION_EXPRESSION] ["=", String.mk (c0 :: cs0)] =
        .ok r1 →
      parseRange [t1, Token.VERSION_EXPRESSION, t2, Token.VERSION_EXPRESSION]
        [String.mk (o1 :: os1), String.mk (c1 :: cs1), String.mk (o2 :: os2),
          String.mk (c2 :: cs2)] = .ok r2 →
      ParseConstraint (String.mk (c0 :: cs0 ++ ' ' :: j :: j :: ' ' :: (o1 :: os1 ++ ' ' ::
          (c1 :: cs1 ++ ' ' :: '&' :: '&' :: ' ' :: (o2 :: os2 ++ ' ' :: c2 :: cs2))))) =
        .ok { Original := String.mk (c0 :: cs0 ++ ' ' :: j :: j :: ' ' :: (o1 :: os1 ++ ' ' ::
                (c1 :: cs1 ++ ' ' :: '&' :: '&' :: ' ' :: (o2 :: os2 ++ ' ' :: c2 :: cs2)))),
              Ranges := [r1, r2], Join := [joinOf jt] } := by
  obtain ⟨-, -, -, -, -, a6, -, -, -, -, -, -⟩ := range_operator_facts t1 ht1
  obtain ⟨-, -, -, -, -, b6, -, -, -, -, -, -⟩ := range_operator_facts t2 ht2
  have a13 : t1 ≠ Token.WS := by rcases ht1 with rfl | rfl | rfl | rfl <;> decide
  have b13 : t2 ≠ Token.WS := by rcases ht2 with rfl | rfl | rfl | rfl <;> decide
  have j1 : jt ≠ Token.EOF := by rcases hjj with rfl | rfl <;> decide
  have j2 : jt ≠ Token.WS := by rcases hjj with rfl | rfl <;> decide
  have hlex := lex_static_join_range j jt c0 cs0 o1 os1 t1 c1 cs1 o2 os2 t2 c2 cs2 hj hjt j1 j2
    hO1 htok1 a6 a13 hO2 htok2 b6 b13 hc0 hV0 hc1 hV1 hc2 hV2
  have hpass := passes_static_join_range jt t1 t2 hjj ht1 ht2 (String.mk (c0 :: cs0))
    (String.mk [j, j]) (String.mk (o1 :: os1)) (String.mk (c1 :: cs1)) "&&"
    (String.mk (o2 :: os2)) (String.mk (c2 :: cs2)) hs0
  have hL : LexConstraint (String.mk (c0 :: cs0 ++ ' ' :: j :: j :: ' ' :: (o1 :: os1 ++ ' ' ::
        (c1 :: cs1 ++ ' ' :: '&' :: '&' :: ' ' :: (o2 :: os2 ++ ' ' :: c2 :: cs2))))) =
      .ok ([Token.SOF, Token.EQ, Token.VERSION_EXPRESSION, jt, t1, Token.VERSION_EXPRESSION, t2,
          Token.VERSION_EXPRESSION, Token.EOF],
        ["", "=", String.mk (c0 :: cs0), String.mk [j, j], String.mk (o1 :: os1),
          String.mk (c1 :: cs1), String.mk (o2 :: os2), String.mk (c2 :: cs2), ""]) := by
    unfold LexConstraint
    rw [ScanWhole_eq]
    simp only
    rw [hlex]
    exact hpass
  refine ⟨hL, fun r1 r2 hr1 hr2 => ?_⟩
  rw [← parseSubConstraint_static _ hs0] at hr1
  rw [← parseSubConstraint_range4 t1 t2 ht1 ht2] at hr2
  have hill : ¬ ([Token.SOF, Token.EQ, Token.VERSION_EXPRESSION, jt, t1,
      Token.VERSION_EXPRESSION, t2, Token.VERSION_EXPRESSION, Token.EOF].contains Token.ILLEGAL
        = true ∨
      [Token.SOF, Token.EQ, Token.VERSION_EXPRESSION, jt, t1,
      Token.VERSION_EXPRESSION, t2, Token.VERSION_EXPRESSION, Token.EOF].contains
        Token.OPEN_PARENTHESIS = true ∨
      [Token.SOF, Token.EQ, Token.VERSION_EXPRESSION, jt, t1,
      Token.VERSION_EXPRESSION, t2, Token.VERSION_EXPRESSION, Token.EOF].contains
        Token.CLOSE_PARENTHESIS = true) := by
    rcases hjj with rfl | rfl <;> rcases ht1 with rfl | rfl | rfl | rfl <;>
      rcases ht2 with rfl | rfl | rfl | rfl <;> decide
  unfold ParseConstraint
  rw [hL]
  simp only [bind, Except.bind]
  rw [if_neg hill, validate_static_join_range jt t1 t2 hjj ht1 ht2 _ _ _ _ _ _ hs0 hs1 hs2]
  simp only
  rw [parse_static_join_range jt t1 t2 hjj ht1 ht2 _ _ _ _ _ _ _ r1 r2 hr1 hr2]
  rfl

theorem join_operator_text (js : String) (jt : Token)
    (h : (js, jt) ∈ [("&&", Token.AND), ("||", Token.OR)]) :
    ∃ j, js = String.mk [j, j] ∧
      (∀ d ∈ [j, j], d ≠ eof ∧ isOperatorStart d = true ∧ d ≠ '(' ∧ d ≠ ')') ∧
      (scanOperator [j, j]).1 = (jt, String.mk [j, j]) ∧ (jt = Token.AND ∨ jt = Token.OR) := by
  simp only [List.mem_cons, Prod.mk.injEq, List.mem_singleton, List.not_mem_nil, or_false] at h
  rcases h with ⟨rfl, rfl⟩ | ⟨rfl, rfl⟩
  · exact ⟨'&', rfl, and_operator.1, and_operator.2, Or.inl rfl⟩
  · exact ⟨'|', rfl, or_operator.1, or_operator.2, Or.inr rfl⟩

theorem range_operator_text (o : String) (t : Token)
    (h : (o, t) ∈ [("<", Token.LT), ("<=", Token.LE), (">", Token.GT), (">=", Token.GE)]) :
    ∃ p ps, o = String.mk (p :: ps) ∧
      (∀ d ∈ p :: ps, d ≠ eof ∧ isOperatorStart d = true ∧ d ≠ '(' ∧ d ≠ ')') ∧
      (scanOperator (p :: ps)).1 = (t, String.mk (p :: ps)) ∧
      (t = Token.LT ∨ t = Token.LE ∨ t = Token.GT ∨ t = Token.GE) := by
  simp only [List.mem_cons, Prod.mk.injEq, List.mem_singleton, List.not_mem_nil, or_false] at h
  rcases h with ⟨rfl, rfl⟩ | ⟨rfl, rfl⟩ | ⟨rfl, rfl⟩ | ⟨rfl, rfl⟩
  · exact ⟨'<', [], rfl, by decide, by decide, by decide⟩
  · exact ⟨'<', ['='], rfl, by decide, by decide, by decide⟩
  · exact ⟨'>', [], rfl, by decide, by decide, by decide⟩
  · exact ⟨'>', ['='], rfl, by decide, by decide, by decide⟩

theorem range_after_join_string (X0 J O1 X1 O2 X2 : List Char) :
    String.mk X0 ++ " " ++ String.mk J ++ " " ++ String.mk O1 ++ " " ++ String.mk X1 ++ " && " ++
        String.mk O2 ++ " " ++ String.mk X2 =
      String.mk (X0 ++ ' ' :: (J ++ ' ' :: (O1 ++ ' ' :: (X1 ++ ' ' :: '&' :: '&' :: ' ' ::
        (O2 ++ ' ' :: X2))))) := by
  apply String.ext
  simp [String.data_append]

/-- The sibling path of the `AND` removal, directly after a join: for a join `j`
in `&&`, `||`, range operators `op1`, `op2` in `<`, `<=`, `>`, `>=` and versions
`a = A.B.C`, `v1 = D.E.F`, `v2 = G.H.I` of three numbers, lexing
`a j op1 v1 && op2 v2` removes the `AND` that stands directly after the join's
range `op1 v1`; when the nine numbers fit the Go type `int`, `ParseConstraint`
returns the range `(EQ, a)` and the single two-sided range
`(op1, v1, op2, v2)`, joined by `j` alone. -/
theorem ParseConstraint_range_after_join (js : String) (jt : Token) (o1 : String) (t1 : Token)
    (o2 : String) (t2 : Token) (A B C D E F G H I : Nat)
    (hj : (js, jt) ∈ [("&&", Token.AND), ("||", Token.OR)])
    (h1 : (o1, t1) ∈ [("<", Token.LT), ("<=", Token.LE), (">", Token.GT), (">=", Token.GE)])
    (h2 : (o2, t2) ∈ [("<", Token.LT), ("<=", Token.LE), (">", Token.GT), (">=", Token.GE)]) :
    LexConstraint ((numeral A ++ "." ++ numeral B ++ "." ++ numeral C) ++ " " ++ js ++ " " ++
        o1 ++ " " ++ (numeral D ++ "." ++ numeral E ++ "." ++ numeral F) ++ " && " ++ o2 ++
        " " ++ (numeral G ++ "." ++ numeral H ++ "." ++ numeral I)) =
      .ok ([Token.SOF, Token.EQ, Token.VERSION_EXPRESSION, jt, t1, Token.VERSION_EXPRESSION, t2,
          Token.VERSION_EXPRESSION, Token.EOF],
        ["", "=", numeral A ++ "." ++ numeral B ++ "." ++ numeral C, js, o1,
          numeral D ++ "." ++ numeral E ++ "." ++ numeral F, o2,
          numeral G ++ "." ++ numeral H ++ "." ++ numeral I, ""]) ∧
    (A < 2 ^ 63 → B < 2 ^ 63 → C < 2 ^ 63 → D < 2 ^ 63 → E < 2 ^ 63 → F < 2 ^ 63 →
      G < 2 ^ 63 → H < 2 ^ 63 → I < 2 ^ 63 →
      ParseConstraint ((numeral A ++ "." ++ numeral B ++ "." ++ numeral C) ++ " " ++ js ++
          " " ++ o1 ++ " " ++ (numeral D ++ "." ++ numeral E ++ "." ++ numeral F) ++ " && " ++
          o2 ++ " " ++ (numeral G ++ "." ++ numeral H ++ "." ++ numeral I)) =
        .ok { Original := (numeral A ++ "." ++ numeral B ++ "." ++ numeral C) ++ " " ++ js ++
                " " ++ o1 ++ " " ++ (numeral D ++ "." ++ numeral E ++ "." ++ numeral F) ++
                " && " ++ o2 ++ " " ++ (numeral G ++ "." ++ numeral H ++ "." ++ numeral I),
              Ranges := [{ StartOp := Token.EQ,
                           StartVersion := Semver.ofParts (A : Int) (B : Int) (C : Int) "",
                           EndOp := Token.UNSET, EndVersion := Semver.zero },
                         { StartOp := t1,
                           StartVersion := Semver.ofParts (D : Int) (E : Int) (F : Int) "",
                           EndOp := t2,
                           EndVersion := Semver.ofParts (G : Int) (H : Int) (I : Int) "" }],
              Join := [joinOf jt] }) := by
  obtain ⟨j, rfl, hj1, hjt, hjj⟩ := join_operator_text js jt hj
  obtain ⟨p, ps, rfl, hO1, htok1, ht1⟩ := range_operator_text o1 t1 h1
  obtain ⟨q, qs, rfl, hO2, htok2, ht2⟩ := range_operator_text o2 t2 h2
  obtain ⟨s0, x, xs, hx, hxd, hV0⟩ := digits3_facts _ _ _ (numeral_digits A).1
    (numeral_digits A).2 (numeral_digits B).2 (numeral_digits C).2
  obtain ⟨s1, y, ys, hy, hyd, hV1⟩ := digits3_facts _ _ _ (numeral_digits D).1
    (numeral_digits D).2 (numeral_digits E).2 (numeral_digits F).2
  obtain ⟨s2, z, zs, hz, hzd, hV2⟩ := digits3_facts _ _ _ (numeral_digits G).1
    (numeral_digits G).2 (numeral_digits H).2 (numeral_digits I).2
  have ea : numeral A ++ "." ++ numeral B ++ "." ++ numeral C =
      String.mk ((numeral A).data ++ '.' :: ((numeral B).data ++ '.' :: (numeral C).data)) :=
    String.ext (dotted3_numerals A B C)
  have eb : numeral D ++ "." ++ numeral E ++ "." ++ numeral F =
      String.mk ((numeral D).data ++ '.' :: ((numeral E).data ++ '.' :: (numeral F).data)) :=
    String.ext (dotted3_numerals D E F)
  have ec : numeral G ++ "." ++ numeral H ++ "." ++ numeral I =
      String.mk ((numeral G).data ++ '.' :: ((numeral H).data ++ '.' :: (numeral I).data)) :=
    String.ext (dotted3_numerals G H I)
  rw [ea, eb, ec, range_after_join_string]
  have core := ParseConstraint_static_join_range j jt x xs p ps t1 y ys q qs t2 z zs hj1 hjt hjj
    hO1 htok1 ht1 hO2 htok2 ht2 hxd hV0 hyd hV1 hzd hV2 (hx ▸ s0) (hy ▸ s1) (hz ▸ s2)
  rw [← hx, ← hy, ← hz] at core
  refine ⟨core.1, fun hA hB hC hD hE hF hG hH hI => ?_⟩
  have nA := numeral_IsNumeral A hA
  have nB := numeral_IsNumeral B hB
  have nC := numeral_IsNumeral C hC
  have nD := numeral_IsNumeral D hD
  have nE := numeral_IsNumeral E hE
  have nF := numeral_IsNumeral F hF
  have nG := numeral_IsNumeral G hG
  have nH := numeral_IsNumeral H hH
  have nI := numeral_IsNumeral I hI
  exact core.2 _ _ (parseStaticRange_dotted3 nA nB nC Token.EQ "=")
    (parseRange_dotted3 nD nE nF nG nH nI t1 t2 _ _)

/-- The input `1.0.0 || >= 1.0.0 && < 2.0.0` as an example of the removal of the
`AND` after a join. -/
theorem ParseConstraint_range_after_join_example :
    (numeral 1 ++ "." ++ numeral 0 ++ "." ++ numeral 0) ++ " " ++ "||" ++ " " ++
        ">=" ++ " " ++ (numeral 1 ++ "." ++ numeral 0 ++ "." ++ numeral 0) ++ " && " ++ "<" ++
        " " ++ (numeral 2 ++ "." ++ numeral 0 ++ "." ++ numeral 0) =
      "1.0.0 || >= 1.0.0 && < 2.0.0" ∧
    LexConstraint ((numeral 1 ++ "." ++ numeral 0 ++ "." ++ numeral 0) ++ " " ++ "||" ++ " " ++
        ">=" ++ " " ++ (numeral 1 ++ "." ++ numeral 0 ++ "." ++ numeral 0) ++ " && " ++ "<" ++
        " " ++ (numeral 2 ++ "." ++ numeral 0 ++ "." ++ numeral 0)) =
      .ok ([Token.SOF, Token.EQ, Token.VERSION_EXPRESSION, Token.OR, Token.GE,
          Token.VERSION_EXPRESSION, Token.LT, Token.VERSION_EXPRESSION, Token.EOF],
        ["", "=", numeral 1 ++ "." ++ numeral 0 ++ "." ++ numeral 0, "||", ">=",
          numeral 1 ++ "." ++ numeral 0 ++ "." ++ numeral 0, "<",
          numeral 2 ++ "." ++ numeral 0 ++ "." ++ numeral 0, ""]) ∧
    ParseConstraint ((numeral 1 ++ "." ++ numeral 0 ++ "." ++ numeral 0) ++ " " ++ "||" ++
        " " ++ ">=" ++ " " ++ (numeral 1 ++ "." ++ numeral 0 ++ "." ++ numeral 0) ++ " && " ++
        "<" ++ " " ++ (numeral 2 ++ "." ++ numeral 0 ++ "." ++ numeral 0)) =
      .ok { Original := (numeral 1 ++ "." ++ numeral 0 ++ "." ++ numeral 0) ++ " " ++ "||" ++
              " " ++ ">=" ++ " " ++ (numeral 1 ++ "." ++ numeral 0 ++ "." ++ numeral 0) ++
              " && " ++ "<" ++ " " ++ (numeral 2 ++ "." ++ numeral 0 ++ "." ++ numeral 0),
            Ranges := [{ StartOp := Token.EQ,
                         StartVersion := Semver.ofParts ((1 : Nat) : Int) ((0 : Nat) : Int)
                           ((0 : Nat) : Int) "",
                         EndOp := Token.UNSET, EndVersion := Semver.zero },
                       { StartOp := Token.GE,
                         StartVersion := Semver.ofParts ((1 : Nat) : Int) ((0 : Nat) : Int)
                           ((0 : Nat) : Int) "",
                         EndOp := Token.LT,
                         EndVersion := Semver.ofParts ((2 : Nat) : Int) ((0 : Nat) : Int)
                           ((0 : Nat) : Int) "" }],
            Join := [joinOf Token.OR] } :=
  ⟨by decide,
    (ParseConstraint_range_after_join "||" Token.OR ">=" Token.GE "<" Token.LT 1 0 0 1 0 0 2 0 0
      (by decide) (by decide) (by decide)).1,
    (ParseConstraint_range_after_join "||" Token.OR ">=" Token.GE "<" Token.LT 1 0 0 1 0 0 2 0 0
      (by decide) (by decide) (by decide)).2 (by norm_num) (by norm_num) (by norm_num)
      (by norm_num) (by norm_num) (by norm_num) (by norm_num) (by norm_num) (by norm_num)⟩

/-- Claim C34 fails on `>= 1.0.0 && < 2.0.0`, at the start of the input: the
`AND` is kept, because the token three places before it is `SOF`, which
`removeSuperfluousAndOp` does not accept, and `ParseConstraint` returns the two
ranges `(GE, 1.0.0)` and `(LT, 2.0.0)` joined by a conjunction, not the single
range that `>= 1.0.0 < 2.0.0` gives.  Directly after a join the same text loses
its `AND`: `1.0.0 || >= 1.0.0 && < 2.0.0`. -/
theorem C34_and_kept_at_start_of_input :
    LexConstraint ">= 1.0.0 && < 2.0.0" =
      .ok ([Token.SOF, Token.GE, Token.VERSION_EXPRESSION, Token.AND, Token.LT,
          Token.VERSION_EXPRESSION, Token.EOF], ["", ">=", "1.0.0", "&&", "<", "2.0.0", ""]) ∧
    ParseConstraint ">= 1.0.0 && < 2.0.0" =
      .ok { Original := ">= 1.0.0 && < 2.0.0",
            Ranges := [{ StartOp := Token.GE, StartVersion := Semver.ofParts 1 0 0 "",
                         EndOp := Token.UNSET, EndVersion := Semver.zero },
                       { StartOp := Token.LT, StartVersion := Semver.ofParts 2 0 0 "",
                         EndOp := Token.UNSET, EndVersion := Semver.zero }],
            Join := [JoinOp.CONJUNCTON] } ∧
    ParseConstraint ">= 1.0.0 < 2.0.0" =
      .ok { Original := ">= 1.0.0 < 2.0.0",
            Ranges := [{ StartOp := Token.GE, StartVersion := Semver.ofParts 1 0 0 "",
                         EndOp := Token.LT, EndVersion := Semver.ofParts 2 0 0 "" }],
            Join := [] } ∧
    LexConstraint "1.0.0 || >= 1.0.0 && < 2.0.0" =
      .ok ([Token.SOF, Token.EQ, Token.VERSION_EXPRESSION, Token.OR, Token.GE,
          Token.VERSION_EXPRESSION, Token.LT, Token.VERSION_EXPRESSION, Token.EOF],
        ["", "=", "1.0.0", "||", ">=", "1.0.0", "<", "2.0.0", ""]) ∧
    ParseConstraint "1.0.0 || >= 1.0.0 && < 2.0.0" =
      .ok { Original := "1.0.0 || >= 1.0.0 && < 2.0.0",
            Ranges := [{ StartOp := Token.EQ, StartVersion := Semver.ofParts 1 0 0 "",
                         EndOp := Token.UNSET, EndVersion := Semver.zero },
                       { StartOp := Token.GE, StartVersion := Semver.ofParts 1 0 0 "",
                         EndOp := Token.LT, EndVersion := Semver.ofParts 2 0 0 "" }],
            Join := [JoinOp.DISJUNCTION] } := by
  refine ⟨?_, ?_, ?_, ?_, ?_⟩ <;> decide

/-! ## Reaching an operator run inside the input -/

theorem scanWhitespaceLoop_within (X : List Char)
    (hX : X = [] ∨ ∃ c R, X = c :: R ∧ c ≠ eof ∧ isWhitespace c = false) :
    ∀ P : List Char, (∀ d ∈ P, d ≠ eof) →
      ∃ W Q, P = W ++ Q ∧ scanWhitespaceLoop (P ++ X) = (W, Q ++ X) := by
  intro P
  induction P with
  | nil =>
    intro _
    refine ⟨[], [], rfl, ?_⟩
    rcases hX with rfl | ⟨c, R, rfl, h1, h2⟩
    · rfl
    · simp only [List.nil_append, scanWhitespaceLoop, h1, if_false, h2, Bool.not_false, if_true]
  | cons d P ih =>
    intro hP
    have hd : d ≠ eof := hP d (by simp)
    obtain ⟨W, Q, e, hs⟩ := ih (fun x hx => hP x (by simp [hx]))
    by_cases hw : isWhitespace d = true
    · refine ⟨d :: W, Q, by rw [e]; rfl, ?_⟩
      simp only [List.cons_append, scanWhitespaceLoop, hd, if_false, hw, Bool.not_true,
        Bool.false_eq_true, List.append_eq, hs]
    · refine ⟨[], d :: P, rfl, ?_⟩
      simp only [List.cons_append, scanWhitespaceLoop, hd, if_false, hw, Bool.not_false,
        if_true, List.nil_append, eq_false_of_ne_true hw, List.append_eq]

theorem scanVersionExpressionLoop_within (X : List Char) :
    ∀ P : List Char, (∀ d ∈ P, d ≠ eof) →
      ((∃ c R, X = c :: R ∧ c ≠ eof ∧ (isWhitespace c || isVersionUnsafe c) = true) ∨
        ∃ d ∈ P, (isWhitespace d || isVersionUnsafe d) = true) →
      ∃ V Q, P = V ++ Q ∧ scanVersionExpressionLoop (P ++ X) = (V, Q ++ X) := by
  intro P
  induction P with
  | nil =>
    intro _ hstop
    refine ⟨[], [], rfl, ?_⟩
    rcases hstop with ⟨c, R, rfl, h1, h2⟩ | ⟨d, hd, -⟩
    · simp only [List.nil_append, scanVersionExpressionLoop, h1, if_false, h2, if_true]
    · cases hd
  | cons d P ih =>
    intro hP hstop
    have hd : d ≠ eof := hP d (by simp)
    by_cases hw : (isWhitespace d || isVersionUnsafe d) = true
    · refine ⟨[], d :: P, rfl, ?_⟩
      simp only [List.cons_append, scanVersionExpressionLoop, hd, if_false, hw, if_true,
        List.nil_append, List.append_eq]
    · have hstop2 : (∃ c R, X = c :: R ∧ c ≠ eof ∧
          (isWhitespace c || isVersionUnsafe c) = true) ∨
          ∃ x ∈ P, (isWhitespace x || isVersionUnsafe x) = true := by
        rcases hstop with h | ⟨x, hx, hx2⟩
        · exact Or.inl h
        · rcases List.mem_cons.1 hx with rfl | hx
          · exact absurd hx2 hw
          · exact Or.inr ⟨x, hx, hx2⟩
      obtain ⟨V, Q, e, hs⟩ := ih (fun x hx => hP x (by simp [hx])) hstop2
      refine ⟨d :: V, Q, by rw [e]; rfl, ?_⟩
      simp only [List.cons_append, scanVersionExpressionLoop, hd, if_false, hw,
        Bool.false_eq_true, List.append_eq, hs]

theorem scanOperatorLoop_within (X : List Char) :
    ∀ P : List Char, (∀ d ∈ P, d ≠ eof) → (∃ d ∈ P, isOperatorStart d = false) →
      ∃ O Q, P = O ++ Q ∧ scanOperatorLoop (P ++ X) = (O, Q ++ X) := by
  intro P
  induction P with
  | nil =>
    intro _ hstop
    obtain ⟨d, hd, -⟩ := hstop
    cases hd
  | cons d P ih =>
    intro hP hstop
    have hd : d ≠ eof := hP d (by simp)
    by_cases ho : isOperatorStart d = true
    · by_cases hp : d = '(' ∨ d = ')'
      · refine ⟨[d], P, rfl, ?_⟩
        simp only [List.cons_append, scanOperatorLoop, hd, if_false, ho, Bool.not_true,
          Bool.false_eq_true, hp, if_true, List.nil_append, List.append_eq]
      · have hstop2 : ∃ x ∈ P, isOperatorStart x = false := by
          obtain ⟨x, hx, hx2⟩ := hstop
          rcases List.mem_cons.1 hx with rfl | hx
          · rw [ho] at hx2; cases hx2
          · exact ⟨x, hx, hx2⟩
        obtain ⟨O, Q, e, hs⟩ := ih (fun x hx => hP x (by simp [hx])) hstop2
        refine ⟨d :: O, Q, by rw [e]; rfl, ?_⟩
        simp only [List.cons_append, scanOperatorLoop, hd, if_false, ho, Bool.not_true,
          Bool.false_eq_true, hp, List.append_eq, hs]
    · refine ⟨[], d :: P, rfl, ?_⟩
      simp only [List.cons_append, scanOperatorLoop, hd, if_false, eq_false_of_ne_true ho,
        Bool.not_false, if_true, List.nil_append, List.append_eq]

/-- The loop of `ScanWhole` goes on after a token of `scanOperator`: the token is
one of the thirteen of the `switch`. -/
theorem scanOperator_token (input : List Char) (x : Token)
    (hx : x ∉ [Token.AND, Token.OR, Token.EQ, Token.LE, Token.GE, Token.LT, Token.GT,
      Token.ILLEGAL, Token.TILDE, Token.CARET, Token.OPEN_PARENTHESIS,
      Token.CLOSE_PARENTHESIS, Token.HYPHEN]) : (scanOperator input).1.1 ≠ x := by
  unfold scanOperator
  rcases scanOperatorLoop input with ⟨buf, left⟩
  simp only
  generalize String.mk buf = lit
  intro e
  by_cases h0 : lit = "&&"
  · rw [if_pos h0] at e; subst e; simp at hx
  rw [if_neg h0] at e
  by_cases h1 : lit = "||"
  · rw [if_pos h1] at e; subst e; simp at hx
  rw [if_neg h1] at e
  by_cases h2 : lit = "="
  · rw [if_pos h2] at e; subst e; simp at hx
  rw [if_neg h2] at e
  by_cases h3 : lit = "<="
  · rw [if_pos h3] at e; subst e; simp at hx
  rw [if_neg h3] at e
  by_cases h4 : lit = ">="
  · rw [if_pos h4] at e; subst e; simp at hx
  rw [if_neg h4] at e
  by_cases h5 : lit = "<"
  · rw [if_pos h5] at e; subst e; simp at hx
  rw [if_neg h5] at e
  by_cases h6 : lit = ">"
  · rw [if_pos h6] at e; subst e; simp at hx
  rw [if_neg h6] at e
  by_cases h7 : lit = "!"
  · rw [if_pos h7] at e; subst e; simp at hx
  rw [if_neg h7] at e
  by_cases h8 : lit = "~"
  · rw [if_pos h8] at e; subst e; simp at hx
  rw [if_neg h8] at e
  by_cases h9 : lit = "^"
  · rw [if_pos h9] at e; subst e; simp at hx
  rw [if_neg h9] at e
  by_cases h10 : lit = "("
  · rw [if_pos h10] at e; subst e; simp at hx
  rw [if_neg h10] at e
  by_cases h11 : lit = ")"
  · rw [if_pos h11] at e; subst e; simp at hx
  rw [if_neg h11] at e
  by_cases h12 : lit = "-"
  · rw [if_pos h12] at e; subst e; simp at hx
  rw [if_neg h12] at e
  subst e; simp at hx

theorem operatorStart_ends_version (c : Char) (h : isOperatorStart c = true) (hc : c ≠ '-') :
    isVersionUnsafe c = true := by
  unfold isOperatorStart operatorsStarts at h
  simp only [List.contains_cons, List.contains_nil, Bool.or_false, Bool.or_eq_true,
    beq_iff_eq] at h
  rcases h with h | h | h | h | h | h | h | h | h | h | h <;>
    first
    | exact absurd h hc
    | (subst h; decide)

/-- One call of `ScanOne` inside the text `pre` that stands before an operator
run: it reads a token that ends inside `pre` or exactly at the run. -/
theorem ScanOne_within (e0 : Char) (pre : List Char) (c : Char) (R : List Char)
    (hc : isOperatorStart c = true) (hP : ∀ d ∈ e0 :: pre, d ≠ eof)
    (hb : ∀ ys e, e0 :: pre = ys ++ [e] →
      isOperatorStart e = false ∧ (c = '-' → isWhitespace e = true)) :
    ∃ tok lit V Q, e0 :: pre = V ++ Q ∧
      ScanOne (e0 :: pre ++ c :: R) = ((tok, lit), Q ++ c :: R) ∧ tok ≠ Token.EOF := by
  obtain ⟨ys, e, hlast⟩ : ∃ ys e, e0 :: pre = ys ++ [e] := by
    rcases List.eq_nil_or_concat (e0 :: pre) with h | ⟨L, b, h⟩
    · cases h
    · exact ⟨L, b, by rw [h, List.concat_eq_append]⟩
  obtain ⟨hbo, hbw⟩ := hb ys e hlast
  have hmem : e ∈ e0 :: pre := by rw [hlast]; simp
  have hce : c ≠ eof := isOperatorStart_ne_eof c hc
  have hcw : isWhitespace c = false := (isOperatorStart_plain c hc).1
  have hstopV : (∃ c1 R1, c :: R = c1 :: R1 ∧ c1 ≠ eof ∧
      (isWhitespace c1 || isVersionUnsafe c1) = true) ∨
      ∃ d ∈ e0 :: pre, (isWhitespace d || isVersionUnsafe d) = true := by
    by_cases h : c = '-'
    · exact Or.inr ⟨e, hmem, by rw [hbw h]; rfl⟩
    · exact Or.inl ⟨c, R, rfl, hce, by rw [operatorStart_ends_version c hc h]; simp⟩
  have he0 : e0 ≠ eof := hP e0 (by simp)
  by_cases h1 : isWhitespace e0 = true
  · obtain ⟨W, Q, e1, hs⟩ := scanWhitespaceLoop_within (c :: R)
      (Or.inr ⟨c, R, rfl, hce, hcw⟩) (e0 :: pre) hP
    refine ⟨Token.WS, String.mk W, W, Q, e1, ?_, by decide⟩
    rw [List.cons_append] at hs
    simp only [List.cons_append, ScanOne, h1, if_true, scanWhitespace, hs]
  have h1f := eq_false_of_ne_true h1
  by_cases h2 : isDigit e0 = true
  · obtain ⟨V, Q, e1, hs⟩ := scanVersionExpressionLoop_within (c :: R) (e0 :: pre) hP hstopV
    refine ⟨Token.VERSION_EXPRESSION, String.mk V, V, Q, e1, ?_, by decide⟩
    rw [List.cons_append] at hs
    simp only [List.cons_append, ScanOne, h1f, Bool.false_eq_true, if_false, h2, if_true,
      scanVersionExpression, hs]
  have h2f := eq_false_of_ne_true h2
  by_cases h3 : isOperatorStart e0 = true
  · obtain ⟨O, Q, e1, hs⟩ := scanOperatorLoop_within (c :: R) (e0 :: pre) hP ⟨e, hmem, hbo⟩
    have hne := scanOperator_token (e0 :: pre ++ c :: R) Token.EOF (by decide)
    refine ⟨(scanOperator (e0 :: pre ++ c :: R)).1.1, (scanOperator (e0 :: pre ++ c :: R)).1.2,
      O, Q, e1, ?_, hne⟩
    have hleft : (scanOperator (e0 :: pre ++ c :: R)).2 = Q ++ c :: R := by
      unfold scanOperator
      rw [hs]
    rw [← hleft]
    simp only [List.cons_append, ScanOne, h1f, Bool.false_eq_true, if_false, h2f, h3, if_true]
  have h3f := eq_false_of_ne_true h3
  by_cases h4 : (isLetter e0 || decide (e0 = '*')) = true
  · obtain ⟨V, Q, e1, hs⟩ := scanVersionExpressionLoop_within (c :: R) (e0 :: pre) hP hstopV
    refine ⟨Token.VERSION_EXPRESSION, String.mk V, V, Q, e1, ?_, by decide⟩
    rw [List.cons_append] at hs
    simp only [List.cons_append, ScanOne, h1f, Bool.false_eq_true, if_false, h2f, h3f, h4,
      if_true, scanVersionExpression, hs]
  · refine ⟨Token.ILLEGAL, String.singleton e0, [e0], pre, rfl, ?_, by decide⟩
    simp only [List.cons_append, ScanOne, h1f, Bool.false_eq_true, if_false, h2f, h3f, h4, he0]

/-- The loop of `ScanWhole` reaches an operator run that stands in the input
after a text without the rune `0`, when the rune before the run is not an
operator rune and, for a run that starts with `-`, is whitespace. -/
theorem ScanWholeLoop_reaches (c : Char) (R : List Char) (hc : isOperatorStart c = true) :
    ∀ (n : Nat) (pre : List Char), pre.length ≤ n → (∀ d ∈ pre, d ≠ eof) →
      (∀ ys e, pre = ys ++ [e] →
        isOperatorStart e = false ∧ (c = '-' → isWhitespace e = true)) →
      ∀ (T : List Token) (L : List String), ∃ T1 L1,
        ScanWholeLoop ((pre ++ c :: R).length + 1) (pre ++ c :: R) T L =
          ScanWholeLoop ((c :: R).length + 1) (c :: R) (T ++ T1) (L ++ L1) := by
  intro n
  induction n with
  | zero =>
    intro pre hlen _ _ T L
    have : pre = [] := List.length_eq_zero.1 (Nat.le_zero.1 hlen)
    subst this
    exact ⟨[], [], by simp⟩
  | succ n ih =>
    intro pre hlen hP hb T L
    cases pre with
    | nil => exact ⟨[], [], by simp⟩
    | cons e0 pre =>
      obtain ⟨tok, lit, V, Q, e1, hs, hne⟩ := ScanOne_within e0 pre c R hc hP hb
      have hprog := ScanOne_progress (e0 :: pre ++ c :: R) (by rw [hs]; exact hne)
      rw [hs] at hprog
      simp only [List.length_append, List.length_cons] at hprog hlen
      have hQ : Q.length ≤ n := by omega
      have hPQ : ∀ d ∈ Q, d ≠ eof := fun d hd => hP d (by rw [e1]; simp [hd])
      have hbQ : ∀ ys e, Q = ys ++ [e] →
          isOperatorStart e = false ∧ (c = '-' → isWhitespace e = true) := by
        intro ys e hQe
        exact hb (V ++ ys) e (by rw [e1, hQe, List.append_assoc])
      by_cases hw : tok = Token.WS
      · subst hw
        obtain ⟨T1, L1, h⟩ := ih Q hQ hPQ hbQ T L
        refine ⟨T1, L1, ?_⟩
        rw [ScanWholeLoop_space _ _ _ _ _ hs, h]
      · obtain ⟨T1, L1, h⟩ := ih Q hQ hPQ hbQ (T ++ [tok]) (L ++ [lit])
        refine ⟨tok :: T1, lit :: L1, ?_⟩
        rw [ScanWholeLoop_token _ _ _ _ _ _ hs hne hw, h]
        simp

/-- What the loop of `scanOperator` leaves of the input after a maximal run
without a parenthesis: the text after the run, less a rune `0` at its start. -/
theorem scanOperatorLoop_left (rest : List Char)
    (hrest : ∀ d r, rest = d :: r → isOperatorStart d = false) :
    ∀ O : List Char, (∀ d ∈ O, isOperatorStart d = true ∧ d ≠ '(' ∧ d ≠ ')') →
      (scanOperatorLoop (O ++ rest)).2 = rest ∨
        ∃ r, rest = eof :: r ∧ (scanOperatorLoop (O ++ rest)).2 = r := by
  intro O
  induction O with
  | nil =>
    intro _
    cases rest with
    | nil => exact Or.inl rfl
    | cons d r =>
      have h := hrest d r rfl
      by_cases hd : d = eof
      · subst hd
        exact Or.inr ⟨r, rfl, by simp [scanOperatorLoop]⟩
      · exact Or.inl (by simp [scanOperatorLoop, hd, h])
  | cons v vs ih =>
    intro hO
    obtain ⟨h1, h2, h3⟩ := hO v (by simp)
    have hv := isOperatorStart_ne_eof v h1
    have e : (scanOperatorLoop (v :: vs ++ rest)).2 = (scanOperatorLoop (vs ++ rest)).2 := by
      simp only [List.cons_append, scanOperatorLoop, hv, if_false, h1, Bool.not_true,
        Bool.false_eq_true, h2, h3, or_self, List.append_eq]
    rw [e]
    exact ih (fun d hd => hO d (by simp [hd]))

/-- Claim C35 (amended): the tokens that `LexConstraint` returns contain no `NOT`.
A maximal run of operator runes in the input, with no rune `0` before it and,
when it starts with `-`, with whitespace or nothing directly before it, is
reached by the scanning loop of `LexConstraint`, which reads a token from it:
the loop on the whole input is the loop on what `ScanOne` leaves of the run and
the text after it, started from the tokens of the text before the run followed
by that token.  The token is `AND`, `OR`, `EQ`, `LE`, `GE`, `LT`, `GT`, `TILDE`,
`CARET`, `HYPHEN` exactly when the run is `&&`, `||`, `=`, `<=`, `>=`, `<`, `>`,
`~`, `^`, `-`; when the run has no parenthesis it is read as one token, whose
literal is the whole run, the input that is left is the text after the run
(less a rune `0` at its start), and the token is `ILLEGAL` exactly when the run
is none of the ten. -/
theorem C35_operator_tokens :
    (∀ (s : String) (tokens : List Token) (literals : List String),
      LexConstraint s = .ok (tokens, literals) → Token.NOT ∉ tokens) ∧
    (∀ (pre : List Char) (c : Char) (cs rest : List Char),
      (∀ d ∈ pre, d ≠ eof) →
      (∀ ys e, pre = ys ++ [e] →
        isOperatorStart e = false ∧ (c = '-' → isWhitespace e = true)) →
      (∀ d ∈ c :: cs, isOperatorStart d = true) →
      (∀ d r, rest = d :: r → isOperatorStart d = false) →
      ∃ (T : List Token) (L : List String) (tok : Token) (lit : String) (left : List Char),
        ScanOne (c :: cs ++ rest) = ((tok, lit), left) ∧
        ScanWholeLoop ((pre ++ (c :: cs ++ rest)).length + 1) (pre ++ (c :: cs ++ rest))
            [Token.SOF] [""] =
          ScanWholeLoop (left.length + 1) left (Token.SOF :: T ++ [tok]) ("" :: L ++ [lit]) ∧
        LexConstraint (String.mk (pre ++ (c :: cs ++ rest))) =
          (augmentMissingEqualityOp
              (ScanWholeLoop (left.length + 1) left (Token.SOF :: T ++ [tok])
                ("" :: L ++ [lit])).1
              (ScanWholeLoop (left.length + 1) left (Token.SOF :: T ++ [tok])
                ("" :: L ++ [lit])).2 >>=
            fun r => removeSuperfluousAndOp r.1 r.2) ∧
        (tok = Token.AND ↔ String.mk (c :: cs) = "&&") ∧
        (tok = Token.OR ↔ String.mk (c :: cs) = "||") ∧
        (tok = Token.EQ ↔ String.mk (c :: cs) = "=") ∧
        (tok = Token.LE ↔ String.mk (c :: cs) = "<=") ∧
        (tok = Token.GE ↔ String.mk (c :: cs) = ">=") ∧
        (tok = Token.LT ↔ String.mk (c :: cs) = "<") ∧
        (tok = Token.GT ↔ String.mk (c :: cs) = ">") ∧
        (tok = Token.TILDE ↔ String.mk (c :: cs) = "~") ∧
        (tok = Token.CARET ↔ String.mk (c :: cs) = "^") ∧
        (tok = Token.HYPHEN ↔ String.mk (c :: cs) = "-") ∧
        ((∀ d ∈ c :: cs, d ≠ '(' ∧ d ≠ ')') →
          lit = String.mk (c :: cs) ∧
          (left = rest ∨ ∃ r, rest = eof :: r ∧ left = r) ∧
          (tok = Token.ILLEGAL ↔
            String.mk (c :: cs) ∉ ["&&", "||", "=", "<=", ">=", "<", ">", "~", "^", "-"]))) := by
  refine ⟨LexConstraint_no_NOT, ?_⟩
  intro pre c cs rest hP hb hO hrest
  have hc := hO c (by simp)
  obtain ⟨tok, lit, e, hS, t0, t1, t2, t3, t4, t5, t6, t7, t8, t9, tI⟩ :=
    ScanOne_operator_run c cs rest hO hrest
  obtain ⟨T1, L1, hreach⟩ := ScanWholeLoop_reaches c (cs ++ rest) hc pre.length pre
    (Nat.le_refl _) hP hb [Token.SOF] [""]
  have hne1 : tok ≠ Token.EOF := by
    have := scanOperator_token (c :: cs ++ rest) Token.EOF (by decide)
    rw [e] at this
    exact this
  have hne2 : tok ≠ Token.WS := by
    have := scanOperator_token (c :: cs ++ rest) Token.WS (by decide)
    rw [e] at this
    exact this
  have hOne : ScanOne (c :: cs ++ rest) = ((tok, lit), (scanOperator (c :: cs ++ rest)).2) := by
    rw [hS, ← e]
  have hloop : ScanWholeLoop ((pre ++ (c :: cs ++ rest)).length + 1) (pre ++ (c :: cs ++ rest))
      [Token.SOF] [""] =
      ScanWholeLoop ((scanOperator (c :: cs ++ rest)).2.length + 1)
        (scanOperator (c :: cs ++ rest)).2 (Token.SOF :: T1 ++ [tok]) ("" :: L1 ++ [lit]) := by
    have h := ScanWholeLoop_token _ _ _ _ ([Token.SOF] ++ T1) ([""] ++ L1) hOne hne1 hne2
    exact hreach.trans h
  refine ⟨T1, L1, tok, lit, (scanOperator (c :: cs ++ rest)).2, hOne, hloop, ?_,
    t0, t1, t2, t3, t4, t5, t6, t7, t8, t9, ?_⟩
  · unfold LexConstraint
    rw [ScanWhole_eq]
    simp only
    rw [hloop]
  · intro hnp
    obtain ⟨l1, l2⟩ := tI hnp
    refine ⟨l1, ?_, l2⟩
    have := scanOperatorLoop_left rest hrest (c :: cs)
      (fun d hd => ⟨hO d hd, (hnp d hd).1, (hnp d hd).2⟩)
    unfold scanOperator
    exact this

/-- Witness for C35 (amended): `>=1.0.0 || !2` is lexed without a `NOT`; in
`1.0.0 =>2`, `1.0.0 !2` and `1.0.0 ~>2` the runs `=>`, `!`, `~>` are lexed to
`ILLEGAL`; and the run `=>` of `1.0.0 =>2` has the properties of the theorem. -/
theorem C35_operator_tokens_witness :
    (LexConstraint ">=1.0.0 || !2" =
        .ok ([Token.SOF, Token.GE, Token.VERSION_EXPRESSION, Token.OR, Token.ILLEGAL,
            Token.VERSION_EXPRESSION, Token.EOF], ["", ">=", "1.0.0", "||", "!", "2", ""]) ∧
      Token.NOT ∉ [Token.SOF, Token.GE, Token.VERSION_EXPRESSION, Token.OR, Token.ILLEGAL,
        Token.VERSION_EXPRESSION, Token.EOF]) ∧
    LexConstraint "1.0.0 =>2" =
      .ok ([Token.SOF, Token.VERSION_EXPRESSION, Token.ILLEGAL, Token.VERSION_EXPRESSION,
        Token.EOF], ["", "1.0.0", "=>", "2", ""]) ∧
    LexConstraint "1.0.0 !2" =
      .ok ([Token.SOF, Token.VERSION_EXPRESSION, Token.ILLEGAL, Token.VERSION_EXPRESSION,
        Token.EOF], ["", "1.0.0", "!", "2", ""]) ∧
    LexConstraint "1.0.0 ~>2" =
      .ok ([Token.SOF, Token.VERSION_EXPRESSION, Token.ILLEGAL, Token.VERSION_EXPRESSION,
        Token.EOF], ["", "1.0.0", "~>", "2", ""]) ∧
    (∃ (T : List Token) (L : List String) (tok : Token) (lit : String) (left : List Char),
      ScanOne (['=', '>'] ++ ['2']) = ((tok, lit), left) ∧
      ScanWholeLoop ((['1', '.', '0', '.', '0', ' '] ++ (['=', '>'] ++ ['2'])).length + 1)
          (['1', '.', '0', '.', '0', ' '] ++ (['=', '>'] ++ ['2'])) [Token.SOF] [""] =
        ScanWholeLoop (left.length + 1) left (Token.SOF :: T ++ [tok]) ("" :: L ++ [lit]) ∧
      lit = String.mk ['=', '>'] ∧
      (left = ['2'] ∨ ∃ r, ['2'] = eof :: r ∧ left = r) ∧
      (tok = Token.ILLEGAL ↔
        String.mk ['=', '>'] ∉ ["&&", "||", "=", "<=", ">=", "<", ">", "~", "^", "-"])) :=
  ⟨⟨by decide, C35_operator_tokens.1 ">=1.0.0 || !2"
      [Token.SOF, Token.GE, Token.VERSION_EXPRESSION, Token.OR, Token.ILLEGAL,
        Token.VERSION_EXPRESSION, Token.EOF] ["", ">=", "1.0.0", "||", "!", "2", ""] (by decide)⟩,
    by decide, by decide, by decide,
    (C35_operator_tokens.2 ['1', '.', '0', '.', '0', ' '] '=' ['>'] ['2'] (by decide)
      (by
        intro ys e h
        have h1 : some ' ' = some e :=
          (rfl : some ' ' = ['1', '.', '0', '.', '0', ' '].getLast?).trans
            ((congrArg List.getLast? h).trans (List.getLast?_concat ys))
        rw [← Option.some.inj h1]
        exact ⟨by decide, fun _ => by decide⟩)
      (by decide)
      (by
        intro d r e
        have e1 : d = '2' := (List.cons.inj e).1.symm
        rw [e1]
        decide)).imp
      fun _ h => h.imp fun _ h => h.imp fun _ h => h.imp fun _ h => h.imp fun _ g =>
        ⟨g.1, g.2.1, (g.2.2.2.2.2.2.2.2.2.2.2.2.2 (by decide)).1,
          (g.2.2.2.2.2.2.2.2.2.2.2.2.2 (by decide)).2.1,
          (g.2.2.2.2.2.2.2.2.2.2.2.2.2 (by decide)).2.2⟩⟩

/-- Claim C35 as stated fails in its second part.  The rune `-` is an operator
rune but not one that ends a version expression, so a run that starts with `-`
directly after a version rune is not read as a token of its own: in
`1.2.3-2.3.4` the maximal run `-` gives no `HYPHEN` (the whole text is one
version expression), and in `1.0.0-&&2` the maximal run `-&&` is not `&&`, yet
an `AND` is read from it.  With whitespace before it the run `-` is a `HYPHEN`.
A run is cut after a parenthesis: in `1.0.0 (&&2` the run `(&&` gives an
`OPEN_PARENTHESIS` and then an `AND`.  A rune `0` where a token starts ends the
scan, so the run `&&` after it is not read at all. -/
theorem C35_hyphen_run_after_version_rune :
    (isOperatorStart '-' = true ∧ isOperatorStart '&' = true ∧ isOperatorStart '(' = true ∧
      isOperatorStart '0' = false ∧ isOperatorStart '2' = false ∧
      isOperatorStart '3' = false ∧ isOperatorStart ' ' = false ∧
      isVersionUnsafe '-' = false) ∧
    LexConstraint "1.2.3-2.3.4" =
      .ok ([Token.SOF, Token.EQ, Token.VERSION_EXPRESSION, Token.EOF],
        ["", "=", "1.2.3-2.3.4", ""]) ∧
    LexConstraint "1.0.0-&&2" =
      .ok ([Token.SOF, Token.EQ, Token.VERSION_EXPRESSION, Token.AND, Token.VERSION_EXPRESSION,
        Token.EOF], ["", "=", "1.0.0-", "&&", "2", ""]) ∧
    LexConstraint "1.2.3 - 2.3.4" =
      .ok ([Token.SOF, Token.VERSION_EXPRESSION, Token.HYPHEN, Token.VERSION_EXPRESSION,
        Token.EOF], ["", "1.2.3", "-", "2.3.4", ""]) ∧
    LexConstraint "1.0.0 (&&2" =
      .ok ([Token.SOF, Token.EQ, Token.VERSION_EXPRESSION, Token.OPEN_PARENTHESIS, Token.AND,
        Token.VERSION_EXPRESSION, Token.EOF], ["", "=", "1.0.0", "(", "&&", "2", ""]) ∧
    LexConstraint (String.mk [eof, '&', '&']) = .ok ([Token.SOF, Token.EOF], ["", ""]) := by
  refine ⟨by decide, ?_, ?_, ?_, ?_, ?_⟩ <;> decide

/-! ## The operators of a parsed range, for comparators written in order -/

theorem ScanOne_ne_SOF (input : List Char) : (ScanOne input).1.1 ≠ Token.SOF := by
  cases input with
  | nil => simp [ScanOne]
  | cons ch rest =>
    simp only [ScanOne]
    split_ifs
    · simp [scanWhitespace]
    · simp [scanVersionExpression]
    · exact scanOperator_token _ Token.SOF (by decide)
    · simp [scanVersionExpression]
    · simp
    · simp

theorem ScanWholeLoop_count_SOF (fuel : Nat) :
    ∀ (input : List Char) (tokens : List Token) (literals : List String),
      (ScanWholeLoop fuel input tokens literals).1.count Token.SOF =
        tokens.count Token.SOF := by
  induction fuel with
  | zero => intro input tokens literals; rfl
  | succ fuel ih =>
    intro input tokens literals
    have hn := ScanOne_ne_SOF input
    rcases hS : ScanOne input with ⟨⟨token, literal⟩, left⟩
    rw [hS] at hn
    simp only at hn
    have h2 : (tokens ++ [token]).count Token.SOF = tokens.count Token.SOF := by
      rw [List.count_append, List.count_singleton, if_neg (fun e => hn (by simpa using e))]
      rfl
    simp only [ScanWholeLoop, hS]
    split_ifs <;> first | exact h2 | (rw [ih]; exact h2) | rfl | exact ih _ _ _

/-- The token list of `LexConstraint` starts with `SOF` and has no other `SOF`. -/
theorem LexConstraint_SOF (s : String) (tokens : List Token) (literals : List String)
    (h : LexConstraint s = .ok (tokens, literals)) :
    ∃ tail, tokens = Token.SOF :: tail ∧ Token.SOF ∉ tail := by
  unfold LexConstraint at h
  rw [ScanWhole_eq] at h
  obtain ⟨mid, h1, -, -⟩ :=
    ScanWholeLoop_shape (s.data.length + 1) s.data [Token.SOF] [""] (by omega)
  have hlen := ScanWholeLoop_lengths (s.data.length + 1) s.data [Token.SOF] [""] rfl
  have hcount := ScanWholeLoop_count_SOF (s.data.length + 1) s.data [Token.SOF] [""]
  revert h
  generalize ScanWholeLoop (s.data.length + 1) s.data [Token.SOF] [""] = p at h1 hlen hcount
  obtain ⟨T, L⟩ := p
  simp only at h1 hlen hcount
  intro h
  obtain ⟨a, hrem, haug⟩ := ok_of_bind h
  obtain ⟨ha1, ha2, -⟩ := (augmentMissingEqualityOp_frame T L hlen).elim a haug
  obtain ⟨-, hr2, -⟩ := (removeSuperfluousAndOp_frame a.1 a.2 ha1).elim _ hrem
  have hca := (augmentMissingEqualityOp_count T L Token.SOF (by decide)).elim a haug
  have hcr := (removeSuperfluousAndOp_count a.1 a.2 Token.SOF (by decide)).elim _ hrem
  have hT0 : T.head? = some Token.SOF := by rw [h1]; simp
  have hhead := hr2 (ha2 hT0)
  simp only at hcr hhead
  have hc1 : tokens.count Token.SOF = 1 := by
    rw [hcr, hca, hcount]
    rfl
  cases tokens with
  | nil => cases hhead
  | cons t tail =>
    simp only [List.head?_cons, Option.some.injEq] at hhead
    subst hhead
    refine ⟨tail, rfl, ?_⟩
    rw [List.count_cons_self] at hc1
    exact List.count_eq_zero.1 (by omega)

/-- The operators of a range that `parseSubConstraint` returns, with the shape of
the token list when they are copied from it. -/
theorem parseSubConstraint_shape (tokens : List Token) (lits : List String) :
    OkSat (fun r =>
        ((r.StartOp = Token.GE ∨ r.StartOp = Token.EQ) ∧
          (r.EndOp = Token.UNSET ∨ r.EndOp = Token.LT ∨ r.EndOp = Token.LE)) ∨
        (∃ t0, tokens = [t0, Token.VERSION_EXPRESSION] ∧
          (t0 = Token.LT ∨ t0 = Token.LE ∨ t0 = Token.GT ∨ t0 = Token.GE ∨
            t0 = Token.HYPHEN) ∧ r.StartOp = t0 ∧ r.EndOp = Token.UNSET) ∨
        (∃ t0 t2, tokens = [t0, Token.VERSION_EXPRESSION, t2, Token.VERSION_EXPRESSION] ∧
          IsRangeToken t0 = true ∧ IsRangeToken t2 = true ∧ r.StartOp = t0 ∧
          (r.EndOp = Token.UNSET ∨ r.EndOp = t2)))
      (parseSubConstraint tokens lits) := by
  unfold parseSubConstraint
  refine OkSat.ite (fun _ => ?_) (fun hH => OkSat.ite (fun _ => ?_) (fun hC =>
    OkSat.ite (fun _ => ?_) (fun hT => OkSat.ite (fun hR => ?_) (fun _ => ?_))))
  · exact (parseHyphen_ops lits).mono fun r hr => by
      rcases hr with ⟨h1, h2 | h2⟩ <;> simp [h1, h2]
  · exact (parseCaretRange_ops lits).mono fun r hr => by
      rcases hr with ⟨h1, h2 | h2⟩ <;> simp [h1, h2]
  · exact (parseTildeRange_ops lits).mono fun r hr => by
      rcases hr with ⟨h1, h2 | h2⟩ <;> simp [h1, h2]
  · refine (parseRange_ops tokens lits).mono fun r hr => ?_
    obtain ⟨hs, he⟩ := hr
    unfold isRange at hR
    split at hR
    next t0 t1 =>
      simp only [Bool.and_eq_true, decide_eq_true_eq] at hR
      obtain ⟨hR0, hR1⟩ := hR
      subst hR1
      simp only [List.get?_cons_zero, Option.some.injEq] at hs
      subst hs
      refine Or.inr (Or.inl ⟨r.StartOp, rfl, ?_, rfl, ?_⟩)
      · have hc : r.StartOp ≠ Token.CARET := by
          intro e
          rw [e] at hC
          exact hC (by decide)
        have ht : r.StartOp ≠ Token.TILDE := by
          intro e
          rw [e] at hT
          exact hT (by decide)
        revert hR0 hc ht
        cases r.StartOp <;> simp [IsRangeToken]
      · rcases he with he | he
        · exact he
        · simp at he
    next t0 t1 t2 t3 =>
      simp only [Bool.and_eq_true, decide_eq_true_eq] at hR
      obtain ⟨⟨⟨hR0, hR1⟩, hR2⟩, hR3⟩ := hR
      subst hR1
      subst hR3
      simp only [List.get?_cons_zero, Option.some.injEq] at hs
      subst hs
      refine Or.inr (Or.inr ⟨r.StartOp, t2, rfl, hR0, hR2, rfl, ?_⟩)
      rcases he with he | he
      · exact Or.inl he
      · simp only [List.get?_cons_succ, List.get?_cons_zero, Option.some.injEq] at he
        exact Or.inr he.symm
    next => cases hR
  · refine OkSat.bind_of (isStaticRange_tokens tokens lits) fun b hb => ?_
    refine OkSat.ite (fun hb1 => ?_) (fun _ => ?_)
    · refine (parseStaticRange_ops tokens lits).mono fun r hr => ?_
      have := hb hb1
      rw [hr.1] at this
      simp only [Option.some.injEq] at this
      exact Or.inl ⟨Or.inr this, Or.inl hr.2⟩
    · repeat' first
        | exact (parseXRange_ops lits).mono fun r hr => by
            rcases hr with ⟨h1, h2 | h2⟩ <;> simp [h1, h2]
        | exact OkSat.throw _
        | (refine OkSat.bind fun _ => ?_)
        | (refine OkSat.ite (fun _ => ?_) (fun _ => ?_))

/-- The loop of `ParseConstraint` on a token list in which two range operators
around one version are a comparator followed by `<` or `<=`: every range has
its `StartOp` among `GE`, `GT`, `EQ`, `LT`, `LE` and its `EndOp` absent or among
`LT`, `LE`. -/
theorem parseConstraintFrom_ordered (tokens : List Token) (literals : List String)
    (hw : ∀ t t1, [t, Token.VERSION_EXPRESSION, t1] <:+: tokens → IsRangeToken t = true →
      IsRangeToken t1 = true →
      (t = Token.GT ∨ t = Token.GE ∨ t = Token.LT ∨ t = Token.LE) ∧
        (t1 = Token.LT ∨ t1 = Token.LE))
    (ts : List Token) :
    ∀ (idx : Nat) (c : Constraint) (cur : List Token) (curL : List String) (prev : Token)
      (pre : List Token),
      tokens = pre ++ cur ++ ts → Token.SOF ∉ ts →
      List.Chain (fun p t => t = Token.HYPHEN → p = Token.VERSION_EXPRESSION) prev ts →
      (cur = [] → prev ≠ Token.VERSION_EXPRESSION) →
      cur.head? ≠ some Token.HYPHEN →
      (∀ r ∈ c.Ranges,
        r.StartOp ∈ [Token.GE, Token.GT, Token.EQ, Token.LT, Token.LE] ∧
        r.EndOp ∈ [Token.UNSET, Token.LT, Token.LE]) →
      OkSat (fun c1 => ∀ r ∈ c1.Ranges,
        r.StartOp ∈ [Token.GE, Token.GT, Token.EQ, Token.LT, Token.LE] ∧
        r.EndOp ∈ [Token.UNSET, Token.LT, Token.LE])
        (parseConstraintFrom literals ts idx c cur curL) := by
  induction ts with
  | nil =>
    intro idx c cur curL prev pre _ _ _ _ _ hc
    unfold parseConstraintFrom
    exact OkSat.ok hc
  | cons t ts ih =>
    intro idx c cur curL prev pre htok hsof hch hprev hhead hc
    have hsof2 : Token.SOF ∉ ts := fun h => hsof (by simp [h])
    have hsub : ∀ r, parseSubConstraint cur curL = .ok r →
        r.StartOp ∈ [Token.GE, Token.GT, Token.EQ, Token.LT, Token.LE] ∧
        r.EndOp ∈ [Token.UNSET, Token.LT, Token.LE] := by
      intro r hr
      rcases (parseSubConstraint_shape cur curL).elim r hr with
        ⟨h1, h2⟩ | ⟨t0, hcur, h0, hs, he⟩ | ⟨t0, t2, hcur, h0, h2, hs, he⟩
      · constructor
        · rcases h1 with h1 | h1 <;> simp [h1]
        · rcases h2 with h2 | h2 | h2 <;> simp [h2]
      · have hne : t0 ≠ Token.HYPHEN := fun e => hhead (by rw [hcur, e]; rfl)
        constructor
        · rcases h0 with h0 | h0 | h0 | h0 | h0
          · simp [hs, h0]
          · simp [hs, h0]
          · simp [hs, h0]
          · simp [hs, h0]
          · exact absurd h0 hne
        · simp [he]
      · have hin : [t0, Token.VERSION_EXPRESSION, t2] <:+: tokens :=
          ⟨pre, Token.VERSION_EXPRESSION :: t :: ts, by rw [htok, hcur]; simp⟩
        obtain ⟨w1, w2⟩ := hw t0 t2 hin h0 h2
        constructor
        · rcases w1 with w1 | w1 | w1 | w1 <;> simp [hs, w1]
        · rcases he with he | he
          · simp [he]
          · rcases w2 with w2 | w2 <;> simp [he, w2]
    have htail := (List.chain_cons.1 hch).2
    have hrel := (List.chain_cons.1 hch).1
    rw [parseConstraintFrom_cons]
    cases index literals idx with
    | error e => exact OkSat.error e
    | ok literal =>
      simp only
      by_cases h1 : t = Token.OR ∨ t = Token.AND
      · rw [if_pos h1]
        cases hp : parseSubConstraint cur curL with
        | error e => exact OkSat.error e
        | ok r =>
          refine ih _ _ _ _ t (pre ++ cur ++ [t]) (by rw [htok]; simp) hsof2 htail
            (fun _ => ?_) (by simp) ?_
          · rcases h1 with h1 | h1 <;> subst h1 <;> decide
          · intro r1 hr1
            simp only [List.mem_append, List.mem_singleton] at hr1
            rcases hr1 with hr1 | hr1
            · exact hc r1 hr1
            · subst hr1; exact hsub _ hp
      · rw [if_neg h1]
        by_cases h2 : t = Token.EOF
        · rw [if_pos h2]
          cases hp : parseSubConstraint cur curL with
          | error e => exact OkSat.error e
          | ok r =>
            refine ih _ _ _ _ t (pre ++ cur ++ [t]) (by rw [htok]; simp) hsof2 htail
              (fun _ => ?_) (by simp) ?_
            · subst h2; decide
            · intro r1 hr1
              simp only [List.mem_append, List.mem_singleton] at hr1
              rcases hr1 with hr1 | hr1
              · exact hc r1 hr1
              · subst hr1; exact hsub _ hp
        · rw [if_neg h2]
          have h3 : t ≠ Token.SOF := fun e => hsof (by simp [e])
          rw [if_pos h3]
          refine ih _ _ _ _ t pre (by rw [htok]; simp) hsof2 htail
            (fun h => absurd h (by simp)) ?_ hc
          cases cur with
          | nil =>
            intro h
            simp only [List.nil_append, List.head?_cons, Option.some.injEq] at h
            exact hprev rfl (hrel h)
          | cons x xs => simpa using hhead

/-- Claim C19 (amended): on every input on which `ParseConstraint` succeeds and in
whose token list two range operators around one version are always a comparator
(`>`, `>=`, `<`, `<=`) followed by `<` or `<=`, every range has its `StartOp`
among `GE`, `GT`, `EQ`, `LT`, `LE` and its `EndOp` either absent (the zero
value) or one of `LT`, `LE`. -/
theorem C19_range_operators (s : String) (c : Constraint) (tokens : List Token)
    (literals : List String) (h : ParseConstraint s = .ok c)
    (hlex : LexConstraint s = .ok (tokens, literals))
    (hw : ∀ t t1, [t, Token.VERSION_EXPRESSION, t1] <:+: tokens → IsRangeToken t = true →
      IsRangeToken t1 = true →
      (t = Token.GT ∨ t = Token.GE ∨ t = Token.LT ∨ t = Token.LE) ∧
        (t1 = Token.LT ∨ t1 = Token.LE)) :
    ∀ r ∈ c.Ranges,
      r.StartOp ∈ [Token.GE, Token.GT, Token.EQ, Token.LT, Token.LE] ∧
      r.EndOp ∈ [Token.UNSET, Token.LT, Token.LE] := by
  obtain ⟨tokens1, literals1, hlex1, hval, hparse⟩ := ParseConstraint_ok s c h
  rw [hlex] at hlex1
  injection hlex1 with e
  injection e with e1 e2
  subst e1
  subst e2
  obtain ⟨tail, htl, hsof⟩ := LexConstraint_SOF s tokens literals hlex
  have hch := validateFrom_chain tokens literals tokens 0 [] [] Token.SOF hval
  subst htl
  have htail := (List.chain_cons.1 hch).2
  rw [parseConstraintFrom_cons] at hparse
  cases hidx : index literals ((0 : Nat) : Int) with
  | error e => rw [hidx] at hparse; cases hparse
  | ok literal =>
    rw [hidx] at hparse
    simp only [if_neg (by decide : ¬ (Token.SOF = Token.OR ∨ Token.SOF = Token.AND)),
      if_neg (by decide : ¬ Token.SOF = Token.EOF),
      if_neg (by decide : ¬ Token.SOF ≠ Token.SOF)] at hparse
    exact (parseConstraintFrom_ordered (Token.SOF :: tail) literals hw tail _ _ [] []
      Token.SOF [Token.SOF] rfl hsof htail (fun _ => by decide) (by simp)
      (by simp)).elim c hparse

/-- Witness for C19 (amended) on `>=1.0.0 <2.0.0 || <=5.0.0`: a range with both
bounds and a range whose `StartOp` is `LE`. -/
theorem C19_range_operators_witness :
    ParseConstraint ">=1.0.0 <2.0.0 || <=5.0.0" =
        .ok { Original := ">=1.0.0 <2.0.0 || <=5.0.0",
              Ranges := [{ StartOp := Token.GE, StartVersion := Semver.ofParts 1 0 0 "",
                           EndOp := Token.LT, EndVersion := Semver.ofParts 2 0 0 "" },
                         { StartOp := Token.LE, StartVersion := Semver.ofParts 5 0 0 "",
                           EndOp := Token.UNSET, EndVersion := Semver.zero }],
              Join := [JoinOp.DISJUNCTION] } ∧
      LexConstraint ">=1.0.0 <2.0.0 || <=5.0.0" =
        .ok ([Token.SOF, Token.GE, Token.VERSION_EXPRESSION, Token.LT,
            Token.VERSION_EXPRESSION, Token.OR, Token.LE, Token.VERSION_EXPRESSION, Token.EOF],
          ["", ">=", "1.0.0", "<", "2.0.0", "||", "<=", "5.0.0", ""]) ∧
      ∀ r ∈ [({ StartOp := Token.GE, StartVersion := Semver.ofParts 1 0 0 "",
                EndOp := Token.LT, EndVersion := Semver.ofParts 2 0 0 "" } : Range),
             { StartOp := Token.LE, StartVersion := Semver.ofParts 5 0 0 "",
               EndOp := Token.UNSET, EndVersion := Semver.zero }],
        r.StartOp ∈ [Token.GE, Token.GT, Token.EQ, Token.LT, Token.LE] ∧
        r.EndOp ∈ [Token.UNSET, Token.LT, Token.LE] :=
  ⟨by decide, by decide,
    C19_range_operators ">=1.0.0 <2.0.0 || <=5.0.0"
      { Original := ">=1.0.0 <2.0.0 || <=5.0.0",
        Ranges := [{ StartOp := Token.GE, StartVersion := Semver.ofParts 1 0 0 "",
                     EndOp := Token.LT, EndVersion := Semver.ofParts 2 0 0 "" },
                   { StartOp := Token.LE, StartVersion := Semver.ofParts 5 0 0 "",
                     EndOp := Token.UNSET, EndVersion := Semver.zero }],
        Join := [JoinOp.DISJUNCTION] }
      [Token.SOF, Token.GE, Token.VERSION_EXPRESSION, Token.LT, Token.VERSION_EXPRESSION,
        Token.OR, Token.LE, Token.VERSION_EXPRESSION, Token.EOF]
      ["", ">=", "1.0.0", "<", "2.0.0", "||", "<=", "5.0.0", ""] (by decide) (by decide)
      (by
        intro t t1 hin h1 h2
        simp only [List.infix_cons_iff, List.cons_prefix_cons, List.nil_prefix, and_true,
          reduceCtorEq, false_and, and_false, or_false, false_or, List.infix_nil,
          List.cons_ne_nil, List.prefix_nil] at hin
        rcases hin with ⟨rfl, -, rfl⟩ | ⟨rfl, -, rfl⟩ | ⟨rfl, -, rfl⟩
        · decide
        · exact absurd h2 (by decide)
        · exact absurd h2 (by decide))⟩

/-- Inputs that the condition on the token list leaves aside: two range
operators around one version that are not a comparator followed by `<` or `<=`.
`isRange` lets every range token stand at both places, and `parseRange` copies
the two tokens into the range; the hyphen after a comparator is rejected when it
stands later in the input. -/
theorem range_operators_out_of_order :
    (ParseConstraint "^1.0.0 <2.0.0").map
          (fun c => c.Ranges.map fun r => (r.StartOp, r.EndOp)) =
        .ok [(Token.CARET, Token.LT)] ∧
      (ParseConstraint "~1.0.0 <2.0.0").map
          (fun c => c.Ranges.map fun r => (r.StartOp, r.EndOp)) =
        .ok [(Token.TILDE, Token.LT)] ∧
      (ParseConstraint ">=1.0.0 >2.0.0").map
          (fun c => c.Ranges.map fun r => (r.StartOp, r.EndOp)) =
        .ok [(Token.GE, Token.GT)] ∧
      (ParseConstraint "<=1.0.0 >=2.0.0").map
          (fun c => c.Ranges.map fun r => (r.StartOp, r.EndOp)) =
        .ok [(Token.LE, Token.GE)] ∧
      (ParseConstraint ">=1.0.0 ~2.0.0").map
          (fun c => c.Ranges.map fun r => (r.StartOp, r.EndOp)) =
        .ok [(Token.GE, Token.TILDE)] ∧
      (ParseConstraint ">=1.0.0 ^2.0.0").map
          (fun c => c.Ranges.map fun r => (r.StartOp, r.EndOp)) =
        .ok [(Token.GE, Token.CARET)] ∧
      (ParseConstraint ">=1.0.0 - 2.0.0").map
          (fun c => c.Ranges.map fun r => (r.StartOp, r.EndOp)) =
        .ok [(Token.GE, Token.HYPHEN)] ∧
      ParseConstraint "1.x || >=1.0.0 - 2.0.0" = .error Error.invalidVersionConstraint := by
  refine ⟨?_, ?_, ?_, ?_, ?_, ?_, ?_, ?_⟩ <;> decide

end NodeSemver
